import Mathlib

/-! # proxylab: HTTP request parser, disk cache and connection handlers

A shallow embedding of `src/proxylab/http.c`, `src/proxylab/cache.c` and the
connection handlers of `src/proxylab/proxy.c`.

Conventions of the embedding.

* A byte buffer is a `List Char`.  The line buffers filled by `rio_readlineb`
  are raw bytes: `ParseHttpRequest` reads the C string they hold, the part
  before the first NUL byte (`cstr`).  Everywhere else a `List Char` that
  stands for a `char` array field or a `const char *` argument is the C string
  itself.
* `malloc` and `realloc` are assumed to succeed (the `ERROR_MEM` paths are not
  taken).
* `MAXBUF` comes from `csapp.h`, which is not part of the sources at hand; it
  is a parameter (`maxbuf`) of every function that uses it.  The value in the
  CS:APP header is 8192.
-/

set_option autoImplicit false

namespace ProxyLab

/-! ## http.h -/

abbrev SUCCESS : Nat := 0
abbrev ERROR_MEM : Nat := 1
abbrev ERROR_LINE_TOO_LONG : Nat := 2
abbrev ERROR_LINE_ZERO : Nat := 3
abbrev ERROR_READLINE_TOO_MUCH : Nat := 4
abbrev ERROR_REQUEST_LINE_INCOMPLETE : Nat := 5
abbrev ERROR_METHOD_TOO_LONG : Nat := 6
abbrev ERROR_URL_TOO_LONG : Nat := 7
abbrev ERROR_VERSION_TOO_LONG : Nat := 8
abbrev ERROR_REQUEST_HEADER_INCOMPLETE : Nat := 9
abbrev ERROR_HOST_TOO_LONG : Nat := 10

abbrev METHOD_LEN : Nat := 32
abbrev URL_LEN : Nat := 2560
abbrev VER_LEN : Nat := 32
abbrev HOST_LEN : Nat := 256

abbrev INIT_PARSE_LINES : Nat := 8
abbrev MAX_PARSE_LINES : Nat := 32

/-- The C string held by a buffer: the bytes before the first NUL. -/
def cstr (buf : List Char) : List Char :=
  buf.takeWhile (fun c => c ≠ '\x00')

/-- One entry of `origin_lines` (`struct ReadLine`). -/
structure ReadLine where
  line : List Char
  line_finish : Bool
  deriving DecidableEq, Repr

/-- The anonymous `parse_state` enumeration of `struct HttpRequest`. -/
inductive ParseState where
  | PARSE_LINE
  | PARSE_HEADERS
  | PARSE_DATA
  deriving DecidableEq, Repr

/-- The `struct HttpRequest` of http.h.  `origin_lines` holds the `cur_line`
entries in use of the C array, whose capacity is `line_num`.  `proxy_url` is a
pointer into `url`: it is modelled by its offset (`none` is `NULL`). -/
structure HttpRequest where
  method : List Char
  url : List Char
  version : List Char
  proxy_url : Option Nat
  host : List Char
  origin_lines : List ReadLine
  line_num : Nat
  parse_state : ParseState
  deriving DecidableEq, Repr

/-- The field `cur_line`: the number of entries of `origin_lines` in use. -/
def HttpRequest.cur_line (r : HttpRequest) : Nat := r.origin_lines.length

/-- The string `proxy_url` points to: the tail of `url` from its offset. -/
def HttpRequest.proxyPath (r : HttpRequest) : Option (List Char) :=
  r.proxy_url.map (fun off => r.url.drop off)

/-- The request `InitHttpRequest` leaves behind when it returns 0. -/
def InitHttpRequest : HttpRequest :=
  { method := [], url := [], version := [], proxy_url := none, host := [],
    origin_lines := [], line_num := INIT_PARSE_LINES,
    parse_state := ParseState.PARSE_LINE }

/-- `AddLineToHttpRequest`: return code and request afterwards. -/
def AddLineToHttpRequest (maxbuf : Nat) (r : HttpRequest) (buf : List Char) :
    Nat × HttpRequest :=
  let line := cstr buf
  let line_length := min line.length maxbuf
  if line_length = maxbuf then (ERROR_LINE_TOO_LONG, r)
  else if line_length = 0 then (ERROR_LINE_ZERO, r)
  else
    let line_finish : Bool := line.getLast? = some '\n'
    if r.cur_line = r.line_num then
      if MAX_PARSE_LINES ≤ r.line_num then (ERROR_READLINE_TOO_MUCH, r)
      else
        (0, { r with line_num := r.line_num * 2,
                     origin_lines := r.origin_lines ++ [⟨line, line_finish⟩] })
    else
      (0, { r with origin_lines := r.origin_lines ++ [⟨line, line_finish⟩] })

/-- The scan of `GetProxyUrl`: `cnt` slashes seen so far, `i` the offset of
the head of the remaining string.  Returns the offset of the third slash. -/
def GetProxyUrl.scan : List Char → Nat → Nat → Option Nat
  | [], _, _ => none
  | c :: rest, cnt, i =>
    if c = '/' then
      if cnt + 1 = 3 then some i else GetProxyUrl.scan rest (cnt + 1) (i + 1)
    else GetProxyUrl.scan rest cnt (i + 1)

/-- `GetProxyUrl`: sets `proxy_url` from `url`. -/
def GetProxyUrl (r : HttpRequest) : HttpRequest :=
  { r with proxy_url := GetProxyUrl.scan r.url 0 0 }

/-- The loop of `ParseRequestLine`.  `tok` is the string between `str` and
`cur`, `cnt` the number of fields stored, the list argument the string from
`cur` on. -/
def ParseRequestLine.scan (r : HttpRequest) (tok : List Char) (cnt : Nat) :
    List Char → Nat × HttpRequest
  | [] => (ERROR_REQUEST_LINE_INCOMPLETE, r)
  | c :: rest =>
    if c = ' ' ∨ c = '\r' ∨ c = '\n' then
      if 0 < tok.length then
        if cnt = 0 then
          if METHOD_LEN ≤ tok.length then (ERROR_METHOD_TOO_LONG, r)
          else ParseRequestLine.scan { r with method := tok } [] 1 rest
        else if cnt = 1 then
          if URL_LEN ≤ tok.length then (ERROR_URL_TOO_LONG, r)
          else ParseRequestLine.scan (GetProxyUrl { r with url := tok }) [] 2 rest
        else if cnt = 2 then
          if VER_LEN ≤ tok.length then (ERROR_VERSION_TOO_LONG, r)
          else (0, { r with version := tok, parse_state := ParseState.PARSE_HEADERS })
        else ParseRequestLine.scan r [] cnt rest
      else ParseRequestLine.scan r [] cnt rest
    else ParseRequestLine.scan r (tok ++ [c]) cnt rest

/-- `ParseRequestLine` on the C string `line`. -/
def ParseRequestLine (r : HttpRequest) (line : List Char) : Nat × HttpRequest :=
  ParseRequestLine.scan r [] 0 line

/-- `ParseHeaders` on the C string `line`. -/
def ParseHeaders (r : HttpRequest) (line : List Char) : Nat × HttpRequest :=
  if line = ['\r', '\n'] then (0, { r with parse_state := ParseState.PARSE_DATA })
  else
    let field := line.takeWhile (fun c => c ≠ ':')
    match line.dropWhile (fun c => c ≠ ':') with
    | [] => (ERROR_REQUEST_HEADER_INCOMPLETE, r)
    | _ :: rest =>
      let value := rest.dropWhile (fun c => c = ' ')
      let value_len := value.length
      if value_len ≤ 2 then (ERROR_REQUEST_HEADER_INCOMPLETE, r)
      else
        let value := value.take (value_len - 2)
        let value_len := value_len - 2
        if field = ['H', 'o', 's', 't'] then
          if HOST_LEN ≤ value_len then (ERROR_HOST_TOO_LONG, r)
          else (0, { r with host := value })
        else (0, r)

/-- The unfinished entries that directly precede the newest entry of
`origin_lines`: what the backward walk of `ParseHttpRequest` collects. -/
def pendingBefore (lines : List ReadLine) : List ReadLine :=
  (lines.dropLast.reverse.takeWhile (fun l => !l.line_finish)).reverse

/-- The logical line `ParseHttpRequest` assembles in `tot_line`. -/
def totLine (lines : List ReadLine) : List Char :=
  ((pendingBefore lines).map ReadLine.line).flatten ++
    (match lines.getLast? with
     | some l => l.line
     | none => [])

/-- `ParseHttpRequest`: return code and request afterwards. -/
def ParseHttpRequest (maxbuf : Nat) (r : HttpRequest) (buf : List Char) :
    Nat × HttpRequest :=
  let added := AddLineToHttpRequest maxbuf r buf
  if added.1 ≠ 0 then added
  else
    let r1 := added.2
    match r1.origin_lines.getLast? with
    | none => (0, r1)
    | some last =>
      if !last.line_finish then (0, r1)
      else
        let tot_line := totLine r1.origin_lines
        match r1.parse_state with
        | ParseState.PARSE_LINE => ParseRequestLine r1 tot_line
        | ParseState.PARSE_HEADERS => ParseHeaders r1 tot_line
        | ParseState.PARSE_DATA => (0, r1)

/-- `IsRequestLineParsed`. -/
def IsRequestLineParsed (r : HttpRequest) : Nat :=
  if r.parse_state ≠ ParseState.PARSE_LINE then 1 else 0

/-- `IsHostParsed`. -/
def IsHostParsed (r : HttpRequest) : Nat :=
  if 0 < r.host.length then 1 else 0

/-- Feeding the lines in order, as the callers of `ParseHttpRequest` do: the
calls stop at the first non-zero return code, which is then the result. -/
def feedLines (maxbuf : Nat) : HttpRequest → List (List Char) → Nat × HttpRequest
  | r, [] => (0, r)
  | r, l :: ls =>
    let res := ParseHttpRequest maxbuf r l
    if res.1 = 0 then feedLines maxbuf res.2 ls else res

/-! ## The file system the cache lives on

The system calls of `cache.c` act on a model of a POSIX file system: a finite
map from resolved paths (lists of names below the root) to nodes.  Path names
are resolved component by component, `.` and `..` included; symbolic links,
permissions and hard links are not modelled.  The only resource that can run
out is disk space (`free`).  No other process changes the file system between
two steps of the code. -/

/-- A resolved path: the names from the root directory down. -/
abbrev Path := List (List Char)

/-- A node of the file system. -/
inductive Node where
  | file (data : List Char)
  | dir
  deriving DecidableEq, Repr

/-- The state of the operating system the cache module sees. -/
structure OS where
  files : List (Path × Node)
  cwd : Path
  free : Nat
  deriving DecidableEq, Repr

/-- First binding of a path in an association list. -/
def lookupNode : List (Path × Node) → Path → Option Node
  | [], _ => none
  | e :: rest, p => if p = e.1 then some e.2 else lookupNode rest p

/-- The node at a resolved path; the root directory always exists. -/
def OS.node (os : OS) (p : Path) : Option Node :=
  if p = [] then some Node.dir else lookupNode os.files p

/-- Bind, rebind or unbind the node at a resolved path. -/
def OS.setNode (os : OS) (p : Path) (n : Option Node) : OS :=
  { os with files :=
      match n with
      | some x => (p, x) :: os.files.filter (fun e => e.1 ≠ p)
      | none => os.files.filter (fun e => e.1 ≠ p) }

/-- The components of a path name: the strings between its slashes. -/
def splitPath : List Char → List (List Char)
  | [] => [[]]
  | c :: rest =>
    if c = '/' then [] :: splitPath rest
    else
      match splitPath rest with
      | [] => [[c]]
      | h :: t => (c :: h) :: t

/-- One step of path resolution: the directory reached so far must exist and
be a directory; then the component is applied to it. -/
def OS.step (os : OS) (st : Option Path) (c : List Char) : Option Path :=
  match st with
  | none => none
  | some s =>
    if os.node s = some Node.dir then
      if c = [] ∨ c = ['.'] then some s
      else if c = ['.', '.'] then some s.dropLast
      else some (s ++ [c])
    else none

/-- Where the resolution of a path name starts: the root for an absolute
name, the working directory otherwise. -/
def OS.start (os : OS) (path : List Char) : Path :=
  if path.head? = some '/' then [] else os.cwd

/-- Path resolution.  The result is the resolved path the name denotes; its
last name need not exist, every directory on the way does. -/
def OS.resolve (os : OS) (path : List Char) : Option Path :=
  if path = [] then none
  else (splitPath path).foldl os.step (some (os.start path))

/-- `stat`: the node a path name denotes, `none` when the call fails. -/
def OS.stat (os : OS) (path : List Char) : Option Node :=
  (os.resolve path).bind os.node

/-- `access(path, F_OK)`. -/
def sys_access (os : OS) (path : List Char) : Int :=
  if (os.stat path).isSome then 0 else -1

/-- A path name without its trailing slashes. -/
def dropTrailingSlashes (path : List Char) : List Char :=
  (path.reverse.dropWhile (fun c => c = '/')).reverse

/-- Whether a directory has entries. -/
def OS.hasChildren (os : OS) (p : Path) : Bool :=
  os.files.any (fun e => e.1 ≠ [] ∧ e.1.dropLast = p)

/-- The names in a directory (`readdir`, without `.` and `..`). -/
def OS.children (os : OS) (p : Path) : List (List Char) :=
  (os.files.filterMap (fun e =>
    if e.1 ≠ [] ∧ e.1.dropLast = p then e.1.getLast? else none)).eraseDups

/-- `mkdir`. -/
def sys_mkdir (os : OS) (path : List Char) : Int × OS :=
  match os.resolve (dropTrailingSlashes path) with
  | none => (-1, os)
  | some p =>
    if (os.node p).isSome then (-1, os)
    else (0, os.setNode p (some Node.dir))

/-- An open file description: the file it refers to, the file offset and the
access mode (`O_WRONLY` or `O_RDONLY`). -/
structure Fd where
  path : Path
  pos : Nat
  writable : Bool
  deriving DecidableEq, Repr

/-- The two flag sets `cache.c` passes to `open`. -/
inductive OpenFlags where
  | O_RDONLY
  | O_WRONLY_CREAT_EXCL
  deriving DecidableEq, Repr

/-- `open`: the new descriptor (`none` for -1) and the file system afterwards. -/
def sys_open (os : OS) (path : List Char) (flags : OpenFlags) : Option Fd × OS :=
  match os.resolve path with
  | none => (none, os)
  | some p =>
    match flags with
    | OpenFlags.O_RDONLY =>
      if (os.node p).isSome then (some ⟨p, 0, false⟩, os) else (none, os)
    | OpenFlags.O_WRONLY_CREAT_EXCL =>
      if (os.node p).isSome ∨ path.getLast? = some '/' then (none, os)
      else (some ⟨p, 0, true⟩, os.setNode p (some (Node.file [])))

/-- Result of one `read` call. -/
inductive ReadRes where
  | data (bs : List Char)
  | eof
  | error
  deriving DecidableEq, Repr

/-- `read` of at most `n` bytes from an open file. -/
def sys_read (os : OS) (fd : Fd) (n : Nat) : ReadRes × Fd :=
  if fd.writable then (ReadRes.error, fd)
  else
    match os.node fd.path with
    | some (Node.file data) =>
      let bs := (data.drop fd.pos).take n
      if bs = [] then (ReadRes.eof, fd)
      else (ReadRes.data bs, { fd with pos := fd.pos + bs.length })
    | _ => (ReadRes.error, fd)

/-- `write` to an open file: as many of the bytes as the free space allows
are stored at the file offset; -1 when none can be stored. -/
def sys_write (st : OS × Fd) (bytes : List Char) : Int × (OS × Fd) :=
  let os := st.1
  let fd := st.2
  if !fd.writable then (-1, st)
  else
    match os.node fd.path with
    | some (Node.file data) =>
      if bytes = [] then (0, st)
      else
        let room := os.free + (data.length - fd.pos)
        let n := min bytes.length room
        if n = 0 then (-1, st)
        else
          let data' := data.take fd.pos ++ List.replicate (fd.pos - data.length) '\x00' ++
            bytes.take n ++ data.drop (fd.pos + n)
          (n, ({ os.setNode fd.path (some (Node.file data')) with
                  free := os.free - (data'.length - data.length) },
               { fd with pos := fd.pos + n }))
    | _ => (-1, st)

/-- `unlink`. -/
def sys_unlink (os : OS) (path : List Char) : Int × OS :=
  match os.resolve path with
  | none => (-1, os)
  | some p =>
    match os.node p with
    | some (Node.file data) => (0, { os.setNode p none with free := os.free + data.length })
    | _ => (-1, os)

/-- `rmdir`. -/
def sys_rmdir (os : OS) (path : List Char) : Int × OS :=
  let path := dropTrailingSlashes path
  match os.resolve path with
  | none => (-1, os)
  | some p =>
    if (splitPath path).getLast? = some ['.'] ∨ (splitPath path).getLast? = some ['.', '.'] ∨
        p = [] ∨ os.node p ≠ some Node.dir ∨ os.hasChildren p then (-1, os)
    else (0, os.setNode p none)

/-- The C library's `remove`: `unlink` for files, `rmdir` for directories. -/
def sys_remove (os : OS) (path : List Char) : Int × OS :=
  match os.stat path with
  | some Node.dir => sys_rmdir os path
  | _ => sys_unlink os path

/-- `rename`. -/
def sys_rename (os : OS) (old new : List Char) : Int × OS :=
  match os.resolve (dropTrailingSlashes old), os.resolve (dropTrailingSlashes new) with
  | some po, some pn =>
    match os.node po with
    | none => (-1, os)
    | some (Node.file data) =>
      if old.getLast? = some '/' ∨ new.getLast? = some '/' then (-1, os)
      else if po = pn then (0, os)
      else
        match os.node pn with
        | some Node.dir => (-1, os)
        | some (Node.file old_data) =>
          (0, { (os.setNode po none).setNode pn (some (Node.file data)) with
                  free := os.free + old_data.length })
        | none => (0, (os.setNode po none).setNode pn (some (Node.file data)))
    | some Node.dir =>
      if po = pn then (0, os)
      else if po = [] ∨ po <+: pn ∨ (splitPath (dropTrailingSlashes new)).getLast? = some ['.'] ∨
          (splitPath (dropTrailingSlashes new)).getLast? = some ['.', '.'] then (-1, os)
      else
        match os.node pn with
        | some (Node.file _) => (-1, os)
        | some Node.dir =>
          if os.hasChildren pn then (-1, os)
          else
            (0, { os with files :=
              (os.files.filter (fun e => e.1 ≠ pn)).map (fun e =>
                if po <+: e.1 then (pn ++ e.1.drop po.length, e.2) else e) })
        | none =>
          (0, { os with files :=
            os.files.map (fun e =>
              if po <+: e.1 then (pn ++ e.1.drop po.length, e.2) else e) })
  | _, _ => (-1, os)

/-! ## csapp.c: robust I/O

`csapp.c` and `csapp.h` are not among the sources at hand.  The constants of
the header the code depends on are parameters. -/

/-- Modelled from the spec: the two sizes `csapp.h` defines and the code uses.
`MAXBUF` is the size of every line buffer, `RIO_BUFSIZE` the size of the
internal buffer of a `rio_t`.  Both are 8192 in the CS:APP header. -/
structure Csapp where
  MAXBUF : Nat
  RIO_BUFSIZE : Nat
  deriving DecidableEq, Repr

/-- Modelled from the spec: the read buffer `rio_t` of csapp.h, a descriptor
and the bytes read from it that have not been handed out yet (`rio_cnt` is
`buf.length`). -/
structure Rio (δ : Type) where
  rio_fd : δ
  buf : List Char
  deriving DecidableEq, Repr

/-- Modelled from the spec: `rio_readinitb`. -/
def rio_readinitb {δ : Type} (fd : δ) : Rio δ := { rio_fd := fd, buf := [] }

/-- What the one-byte `rio_read` of `rio_readlineb` returns. -/
inductive RioByte where
  | byte (c : Char)
  | eof
  | error
  deriving DecidableEq, Repr

/-- Modelled from the spec: `rio_read` for one byte.  An empty buffer is
refilled by one `read` of at most `bufsize` bytes. -/
def rio_read1 {σ δ : Type} (read : σ → δ → Nat → ReadRes × σ × δ) (bufsize : Nat)
    (s : σ) (rp : Rio δ) : RioByte × σ × Rio δ :=
  match rp.buf with
  | c :: rest => (RioByte.byte c, s, { rp with buf := rest })
  | [] =>
    match read s rp.rio_fd bufsize with
    | (ReadRes.data (c :: rest), s1, d) => (RioByte.byte c, s1, { rio_fd := d, buf := rest })
    | (ReadRes.data [], s1, d) => (RioByte.eof, s1, { rio_fd := d, buf := [] })
    | (ReadRes.eof, s1, d) => (RioByte.eof, s1, { rio_fd := d, buf := [] })
    | (ReadRes.error, s1, d) => (RioByte.error, s1, { rio_fd := d, buf := [] })

/-- The loop of `rio_readlineb`: `k` bytes may still be stored, `acc` holds
the bytes stored so far. -/
def rio_readlineb.loop {σ δ : Type} (read : σ → δ → Nat → ReadRes × σ × δ) (bufsize : Nat) :
    Nat → σ → Rio δ → List Char → Int × List Char × σ × Rio δ
  | 0, s, rp, acc => (acc.length, acc, s, rp)
  | k + 1, s, rp, acc =>
    match rio_read1 read bufsize s rp with
    | (RioByte.byte c, s1, rp1) =>
      if c = '\n' then ((acc ++ [c]).length, acc ++ [c], s1, rp1)
      else rio_readlineb.loop read bufsize k s1 rp1 (acc ++ [c])
    | (RioByte.eof, s1, rp1) => (acc.length, acc, s1, rp1)
    | (RioByte.error, s1, rp1) => (-1, acc, s1, rp1)

/-- Modelled from the spec: `rio_readlineb(rp, buf, maxlen)` reads one line, at
most `maxlen - 1` bytes, up to and including the first newline.  Returns the
number of bytes (0 at end of file, -1 on error), the bytes, and the state. -/
def rio_readlineb {σ δ : Type} (read : σ → δ → Nat → ReadRes × σ × δ) (bufsize : Nat)
    (s : σ) (rp : Rio δ) (maxlen : Nat) : Int × List Char × σ × Rio δ :=
  rio_readlineb.loop read bufsize (maxlen - 1) s rp []

/-- The loop of `rio_writen`; `left` are the bytes not written yet.  Each
`write` that does not fail stores at least one byte, so `left.length`
iterations suffice. -/
def rio_writen.loop {σ : Type} (write : σ → List Char → Int × σ) :
    Nat → σ → List Char → Bool × σ
  | 0, s, left => (decide (left = []), s)
  | fuel + 1, s, left =>
    if left = [] then (true, s)
    else
      let r := write s left
      if r.1 ≤ 0 then (false, r.2)
      else rio_writen.loop write fuel r.2 (left.drop r.1.toNat)

/-- Modelled from the spec: `rio_writen(fd, buf, n)` writes all `n` bytes with
as many `write` calls as it takes.  Returns `n`, or -1 when a `write` fails. -/
def rio_writen {σ : Type} (write : σ → List Char → Int × σ) (s : σ) (bytes : List Char) :
    Int × σ :=
  let r := rio_writen.loop write (bytes.length + 1) s bytes
  (if r.1 then (bytes.length : Int) else -1, r.2)

/-- `read` on the descriptor of a cache handle. -/
def file_read (os : OS) (fd : Option Fd) (n : Nat) : ReadRes × OS × Option Fd :=
  match fd with
  | none => (ReadRes.error, os, none)
  | some f => ((sys_read os f n).1, os, some (sys_read os f n).2)

/-- `write` on the descriptor of a cache handle. -/
def file_write (st : OS × Option Fd) (bytes : List Char) : Int × (OS × Option Fd) :=
  match st.2 with
  | none => (-1, st)
  | some f => ((sys_write (st.1, f) bytes).1, ((sys_write (st.1, f) bytes).2.1,
      some (sys_write (st.1, f) bytes).2.2))

/-! ## cache.h, cache.c -/

/-- `PATH_MAX` of `<limits.h>` (Linux). -/
abbrev PATH_MAX : Nat := 4096

def CACHE_PATH_TOO_LONG : List Char := "Cache path exceeds PATH_MAX".toList
def CACHE_PATH_EMPTY : List Char := "Cache path is emtpy".toList
def TEMP_PATH_TOO_LONG : List Char := "Temp path exceeds PATH_MAX".toList
def TEMP_PATH_EMPTY : List Char := "Temp path is emtpy".toList

/-- Modelled from the spec: the text `strerror_r` stores for the current
`errno`, "a human-readable message".  The wording is the C library's; the code
only relies on its not being empty. -/
def strerror_r : List Char := "I/O error".toList

/-- The globals `CACHE_DIR` and `TEMP_DIR` of cache.c. -/
structure CacheModule where
  CACHE_DIR : List Char
  TEMP_DIR : List Char
  deriving DecidableEq, Repr

/-- The `struct CacheInfo` of cache.h.  `fd` is `none` for -1. -/
structure CacheInfo where
  is_open : Bool
  is_write : Bool
  fd : Option Fd
  rp : Rio (Option Fd)
  cache_path : List Char
  temp_path : List Char
  error_msg : List Char
  deriving DecidableEq, Repr

/-- `DirExist`. -/
def DirExist (os : OS) (dir : List Char) : Int :=
  if os.stat dir = some Node.dir then 1 else 0

/-- The loop of `CreateDir`: `i` is the offset of `ptr`, the list argument the
string from `ptr` on. -/
def CreateDir.loop (path : List Char) : Nat → List Char → OS → Int × OS
  | _, [], os =>
    if DirExist os path = 0 then
      (if (sys_mkdir os path).1 ≠ 0 then 1 else 0, (sys_mkdir os path).2)
    else (0, os)
  | i, c :: rest, os =>
    if i ≠ 0 ∧ c = '/' then
      if DirExist os (path.take i) = 0 then
        if (sys_mkdir os (path.take i)).1 ≠ 0 then (1, (sys_mkdir os (path.take i)).2)
        else CreateDir.loop path (i + 1) rest (sys_mkdir os (path.take i)).2
      else CreateDir.loop path (i + 1) rest os
    else CreateDir.loop path (i + 1) rest os

/-- `CreateDir`: 0 on success, 1 otherwise. -/
def CreateDir (os : OS) (path : List Char) : Int × OS :=
  CreateDir.loop path 0 path os

/-- The loop of `RemoveDir` over the entries `readdir` returns. -/
def RemoveDir.entries (again : OS → List Char → Option (Int × OS)) (dir : List Char) :
    List (List Char) → OS → Option (Int × OS)
  | [], os => some (0, os)
  | name :: rest, os =>
    if PATH_MAX ≤ dir.length + 1 + name.length then some (1, os)
    else
      match again os (dir ++ '/' :: name) with
      | none => none
      | some r => if r.1 ≠ 0 then some (1, r.2) else RemoveDir.entries again dir rest r.2

/-- `RemoveDir` with a bound on the depth of the recursion; `none` when the
bound is reached. -/
def RemoveDir.go : Nat → OS → List Char → Option (Int × OS)
  | 0, _, _ => none
  | fuel + 1, os, dir =>
    if sys_access os dir ≠ 0 then some (0, os)
    else
      match os.stat dir with
      | none => some (1, os)
      | some (Node.file _) => some (sys_remove os dir)
      | some Node.dir =>
        match os.resolve dir with
        | none => some (1, os)
        | some p =>
          match RemoveDir.entries (RemoveDir.go fuel) dir (os.children p) os with
          | none => none
          | some r =>
            if r.1 ≠ 0 then some (1, r.2)
            else some (if (sys_rmdir r.2 dir).1 ≠ 0 then 1 else 0, (sys_rmdir r.2 dir).2)

/-- `RemoveDir`: 0 on success, non-zero otherwise.  The recursion descends one
directory level per call, so it is never deeper than the number of nodes. -/
def RemoveDir (os : OS) (dir : List Char) : Int × OS :=
  match RemoveDir.go (os.files.length + 1) os dir with
  | some r => r
  | none => (1, os)

/-- The directory of the executable: the link target of `/proc/self/exe` up to
and including its last slash. -/
def exeDir (exe : List Char) : List Char :=
  (exe.reverse.dropWhile (fun c => c ≠ '/')).reverse

/-- The values `InitCacheModule` gives `CACHE_DIR` and `TEMP_DIR`. -/
def InitCacheModule.dirs (exe : List Char) : CacheModule :=
  { CACHE_DIR := exeDir exe ++ ".cache/".toList,
    TEMP_DIR := exeDir exe ++ ".tmp/".toList }

/-- `InitCacheModule`; `exe` is the link target `readlink("/proc/self/exe")`
stores, cut to the size of the buffer.  `none` when the function ends the
process (`unix_error`, `app_error`). -/
def InitCacheModule (os : OS) (exe : List Char) : Option (OS × CacheModule) :=
  let m := InitCacheModule.dirs (cstr (exe.take (PATH_MAX - 1)))
  if PATH_MAX ≤ (exeDir (cstr (exe.take (PATH_MAX - 1)))).length + ".cache/".toList.length then none
  else
    let r1 := RemoveDir os m.CACHE_DIR
    if r1.1 ≠ 0 then none
    else
      let r2 := CreateDir r1.2 m.CACHE_DIR
      if r2.1 ≠ 0 then none
      else
        let r3 := RemoveDir r2.2 m.TEMP_DIR
        if r3.1 ≠ 0 then none
        else
          let r4 := CreateDir r3.2 m.TEMP_DIR
          if r4.1 ≠ 0 then none else some (r4.2, m)

/-- `CreateCacheInfo`: 0 on success, 1 otherwise, and the handle. -/
def CreateCacheInfo (m : CacheModule) (host url : List Char) : Int × CacheInfo :=
  let ci : CacheInfo :=
    { is_open := false, is_write := false, fd := none, rp := rio_readinitb none,
      cache_path := [], temp_path := [], error_msg := [] }
  let cache_dir_len := m.CACHE_DIR.length
  let host_len := host.length
  let url_len := url.length
  if PATH_MAX ≤ cache_dir_len + host_len + url_len then
    (1, { ci with error_msg := CACHE_PATH_TOO_LONG })
  else
    let cache_path := dropTrailingSlashes (m.CACHE_DIR ++ host ++ url)
    if cache_path.length ≤ 0 then
      (1, { ci with cache_path := cache_path, error_msg := CACHE_PATH_EMPTY })
    else
      let temp_dir_len := m.TEMP_DIR.length
      if PATH_MAX ≤ temp_dir_len + host_len + url_len then
        (1, { ci with cache_path := cache_path, error_msg := TEMP_PATH_TOO_LONG })
      else
        let temp_path := dropTrailingSlashes (m.TEMP_DIR ++ host ++ url)
        if temp_path.length ≤ 0 then
          (1, { ci with cache_path := cache_path, temp_path := temp_path,
                        error_msg := TEMP_PATH_EMPTY })
        else (0, { ci with cache_path := cache_path, temp_path := temp_path })

/-- `IsCacheError`. -/
def IsCacheError (ci : CacheInfo) : Int :=
  if 0 < ci.error_msg.length then 1 else 0

/-- `FreeCacheInfo`. -/
def FreeCacheInfo (os : OS) (ci : CacheInfo) : OS × CacheInfo :=
  if ci.is_open then (os, { ci with fd := none, is_open := false })
  else if ci.is_write then
    if IsCacheError ci = 1 then
      ((RemoveDir os ci.temp_path).2, { ci with fd := none, is_write := false })
    else if (sys_rename os ci.temp_path ci.cache_path).1 < 0 then
      ((RemoveDir (sys_rename os ci.temp_path ci.cache_path).2 ci.temp_path).2,
        { ci with fd := none, is_write := false })
    else ((sys_rename os ci.temp_path ci.cache_path).2, { ci with fd := none, is_write := false })
  else (os, ci)

/-- `RemoveCache`. -/
def RemoveCache (os : OS) (ci : CacheInfo) : OS :=
  if 0 < ci.cache_path.length then (RemoveDir os ci.cache_path).2 else os

/-- `IsCacheHit`. -/
def IsCacheHit (os : OS) (ci : CacheInfo) : Int :=
  if sys_access os ci.cache_path ≠ 0 then 0
  else
    match os.stat ci.cache_path with
    | none => 0
    | some (Node.file _) => 1
    | some Node.dir => 0

/-- `OpenCacheFile`: 0 on success, 1 otherwise. -/
def OpenCacheFile (os : OS) (ci : CacheInfo) (flags : OpenFlags) : Int × OS × CacheInfo :=
  if !ci.is_open then
    match sys_open os ci.cache_path flags with
    | (none, os1) => (1, os1, { ci with fd := none })
    | (some f, os1) => (0, os1, { ci with fd := some f, rp := rio_readinitb (some f),
                                            is_open := true })
  else (0, os, ci)

/-- The part of a path name up to and including its last slash. -/
def dirPart (path : List Char) : List Char :=
  (path.reverse.dropWhile (fun c => c ≠ '/')).reverse

/-- `CreateCacheDir`: 0 on success, 1 otherwise. -/
def CreateCacheDir (os : OS) (ci : CacheInfo) : Int × OS :=
  if 0 < (dirPart ci.cache_path).length then
    (if (CreateDir os (dirPart ci.cache_path)).1 ≠ 0 then 1 else 0,
      (CreateDir os (dirPart ci.cache_path)).2)
  else (0, os)

/-- `OpenTempFile`: 0 on success, 1 otherwise. -/
def OpenTempFile (os : OS) (ci : CacheInfo) (flags : OpenFlags) : Int × OS × CacheInfo :=
  if !ci.is_write then
    match sys_open os ci.temp_path flags with
    | (none, os1) => (1, os1, { ci with fd := none })
    | (some f, os1) => (0, os1, { ci with fd := some f, rp := rio_readinitb (some f),
                                            is_write := true })
  else (0, os, ci)

/-- `CreateTempDir`: 0 on success, 1 otherwise. -/
def CreateTempDir (os : OS) (ci : CacheInfo) : Int × OS :=
  if 0 < (dirPart ci.temp_path).length then
    (if (CreateDir os (dirPart ci.temp_path)).1 ≠ 0 then 1 else 0,
      (CreateDir os (dirPart ci.temp_path)).2)
  else (0, os)

/-- The last step of `WriteToCache`: the `rio_writen` to the descriptor. -/
def WriteToCache.write (os : OS) (ci : CacheInfo) (content : List Char) :
    Int × OS × CacheInfo :=
  let r := rio_writen file_write (os, ci.fd) content
  if r.1 < 0 then (-1, r.2.1, { ci with fd := r.2.2, error_msg := strerror_r })
  else (0, r.2.1, { ci with fd := r.2.2 })

/-- `WriteToCache`: 0 on success, -1 otherwise. -/
def WriteToCache (os : OS) (ci : CacheInfo) (content : List Char) : Int × OS × CacheInfo :=
  if !ci.is_write then
    if (CreateCacheDir os ci).1 ≠ 0 then
      (-1, (CreateCacheDir os ci).2, { ci with error_msg := strerror_r })
    else if (CreateTempDir (CreateCacheDir os ci).2 ci).1 ≠ 0 then
      (-1, (CreateTempDir (CreateCacheDir os ci).2 ci).2, { ci with error_msg := strerror_r })
    else
      match OpenTempFile (CreateTempDir (CreateCacheDir os ci).2 ci).2 ci
          OpenFlags.O_WRONLY_CREAT_EXCL with
      | (r, os1, ci1) =>
        if r ≠ 0 then (-1, os1, { ci1 with error_msg := strerror_r })
        else WriteToCache.write os1 ci1 content
  else WriteToCache.write os ci content

/-- `ReadLineFromCache`: the return value (-1 on error, 0 at end of file, the
number of bytes otherwise), the bytes stored in `buf`, and the handle. -/
def ReadLineFromCache (k : Csapp) (os : OS) (ci : CacheInfo) (max_len : Nat) :
    Int × List Char × CacheInfo :=
  match (if !ci.is_open then OpenCacheFile os ci OpenFlags.O_RDONLY else (0, os, ci)) with
  | (r, _, ci1) =>
    if r ≠ 0 then (-1, [], { ci1 with error_msg := strerror_r })
    else
      match rio_readlineb file_read k.RIO_BUFSIZE os ci1.rp max_len with
      | (n, line, _, rp1) =>
        if n < 0 then (-1, line, { ci1 with rp := rp1, error_msg := strerror_r })
        else (n, line, { ci1 with rp := rp1 })

/-! ## Sockets -/

/-- A connected socket as the proxy sees it.  `rx` lists the byte segments the
successive `read` calls will return (a `read` waits for the next one); when it
is used up the peer has closed (`rx_err = false`) or the connection is broken
(`rx_err = true`).  `tx` collects the bytes written to the peer, `tx_room` is
the number of bytes the peer still accepts (`none`: no limit). -/
structure Sock where
  rx : List (List Char)
  rx_err : Bool
  tx : List Char
  tx_room : Option Nat
  deriving DecidableEq, Repr

/-- The environment of the proxy: the file system, the open sockets by
descriptor, and for every host name and port the connection `open_clientfd`
obtains (`none`: the connection attempt fails). -/
structure World where
  os : OS
  socks : List (Int × Sock)
  peers : List Char → List Char → Option Sock

/-- The socket behind a descriptor. -/
def World.sock (w : World) (fd : Int) : Option Sock :=
  (w.socks.find? (fun e => e.1 = fd)).map Prod.snd

/-- Replace the socket behind a descriptor. -/
def World.setSock (w : World) (fd : Int) (s : Sock) : World :=
  { w with socks := (fd, s) :: w.socks.filter (fun e => e.1 ≠ fd) }

/-- `read` of at most `n` bytes from a socket. -/
def sock_read (w : World) (fd : Int) (n : Nat) : ReadRes × World × Int :=
  match w.sock fd with
  | none => (ReadRes.error, w, fd)
  | some s =>
    match s.rx with
    | [] => (if s.rx_err then ReadRes.error else ReadRes.eof, w, fd)
    | seg :: rest =>
      if seg.length ≤ n then (ReadRes.data seg, w.setSock fd { s with rx := rest }, fd)
      else (ReadRes.data (seg.take n), w.setSock fd { s with rx := seg.drop n :: rest }, fd)

/-- `write` to a socket. -/
def sock_write (fd : Int) (w : World) (bytes : List Char) : Int × World :=
  match w.sock fd with
  | none => (-1, w)
  | some s =>
    match s.tx_room with
    | none => (bytes.length, w.setSock fd { s with tx := s.tx ++ bytes })
    | some room =>
      if room = 0 then (-1, w)
      else
        (((min bytes.length room : Nat) : Int),
          w.setSock fd { s with tx := s.tx ++ bytes.take room,
                                tx_room := some (room - min bytes.length room) })

/-- The lowest descriptor number no open socket has. -/
def World.freshFd (w : World) : Int :=
  match (List.range (w.socks.length + 1)).find? (fun n => (n : Int) ∉ w.socks.map Prod.fst) with
  | some n => n
  | none => w.socks.length

/-- Modelled from the spec: `open_clientfd(hostname, port)`,
"openOutboundConnection(hostname, port) -> fd | error".  Nothing has been
written to a new connection. -/
def open_clientfd (w : World) (hostname port : List Char) : Int × World :=
  match w.peers hostname port with
  | none => (-1, w)
  | some s => (w.freshFd, { w with socks := (w.freshFd, { s with tx := [] }) :: w.socks })

/-! ## proxy.c: the connection handlers -/

abbrev NTHREAD : Nat := 4
abbrev MAX_REQ : Nat := 80

def HTTP_PORT : List Char := "80".toList

/-- `enum ProxyState`. -/
inductive ProxyState where
  | UNCONNECTED
  | CONNECTED
  | CACHED
  deriving DecidableEq, Repr

/-- `struct ProxyMeta`. -/
structure ProxyMeta where
  client_fd : Int
  server_fd : Int
  client_rp : Rio Int
  server_rp : Rio Int
  src_host : List Char
  src_port : List Char
  proxy_state : ProxyState
  http_request : HttpRequest
  cache_info : CacheInfo
  deriving DecidableEq, Repr

/-- `struct RequestPool` without its mutex and condition variable. -/
structure RequestPool where
  requests : List ProxyMeta
  enabled : List Bool
  req_num : Int
  read_set : List Int
  max_fd : Int
  deriving DecidableEq, Repr

/-- The request line `HandleUnconnectedClientFd` builds with `sprintf`. -/
def rebuiltRequestLine (r : HttpRequest) : List Char :=
  r.method ++ [' '] ++ (match r.proxyPath with
                        | some path => path
                        | none => []) ++ [' '] ++ r.version ++ ['\r', '\n']

/-- The buffers the send loop of `HandleUnconnectedClientFd` passes to
`rio_writen`, in order.  At index 0 the loop skips to the first terminated
entry and sends the rebuilt request line in its place. -/
def linesToSend (r : HttpRequest) : List (List Char) :=
  match r.origin_lines with
  | [] => []
  | _ :: _ =>
    rebuiltRequestLine r ::
      ((r.origin_lines.dropWhile (fun l => !l.line_finish)).drop 1).map ReadLine.line

/-- The send loop: `rio_writen` for every buffer until one fails. -/
def sendLoop (fd : Int) : World → List (List Char) → Int × World
  | w, [] => (0, w)
  | w, l :: rest =>
    if (rio_writen (sock_write fd) w l).1 < 0 then (-1, (rio_writen (sock_write fd) w l).2)
    else sendLoop fd (rio_writen (sock_write fd) w l).2 rest

/-- The part of a Host value before its first colon. -/
def hostName (host : List Char) : List Char := host.takeWhile (fun c => c ≠ ':')

/-- The part of a Host value after its first colon, `HTTP_PORT` without one. -/
def hostPort (host : List Char) : List Char :=
  match host.dropWhile (fun c => c ≠ ':') with
  | [] => HTTP_PORT
  | _ :: port => port

/-- `HandleUnconnectedClientFd` from "If not cached, connect to server" on:
open the origin connection, register it in the pool, send the request lines
received so far, and move to `CONNECTED`. -/
def HandleUnconnectedClientFd.forward (w : World) (pool : RequestPool) (request : ProxyMeta) :
    Int × World × RequestPool × ProxyMeta :=
  let host := request.http_request.host
  let sfd := (open_clientfd w (hostName host) (hostPort host)).1
  let w2 := (open_clientfd w (hostName host) (hostPort host)).2
  if sfd < 0 then (-1, w2, pool, { request with server_fd := sfd })
  else
    let sent := sendLoop sfd w2 (linesToSend request.http_request)
    let pool2 : RequestPool :=
      { pool with read_set := sfd :: pool.read_set,
                  max_fd := if pool.max_fd < sfd then sfd else pool.max_fd }
    if sent.1 < 0 then
      (-1, sent.2, pool2, { request with server_fd := sfd, server_rp := rio_readinitb sfd })
    else
      (1, sent.2, pool2, { request with server_fd := sfd, server_rp := rio_readinitb sfd,
                                        proxy_state := ProxyState.CONNECTED })

/-- `HandleUnconnectedClientFd` once the request line and the Host header are
parsed: the check of the proxy url, the cache lookup, and the forwarding. -/
def HandleUnconnectedClientFd.serve (m : CacheModule) (w : World) (pool : RequestPool)
    (request : ProxyMeta) : Int × World × RequestPool × ProxyMeta :=
  match request.http_request.proxyPath with
  | none => (-1, w, pool, request)
  | some server_url =>
    let created := CreateCacheInfo m request.http_request.host server_url
    if created.1 = 0 ∧ IsCacheHit w.os created.2 = 1 then
      (1, w, pool, { request with cache_info := created.2, proxy_state := ProxyState.CACHED })
    else HandleUnconnectedClientFd.forward w pool { request with cache_info := created.2 }

/-- The loop of `HandleUnconnectedClientFd`, repeated while the read buffer of
the client holds bytes.  `fuel` bounds the number of rounds. -/
def HandleUnconnectedClientFd.loop (k : Csapp) (m : CacheModule) :
    Nat → World → RequestPool → ProxyMeta → Int × World × RequestPool × ProxyMeta
  | 0, w, pool, request => (1, w, pool, request)
  | fuel + 1, w, pool, request =>
    let rd := rio_readlineb sock_read k.RIO_BUFSIZE w request.client_rp k.MAXBUF
    let parsed := ParseHttpRequest k.MAXBUF request.http_request rd.2.1
    if rd.1 < 0 then (-1, rd.2.2.1, pool, { request with client_rp := rd.2.2.2 })
    else if rd.1 = 0 then (0, rd.2.2.1, pool, { request with client_rp := rd.2.2.2 })
    else if parsed.1 ≠ 0 then
      (-1, rd.2.2.1, pool, { request with client_rp := rd.2.2.2, http_request := parsed.2 })
    else if IsRequestLineParsed parsed.2 = 0 ∨ IsHostParsed parsed.2 = 0 then
      if 0 < rd.2.2.2.buf.length then
        HandleUnconnectedClientFd.loop k m fuel rd.2.2.1 pool
          { request with client_rp := rd.2.2.2, http_request := parsed.2 }
      else (1, rd.2.2.1, pool, { request with client_rp := rd.2.2.2, http_request := parsed.2 })
    else
      HandleUnconnectedClientFd.serve m rd.2.2.1 pool
        { request with client_rp := rd.2.2.2, http_request := parsed.2 }

/-- The bytes the client has sent or will send that the proxy has not consumed. -/
def unreadBytes (w : World) (request : ProxyMeta) : Nat :=
  request.client_rp.buf.length +
    (match w.sock request.client_fd with
     | some s => (s.rx.map List.length).sum
     | none => 0)

/-- `HandleUnconnectedClientFd`.  Every round of its loop consumes at least one
byte of the client, which bounds the number of rounds. -/
def HandleUnconnectedClientFd (k : Csapp) (m : CacheModule) (w : World) (pool : RequestPool)
    (request : ProxyMeta) : Int × World × RequestPool × ProxyMeta :=
  HandleUnconnectedClientFd.loop k m (unreadBytes w request + 1) w pool request

/-- The bytes the origin has sent or will send that the proxy has not consumed. -/
def unreadServerBytes (w : World) (request : ProxyMeta) : Nat :=
  request.server_rp.buf.length +
    (match w.sock request.server_fd with
     | some s => (s.rx.map List.length).sum
     | none => 0)

/-- The loop of `HandleConnectedClientFd`, repeated while the read buffer of
the client holds bytes.  `fuel` bounds the number of rounds. -/
def HandleConnectedClientFd.loop (k : Csapp) :
    Nat → World → ProxyMeta → Int × World × ProxyMeta
  | 0, w, request => (1, w, request)
  | fuel + 1, w, request =>
    let rd := rio_readlineb sock_read k.RIO_BUFSIZE w request.client_rp k.MAXBUF
    if rd.1 < 0 then (-1, rd.2.2.1, { request with client_rp := rd.2.2.2 })
    else if rd.1 = 0 then (0, rd.2.2.1, { request with client_rp := rd.2.2.2 })
    else
      let wr := rio_writen (sock_write request.server_fd) rd.2.2.1 rd.2.1
      if wr.1 < 0 then (-1, wr.2, { request with client_rp := rd.2.2.2 })
      else if 0 < rd.2.2.2.buf.length then
        HandleConnectedClientFd.loop k fuel wr.2 { request with client_rp := rd.2.2.2 }
      else (1, wr.2, { request with client_rp := rd.2.2.2 })

/-- `HandleConnectedClientFd`.  Every round of its loop consumes at least one
byte of the client, which bounds the number of rounds. -/
def HandleConnectedClientFd (k : Csapp) (w : World) (request : ProxyMeta) :
    Int × World × ProxyMeta :=
  HandleConnectedClientFd.loop k (unreadBytes w request + 1) w request

/-- The bytes of its cache file a handle has not returned yet, at most. -/
def cacheUnread (os : OS) (ci : CacheInfo) : Nat :=
  ci.rp.buf.length +
    (match (if ci.is_open then ci.rp.rio_fd.bind (fun f => os.node f.path)
            else os.stat ci.cache_path) with
     | some (Node.file d) => d.length
     | _ => 0)

/-- The loop of `HandleCachedClientFd`: `ReadLineFromCache`, and while it
returns a line, `rio_writen` to the client (whose return value the code
ignores) and the next `ReadLineFromCache`.  `fuel` bounds the number of
rounds. -/
def HandleCachedClientFd.loop (k : Csapp) : Nat → World → ProxyMeta → Int × World × ProxyMeta
  | 0, w, request => (-1, w, request)
  | fuel + 1, w, request =>
    let rd := ReadLineFromCache k w.os request.cache_info k.MAXBUF
    if 0 < rd.1 then
      HandleCachedClientFd.loop k fuel (rio_writen (sock_write request.client_fd) w rd.2.1).2
        { request with cache_info := rd.2.2 }
    else if rd.1 < 0 then (-1, w, { request with cache_info := rd.2.2 })
    else (0, w, { request with cache_info := rd.2.2 })

/-- `HandleCachedClientFd` (with `ENABLE_STATIC_CACHE` set, as it is).  Every
round of its loop consumes at least one byte of the cache file, which bounds
the number of rounds. -/
def HandleCachedClientFd (k : Csapp) (w : World) (request : ProxyMeta) :
    Int × World × ProxyMeta :=
  if IsCacheError request.cache_info = 1 then (-1, w, request)
  else HandleCachedClientFd.loop k (cacheUnread w.os request.cache_info + 1) w request

/-- The loop of `HandleServerFd`, repeated while the read buffer of the origin
holds bytes: the line goes to the cache unless the handle has an error, and to
the client; the return values of both writes are ignored.  `fuel` bounds the
number of rounds. -/
def HandleServerFd.loop (k : Csapp) : Nat → World → ProxyMeta → Int × World × ProxyMeta
  | 0, w, request => (1, w, request)
  | fuel + 1, w, request =>
    let rd := rio_readlineb sock_read k.RIO_BUFSIZE w request.server_rp k.MAXBUF
    if rd.1 < 0 then (-1, rd.2.2.1, { request with server_rp := rd.2.2.2 })
    else if rd.1 = 0 then (0, rd.2.2.1, { request with server_rp := rd.2.2.2 })
    else
      let cached :=
        if IsCacheError request.cache_info = 0 then
          WriteToCache rd.2.2.1.os request.cache_info rd.2.1
        else (0, rd.2.2.1.os, request.cache_info)
      let wr := rio_writen (sock_write request.client_fd)
        { rd.2.2.1 with os := cached.2.1 } rd.2.1
      if 0 < rd.2.2.2.buf.length then
        HandleServerFd.loop k fuel wr.2
          { request with server_rp := rd.2.2.2, cache_info := cached.2.2 }
      else (1, wr.2, { request with server_rp := rd.2.2.2, cache_info := cached.2.2 })

/-- `HandleServerFd`.  Every round of its loop consumes at least one byte of
the origin, which bounds the number of rounds. -/
def HandleServerFd (k : Csapp) (w : World) (request : ProxyMeta) : Int × World × ProxyMeta :=
  HandleServerFd.loop k (unreadServerBytes w request + 1) w request

/-- `close` on the descriptor of a socket. -/
def sys_close (w : World) (fd : Int) : World :=
  { w with socks := w.socks.filter (fun e => e.1 ≠ fd) }

/-- `FreeHttpRequest`: the array of raw lines is released. -/
def FreeHttpRequest (r : HttpRequest) : HttpRequest :=
  { r with origin_lines := [] }

/-- The search of `RmRequestInpool` for the new `max_fd`: from `fd` downwards
to the first member of the read set, -1 when there is none. -/
def RmRequestInpool.scan (read_set : List Int) : Nat → Int → Int
  | 0, fd => fd
  | fuel + 1, fd =>
    if 0 ≤ fd then
      if fd ∈ read_set then fd else RmRequestInpool.scan read_set fuel (fd - 1)
    else fd

/-- `RmRequestInpool` (with `ENABLE_STATIC_CACHE` set), without the counter of
available pools: both sockets are closed, the request and the cache handle are
released, and the bookkeeping of the pool is updated. -/
def RmRequestInpool (w : World) (pool : RequestPool) (index : Nat) : World × RequestPool :=
  match pool.requests[index]? with
  | none => (w, pool)
  | some request =>
    let w1 := if 0 ≤ request.client_fd then sys_close w request.client_fd else w
    let w2 := if 0 ≤ request.server_fd then sys_close w1 request.server_fd else w1
    let freed := FreeCacheInfo w2.os request.cache_info
    let rs1 :=
      if 0 ≤ request.client_fd then pool.read_set.filter (fun fd => fd ≠ request.client_fd)
      else pool.read_set
    let rs2 :=
      if 0 ≤ request.server_fd then rs1.filter (fun fd => fd ≠ request.server_fd) else rs1
    ({ w2 with os := freed.1 },
      { requests := pool.requests.set index
          { request with http_request := FreeHttpRequest request.http_request,
                         cache_info := freed.2 },
        enabled := pool.enabled.set index false,
        req_num := pool.req_num - 1,
        read_set := rs2,
        max_fd :=
          if request.client_fd = pool.max_fd ∨ request.server_fd = pool.max_fd then
            RmRequestInpool.scan rs2 (pool.max_fd.toNat + 1) (pool.max_fd - 1)
          else pool.max_fd })

/-- The handlers `WorkThread` calls for a request whose client descriptor is
ready, one after the other, each on the state the one before has left. -/
def WorkThread.client (k : Csapp) (m : CacheModule) (w : World) (pool : RequestPool)
    (request : ProxyMeta) : Int × World × RequestPool × ProxyMeta :=
  let a :=
    if request.proxy_state = ProxyState.UNCONNECTED then
      HandleUnconnectedClientFd k m w pool request
    else (1, w, pool, request)
  let b :=
    if a.2.2.2.proxy_state = ProxyState.CONNECTED then
      ((HandleConnectedClientFd k a.2.1 a.2.2.2).1, (HandleConnectedClientFd k a.2.1 a.2.2.2).2.1,
        a.2.2.1, (HandleConnectedClientFd k a.2.1 a.2.2.2).2.2)
    else a
  if b.2.2.2.proxy_state = ProxyState.CACHED then
    ((HandleCachedClientFd k b.2.1 b.2.2.2).1, (HandleCachedClientFd k b.2.1 b.2.2.2).2.1,
      b.2.2.1, (HandleCachedClientFd k b.2.1 b.2.2.2).2.2)
  else b

/-- The body of the inner loop of `WorkThread` for the request at `req_ind`;
`ready_set` holds the descriptors `select` has reported. -/
def WorkThread.handle (k : Csapp) (m : CacheModule) (w : World) (pool : RequestPool)
    (ready_set : List Int) (req_ind : Nat) : World × RequestPool :=
  match pool.requests[req_ind]? with
  | none => (w, pool)
  | some request =>
    let c :=
      if 0 ≤ request.client_fd ∧ request.client_fd ∈ ready_set then
        WorkThread.client k m w pool request
      else (1, w, pool, request)
    let pool1 : RequestPool := { c.2.2.1 with requests := c.2.2.1.requests.set req_ind c.2.2.2 }
    let s1 := if c.1 ≤ 0 then RmRequestInpool c.2.1 pool1 req_ind else (c.2.1, pool1)
    if 0 < c.1 ∧ 0 ≤ request.server_fd ∧ request.server_fd ∈ ready_set then
      let r := HandleServerFd k s1.1 c.2.2.2
      let pool2 : RequestPool := { s1.2 with requests := s1.2.requests.set req_ind r.2.2 }
      if r.1 ≤ 0 then RmRequestInpool r.2.1 pool2 req_ind else (r.2.1, pool2)
    else s1

/-- What the last loop of `main` does for one resident request: both sockets
are closed, the request and the cache handle are released. -/
def main.free (w : World) (request : ProxyMeta) : World :=
  let w1 := if 0 ≤ request.client_fd then sys_close w request.client_fd else w
  let w2 := if 0 ≤ request.server_fd then sys_close w1 request.server_fd else w1
  { w2 with os := (FreeCacheInfo w2.os request.cache_info).1 }

/-- The last loop of `main` over one pool: every enabled request is released. -/
def main.freePool (w : World) (pool : RequestPool) : World :=
  (pool.requests.zip pool.enabled).foldl (fun w1 e => if e.2 then main.free w1 e.1 else w1) w

/-- Modelled from the spec: one line of the line reader, the bytes of a
stream up to and including its first newline, at most `n` of them. -/
def takeLine : Nat → List Char → List Char
  | 0, _ => []
  | _ + 1, [] => []
  | n + 1, c :: rest => if c = '\n' then [c] else c :: takeLine n rest

/-- A chunk that is one line of the line reader with room for `n` bytes: it
is not empty, ends at its first newline or is `n` bytes long. -/
def isReaderLine (n : Nat) (c : List Char) : Prop :=
  c ≠ [] ∧ c.length ≤ n ∧ '\n' ∉ c.dropLast ∧ (c.getLast? = some '\n' ∨ c.length = n)

/-- Successive `WriteToCache` calls on one handle, one per chunk: the return
values, the file system and the handle afterwards. -/
def writeChunks : OS → CacheInfo → List (List Char) → List Int × OS × CacheInfo
  | os, ci, [] => ([], os, ci)
  | os, ci, c :: cs =>
    ((WriteToCache os ci c).1 :: (writeChunks (WriteToCache os ci c).2.1
        (WriteToCache os ci c).2.2 cs).1,
      (writeChunks (WriteToCache os ci c).2.1 (WriteToCache os ci c).2.2 cs).2)

/-- `ReadLineFromCache` called until it returns 0 or -1: that last return
value, the lines read before it, and the handle.  `none` when `fuel` calls
did not reach the end. -/
def readCacheLines (k : Csapp) (os : OS) (max_len : Nat) :
    Nat → CacheInfo → Option (Int × List (List Char) × CacheInfo)
  | 0, _ => none
  | fuel + 1, ci =>
    if 0 < (ReadLineFromCache k os ci max_len).1 then
      (readCacheLines k os max_len fuel (ReadLineFromCache k os ci max_len).2.2).map
        (fun x => (x.1, (ReadLineFromCache k os ci max_len).2.1 :: x.2.1, x.2.2))
    else some ((ReadLineFromCache k os ci max_len).1, [], (ReadLineFromCache k os ci max_len).2.2)

/-- A file system is a tree: every node but the root lies in a directory. -/
def OS.WF (os : OS) : Prop :=
  ∀ e ∈ os.files, e.1 ≠ [] → os.node e.1.dropLast = some Node.dir

/-- The components of a path name that name something: all but the empty
ones and `.`. -/
def properNames (comps : List (List Char)) : List (List Char) :=
  comps.filter (fun c => decide (c ≠ [] ∧ c ≠ ['.']))

/-- The resolved path a name without `..` stands for. -/
def OS.lexical (os : OS) (path : List Char) : Path :=
  os.start path ++ properNames (splitPath path)

/-- The file system `os2` differs from `os` at most in the contents of the
file at `p`. -/
def FileStep (os os2 : OS) (p : Path) : Prop :=
  os2.cwd = os.cwd ∧ (∀ q, q ≠ p → os2.node q = os.node q) ∧
    (os2.node p = os.node p ∨
      ∃ d d2, os.node p = some (Node.file d) ∧ os2.node p = some (Node.file d2)) ∧
    (os.WF → os2.WF)

/-- The file system `os2` has grown out of `os`: directories stay, and a file
of `os2` is a file of `os` or lies at `t`. -/
def Grow (os os2 : OS) (t : Path) : Prop :=
  os2.cwd = os.cwd ∧ (∀ q, os.node q = some Node.dir → os2.node q = some Node.dir) ∧
    (∀ q d, os2.node q = some (Node.file d) → q = t ∨ ∃ d0, os.node q = some (Node.file d0)) ∧
    (os.WF → os2.WF)

/-- The descriptor `f` is open for writing at the end of the file that holds
`data`. -/
def Writing (os : OS) (f : Fd) (data : List Char) : Prop :=
  f.writable = true ∧ os.node f.path = some (Node.file data) ∧ f.pos = data.length

/-- The handle `ci` has created its temp file, which is the file at `t` and
holds `data`; the handle writes at its end. -/
def Written (os : OS) (ci : CacheInfo) (t : Path) (data : List Char) : Prop :=
  ci.is_write = true ∧ os.resolve ci.temp_path = some t ∧
    ci.temp_path.getLast? ≠ some '/' ∧
    ∃ f, ci.fd = some f ∧ f.path = t ∧ Writing os f data

/-- The read buffer `rp` reads the file that holds `data`; `rest` are the
bytes it has not handed out yet. -/
def Reading (os : OS) (rp : Rio (Option Fd)) (data rest : List Char) : Prop :=
  ∃ f, rp.rio_fd = some f ∧ f.writable = false ∧ os.node f.path = some (Node.file data) ∧
    rp.buf ++ data.drop f.pos = rest

/-- The handle `ci` reads the published file that holds `data`, or is about
to open it; `rest` are the bytes it has not returned yet. -/
def CacheReading (os : OS) (ci : CacheInfo) (data rest : List Char) : Prop :=
  (ci.is_open = true ∧ Reading os ci.rp data rest) ∨
    (ci.is_open = false ∧ rest = data ∧
      ∃ c, os.resolve ci.cache_path = some c ∧ os.node c = some (Node.file data))

/-- What the one-byte `rio_read` returns on a stream without errors. -/
def nextByte : List Char → RioByte
  | [] => RioByte.eof
  | c :: _ => RioByte.byte c

/-- A handle that is open for writing has its temp file at `t`. -/
def Created (os : OS) (ci : CacheInfo) (t : Path) : Prop :=
  ci.is_write = true → os.resolve ci.temp_path = some t ∧ ∃ d, os.node t = some (Node.file d)

/-- What a writer does with a handle: `WriteToCache` once per chunk, then
`FreeCacheInfo`. -/
def writeAndFree (os : OS) (ci : CacheInfo) (chunks : List (List Char)) : OS × CacheInfo :=
  FreeCacheInfo (writeChunks os ci chunks).2.1 (writeChunks os ci chunks).2.2

/-- The requests a connection can hold: the one `InitHttpRequest` leaves
behind, and what `ParseHttpRequest` makes of such a request, whatever the
buffer and whatever the return code. -/
inductive Reachable (maxbuf : Nat) : HttpRequest → Prop
  | init : Reachable maxbuf InitHttpRequest
  | feed (r : HttpRequest) (buf : List Char) :
      Reachable maxbuf r → Reachable maxbuf (ParseHttpRequest maxbuf r buf).2

/-- Every stored field, with its terminating NUL, fits the array of
`struct HttpRequest` that holds it. -/
def fieldsFit (r : HttpRequest) : Prop :=
  r.method.length < METHOD_LEN ∧ r.url.length < URL_LEN ∧ r.version.length < VER_LEN ∧
    r.host.length < HOST_LEN

/-- The file system `os2` holds everything `os` holds, unchanged. -/
def Extends (os os2 : OS) : Prop :=
  os2.cwd = os.cwd ∧ ∀ q n, os.node q = some n → os2.node q = some n

/-- The world `w2` is `w` after reads and writes on sockets that were open:
the file system and the reachable peers are the same, no socket has appeared
or gone, and every socket is related to what it was by `P`. -/
def WorldStep (P : Sock → Sock → Prop) (w w2 : World) : Prop :=
  w2.os = w.os ∧ w2.peers = w.peers ∧
    (∀ fd s, w.sock fd = some s → ∃ s2, w2.sock fd = some s2 ∧ P s s2) ∧
    (∀ fd, w.sock fd = none → w2.sock fd = none)

/-- What a read leaves of a socket: all but the bytes to come. -/
def readStep (s s2 : Sock) : Prop :=
  s2.tx = s.tx ∧ s2.tx_room = s.tx_room ∧ s2.rx_err = s.rx_err

/-- What a write leaves of a socket: the bytes to come. -/
def writeStep (s s2 : Sock) : Prop :=
  s2.rx = s.rx ∧ s2.rx_err = s.rx_err

/-- What the claim calls a Host header parsed successfully: the call of
`ParseHttpRequest` completes a logical line in the `PARSE_HEADERS` state whose
field name is `Host`, and returns 0. -/
def parsesHost (maxbuf : Nat) (r : HttpRequest) (buf : List Char) : Bool :=
  decide ((ParseHttpRequest maxbuf r buf).1 = 0 ∧ r.parse_state = ParseState.PARSE_HEADERS ∧
    (cstr buf).getLast? = some '\n' ∧
    (totLine (r.origin_lines ++ [⟨cstr buf, true⟩])).takeWhile (fun c => c ≠ ':') =
      ['H', 'o', 's', 't'])

/-- The requests a connection can hold, with the record of whether one of the
calls of `ParseHttpRequest` so far has parsed a Host header successfully. -/
inductive Fed (maxbuf : Nat) : HttpRequest → Bool → Prop
  | init : Fed maxbuf InitHttpRequest false
  | feed (r : HttpRequest) (seen : Bool) (buf : List Char) :
      Fed maxbuf r seen →
        Fed maxbuf (ParseHttpRequest maxbuf r buf).2 (seen || parsesHost maxbuf r buf)

/-- The value of `retval` at the end of the body of the inner loop of
`WorkThread`: what the last handler run for the request has returned, 1 when
none has run. -/
def WorkThread.retval (k : Csapp) (m : CacheModule) (w : World) (pool : RequestPool)
    (ready_set : List Int) (req_ind : Nat) : Int :=
  match pool.requests[req_ind]? with
  | none => 1
  | some request =>
    let c :=
      if 0 ≤ request.client_fd ∧ request.client_fd ∈ ready_set then
        WorkThread.client k m w pool request
      else (1, w, pool, request)
    if 0 < c.1 ∧ 0 ≤ request.server_fd ∧ request.server_fd ∈ ready_set then
      (HandleServerFd k c.2.1 c.2.2.2).1
    else c.1

/-- The lines one invocation of `HandleServerFd` reads from the origin: what
the `rio_readlineb` calls of its loop return, in order. -/
def HandleServerFd.lines (k : Csapp) : Nat → World → ProxyMeta → List (List Char)
  | 0, _, _ => []
  | fuel + 1, w, request =>
    let rd := rio_readlineb sock_read k.RIO_BUFSIZE w request.server_rp k.MAXBUF
    if rd.1 < 0 then []
    else if rd.1 = 0 then []
    else
      let cached :=
        if IsCacheError request.cache_info = 0 then
          WriteToCache rd.2.2.1.os request.cache_info rd.2.1
        else (0, rd.2.2.1.os, request.cache_info)
      let wr := rio_writen (sock_write request.client_fd)
        { rd.2.2.1 with os := cached.2.1 } rd.2.1
      rd.2.1 ::
        (if 0 < rd.2.2.2.buf.length then
          HandleServerFd.lines k fuel wr.2
            { request with server_rp := rd.2.2.2, cache_info := cached.2.2 }
        else [])

/-- What the claim says of the cache: a line goes to `WriteToCache` exactly
when the handle has no error recorded. -/
def cacheIfNoError (st : OS × CacheInfo) (line : List Char) : OS × CacheInfo :=
  if IsCacheError st.2 = 0 then (WriteToCache st.1 st.2 line).2 else st

/-- The search of `AddRequestToPool` for a slot: the index of the first entry
of `enabled` that is not set, counted from `i`. -/
def AddRequestToPool.slot : List Bool → Nat → Option Nat
  | [], _ => none
  | e :: rest, i => if e then AddRequestToPool.slot rest (i + 1) else some i

/-- What `AddRequestToPool` stores in the slot it has found.  `server_rp` and
`cache_info` keep what the slot held.  `InitHttpRequest` is taken to succeed
(the code ends the process when it does not). -/
def AddRequestToPool.init (old : ProxyMeta) (client_fd : Int) (hostname port : List Char) :
    ProxyMeta :=
  { old with client_fd := client_fd, server_fd := -1, client_rp := rio_readinitb client_fd,
             src_host := (cstr hostname).take (HOST_LEN - 1),
             src_port := (cstr port).take (HOST_LEN - 1),
             proxy_state := ProxyState.UNCONNECTED, http_request := InitHttpRequest }

/-- `AddRequestToPool`, with the counter `avail_pools` of the pools that are
not full: the return value (1 on success, 0 when the pool is full), the pool
and the counter afterwards. -/
def AddRequestToPool (pool : RequestPool) (avail_pools : Int) (client_fd : Int)
    (hostname port : List Char) : Int × RequestPool × Int :=
  if (MAX_REQ : Int) ≤ pool.req_num then (0, pool, avail_pools)
  else
    let pool1 : RequestPool :=
      match AddRequestToPool.slot (pool.enabled.take MAX_REQ) 0 with
      | none => pool
      | some i =>
        match pool.requests[i]? with
        | none => { pool with enabled := pool.enabled.set i true }
        | some old =>
          { pool with
            requests := pool.requests.set i (AddRequestToPool.init old client_fd hostname port),
            enabled := pool.enabled.set i true }
    (1,
      { pool1 with read_set := client_fd :: pool1.read_set,
                   max_fd := if pool1.max_fd < client_fd then client_fd else pool1.max_fd,
                   req_num := pool1.req_num + 1 },
      if pool1.req_num + 1 = (MAX_REQ : Int) then avail_pools - 1 else avail_pools)

/-- The part of `RmRequestInpool` the model above leaves out: the counter
`avail_pools` after the removal of a request from `pool`. -/
def RmRequestInpool.avail (pool : RequestPool) (avail_pools : Int) : Int :=
  if pool.req_num - 1 = (MAX_REQ : Int) - 1 then avail_pools + 1 else avail_pools

/-- `InitRequestPool`. -/
def InitRequestPool (pool : RequestPool) : RequestPool :=
  { pool with enabled := List.replicate MAX_REQ false, req_num := 0, read_set := [],
              max_fd := -1 }

/-- A slot of the static array `request_pools` before the program has stored
anything in it: all bytes zero. -/
def zeroRequest : ProxyMeta :=
  { client_fd := 0, server_fd := 0, client_rp := rio_readinitb 0, server_rp := rio_readinitb 0,
    src_host := [], src_port := [], proxy_state := ProxyState.UNCONNECTED,
    http_request :=
      { method := [], url := [], version := [], proxy_url := none, host := [],
        origin_lines := [], line_num := 0, parse_state := ParseState.PARSE_LINE },
    cache_info :=
      { is_open := false, is_write := false, fd := none, rp := rio_readinitb none,
        cache_path := [], temp_path := [], error_msg := [] } }

/-- The global state of the admission: the pools, the counter of the pools
that are not full, and the static variable `next_worker` of
`HandleConnection`. -/
structure Proxy where
  request_pools : List RequestPool
  avail_pools : Int
  next_worker : Nat

/-- The global state when `main` starts to accept connections. -/
def Proxy.start : Proxy :=
  { request_pools :=
      List.replicate NTHREAD
        (InitRequestPool
          { requests := List.replicate MAX_REQ zeroRequest, enabled := List.replicate MAX_REQ false,
            req_num := 0, read_set := [], max_fd := 0 }),
    avail_pools := NTHREAD, next_worker := 0 }

/-- The loop of `HandleConnection` over the pools: `n` iterations are left,
`i` is the loop variable. -/
def HandleConnection.place (connfd : Int) (hostname port : List Char) :
    Nat → Nat → Proxy → Proxy
  | 0, _, st => st
  | n + 1, i, st =>
    let worker_id := (st.next_worker + i) % NTHREAD
    match st.request_pools[worker_id]? with
    | none => HandleConnection.place connfd hostname port n (i + 1) st
    | some pool =>
      let r := AddRequestToPool pool st.avail_pools connfd hostname port
      if r.1 ≠ 0 then
        { request_pools := st.request_pools.set worker_id r.2.1, avail_pools := r.2.2,
          next_worker := (worker_id + 1) % NTHREAD }
      else HandleConnection.place connfd hostname port n (i + 1) st

/-- `HandleConnection`.  `exit_flag` is what `TestExitFlag` returns when the
wait for a pool that is not full ends; `none` stands for the call that is
still waiting. -/
def HandleConnection (w : World) (st : Proxy) (exit_flag : Bool) (connfd : Int)
    (hostname port : List Char) : Option (World × Proxy) :=
  if !exit_flag ∧ st.avail_pools ≤ 0 then none
  else if exit_flag then some (sys_close w connfd, st)
  else some (w, HandleConnection.place connfd hostname port NTHREAD 0 st)

/-- What a worker does to the global state in one pass of the body of its
inner loop for the request at `req_ind` of its pool `worker_id`: the pass
itself, and the counter, which `RmRequestInpool` updates when it runs. -/
def WorkThread.step (k : Csapp) (m : CacheModule) (w : World) (st : Proxy) (worker_id : Nat)
    (ready_set : List Int) (req_ind : Nat) : World × Proxy :=
  match st.request_pools[worker_id]? with
  | none => (w, st)
  | some pool =>
    ((WorkThread.handle k m w pool ready_set req_ind).1,
      { st with
        request_pools :=
          st.request_pools.set worker_id (WorkThread.handle k m w pool ready_set req_ind).2,
        avail_pools :=
          if WorkThread.retval k m w pool ready_set req_ind ≤ 0 then
            RmRequestInpool.avail pool st.avail_pools
          else st.avail_pools })

/-- The states a connection goes through while it is in a pool: the one
`AddRequestToPool` stores, and what the handlers the worker runs on it leave
while they return a positive value (any other return ends the connection). -/
inductive Lifetime (k : Csapp) (m : CacheModule) : ProxyMeta → Prop
  | admitted (old : ProxyMeta) (client_fd : Int) (hostname port : List Char) :
      Lifetime k m (AddRequestToPool.init old client_fd hostname port)
  | client (w : World) (pool : RequestPool) (r : ProxyMeta) :
      Lifetime k m r → 0 < (WorkThread.client k m w pool r).1 →
        Lifetime k m (WorkThread.client k m w pool r).2.2.2
  | server (w : World) (r : ProxyMeta) :
      Lifetime k m r → 0 < (HandleServerFd k w r).1 → Lifetime k m (HandleServerFd k w r).2.2

/-- The global states the admission reaches from `Proxy.start` while no
request is removed: `Admitted n st` when `n` calls of `HandleConnection` have
returned and `st` is the state the last one has left. -/
inductive Admitted : Nat → Proxy → Prop
  | start : Admitted 0 Proxy.start
  | conn (n : Nat) (st : Proxy) (w : World) (connfd : Int) (hostname port : List Char)
      (w2 : World) (st2 : Proxy) :
      Admitted n st →
      HandleConnection w st false connfd hostname port = some (w2, st2) →
      Admitted (n + 1) st2

/-- The global states the program reaches: from `Proxy.start` by the calls
of `HandleConnection` that return and by the passes of the workers over
requests that are enabled. -/
inductive Running (k : Csapp) (m : CacheModule) : Proxy → Prop
  | start : Running k m Proxy.start
  | conn (st : Proxy) (w : World) (exit_flag : Bool) (connfd : Int)
      (hostname port : List Char) (w2 : World) (st2 : Proxy) :
      Running k m st →
      HandleConnection w st exit_flag connfd hostname port = some (w2, st2) →
      Running k m st2
  | work (st : Proxy) (w : World) (worker_id : Nat) (pool : RequestPool)
      (ready_set : List Int) (req_ind : Nat) :
      Running k m st →
      st.request_pools[worker_id]? = some pool →
      pool.enabled[req_ind]? = some true →
      Running k m (WorkThread.step k m w st worker_id ready_set req_ind).2

/-- The descriptor `fd` is live in `pool`: it is not negative and is the
client or the origin descriptor of an enabled slot. -/
def RequestPool.Live (pool : RequestPool) (fd : Int) : Prop :=
  0 ≤ fd ∧ ∃ (i : Nat) (request : ProxyMeta), pool.enabled[i]? = some true ∧ pool.requests[i]? = some request ∧
    (fd = request.client_fd ∨ fd = request.server_fd)

/-- The bookkeeping of `pool` is consistent: the read set holds exactly the
live descriptors, `req_num` is the number of the enabled slots and at most
`MAX_REQ`, and `max_fd` is the largest member of the read set, -1 when the
read set is empty. -/
def RequestPool.Consistent (pool : RequestPool) : Prop :=
  (∀ fd, fd ∈ pool.read_set ↔ pool.Live fd) ∧
    pool.req_num = (pool.enabled.count true : Nat) ∧ pool.req_num ≤ (MAX_REQ : Int) ∧
    (∀ fd ∈ pool.read_set, fd ≤ pool.max_fd) ∧
    (pool.max_fd ∈ pool.read_set ∨ (pool.read_set = [] ∧ pool.max_fd = -1))

/-- The shape of the slots of a pool: both arrays have `MAX_REQ` entries, and
an enabled slot holds the descriptor of an accepted connection. -/
def RequestPool.Shaped (pool : RequestPool) : Prop :=
  pool.requests.length = MAX_REQ ∧ pool.enabled.length = MAX_REQ ∧
    ∀ (i : Nat) (request : ProxyMeta), pool.enabled[i]? = some true →
      pool.requests[i]? = some request →
      0 ≤ request.client_fd

/-- The live descriptors of two enabled slots of `pool` are distinct. -/
def RequestPool.Distinct (pool : RequestPool) : Prop :=
  ∀ (i j : Nat) (ri rj : ProxyMeta), i ≠ j → pool.enabled[i]? = some true → pool.enabled[j]? = some true →
    pool.requests[i]? = some ri → pool.requests[j]? = some rj →
    ∀ fd : Int, 0 ≤ fd → (fd = ri.client_fd ∨ fd = ri.server_fd) →
      ¬ (fd = rj.client_fd ∨ fd = rj.server_fd)

/-- The request `r` with its raw-line buffer replaced. -/
def withBuf (r : HttpRequest) (lines : List ReadLine) (cap : Nat) : HttpRequest :=
  { r with origin_lines := lines, line_num := cap }

/-- The capacity of `origin_lines` is one of the sizes the doubling reaches
and covers the entries in use. -/
def bufOk (r : HttpRequest) : Prop :=
  (r.line_num = 8 ∨ r.line_num = 16 ∨ r.line_num = 32) ∧ r.cur_line ≤ r.line_num

/-- The request line of the scenario of the specification. -/
def exampleRequestLine : List Char := "GET http://example.com/a HTTP/1.1\r\n".toList

/-- The Host header of the scenario of the specification. -/
def exampleHostLine : List Char := "Host: example.com\r\n".toList

/-- A request that has received the example request line and 31 further
complete header lines: its raw-line buffer holds 32 entries. -/
def requestWith32Lines : HttpRequest :=
  (feedLines 8192 InitHttpRequest
    (exampleRequestLine :: List.replicate 31 "Accept: */*\r\n".toList)).2

/-- A request that has received the example request line and the first,
unterminated part of another header line. -/
def requestWithPendingFragment : HttpRequest :=
  (feedLines 8192 InitHttpRequest [exampleRequestLine, "X-Trace: 1".toList]).2

/-- The sizes of the CS:APP header. -/
def csapp8192 : Csapp := { MAXBUF := 8192, RIO_BUFSIZE := 8192 }

/-- The cache directories of a proxy installed as `/srv/proxy`. -/
def scenarioModule : CacheModule := InitCacheModule.dirs "/srv/proxy".toList

/-- A file system as `InitCacheModule` leaves it: two empty directories. -/
def scenarioOS : OS :=
  { files := [(["srv".toList], Node.dir), (["srv".toList, ".cache".toList], Node.dir),
      (["srv".toList, ".tmp".toList], Node.dir)],
    cwd := [], free := 1000000 }

/-- An origin that accepts everything and sends nothing. -/
def scenarioOrigin : Sock := { rx := [], rx_err := false, tx := [], tx_room := none }

/-- `example.com:80` is the only origin that can be reached. -/
def scenarioPeers (host port : List Char) : Option Sock :=
  if host = "example.com".toList ∧ port = "80".toList then some scenarioOrigin else none

/-- A world in which the client on descriptor 4 has sent `bytes` in one piece. -/
def worldWithClient (bytes : List Char) : World :=
  World.mk scenarioOS [(4, { rx := [bytes], rx_err := false, tx := [], tx_room := none })]
    scenarioPeers

/-- A handle no function has filled in yet. -/
def blankCacheInfo : CacheInfo :=
  { is_open := false, is_write := false, fd := none, rp := rio_readinitb none,
    cache_path := [], temp_path := [], error_msg := [] }

/-- The connection on descriptor 4 as `AddRequestToPool` sets it up. -/
def scenarioRequest : ProxyMeta :=
  { client_fd := 4, server_fd := -1, client_rp := rio_readinitb 4,
    server_rp := rio_readinitb (-1), src_host := "10.0.0.1".toList, src_port := "5000".toList,
    proxy_state := ProxyState.UNCONNECTED, http_request := InitHttpRequest,
    cache_info := blankCacheInfo }

/-- The bookkeeping of a pool that holds only that connection. -/
def scenarioPool : RequestPool :=
  { requests := [scenarioRequest], enabled := [true], req_num := 1, read_set := [4],
    max_fd := 4 }

/-- The request of the scenario of the specification. -/
def scenarioBytes : List Char :=
  "GET http://example.com/a HTTP/1.1\r\nHost: example.com\r\n\r\n".toList

/-- The same request with two spaces after the method and a bare LF at the
end of the request line. -/
def looseRequestBytes : List Char :=
  "GET  http://example.com/a HTTP/1.1\nHost: example.com\r\n\r\n".toList

/-- The handle of the key with host `example.com` and path `/../../a`. -/
def traversalHandle : CacheInfo :=
  (CreateCacheInfo scenarioModule "example.com".toList "/../../a".toList).2

/-- The handle of the key with host `example.com` and path `/../x`. -/
def siblingHandle : CacheInfo :=
  (CreateCacheInfo scenarioModule "example.com".toList "/../x".toList).2

/-- A file system whose cache holds one entry, for the key with host `x` and
an empty path, and that has room for three more bytes. -/
def fullDiskOS : OS :=
  { files := [(["srv".toList], Node.dir), (["srv".toList, ".cache".toList], Node.dir),
      (["srv".toList, ".tmp".toList], Node.dir),
      (["srv".toList, ".cache".toList, "x".toList], Node.file "old".toList)],
    cwd := [], free := 3 }

/-- A file system on which another handle is writing the entry of the key
with host `example.com` and path `/a`: its temp file holds the first line of
the response. -/
def busyTempOS : OS :=
  { files := [(["srv".toList], Node.dir), (["srv".toList, ".cache".toList], Node.dir),
      (["srv".toList, ".tmp".toList], Node.dir),
      (["srv".toList, ".tmp".toList, "example.com".toList], Node.dir),
      (["srv".toList, ".tmp".toList, "example.com".toList, "a".toList],
        Node.file "HTTP/1.0 200 OK\r\n".toList)],
    cwd := [], free := 1000000 }

/-- A request whose URL has no path: two slashes only. -/
def shortUrlBytes : List Char :=
  "GET http://example.com HTTP/1.1\r\nHost: example.com\r\n\r\n".toList

/-- The request of the scenario with the port written out in the Host value. -/
def portRequestBytes : List Char :=
  "GET http://example.com:80/a HTTP/1.1\r\nHost: example.com:80\r\n\r\n".toList

/-- A header line of 9000 bytes: the name `X-Pad`, a value of 8991 bytes, CR LF. -/
def longHeaderLine : List Char :=
  "X-Pad: ".toList ++ (List.replicate 8991 'a' ++ "\r\n".toList)

/-- A world in which the client on descriptor 4 has sent the example request
line and then the header line of 9000 bytes. -/
def longLineWorld : World := worldWithClient (exampleRequestLine ++ longHeaderLine)

/-- The part of the long header line that arrives with the request line in
the first `read` of 8192 bytes. -/
def longLineHead : List Char := "X-Pad: ".toList ++ List.replicate 8150 'a'

/-- The next 34 bytes of the long header line: with them the line buffer of
8192 bytes is full. -/
def longLineMid : List Char := List.replicate 34 'a'

/-- The last 809 bytes of the long header line. -/
def longLineTail : List Char := List.replicate 807 'a' ++ "\r\n".toList

/-- The request of a connection that has received the example request line. -/
def requestAfterLine : HttpRequest :=
  (ParseHttpRequest 8192 InitHttpRequest exampleRequestLine).2

/-- A file system whose cache holds a published entry for the key with host
`example.com` and path `/a`. -/
def publishedOS : OS :=
  { files := [(["srv".toList], Node.dir), (["srv".toList, ".cache".toList], Node.dir),
      (["srv".toList, ".tmp".toList], Node.dir),
      (["srv".toList, ".cache".toList, "example.com".toList], Node.dir),
      (["srv".toList, ".cache".toList, "example.com".toList, "a".toList],
        Node.file "HTTP/1.0 200 OK\r\nContent-Length: 5\r\n\r\nhello".toList)],
    cwd := [], free := 1000000 }

/-- A world with that file system in which the client on descriptor 4 has sent
the request of the scenario. -/
def cachedWorld : World :=
  World.mk publishedOS
    [(4, { rx := [scenarioBytes], rx_err := false, tx := [], tx_room := none })] scenarioPeers

/-- An origin that sends the status line of its response, and the rest of the
response in a second segment. -/
def partialOrigin : Sock :=
  { rx := ["HTTP/1.0 200 OK\r\n".toList, "Content-Length: 5\r\n\r\nhello".toList],
    rx_err := false, tx := [], tx_room := none }

/-- `example.com:80` is that origin. -/
def partialPeers (host port : List Char) : Option Sock :=
  if host = "example.com".toList ∧ port = "80".toList then some partialOrigin else none

/-- A world in which the client on descriptor 4 has sent the request of the
scenario and then closes. -/
def partialWorld : World :=
  World.mk scenarioOS
    [(4, { rx := [scenarioBytes], rx_err := false, tx := [], tx_room := none })] partialPeers

/-- The client descriptor is ready: the request is read and forwarded. -/
def partialStep1 : World × RequestPool :=
  WorkThread.handle csapp8192 scenarioModule partialWorld scenarioPool [4] 0

/-- The origin descriptor is ready: the status line is relayed and cached. -/
def partialStep2 : World × RequestPool :=
  WorkThread.handle csapp8192 scenarioModule partialStep1.1 partialStep1.2 [0] 0

/-- The client descriptor is ready again: the client has closed. -/
def partialStep3 : World × RequestPool :=
  WorkThread.handle csapp8192 scenarioModule partialStep2.1 partialStep2.2 [4] 0

/-- A file system as `InitCacheModule` leaves it, with a file of the
installation beside the cache directories: `/srv/secret`. -/
def secretOS : OS :=
  { files := [(["srv".toList], Node.dir), (["srv".toList, ".cache".toList], Node.dir),
      (["srv".toList, ".tmp".toList], Node.dir),
      (["srv".toList, "secret".toList], Node.file "top secret\n".toList)],
    cwd := [], free := 1000000 }

/-- A request whose Host header is `..`. -/
def dotdotRequestBytes : List Char :=
  "GET http://../secret HTTP/1.1\r\nHost: ..\r\n\r\n".toList

/-- A world with that file system in which the client on descriptor 4 has sent
that request. -/
def dotdotWorld : World :=
  World.mk secretOS
    [(4, { rx := [dotdotRequestBytes], rx_err := false, tx := [], tx_room := none })]
    scenarioPeers

/-- A world in which the client on descriptor 4 has sent the first 27 bytes of
its request line; the rest of the line comes with a later segment. -/
def partialLineWorld : World :=
  World.mk scenarioOS
    [(4, { rx := ["GET http://example.com/a HT".toList, "TP/1.1\r\n".toList],
           rx_err := false, tx := [], tx_room := none })] scenarioPeers

/-- A world in which the client on descriptor 4 has sent its request line and
its Host header; the empty line that ends the request comes with a later
segment. -/
def headersOnlyWorld : World :=
  World.mk scenarioOS
    [(4, { rx := ["GET http://example.com/a HTTP/1.1\r\nHost: example.com\r\n".toList,
                  "\r\n".toList],
           rx_err := false, tx := [], tx_room := none })] scenarioPeers

/-- The global state after the first connection of the scenario, on
descriptor 4, has been admitted. -/
def firstAdmitted : Proxy :=
  HandleConnection.place 4 "10.0.0.1".toList "5000".toList NTHREAD 0 Proxy.start

/-- A pool as `InitRequestPool` leaves it. -/
def emptyPool : RequestPool :=
  InitRequestPool
    { requests := List.replicate MAX_REQ zeroRequest, enabled := List.replicate MAX_REQ false,
      req_num := 0, read_set := [], max_fd := 0 }

/-- That pool after the connection on descriptor 4 has been added. -/
def onePool : RequestPool :=
  (AddRequestToPool emptyPool 4 4 "10.0.0.1".toList "5000".toList).2.1

/-! ## Theorems: parser -/

theorem cstr_eq_self {s : List Char} (h : '\x00' ∉ s) : cstr s = s := by
  unfold cstr
  rw [List.takeWhile_eq_self_iff]
  intro c hc
  have : c ≠ '\x00' := fun e => h (e ▸ hc)
  simpa using this

theorem getProxyUrl_withBuf (r : HttpRequest) (ol : List ReadLine) (ln : Nat) :
    GetProxyUrl (withBuf r ol ln) = withBuf (GetProxyUrl r) ol ln := rfl

theorem scan_withBuf (ol : List ReadLine) (ln : Nat) (l : List Char) :
    ∀ (r : HttpRequest) (tok : List Char) (cnt : Nat),
      ParseRequestLine.scan (withBuf r ol ln) tok cnt l =
        ((ParseRequestLine.scan r tok cnt l).1,
          withBuf (ParseRequestLine.scan r tok cnt l).2 ol ln) := by
  induction l with
  | nil => intro r tok cnt; rfl
  | cons c rest ih =>
    intro r tok cnt
    simp only [ParseRequestLine.scan]
    split_ifs
    · rfl
    · exact ih { r with method := tok } [] 1
    · rfl
    · exact ih (GetProxyUrl { r with url := tok }) [] 2
    · rfl
    · rfl
    · exact ih r [] cnt
    · exact ih r [] cnt
    · exact ih r (tok ++ [c]) cnt

theorem addLine_ok (maxbuf : Nat) (r : HttpRequest) (f : List Char)
    (hok : bufOk r) (hroom : r.cur_line < 32) (hnul : '\x00' ∉ f) (hne : f ≠ [])
    (hlen : f.length < maxbuf) :
    ∃ ln, AddLineToHttpRequest maxbuf r f =
        (0, withBuf r (r.origin_lines ++ [⟨f, decide (f.getLast? = some '\n')⟩]) ln) ∧
      (ln = 8 ∨ ln = 16 ∨ ln = 32) ∧ r.cur_line + 1 ≤ ln := by
  obtain ⟨hcap, hle⟩ := hok
  have hpos : 0 < f.length := List.length_pos.mpr hne
  have hmin : min f.length maxbuf = f.length := Nat.min_eq_left (Nat.le_of_lt hlen)
  unfold AddLineToHttpRequest
  simp only [cstr_eq_self hnul, hmin]
  rw [if_neg (Nat.ne_of_lt hlen), if_neg (Nat.ne_of_gt hpos)]
  by_cases hc : r.cur_line = r.line_num
  · have hlt : r.line_num < 32 := hc ▸ hroom
    rw [if_pos hc, if_neg (Nat.not_le.mpr hlt)]
    refine ⟨r.line_num * 2, rfl, ?_, ?_⟩ <;> omega
  · rw [if_neg hc]
    refine ⟨r.line_num, rfl, hcap, ?_⟩
    omega

theorem parse_unfinished (maxbuf : Nat) (r : HttpRequest) (f : List Char)
    (hok : bufOk r) (hroom : r.cur_line < 32) (hnul : '\x00' ∉ f) (hne : f ≠ [])
    (hlen : f.length < maxbuf) (hunf : f.getLast? ≠ some '\n') :
    ∃ ln, ParseHttpRequest maxbuf r f =
        (0, withBuf r (r.origin_lines ++ [⟨f, false⟩]) ln) ∧
      (ln = 8 ∨ ln = 16 ∨ ln = 32) ∧ r.cur_line + 1 ≤ ln := by
  obtain ⟨ln, hadd, hcap, hle⟩ := addLine_ok maxbuf r f hok hroom hnul hne hlen
  refine ⟨ln, ?_, hcap, hle⟩
  unfold ParseHttpRequest
  simp [hadd, withBuf, hunf]

theorem parse_finished (maxbuf : Nat) (r : HttpRequest) (f : List Char)
    (hok : bufOk r) (hroom : r.cur_line < 32) (hnul : '\x00' ∉ f) (hne : f ≠ [])
    (hlen : f.length < maxbuf) (hfin : f.getLast? = some '\n') :
    ∃ ln, ParseHttpRequest maxbuf r f =
        (match r.parse_state with
         | ParseState.PARSE_LINE =>
           ParseRequestLine (withBuf r (r.origin_lines ++ [⟨f, true⟩]) ln)
             (totLine (r.origin_lines ++ [⟨f, true⟩]))
         | ParseState.PARSE_HEADERS =>
           ParseHeaders (withBuf r (r.origin_lines ++ [⟨f, true⟩]) ln)
             (totLine (r.origin_lines ++ [⟨f, true⟩]))
         | ParseState.PARSE_DATA =>
           (0, withBuf r (r.origin_lines ++ [⟨f, true⟩]) ln)) ∧
      (ln = 8 ∨ ln = 16 ∨ ln = 32) ∧ r.cur_line + 1 ≤ ln := by
  obtain ⟨ln, hadd, hcap, hle⟩ := addLine_ok maxbuf r f hok hroom hnul hne hlen
  refine ⟨ln, ?_, hcap, hle⟩
  unfold ParseHttpRequest
  simp [hadd, withBuf, hfin]

theorem withBuf_withBuf (r : HttpRequest) (a b : List ReadLine) (m n : Nat) :
    withBuf (withBuf r a m) b n = withBuf r b n := rfl

theorem feed_unfinished (maxbuf : Nat) :
    ∀ (fs : List (List Char)) (r : HttpRequest), bufOk r →
      r.cur_line + fs.length ≤ 32 →
      (∀ f ∈ fs, '\x00' ∉ f ∧ f ≠ [] ∧ f.length < maxbuf ∧ f.getLast? ≠ some '\n') →
      ∃ ln, feedLines maxbuf r fs =
          (0, withBuf r (r.origin_lines ++ fs.map (fun f => ⟨f, false⟩)) ln) ∧
        (ln = 8 ∨ ln = 16 ∨ ln = 32) ∧ r.cur_line + fs.length ≤ ln := by
  intro fs
  induction fs with
  | nil =>
    intro r hok _ _
    refine ⟨r.line_num, ?_, hok.1, ?_⟩
    · simp [feedLines, withBuf]
    · simpa using hok.2
  | cons f fs ih =>
    intro r hok hroom hall
    obtain ⟨hnul, hne, hlen, hunf⟩ := hall f (List.mem_cons_self _ _)
    have hroom1 : r.cur_line < 32 := by simp at hroom; omega
    obtain ⟨ln, hp, hcap, hle⟩ := parse_unfinished maxbuf r f hok hroom1 hnul hne hlen hunf
    have hok2 : bufOk (withBuf r (r.origin_lines ++ [⟨f, false⟩]) ln) := by
      refine ⟨hcap, ?_⟩
      simpa [withBuf, HttpRequest.cur_line] using hle
    have hcur : (withBuf r (r.origin_lines ++ [⟨f, false⟩]) ln).cur_line = r.cur_line + 1 := by
      simp [withBuf, HttpRequest.cur_line]
    obtain ⟨ln2, hfeed, hcap2, hle2⟩ := ih _ hok2
      (by rw [hcur]; simp at hroom; omega)
      (fun g hg => hall g (List.mem_cons_of_mem _ hg))
    refine ⟨ln2, ?_, hcap2, ?_⟩
    · simp only [feedLines, hp, if_true]
      rw [hfeed]
      simp [withBuf]
    · rw [hcur] at hle2
      simp
      omega

theorem pendingBefore_all_unfinished (fs : List (List Char)) (x : ReadLine) :
    pendingBefore (fs.map (fun f => (⟨f, false⟩ : ReadLine)) ++ [x]) =
      fs.map (fun f => ⟨f, false⟩) := by
  unfold pendingBefore
  rw [List.dropLast_concat]
  have h : (fs.map (fun f => (⟨f, false⟩ : ReadLine))).reverse.takeWhile
      (fun l => !l.line_finish) = (fs.map (fun f => (⟨f, false⟩ : ReadLine))).reverse := by
    rw [List.takeWhile_eq_self_iff]
    intro l hl
    simp at hl
    obtain ⟨f, _, rfl⟩ := hl
    rfl
  rw [h, List.reverse_reverse]

theorem totLine_all_unfinished (fs : List (List Char)) (last : List Char) (b : Bool) :
    totLine (fs.map (fun f => (⟨f, false⟩ : ReadLine)) ++ [⟨last, b⟩]) =
      fs.flatten ++ last := by
  unfold totLine
  rw [pendingBefore_all_unfinished]
  simp [List.map_map, Function.comp_def]

theorem pendingBefore_after_finished (pre : List ReadLine) (p x : ReadLine)
    (hp : p.line_finish = true) : pendingBefore (pre ++ [p] ++ [x]) = [] := by
  unfold pendingBefore
  rw [List.dropLast_concat]
  simp [hp]

theorem totLine_after_finished (pre : List ReadLine) (p x : ReadLine)
    (hp : p.line_finish = true) : totLine (pre ++ [p] ++ [x]) = x.line := by
  unfold totLine
  rw [pendingBefore_after_finished pre p x hp]
  simp

theorem totLine_single (x : ReadLine) : totLine [x] = x.line := by
  simp [totLine, pendingBefore]

theorem feedLines_single (maxbuf : Nat) (r : HttpRequest) (l : List Char) :
    feedLines maxbuf r [l] = ParseHttpRequest maxbuf r l := by
  simp only [feedLines]
  split_ifs with h
  · exact Prod.ext h.symm rfl
  · rfl

theorem feedLines_append (maxbuf : Nat) (b : List (List Char)) :
    ∀ (a : List (List Char)) (r : HttpRequest),
      feedLines maxbuf r (a ++ b) =
        if (feedLines maxbuf r a).1 = 0 then feedLines maxbuf (feedLines maxbuf r a).2 b
        else feedLines maxbuf r a := by
  intro a
  induction a with
  | nil => intro r; simp [feedLines]
  | cons l ls ih =>
    intro r
    simp only [List.cons_append, feedLines]
    by_cases h : (ParseHttpRequest maxbuf r l).1 = 0
    · simp only [h, if_true]
      exact ih _
    · simp [h]

theorem length_le_of_mem_flatten {f : List Char} {frags : List (List Char)}
    (h : f ∈ frags) : f.length ≤ frags.flatten.length := by
  obtain ⟨a, b, rfl⟩ := List.append_of_mem h
  simp
  omega

theorem getLast?_mem {c : Char} {l : List Char} (h : l.getLast? = some c) : c ∈ l :=
  List.mem_of_getLast?_eq_some h

theorem initHttpRequest_bufOk : bufOk InitHttpRequest := by
  refine ⟨Or.inl rfl, ?_⟩
  simp [InitHttpRequest, HttpRequest.cur_line]

/-- Feeding a single terminated logical line, cut into at most 32 fragments,
to a fresh request: the last call runs `ParseRequestLine` on the whole line,
and only the raw-line buffer remembers the cut. -/
theorem feed_fragments_fresh (maxbuf : Nat) (line : List Char) (frags : List (List Char))
    (hnul : '\x00' ∉ line) (hlen : line.length < maxbuf)
    (hlast : line.getLast? = some '\n') (hnl : '\n' ∉ line.dropLast)
    (hcut : frags.flatten = line) (hne : ∀ f ∈ frags, f ≠ [])
    (hN : frags.length ≤ MAX_PARSE_LINES) :
    ∃ ol ln, feedLines maxbuf InitHttpRequest frags =
      ((ParseRequestLine InitHttpRequest line).1,
        withBuf (ParseRequestLine InitHttpRequest line).2 ol ln) := by
  have hfr : frags ≠ [] := by
    rintro rfl
    simp at hcut
    subst hcut
    simp at hlast
  obtain ⟨ini, lastf, rfl⟩ : ∃ ini lastf, frags = ini ++ [lastf] :=
    ⟨frags.dropLast, frags.getLast hfr, (List.dropLast_append_getLast hfr).symm⟩
  have hlne : lastf ≠ [] := hne lastf (by simp)
  have hline : line = ini.flatten ++ lastf := by simpa using hcut.symm
  have hlastf : lastf.getLast? = some '\n' := by
    rw [hline, List.getLast?_append_of_ne_nil _ hlne] at hlast
    exact hlast
  have hdl : line.dropLast = ini.flatten ++ lastf.dropLast := by
    rw [hline, List.dropLast_append_of_ne_nil _ hlne]
  have hmemline : ∀ f ∈ ini ++ [lastf], ∀ c ∈ f, c ∈ line := by
    intro f hf c hc
    rw [← hcut]
    exact List.mem_flatten.mpr ⟨f, hf, hc⟩
  have hfl : ∀ f ∈ ini ++ [lastf], f.length < maxbuf := by
    intro f hf
    have := length_le_of_mem_flatten hf
    rw [hcut] at this
    omega
  have hall : ∀ f ∈ ini, '\x00' ∉ f ∧ f ≠ [] ∧ f.length < maxbuf ∧
      f.getLast? ≠ some '\n' := by
    intro f hf
    have hf2 : f ∈ ini ++ [lastf] := List.mem_append_left _ hf
    refine ⟨fun h => hnul (hmemline f hf2 _ h), hne f hf2, hfl f hf2, ?_⟩
    intro hg
    apply hnl
    rw [hdl]
    exact List.mem_append_left _ (List.mem_flatten.mpr ⟨f, hf, getLast?_mem hg⟩)
  have hN1 : ini.length + 1 ≤ 32 := by
    have h := hN
    simp only [List.length_append, List.length_singleton] at h
    exact h
  have hlenN : InitHttpRequest.cur_line + ini.length ≤ 32 := by
    simp [InitHttpRequest, HttpRequest.cur_line]
    omega
  obtain ⟨ln, hfeed, hcap, hle⟩ :=
    feed_unfinished maxbuf ini InitHttpRequest initHttpRequest_bufOk hlenN hall
  have hok2 : bufOk (withBuf InitHttpRequest
      (InitHttpRequest.origin_lines ++ ini.map (fun f => ⟨f, false⟩)) ln) := by
    refine ⟨hcap, ?_⟩
    simpa [withBuf, HttpRequest.cur_line, InitHttpRequest] using hle
  have hroom2 : (withBuf InitHttpRequest
      (InitHttpRequest.origin_lines ++ ini.map (fun f => ⟨f, false⟩)) ln).cur_line < 32 := by
    simp [withBuf, HttpRequest.cur_line, InitHttpRequest]
    omega
  obtain ⟨ln2, hp, -, -⟩ := parse_finished maxbuf _ lastf hok2 hroom2
    (fun h => hnul (hmemline lastf (by simp) _ h)) hlne (hfl lastf (by simp)) hlastf
  refine ⟨ini.map (fun f => ⟨f, false⟩) ++ [⟨lastf, true⟩], ln2, ?_⟩
  rw [feedLines_append, hfeed]
  simp only [if_true, feedLines_single]
  rw [hp]
  have hst : (withBuf InitHttpRequest
      (InitHttpRequest.origin_lines ++ ini.map (fun f => ⟨f, false⟩)) ln).parse_state =
      ParseState.PARSE_LINE := rfl
  simp only [hst]
  have hol : (withBuf InitHttpRequest
      (InitHttpRequest.origin_lines ++ ini.map (fun f => ⟨f, false⟩)) ln).origin_lines =
      ini.map (fun f => ⟨f, false⟩) := by
    simp [withBuf, InitHttpRequest]
  rw [hol, totLine_all_unfinished, ← hline, withBuf_withBuf]
  unfold ParseRequestLine
  rw [scan_withBuf]

/-- C1 (amended): a request line shorter than `MAXBUF` whose only newline is
its last byte, cut into N non-empty consecutive fragments with
1 ≤ N ≤ MAX_PARSE_LINES = 32 and fed in order to a fresh request, ends with
the same return code, method, url, version, derived proxy path and parse state
as feeding the whole line in one call. -/
theorem reassembly_read_boundary_independent (maxbuf : Nat) (line : List Char)
    (frags : List (List Char))
    (hnul : '\x00' ∉ line) (hlen : line.length < maxbuf)
    (hlast : line.getLast? = some '\n') (hnl : '\n' ∉ line.dropLast)
    (hcut : frags.flatten = line) (hne : ∀ f ∈ frags, f ≠ [])
    (hN : frags.length ≤ MAX_PARSE_LINES) :
    (feedLines maxbuf InitHttpRequest frags).1 =
        (ParseHttpRequest maxbuf InitHttpRequest line).1 ∧
      (feedLines maxbuf InitHttpRequest frags).2.method =
        (ParseHttpRequest maxbuf InitHttpRequest line).2.method ∧
      (feedLines maxbuf InitHttpRequest frags).2.url =
        (ParseHttpRequest maxbuf InitHttpRequest line).2.url ∧
      (feedLines maxbuf InitHttpRequest frags).2.version =
        (ParseHttpRequest maxbuf InitHttpRequest line).2.version ∧
      (feedLines maxbuf InitHttpRequest frags).2.proxyPath =
        (ParseHttpRequest maxbuf InitHttpRequest line).2.proxyPath ∧
      (feedLines maxbuf InitHttpRequest frags).2.parse_state =
        (ParseHttpRequest maxbuf InitHttpRequest line).2.parse_state := by
  obtain ⟨ol, ln, ha⟩ :=
    feed_fragments_fresh maxbuf line frags hnul hlen hlast hnl hcut hne hN
  have hline_ne : line ≠ [] := by
    rintro rfl
    simp at hlast
  obtain ⟨ol2, ln2, hb⟩ :=
    feed_fragments_fresh maxbuf line [line] hnul hlen hlast hnl (by simp)
      (by simpa using hline_ne) (by simp)
  rw [feedLines_single] at hb
  rw [ha, hb]
  simp [withBuf, HttpRequest.proxyPath]

/-- C1 (witness). -/
theorem reassembly_read_boundary_independent_witness :
    (feedLines 8192 InitHttpRequest
        ["GET http://exa".toList, "mple.com/a HT".toList, "TP/1.1\r\n".toList]).2.proxyPath =
      (ParseHttpRequest 8192 InitHttpRequest
        "GET http://example.com/a HTTP/1.1\r\n".toList).2.proxyPath :=
  (reassembly_read_boundary_independent 8192 "GET http://example.com/a HTTP/1.1\r\n".toList
    ["GET http://exa".toList, "mple.com/a HT".toList, "TP/1.1\r\n".toList]
    (by decide) (by decide) (by decide) (by decide) (by decide) (by decide)
    (by decide)).2.2.2.2.1

/-- C1 (counterexample): the 35-byte request line
`GET http://example.com/a HTTP/1.1\r\n` cut into 35 one-byte fragments.  The
33rd call returns `ERROR_READLINE_TOO_MUCH` and the request line is never
parsed, while the single call returns 0 and reaches `PARSE_HEADERS`. -/
theorem reassembly_fails_beyond_32_fragments :
    ("GET http://example.com/a HTTP/1.1\r\n".toList.map (fun c => [c])).flatten =
        "GET http://example.com/a HTTP/1.1\r\n".toList ∧
      (feedLines 8192 InitHttpRequest
        ("GET http://example.com/a HTTP/1.1\r\n".toList.map (fun c => [c]))).1 =
          ERROR_READLINE_TOO_MUCH ∧
      (feedLines 8192 InitHttpRequest
        ("GET http://example.com/a HTTP/1.1\r\n".toList.map (fun c => [c]))).2.parse_state =
          ParseState.PARSE_LINE ∧
      (ParseHttpRequest 8192 InitHttpRequest
        "GET http://example.com/a HTTP/1.1\r\n".toList).1 = 0 ∧
      (ParseHttpRequest 8192 InitHttpRequest
        "GET http://example.com/a HTTP/1.1\r\n".toList).2.parse_state =
          ParseState.PARSE_HEADERS := by
  decide

theorem scan_cons_other (r : HttpRequest) (tok : List Char) (cnt : Nat) (c : Char)
    (rest : List Char) (h1 : c ≠ ' ') (h2 : c ≠ '\r') (h3 : c ≠ '\n') :
    ParseRequestLine.scan r tok cnt (c :: rest) =
      ParseRequestLine.scan r (tok ++ [c]) cnt rest := by
  rw [ParseRequestLine.scan, if_neg (by simp [h1, h2, h3])]

theorem scan_cons_delim_nil (r : HttpRequest) (cnt : Nat) (c : Char) (rest : List Char)
    (h : c = ' ' ∨ c = '\r' ∨ c = '\n') :
    ParseRequestLine.scan r [] cnt (c :: rest) = ParseRequestLine.scan r [] cnt rest := by
  rw [ParseRequestLine.scan, if_pos h, if_neg (by simp)]

theorem scan_cons_delim_method (r : HttpRequest) (tok : List Char) (c : Char)
    (rest : List Char) (h : c = ' ' ∨ c = '\r' ∨ c = '\n') (h0 : tok ≠ [])
    (hl : tok.length < METHOD_LEN) :
    ParseRequestLine.scan r tok 0 (c :: rest) =
      ParseRequestLine.scan { r with method := tok } [] 1 rest := by
  rw [ParseRequestLine.scan, if_pos h, if_pos (List.length_pos.mpr h0), if_pos rfl,
    if_neg (Nat.not_le.mpr hl)]

theorem scan_cons_delim_url (r : HttpRequest) (tok : List Char) (c : Char)
    (rest : List Char) (h : c = ' ' ∨ c = '\r' ∨ c = '\n') (h0 : tok ≠ [])
    (hl : tok.length < URL_LEN) :
    ParseRequestLine.scan r tok 1 (c :: rest) =
      ParseRequestLine.scan (GetProxyUrl { r with url := tok }) [] 2 rest := by
  rw [ParseRequestLine.scan, if_pos h, if_pos (List.length_pos.mpr h0),
    if_neg (by decide), if_pos rfl, if_neg (Nat.not_le.mpr hl)]

theorem scan_cons_delim_version (r : HttpRequest) (tok : List Char) (c : Char)
    (rest : List Char) (h : c = ' ' ∨ c = '\r' ∨ c = '\n') (h0 : tok ≠ [])
    (hl : tok.length < VER_LEN) :
    ParseRequestLine.scan r tok 2 (c :: rest) =
      (0, { r with version := tok, parse_state := ParseState.PARSE_HEADERS }) := by
  rw [ParseRequestLine.scan, if_pos h, if_pos (List.length_pos.mpr h0),
    if_neg (by decide), if_neg (by decide), if_pos rfl, if_neg (Nat.not_le.mpr hl)]

theorem scan_token (rest : List Char) :
    ∀ (t : List Char) (r : HttpRequest) (tok : List Char) (cnt : Nat),
      (∀ c ∈ t, c ≠ ' ' ∧ c ≠ '\r' ∧ c ≠ '\n') →
      ParseRequestLine.scan r tok cnt (t ++ rest) =
        ParseRequestLine.scan r (tok ++ t) cnt rest := by
  intro t
  induction t with
  | nil => intro r tok cnt _; simp
  | cons c t ih =>
    intro r tok cnt h
    obtain ⟨h1, h2, h3⟩ := h c (List.mem_cons_self _ _)
    rw [List.cons_append, scan_cons_other r tok cnt c _ h1 h2 h3,
      ih r (tok ++ [c]) cnt (fun d hd => h d (List.mem_cons_of_mem _ hd))]
    simp

theorem scan_spaces (rest : List Char) (r : HttpRequest) (cnt : Nat) :
    ∀ n : Nat, ParseRequestLine.scan r [] cnt (List.replicate n ' ' ++ rest) =
      ParseRequestLine.scan r [] cnt rest := by
  intro n
  induction n with
  | zero => simp
  | succ n ih =>
    rw [List.replicate_succ, List.cons_append, scan_cons_delim_nil r cnt ' ' _ (Or.inl rfl)]
    exact ih

/-- `ParseRequestLine` on a line of three tokens separated by runs of spaces
and ended by CR LF. -/
theorem parseRequestLine_three_tokens (r : HttpRequest) (M U V : List Char) (n1 n2 : Nat)
    (hM : ∀ c ∈ M, c ≠ ' ' ∧ c ≠ '\r' ∧ c ≠ '\n') (hM0 : M ≠ []) (hMl : M.length < METHOD_LEN)
    (hU : ∀ c ∈ U, c ≠ ' ' ∧ c ≠ '\r' ∧ c ≠ '\n') (hU0 : U ≠ []) (hUl : U.length < URL_LEN)
    (hV : ∀ c ∈ V, c ≠ ' ' ∧ c ≠ '\r' ∧ c ≠ '\n') (hV0 : V ≠ []) (hVl : V.length < VER_LEN) :
    ParseRequestLine r
        (M ++ (List.replicate (n1 + 1) ' ' ++ (U ++ (List.replicate (n2 + 1) ' ' ++
          (V ++ ['\r', '\n']))))) =
      (0, { GetProxyUrl { r with method := M, url := U } with
              version := V, parse_state := ParseState.PARSE_HEADERS }) := by
  unfold ParseRequestLine
  rw [scan_token _ M r [] 0 hM, List.nil_append, List.replicate_succ, List.cons_append,
    scan_cons_delim_method _ M ' ' _ (Or.inl rfl) hM0 hMl, scan_spaces,
    scan_token _ U _ [] 1 hU, List.nil_append, List.replicate_succ, List.cons_append,
    scan_cons_delim_url _ U ' ' _ (Or.inl rfl) hU0 hUl, scan_spaces,
    scan_token _ V _ [] 2 hV, List.nil_append,
    scan_cons_delim_version _ V '\r' _ (Or.inr (Or.inl rfl)) hV0 hVl]

theorem parse_too_long (maxbuf : Nat) (r : HttpRequest) (buf : List Char)
    (h : maxbuf ≤ (cstr buf).length) :
    ParseHttpRequest maxbuf r buf = (ERROR_LINE_TOO_LONG, r) := by
  unfold ParseHttpRequest AddLineToHttpRequest
  simp [Nat.min_eq_right h]

/-- C2 (amended): for every line made of three non-empty tokens M, U, V (none
containing space, CR, LF or NUL; |M| < METHOD_LEN, |U| < URL_LEN,
|V| < VER_LEN) separated by one or more spaces and ended by CRLF, whose total
length is below MAXBUF, `ParseHttpRequest` on a fresh request returns 0, stores
method = M, url = U, version = V, moves the state from `PARSE_LINE` to
`PARSE_HEADERS`, and `IsRequestLineParsed` then returns 1. -/
theorem request_line_parsing (maxbuf : Nat) (M U V : List Char) (n1 n2 : Nat)
    (hM : ∀ c ∈ M, c ≠ ' ' ∧ c ≠ '\r' ∧ c ≠ '\n' ∧ c ≠ '\x00') (hM0 : M ≠ [])
    (hMl : M.length < METHOD_LEN)
    (hU : ∀ c ∈ U, c ≠ ' ' ∧ c ≠ '\r' ∧ c ≠ '\n' ∧ c ≠ '\x00') (hU0 : U ≠ [])
    (hUl : U.length < URL_LEN)
    (hV : ∀ c ∈ V, c ≠ ' ' ∧ c ≠ '\r' ∧ c ≠ '\n' ∧ c ≠ '\x00') (hV0 : V ≠ [])
    (hVl : V.length < VER_LEN)
    (hlen : (M ++ (List.replicate (n1 + 1) ' ' ++ (U ++ (List.replicate (n2 + 1) ' ' ++
      (V ++ ['\r', '\n']))))).length < maxbuf) :
    (ParseHttpRequest maxbuf InitHttpRequest
        (M ++ (List.replicate (n1 + 1) ' ' ++ (U ++ (List.replicate (n2 + 1) ' ' ++
          (V ++ ['\r', '\n'])))))).1 = 0 ∧
      (ParseHttpRequest maxbuf InitHttpRequest
        (M ++ (List.replicate (n1 + 1) ' ' ++ (U ++ (List.replicate (n2 + 1) ' ' ++
          (V ++ ['\r', '\n'])))))).2.method = M ∧
      (ParseHttpRequest maxbuf InitHttpRequest
        (M ++ (List.replicate (n1 + 1) ' ' ++ (U ++ (List.replicate (n2 + 1) ' ' ++
          (V ++ ['\r', '\n'])))))).2.url = U ∧
      (ParseHttpRequest maxbuf InitHttpRequest
        (M ++ (List.replicate (n1 + 1) ' ' ++ (U ++ (List.replicate (n2 + 1) ' ' ++
          (V ++ ['\r', '\n'])))))).2.version = V ∧
      InitHttpRequest.parse_state = ParseState.PARSE_LINE ∧
      (ParseHttpRequest maxbuf InitHttpRequest
        (M ++ (List.replicate (n1 + 1) ' ' ++ (U ++ (List.replicate (n2 + 1) ' ' ++
          (V ++ ['\r', '\n'])))))).2.parse_state = ParseState.PARSE_HEADERS ∧
      IsRequestLineParsed (ParseHttpRequest maxbuf InitHttpRequest
        (M ++ (List.replicate (n1 + 1) ' ' ++ (U ++ (List.replicate (n2 + 1) ' ' ++
          (V ++ ['\r', '\n'])))))).2 = 1 := by
  have hnul : '\x00' ∉ (M ++ (List.replicate (n1 + 1) ' ' ++ (U ++
      (List.replicate (n2 + 1) ' ' ++ (V ++ ['\r', '\n']))))) := by
    intro h
    simp only [List.mem_append, List.mem_replicate, List.mem_cons] at h
    rcases h with h | ⟨_, h⟩ | h | ⟨_, h⟩ | h | h | h | h
    · exact (hM _ h).2.2.2 rfl
    · exact absurd h (by decide)
    · exact (hU _ h).2.2.2 rfl
    · exact absurd h (by decide)
    · exact (hV _ h).2.2.2 rfl
    · exact absurd h (by decide)
    · exact absurd h (by decide)
    · exact absurd h (List.not_mem_nil _)
  have hne : (M ++ (List.replicate (n1 + 1) ' ' ++ (U ++
      (List.replicate (n2 + 1) ' ' ++ (V ++ ['\r', '\n']))))) ≠ [] := by
    simp [hM0]
  have hfin : (M ++ (List.replicate (n1 + 1) ' ' ++ (U ++
      (List.replicate (n2 + 1) ' ' ++ (V ++ ['\r', '\n']))))).getLast? = some '\n' := by
    have e : (M ++ (List.replicate (n1 + 1) ' ' ++ (U ++
        (List.replicate (n2 + 1) ' ' ++ (V ++ ['\r', '\n']))))) =
        (M ++ (List.replicate (n1 + 1) ' ' ++ (U ++
          (List.replicate (n2 + 1) ' ' ++ (V ++ ['\r']))))) ++ ['\n'] := by
      simp
    rw [e, List.getLast?_append_of_ne_nil _ (by simp)]
    rfl
  obtain ⟨ln, hp, -, -⟩ := parse_finished maxbuf InitHttpRequest _ initHttpRequest_bufOk
    (by simp [InitHttpRequest, HttpRequest.cur_line]) hnul hne hlen hfin
  have hst : InitHttpRequest.parse_state = ParseState.PARSE_LINE := rfl
  simp only [hst] at hp
  have hol : InitHttpRequest.origin_lines = [] := rfl
  rw [hol, List.nil_append, totLine_single] at hp
  rw [hp, parseRequestLine_three_tokens _ M U V n1 n2
    (fun c hc => ⟨(hM c hc).1, (hM c hc).2.1, (hM c hc).2.2.1⟩) hM0 hMl
    (fun c hc => ⟨(hU c hc).1, (hU c hc).2.1, (hU c hc).2.2.1⟩) hU0 hUl
    (fun c hc => ⟨(hV c hc).1, (hV c hc).2.1, (hV c hc).2.2.1⟩) hV0 hVl]
  simp [GetProxyUrl, withBuf, IsRequestLineParsed, hst]

/-- C2 (witness): the first line of `test_http.c`, with a run of two spaces. -/
theorem request_line_parsing_witness :
    (ParseHttpRequest 8192 InitHttpRequest
        ("GET".toList ++ (List.replicate (1 + 1) ' ' ++ ("/szjy-boot/sso".toList ++
          (List.replicate (0 + 1) ' ' ++ ("HTTP/1.1".toList ++ ['\r', '\n'])))))).2.url =
      "/szjy-boot/sso".toList :=
  (request_line_parsing 8192 "GET".toList "/szjy-boot/sso".toList "HTTP/1.1".toList 1 0
    (by decide) (by decide) (by decide) (by decide) (by decide) (by decide)
    (by decide) (by decide) (by decide) (by decide)).2.2.1

/-- C2 (counterexample): `GET`, 8192 spaces, `/`, one space, `HTTP/1.1`, CRLF
is a line of the stated form, and `ParseHttpRequest` (with the CS:APP value
8192 of MAXBUF) answers `ERROR_LINE_TOO_LONG` and leaves the request fresh. -/
theorem request_line_too_long_for_buffer :
    ParseHttpRequest 8192 InitHttpRequest
        ("GET".toList ++ (List.replicate (8191 + 1) ' ' ++ ("/".toList ++
          (List.replicate (0 + 1) ' ' ++ ("HTTP/1.1".toList ++ ['\r', '\n']))))) =
      (ERROR_LINE_TOO_LONG, InitHttpRequest) := by
  apply parse_too_long
  rw [cstr_eq_self]
  · simp only [List.length_append, List.length_replicate]
    decide
  · intro h
    simp only [List.mem_append, List.mem_replicate] at h
    rcases h with h | ⟨_, h⟩ | h | ⟨_, h⟩ | h | h <;> exact absurd h (by decide)

theorem addLine_accept (maxbuf : Nat) (r : HttpRequest) (f : List Char)
    (hacc : r.cur_line = r.line_num → r.line_num < MAX_PARSE_LINES)
    (hnul : '\x00' ∉ f) (hne : f ≠ []) (hlen : f.length < maxbuf) :
    ∃ ln, AddLineToHttpRequest maxbuf r f =
        (0, withBuf r (r.origin_lines ++ [⟨f, decide (f.getLast? = some '\n')⟩]) ln) := by
  have hpos : 0 < f.length := List.length_pos.mpr hne
  have hmin : min f.length maxbuf = f.length := Nat.min_eq_left (Nat.le_of_lt hlen)
  unfold AddLineToHttpRequest
  simp only [cstr_eq_self hnul, hmin]
  rw [if_neg (Nat.ne_of_lt hlen), if_neg (Nat.ne_of_gt hpos)]
  by_cases hc : r.cur_line = r.line_num
  · rw [if_pos hc, if_neg (Nat.not_le.mpr (hacc hc))]
    exact ⟨r.line_num * 2, rfl⟩
  · rw [if_neg hc]
    exact ⟨r.line_num, rfl⟩

theorem totLine_new_line (ol : List ReadLine) (x : ReadLine)
    (hprev : ∀ p, ol.getLast? = some p → p.line_finish = true) :
    totLine (ol ++ [x]) = x.line := by
  rcases List.eq_nil_or_concat ol with rfl | ⟨pre, p, rfl⟩
  · simpa using totLine_single x
  · have hp : p.line_finish = true := hprev p (by simp)
    simpa using totLine_after_finished pre p x hp

/-- A complete logical line fed in the `PARSE_HEADERS` state, when the buffer
accepts it and no fragment is pending, is handed to `ParseHeaders` as it is. -/
theorem parse_header_line (maxbuf : Nat) (r : HttpRequest) (f : List Char)
    (hstate : r.parse_state = ParseState.PARSE_HEADERS)
    (hacc : r.cur_line = r.line_num → r.line_num < MAX_PARSE_LINES)
    (hprev : ∀ p, r.origin_lines.getLast? = some p → p.line_finish = true)
    (hnul : '\x00' ∉ f) (hne : f ≠ []) (hlen : f.length < maxbuf)
    (hfin : f.getLast? = some '\n') :
    ∃ ln, ParseHttpRequest maxbuf r f =
      ParseHeaders (withBuf r (r.origin_lines ++ [⟨f, true⟩]) ln) f := by
  obtain ⟨ln, hadd⟩ := addLine_accept maxbuf r f hacc hnul hne hlen
  refine ⟨ln, ?_⟩
  have htot := totLine_new_line r.origin_lines ⟨f, true⟩ hprev
  unfold ParseHttpRequest
  simp [hadd, withBuf, hfin, hstate, htot]

theorem dropWhile_spaces (v rest : List Char) (hv0 : v ≠ []) (hsp : v.head? ≠ some ' ') :
    ∀ n : Nat, (List.replicate n ' ' ++ (v ++ rest)).dropWhile (fun c => c = ' ') =
      v ++ rest := by
  intro n
  induction n with
  | zero =>
    cases v with
    | nil => exact absurd rfl hv0
    | cons c t =>
      have hc : c ≠ ' ' := by simpa using hsp
      simp [List.dropWhile, hc]
  | succ n ih =>
    rw [List.replicate_succ, List.cons_append, List.dropWhile_cons]
    simpa using ih

theorem parseHeaders_host (r : HttpRequest) (n : Nat) (v : List Char)
    (hv0 : v ≠ []) (hsp : v.head? ≠ some ' ') (hvl : v.length < HOST_LEN) :
    ParseHeaders r (['H', 'o', 's', 't', ':'] ++ (List.replicate n ' ' ++ (v ++ ['\r', '\n']))) =
      (0, { r with host := v }) := by
  have hpos : 0 < v.length := List.length_pos.mpr hv0
  unfold ParseHeaders
  rw [if_neg (by simp)]
  have hd : (['H', 'o', 's', 't', ':'] ++ (List.replicate n ' ' ++ (v ++ ['\r', '\n']))).dropWhile
      (fun c => c ≠ ':') = ':' :: (List.replicate n ' ' ++ (v ++ ['\r', '\n'])) := by
    simp [List.dropWhile]
  have ht : (['H', 'o', 's', 't', ':'] ++ (List.replicate n ' ' ++ (v ++ ['\r', '\n']))).takeWhile
      (fun c => c ≠ ':') = ['H', 'o', 's', 't'] := by
    simp [List.takeWhile]
  rw [hd]
  simp only [ht, dropWhile_spaces v _ hv0 hsp n]
  have hl : (v ++ ['\r', '\n']).length - 2 = v.length := by simp
  have hl2 : ¬ (v ++ ['\r', '\n']).length ≤ 2 := by
    simp only [List.length_append, List.length_cons, List.length_nil]
    omega
  rw [if_neg hl2, if_pos trivial, hl, if_neg (Nat.not_le.mpr hvl)]
  simp

/-- C3 (amended): in the `PARSE_HEADERS` state, when the raw-line buffer still
accepts a line (it has a free entry or can grow: fewer than MAX_PARSE_LINES
lines so far), no unterminated fragment is pending, and the header line
`Host:` + zero or more spaces + v + CRLF (v non-empty, not starting with a
space, without NUL, |v| < HOST_LEN) is shorter than MAXBUF, `ParseHttpRequest`
returns 0, the stored host equals v exactly, and `IsHostParsed` returns 1. -/
theorem host_header_parsing (maxbuf : Nat) (r : HttpRequest) (n : Nat) (v : List Char)
    (hstate : r.parse_state = ParseState.PARSE_HEADERS)
    (hacc : r.cur_line = r.line_num → r.line_num < MAX_PARSE_LINES)
    (hprev : ∀ p, r.origin_lines.getLast? = some p → p.line_finish = true)
    (hv0 : v ≠ []) (hsp : v.head? ≠ some ' ') (hnul : '\x00' ∉ v)
    (hvl : v.length < HOST_LEN)
    (hlen : (['H', 'o', 's', 't', ':'] ++
      (List.replicate n ' ' ++ (v ++ ['\r', '\n']))).length < maxbuf) :
    (ParseHttpRequest maxbuf r
        (['H', 'o', 's', 't', ':'] ++ (List.replicate n ' ' ++ (v ++ ['\r', '\n'])))).1 = 0 ∧
      (ParseHttpRequest maxbuf r
        (['H', 'o', 's', 't', ':'] ++ (List.replicate n ' ' ++ (v ++ ['\r', '\n'])))).2.host = v ∧
      IsHostParsed (ParseHttpRequest maxbuf r
        (['H', 'o', 's', 't', ':'] ++ (List.replicate n ' ' ++ (v ++ ['\r', '\n'])))).2 = 1 := by
  have hnul2 : '\x00' ∉ (['H', 'o', 's', 't', ':'] ++
      (List.replicate n ' ' ++ (v ++ ['\r', '\n']))) := by
    intro h
    simp only [List.mem_append, List.mem_replicate] at h
    rcases h with h | ⟨_, h⟩ | h | h
    · exact absurd h (by decide)
    · exact absurd h (by decide)
    · exact hnul h
    · exact absurd h (by decide)
  have hfin : (['H', 'o', 's', 't', ':'] ++
      (List.replicate n ' ' ++ (v ++ ['\r', '\n']))).getLast? = some '\n' := by
    have e : (['H', 'o', 's', 't', ':'] ++ (List.replicate n ' ' ++ (v ++ ['\r', '\n']))) =
        (['H', 'o', 's', 't', ':'] ++ (List.replicate n ' ' ++ (v ++ ['\r']))) ++ ['\n'] := by
      simp
    rw [e, List.getLast?_append_of_ne_nil _ (by simp)]
    rfl
  obtain ⟨ln, hp⟩ := parse_header_line maxbuf r _ hstate hacc hprev hnul2 (by simp) hlen hfin
  rw [hp, parseHeaders_host _ n v hv0 hsp hvl]
  have hpos : 0 < v.length := List.length_pos.mpr hv0
  simp [IsHostParsed, hpos]

/-- C3 (witness): the Host line of `test_http.c` after its request line. -/
theorem host_header_parsing_witness :
    (ParseHttpRequest 8192 (ParseHttpRequest 8192 InitHttpRequest exampleRequestLine).2
        (['H', 'o', 's', 't', ':'] ++ (List.replicate 1 ' ' ++
          ("ipahw.xjtu.edu.cn".toList ++ ['\r', '\n'])))).2.host =
      "ipahw.xjtu.edu.cn".toList :=
  (host_header_parsing 8192 (ParseHttpRequest 8192 InitHttpRequest exampleRequestLine).2 1
    "ipahw.xjtu.edu.cn".toList (by decide) (by decide) (by decide) (by decide) (by decide)
    (by decide) (by decide) (by decide)).2.1

/-- C3 (counterexample): three requests in the `PARSE_HEADERS` state on which a
well-formed Host line is not stored.  (1) After the request line and 31 other
header lines the buffer is full: the call returns `ERROR_READLINE_TOO_MUCH`.
(2) After an unterminated fragment `X-Trace: 1` the Host line completes that
header: the call returns 0 and the host stays empty.  (3) A Host line with
8192 spaces before the value is rejected with `ERROR_LINE_TOO_LONG`. -/
theorem host_header_not_stored :
    (requestWith32Lines.parse_state = ParseState.PARSE_HEADERS ∧
      (ParseHttpRequest 8192 requestWith32Lines exampleHostLine).1 =
        ERROR_READLINE_TOO_MUCH ∧
      IsHostParsed (ParseHttpRequest 8192 requestWith32Lines exampleHostLine).2 = 0) ∧
    (requestWithPendingFragment.parse_state = ParseState.PARSE_HEADERS ∧
      (ParseHttpRequest 8192 requestWithPendingFragment exampleHostLine).1 = 0 ∧
      IsHostParsed (ParseHttpRequest 8192 requestWithPendingFragment exampleHostLine).2 = 0) ∧
    ((ParseHttpRequest 8192 InitHttpRequest exampleRequestLine).2.parse_state =
        ParseState.PARSE_HEADERS ∧
      (ParseHttpRequest 8192 (ParseHttpRequest 8192 InitHttpRequest exampleRequestLine).2
        (['H', 'o', 's', 't', ':'] ++ (List.replicate 8192 ' ' ++
          ("example.com".toList ++ ['\r', '\n'])))).1 = ERROR_LINE_TOO_LONG) := by
  refine ⟨by decide, by decide, by decide, ?_⟩
  rw [parse_too_long]
  rw [cstr_eq_self]
  · simp only [List.length_append, List.length_replicate]
    decide
  · intro h
    simp only [List.mem_append, List.mem_replicate] at h
    rcases h with h | ⟨_, h⟩ | h | h <;> exact absurd h (by decide)

theorem getProxyUrl_scan_none :
    ∀ (l : List Char) (cnt i : Nat), l.count '/' + cnt < 3 →
      GetProxyUrl.scan l cnt i = none := by
  intro l
  induction l with
  | nil => intro cnt i _; rfl
  | cons c rest ih =>
    intro cnt i h
    by_cases hc : c = '/'
    · subst hc
      rw [List.count_cons_self] at h
      rw [GetProxyUrl.scan, if_pos rfl, if_neg (by omega)]
      exact ih (cnt + 1) (i + 1) (by omega)
    · rw [List.count_cons_of_ne (Ne.symm hc)] at h
      rw [GetProxyUrl.scan, if_neg hc]
      exact ih cnt (i + 1) h

theorem getProxyUrl_scan_some :
    ∀ (l : List Char) (cnt i : Nat), cnt ≤ 2 → 3 ≤ l.count '/' + cnt →
      ∃ pre suf, l = pre ++ '/' :: suf ∧ pre.count '/' + cnt = 2 ∧
        GetProxyUrl.scan l cnt i = some (i + pre.length) := by
  intro l
  induction l with
  | nil => intro cnt i h2 h; simp at h; omega
  | cons c rest ih =>
    intro cnt i h2 h
    by_cases hc : c = '/'
    · subst hc
      rw [List.count_cons_self] at h
      by_cases h3 : cnt + 1 = 3
      · refine ⟨[], rest, rfl, by simp; omega, ?_⟩
        rw [GetProxyUrl.scan, if_pos rfl, if_pos h3]
        rfl
      · obtain ⟨pre, suf, e, hcnt, hs⟩ := ih (cnt + 1) (i + 1) (by omega) (by omega)
        refine ⟨'/' :: pre, suf, by rw [e]; rfl, ?_, ?_⟩
        · rw [List.count_cons_self]; omega
        · rw [GetProxyUrl.scan, if_pos rfl, if_neg h3, hs]
          simp only [List.length_cons]
          congr 1
          omega
    · rw [List.count_cons_of_ne (Ne.symm hc)] at h
      obtain ⟨pre, suf, e, hcnt, hs⟩ := ih cnt (i + 1) h2 h
      refine ⟨c :: pre, suf, by rw [e]; rfl, ?_, ?_⟩
      · rw [List.count_cons_of_ne (Ne.symm hc)]; exact hcnt
      · rw [GetProxyUrl.scan, if_neg hc, hs]
        simp only [List.length_cons]
        congr 1
        omega

/-- C4: `GetProxyUrl` leaves the URL as it is; when the URL contains at least
three slashes the derived proxy path is the suffix of the URL that begins at
its third slash (the URL is `pre ++ '/' :: suf` with exactly two slashes in
`pre`, and the path is `'/' :: suf`); when it contains fewer than three
slashes `proxy_url` is NULL. -/
theorem proxy_path_derivation (r : HttpRequest) :
    (GetProxyUrl r).url = r.url ∧
      (3 ≤ r.url.count '/' →
        ∃ pre suf, r.url = pre ++ '/' :: suf ∧ pre.count '/' = 2 ∧
          (GetProxyUrl r).proxyPath = some ('/' :: suf)) ∧
      (r.url.count '/' < 3 → (GetProxyUrl r).proxy_url = none) := by
  refine ⟨rfl, ?_, ?_⟩
  · intro h
    obtain ⟨pre, suf, e, hcnt, hs⟩ := getProxyUrl_scan_some r.url 0 0 (by omega) (by omega)
    refine ⟨pre, suf, e, by omega, ?_⟩
    simp only [HttpRequest.proxyPath, GetProxyUrl, hs, Option.map_some']
    rw [e]
    simp
  · intro h
    exact getProxyUrl_scan_none r.url 0 0 (by omega)

/-- C4 (witness): the URL of the scenario has three slashes, and a URL with
two slashes has no path. -/
theorem proxy_path_derivation_witness :
    (∃ pre suf, "http://example.com/a".toList = pre ++ '/' :: suf ∧ pre.count '/' = 2 ∧
        (GetProxyUrl { InitHttpRequest with url := "http://example.com/a".toList }).proxyPath =
          some ('/' :: suf)) ∧
      (GetProxyUrl { InitHttpRequest with url := "http://example.com".toList }).proxy_url =
        none :=
  ⟨(proxy_path_derivation { InitHttpRequest with url := "http://example.com/a".toList }).2.1
      (by decide),
    (proxy_path_derivation { InitHttpRequest with url := "http://example.com".toList }).2.2
      (by decide)⟩

/-! ## Theorems: forwarding -/

theorem sock_setSock_same (w : World) (fd : Int) (s : Sock) :
    (w.setSock fd s).sock fd = some s := by
  simp [World.sock, World.setSock]

theorem sock_write_tx (fd : Int) (w : World) (bytes : List Char) (s : Sock)
    (hs : w.sock fd = some s) (hpos : 0 < (sock_write fd w bytes).1) :
    ∃ s1, (sock_write fd w bytes).2.sock fd = some s1 ∧
      s1.tx = s.tx ++ bytes.take (sock_write fd w bytes).1.toNat := by
  unfold sock_write at hpos ⊢
  rw [hs] at hpos ⊢
  cases hroom : s.tx_room with
  | none =>
    simp only [hroom] at hpos ⊢
    refine ⟨_, sock_setSock_same _ _ _, ?_⟩
    simp
  | some room =>
    simp only [hroom] at hpos ⊢
    by_cases h0 : room = 0
    · simp [h0] at hpos
    · simp only [h0, if_false] at hpos ⊢
      refine ⟨_, sock_setSock_same _ _ _, ?_⟩
      simp only [Int.toNat_ofNat]
      congr 1
      rw [List.take_eq_take]
      simp [Nat.min_comm]

theorem rio_writen_loop_tx (fd : Int) :
    ∀ (fuel : Nat) (w : World) (left : List Char) (s : Sock), w.sock fd = some s →
      (rio_writen.loop (sock_write fd) fuel w left).1 = true →
      ∃ s1, (rio_writen.loop (sock_write fd) fuel w left).2.sock fd = some s1 ∧
        s1.tx = s.tx ++ left := by
  intro fuel
  induction fuel with
  | zero =>
    intro w left s hs h
    simp only [rio_writen.loop, decide_eq_true_eq] at h ⊢
    exact ⟨s, hs, by simp [h]⟩
  | succ fuel ih =>
    intro w left s hs h
    simp only [rio_writen.loop] at h ⊢
    by_cases hl : left = []
    · simp only [hl, if_true] at h ⊢
      exact ⟨s, hs, by simp⟩
    · simp only [hl, if_false] at h ⊢
      by_cases hw : (sock_write fd w left).1 ≤ 0
      · simp [hw] at h
      · simp only [hw, if_false] at h ⊢
        obtain ⟨s1, hs1, htx⟩ := sock_write_tx fd w left s hs (by omega)
        obtain ⟨s2, hs2, htx2⟩ := ih _ _ s1 hs1 h
        refine ⟨s2, hs2, ?_⟩
        rw [htx2, htx, List.append_assoc, List.take_append_drop]

theorem rio_writen_tx (fd : Int) (w : World) (bytes : List Char) (s : Sock)
    (hs : w.sock fd = some s) (hok : ¬ (rio_writen (sock_write fd) w bytes).1 < 0) :
    ∃ s1, (rio_writen (sock_write fd) w bytes).2.sock fd = some s1 ∧
      s1.tx = s.tx ++ bytes := by
  unfold rio_writen at hok ⊢
  by_cases h : (rio_writen.loop (sock_write fd) (bytes.length + 1) w bytes).1 = true
  · exact rio_writen_loop_tx fd _ w bytes s hs h
  · simp [h] at hok

theorem sendLoop_tx (fd : Int) :
    ∀ (lines : List (List Char)) (w : World) (s : Sock), w.sock fd = some s →
      ¬ (sendLoop fd w lines).1 < 0 →
      ∃ s1, (sendLoop fd w lines).2.sock fd = some s1 ∧ s1.tx = s.tx ++ lines.flatten := by
  intro lines
  induction lines with
  | nil =>
    intro w s hs _
    exact ⟨s, hs, by simp⟩
  | cons l rest ih =>
    intro w s hs h
    simp only [sendLoop] at h ⊢
    by_cases hw : (rio_writen (sock_write fd) w l).1 < 0
    · simp [hw] at h
    · simp only [hw, if_false] at h ⊢
      obtain ⟨s1, hs1, htx⟩ := rio_writen_tx fd w l s hs hw
      obtain ⟨s2, hs2, htx2⟩ := ih _ s1 hs1 h
      refine ⟨s2, hs2, ?_⟩
      rw [htx2, htx]
      simp

theorem linesToSend_split (r : HttpRequest) (pre post : List ReadLine) (fin : ReadLine)
    (hdec : r.origin_lines = pre ++ fin :: post)
    (hpre : ∀ l ∈ pre, l.line_finish = false) (hfin : fin.line_finish = true) :
    linesToSend r = rebuiltRequestLine r :: post.map ReadLine.line := by
  have hdw : (pre ++ fin :: post).dropWhile (fun l => !l.line_finish) = fin :: post := by
    rw [List.dropWhile_append_of_pos (fun l hl => by simp [hpre l hl])]
    simp [List.dropWhile, hfin]
  unfold linesToSend
  rw [hdec]
  cases pre with
  | nil =>
    simp only [List.nil_append] at hdw ⊢
    rw [hdw]
    rfl
  | cons a pre =>
    simp only [List.cons_append] at hdw ⊢
    rw [hdw]
    rfl

theorem isRequestLineParsed_of_ne_zero (r : HttpRequest) (h : IsRequestLineParsed r ≠ 0) :
    IsRequestLineParsed r = 1 := by
  unfold IsRequestLineParsed at h ⊢
  split_ifs at h ⊢
  · rfl
  · exact absurd rfl h

theorem isHostParsed_of_ne_zero (r : HttpRequest) (h : IsHostParsed r ≠ 0) :
    IsHostParsed r = 1 := by
  unfold IsHostParsed at h ⊢
  split_ifs at h ⊢
  · rfl
  · exact absurd rfl h

theorem open_clientfd_sock (w : World) (h p : List Char)
    (hok : ¬ (open_clientfd w h p).1 < 0) :
    ∃ s, (open_clientfd w h p).2.sock (open_clientfd w h p).1 = some s ∧ s.tx = [] := by
  unfold open_clientfd at hok ⊢
  cases hp : w.peers h p with
  | none => simp [hp] at hok
  | some s0 =>
    simp only [hp]
    exact ⟨{ s0 with tx := [] }, by simp [World.sock], rfl⟩

/-- What `forward` has done when it leaves the connection `CONNECTED`. -/
theorem forward_connected (w : World) (pool : RequestPool) (request : ProxyMeta)
    (hne : request.proxy_state ≠ ProxyState.CONNECTED)
    (hc : (HandleUnconnectedClientFd.forward w pool request).2.2.2.proxy_state =
      ProxyState.CONNECTED) :
    (HandleUnconnectedClientFd.forward w pool request).1 = 1 ∧
      (HandleUnconnectedClientFd.forward w pool request).2.2.2.http_request =
        request.http_request ∧
      ∃ s, (HandleUnconnectedClientFd.forward w pool request).2.1.sock
          (HandleUnconnectedClientFd.forward w pool request).2.2.2.server_fd = some s ∧
        s.tx = (linesToSend request.http_request).flatten := by
  unfold HandleUnconnectedClientFd.forward at hc ⊢
  by_cases h1 : (open_clientfd w (hostName request.http_request.host)
      (hostPort request.http_request.host)).1 < 0
  · simp only [h1, if_true] at hc
    exact absurd hc hne
  · simp only [h1, if_false] at hc ⊢
    by_cases h2 : (sendLoop (open_clientfd w (hostName request.http_request.host)
        (hostPort request.http_request.host)).1
        (open_clientfd w (hostName request.http_request.host)
          (hostPort request.http_request.host)).2 (linesToSend request.http_request)).1 < 0
    · simp only [h2, if_true] at hc
      exact absurd hc hne
    · simp only [h2, if_false]
      obtain ⟨s0, hs0, htx0⟩ := open_clientfd_sock w _ _ h1
      obtain ⟨s1, hs1, htx1⟩ := sendLoop_tx _ _ _ s0 hs0 h2
      exact ⟨trivial, trivial, s1, hs1, by rw [htx1, htx0]; simp⟩

theorem serve_connected (m : CacheModule) (w : World) (pool : RequestPool)
    (request : ProxyMeta) (hne : request.proxy_state ≠ ProxyState.CONNECTED)
    (hc : (HandleUnconnectedClientFd.serve m w pool request).2.2.2.proxy_state =
      ProxyState.CONNECTED) :
    (HandleUnconnectedClientFd.serve m w pool request).1 = 1 ∧
      (HandleUnconnectedClientFd.serve m w pool request).2.2.2.http_request =
        request.http_request ∧
      (∃ path, request.http_request.proxyPath = some path) ∧
      ∃ s, (HandleUnconnectedClientFd.serve m w pool request).2.1.sock
          (HandleUnconnectedClientFd.serve m w pool request).2.2.2.server_fd = some s ∧
        s.tx = (linesToSend request.http_request).flatten := by
  unfold HandleUnconnectedClientFd.serve at hc ⊢
  cases hp : request.http_request.proxyPath with
  | none =>
    simp only [hp] at hc
    exact absurd hc hne
  | some path =>
    simp only [hp] at hc ⊢
    by_cases hhit : (CreateCacheInfo m request.http_request.host path).1 = 0 ∧
        IsCacheHit w.os (CreateCacheInfo m request.http_request.host path).2 = 1
    · simp only [hhit, and_self, if_true] at hc
      exact absurd hc (by decide)
    · simp only [hhit, if_false] at hc ⊢
      obtain ⟨h1, h2, h3⟩ := forward_connected w pool
        { request with cache_info := (CreateCacheInfo m request.http_request.host path).2 }
        hne hc
      exact ⟨h1, h2, ⟨path, rfl⟩, h3⟩

/-- What the loop of `HandleUnconnectedClientFd` has done when it leaves the
connection `CONNECTED`: the request line and the Host header are parsed, and
the bytes written to the new origin connection are those of `linesToSend`. -/
theorem loop_connected (k : Csapp) (m : CacheModule) :
    ∀ (fuel : Nat) (w : World) (pool : RequestPool) (request : ProxyMeta),
      request.proxy_state ≠ ProxyState.CONNECTED →
      (HandleUnconnectedClientFd.loop k m fuel w pool request).2.2.2.proxy_state =
        ProxyState.CONNECTED →
      (HandleUnconnectedClientFd.loop k m fuel w pool request).1 = 1 ∧
        IsRequestLineParsed
          (HandleUnconnectedClientFd.loop k m fuel w pool request).2.2.2.http_request = 1 ∧
        IsHostParsed
          (HandleUnconnectedClientFd.loop k m fuel w pool request).2.2.2.http_request = 1 ∧
        (∃ path, (HandleUnconnectedClientFd.loop k m fuel w pool request).2.2.2.http_request.proxyPath =
          some path) ∧
        ∃ s, (HandleUnconnectedClientFd.loop k m fuel w pool request).2.1.sock
            (HandleUnconnectedClientFd.loop k m fuel w pool request).2.2.2.server_fd = some s ∧
          s.tx = (linesToSend
            (HandleUnconnectedClientFd.loop k m fuel w pool request).2.2.2.http_request).flatten := by
  intro fuel
  induction fuel with
  | zero =>
    intro w pool request hne hc
    exact absurd hc hne
  | succ fuel ih =>
    intro w pool request hne hc
    simp only [HandleUnconnectedClientFd.loop] at hc ⊢
    generalize rio_readlineb sock_read k.RIO_BUFSIZE w request.client_rp k.MAXBUF = rd at hc ⊢
    generalize ParseHttpRequest k.MAXBUF request.http_request rd.2.1 = parsed at hc ⊢
    by_cases h1 : rd.1 < 0
    · rw [if_pos h1] at hc
      exact absurd hc hne
    rw [if_neg h1] at hc ⊢
    by_cases h2 : rd.1 = 0
    · rw [if_pos h2] at hc
      exact absurd hc hne
    rw [if_neg h2] at hc ⊢
    by_cases h3 : parsed.1 ≠ 0
    · rw [if_pos h3] at hc
      exact absurd hc hne
    rw [if_neg h3] at hc ⊢
    by_cases h4 : IsRequestLineParsed parsed.2 = 0 ∨ IsHostParsed parsed.2 = 0
    · rw [if_pos h4] at hc ⊢
      by_cases h5 : 0 < rd.2.2.2.buf.length
      · rw [if_pos h5] at hc ⊢
        exact ih rd.2.2.1 pool _ hne hc
      · rw [if_neg h5] at hc
        exact absurd hc hne
    rw [if_neg h4] at hc ⊢
    obtain ⟨hr, hreq, hpath, s, hs, htx⟩ := serve_connected m rd.2.2.1 pool
      { request with client_rp := rd.2.2.2, http_request := parsed.2 } hne hc
    have hl := isRequestLineParsed_of_ne_zero parsed.2 (fun e => h4 (Or.inl e))
    have hh := isHostParsed_of_ne_zero parsed.2 (fun e => h4 (Or.inr e))
    rw [hreq]
    exact ⟨hr, hl, hh, hpath, s, hs, htx⟩

/-- C5: when `HandleUnconnectedClientFd` takes a connection from
`UNCONNECTED` to `CONNECTED` (the cache-miss path), it returns 1, the request
line and the Host header are parsed with a derived path, and the bytes it has
written to the new origin connection are exactly method, space, proxy path,
space, version, CRLF, followed by every raw line buffered after the request
line (the entries of `origin_lines` after the first terminated one),
unmodified and in order; the buffered fragments of the request line itself
(`pre` and `fin`) are not sent. -/
theorem forwarding_on_cache_miss (k : Csapp) (m : CacheModule) (w : World)
    (pool : RequestPool) (request : ProxyMeta) (pre post : List ReadLine) (fin : ReadLine)
    (hstate : request.proxy_state = ProxyState.UNCONNECTED)
    (hconn : (HandleUnconnectedClientFd k m w pool request).2.2.2.proxy_state =
      ProxyState.CONNECTED)
    (hdec : (HandleUnconnectedClientFd k m w pool request).2.2.2.http_request.origin_lines =
      pre ++ fin :: post)
    (hpre : ∀ l ∈ pre, l.line_finish = false) (hfin : fin.line_finish = true) :
    (HandleUnconnectedClientFd k m w pool request).1 = 1 ∧
      IsRequestLineParsed (HandleUnconnectedClientFd k m w pool request).2.2.2.http_request = 1 ∧
      IsHostParsed (HandleUnconnectedClientFd k m w pool request).2.2.2.http_request = 1 ∧
      ∃ path s,
        (HandleUnconnectedClientFd k m w pool request).2.2.2.http_request.proxyPath =
          some path ∧
        (HandleUnconnectedClientFd k m w pool request).2.1.sock
          (HandleUnconnectedClientFd k m w pool request).2.2.2.server_fd = some s ∧
        s.tx =
          (HandleUnconnectedClientFd k m w pool request).2.2.2.http_request.method ++ [' '] ++
            path ++ [' '] ++
            (HandleUnconnectedClientFd k m w pool request).2.2.2.http_request.version ++
            ['\r', '\n'] ++ (post.map ReadLine.line).flatten := by
  have hne : request.proxy_state ≠ ProxyState.CONNECTED := by rw [hstate]; decide
  unfold HandleUnconnectedClientFd at hconn hdec ⊢
  obtain ⟨hr, hl, hh, ⟨path, hpath⟩, s, hs, htx⟩ :=
    loop_connected k m _ w pool request hne hconn
  generalize HandleUnconnectedClientFd.loop k m (unreadBytes w request + 1) w pool request = res
    at hconn hdec hr hl hh hpath hs htx ⊢
  rw [linesToSend_split _ pre post fin hdec hpre hfin] at htx
  refine ⟨hr, hl, hh, path, s, hpath, hs, ?_⟩
  rw [htx]
  simp [rebuiltRequestLine, hpath]

/-- C5 (witness): the scenario of the specification.  The client has sent
`GET http://example.com/a HTTP/1.1`, `Host: example.com` and the empty line;
the origin receives `GET /a HTTP/1.1` and `Host: example.com`. -/
theorem forwarding_on_cache_miss_witness :
    ∃ path s,
      (HandleUnconnectedClientFd csapp8192 scenarioModule (worldWithClient scenarioBytes)
        scenarioPool scenarioRequest).2.2.2.http_request.proxyPath = some path ∧
      (HandleUnconnectedClientFd csapp8192 scenarioModule (worldWithClient scenarioBytes)
        scenarioPool scenarioRequest).2.1.sock
        (HandleUnconnectedClientFd csapp8192 scenarioModule (worldWithClient scenarioBytes)
          scenarioPool scenarioRequest).2.2.2.server_fd = some s ∧
      s.tx =
        (HandleUnconnectedClientFd csapp8192 scenarioModule (worldWithClient scenarioBytes)
          scenarioPool scenarioRequest).2.2.2.http_request.method ++ [' '] ++ path ++ [' '] ++
          (HandleUnconnectedClientFd csapp8192 scenarioModule (worldWithClient scenarioBytes)
            scenarioPool scenarioRequest).2.2.2.http_request.version ++ ['\r', '\n'] ++
          ([(⟨"Host: example.com\r\n".toList, true⟩ : ReadLine)].map ReadLine.line).flatten :=
  (forwarding_on_cache_miss csapp8192 scenarioModule (worldWithClient scenarioBytes)
    scenarioPool scenarioRequest [] [⟨"Host: example.com\r\n".toList, true⟩]
    ⟨"GET http://example.com/a HTTP/1.1\r\n".toList, true⟩
    (by decide) (by decide) (by decide) (by decide) (by decide)).2.2.2

theorem addLine_zero (maxbuf : Nat) (r : HttpRequest) (buf : List Char)
    (h : (AddLineToHttpRequest maxbuf r buf).1 = 0) :
    ∃ ln, (AddLineToHttpRequest maxbuf r buf).2 =
      withBuf r (r.origin_lines ++
        [⟨cstr buf, decide ((cstr buf).getLast? = some '\n')⟩]) ln := by
  unfold AddLineToHttpRequest at h ⊢
  simp only at h ⊢
  split_ifs at h ⊢
  all_goals exact ⟨_, rfl⟩

theorem parseHeaders_frame (r : HttpRequest) (line : List Char) :
    (ParseHeaders r line).2.method = r.method ∧ (ParseHeaders r line).2.url = r.url ∧
      (ParseHeaders r line).2.version = r.version ∧
      (ParseHeaders r line).2.proxy_url = r.proxy_url ∧
      (ParseHeaders r line).2.origin_lines = r.origin_lines ∧
      (r.parse_state ≠ ParseState.PARSE_LINE →
        (ParseHeaders r line).2.parse_state ≠ ParseState.PARSE_LINE) := by
  unfold ParseHeaders
  split_ifs
  · exact ⟨rfl, rfl, rfl, rfl, rfl, fun _ => by simp⟩
  · split
    · exact ⟨rfl, rfl, rfl, rfl, rfl, id⟩
    · simp only
      split_ifs <;> exact ⟨rfl, rfl, rfl, rfl, rfl, id⟩

/-- A call of `ParseHttpRequest` that returns 0 once the request line is
parsed appends the C string of its buffer to `origin_lines` and leaves the
fields of the request line alone. -/
theorem parse_after_request_line (maxbuf : Nat) (r : HttpRequest) (buf : List Char)
    (hst : r.parse_state ≠ ParseState.PARSE_LINE)
    (h : (ParseHttpRequest maxbuf r buf).1 = 0) :
    (ParseHttpRequest maxbuf r buf).2.method = r.method ∧
      (ParseHttpRequest maxbuf r buf).2.url = r.url ∧
      (ParseHttpRequest maxbuf r buf).2.version = r.version ∧
      (ParseHttpRequest maxbuf r buf).2.proxy_url = r.proxy_url ∧
      (ParseHttpRequest maxbuf r buf).2.origin_lines = r.origin_lines ++
        [⟨cstr buf, decide ((cstr buf).getLast? = some '\n')⟩] ∧
      (ParseHttpRequest maxbuf r buf).2.parse_state ≠ ParseState.PARSE_LINE := by
  unfold ParseHttpRequest at h ⊢
  simp only at h ⊢
  by_cases hadd : (AddLineToHttpRequest maxbuf r buf).1 = 0
  · obtain ⟨ln, he⟩ := addLine_zero maxbuf r buf hadd
    simp only [hadd, ne_eq, not_true_eq_false, if_false] at h ⊢
    rw [he] at h ⊢
    have hol : (withBuf r (r.origin_lines ++
        [⟨cstr buf, decide ((cstr buf).getLast? = some '\n')⟩]) ln).origin_lines =
        r.origin_lines ++ [⟨cstr buf, decide ((cstr buf).getLast? = some '\n')⟩] := rfl
    have hps : (withBuf r (r.origin_lines ++
        [⟨cstr buf, decide ((cstr buf).getLast? = some '\n')⟩]) ln).parse_state =
        r.parse_state := rfl
    split
    · exact ⟨rfl, rfl, rfl, rfl, hol, by rw [hps]; exact hst⟩
    · split_ifs
      · exact ⟨rfl, rfl, rfl, rfl, hol, by rw [hps]; exact hst⟩
      · split
        · rename_i hpl
          rw [hps] at hpl
          exact absurd hpl hst
        · obtain ⟨h1, h2, h3, h4, h5, h6⟩ := parseHeaders_frame
            (withBuf r (r.origin_lines ++
              [⟨cstr buf, decide ((cstr buf).getLast? = some '\n')⟩]) ln)
            (totLine (withBuf r (r.origin_lines ++
              [⟨cstr buf, decide ((cstr buf).getLast? = some '\n')⟩]) ln).origin_lines)
          exact ⟨h1, h2, h3, h4, h5.trans hol, h6 (by rw [hps]; exact hst)⟩
        · exact ⟨rfl, rfl, rfl, rfl, hol, by rw [hps]; exact hst⟩
  · simp only [hadd, ne_eq, not_false_eq_true, if_true] at h

theorem feed_after_request_line (maxbuf : Nat) :
    ∀ (more : List (List Char)) (r : HttpRequest),
      r.parse_state ≠ ParseState.PARSE_LINE →
      (feedLines maxbuf r more).1 = 0 →
      (feedLines maxbuf r more).2.method = r.method ∧
        (feedLines maxbuf r more).2.url = r.url ∧
        (feedLines maxbuf r more).2.version = r.version ∧
        (feedLines maxbuf r more).2.proxy_url = r.proxy_url ∧
        (feedLines maxbuf r more).2.origin_lines = r.origin_lines ++
          more.map (fun l => ⟨cstr l, decide ((cstr l).getLast? = some '\n')⟩) := by
  intro more
  induction more with
  | nil => intro r _ _; simp [feedLines]
  | cons l rest ih =>
    intro r hst h
    simp only [feedLines] at h ⊢
    by_cases h0 : (ParseHttpRequest maxbuf r l).1 = 0
    · simp only [h0, if_true] at h ⊢
      obtain ⟨h1, h2, h3, h4, h5, h6⟩ := parse_after_request_line maxbuf r l hst h0
      obtain ⟨g1, g2, g3, g4, g5⟩ := ih _ h6 h
      refine ⟨g1.trans h1, g2.trans h2, g3.trans h3, g4.trans h4, ?_⟩
      rw [g5, h5]
      simp
    · simp only [h0, if_false] at h

/-- `ParseHttpRequest` on a fresh request and a request line of three tokens
separated by runs of spaces: the request afterwards, in full. -/
theorem parse_request_line_fresh (maxbuf : Nat) (M U V : List Char) (n1 n2 : Nat)
    (hM : ∀ c ∈ M, c ≠ ' ' ∧ c ≠ '\r' ∧ c ≠ '\n' ∧ c ≠ '\x00') (hM0 : M ≠ [])
    (hMl : M.length < METHOD_LEN)
    (hU : ∀ c ∈ U, c ≠ ' ' ∧ c ≠ '\r' ∧ c ≠ '\n' ∧ c ≠ '\x00') (hU0 : U ≠ [])
    (hUl : U.length < URL_LEN)
    (hV : ∀ c ∈ V, c ≠ ' ' ∧ c ≠ '\r' ∧ c ≠ '\n' ∧ c ≠ '\x00') (hV0 : V ≠ [])
    (hVl : V.length < VER_LEN)
    (hlen : (M ++ (List.replicate (n1 + 1) ' ' ++ (U ++ (List.replicate (n2 + 1) ' ' ++
      (V ++ ['\r', '\n']))))).length < maxbuf) :
    ∃ ln, ParseHttpRequest maxbuf InitHttpRequest
        (M ++ (List.replicate (n1 + 1) ' ' ++ (U ++ (List.replicate (n2 + 1) ' ' ++
          (V ++ ['\r', '\n']))))) =
      (0, { method := M, url := U, version := V, proxy_url := GetProxyUrl.scan U 0 0,
            host := [],
            origin_lines := [⟨M ++ (List.replicate (n1 + 1) ' ' ++ (U ++
              (List.replicate (n2 + 1) ' ' ++ (V ++ ['\r', '\n'])))), true⟩],
            line_num := ln, parse_state := ParseState.PARSE_HEADERS }) := by
  have hnul : '\x00' ∉ (M ++ (List.replicate (n1 + 1) ' ' ++ (U ++
      (List.replicate (n2 + 1) ' ' ++ (V ++ ['\r', '\n']))))) := by
    intro h
    simp only [List.mem_append, List.mem_replicate, List.mem_cons] at h
    rcases h with h | ⟨_, h⟩ | h | ⟨_, h⟩ | h | h | h | h
    · exact (hM _ h).2.2.2 rfl
    · exact absurd h (by decide)
    · exact (hU _ h).2.2.2 rfl
    · exact absurd h (by decide)
    · exact (hV _ h).2.2.2 rfl
    · exact absurd h (by decide)
    · exact absurd h (by decide)
    · exact absurd h (List.not_mem_nil _)
  have hne : (M ++ (List.replicate (n1 + 1) ' ' ++ (U ++
      (List.replicate (n2 + 1) ' ' ++ (V ++ ['\r', '\n']))))) ≠ [] := by
    simp [hM0]
  have hfin : (M ++ (List.replicate (n1 + 1) ' ' ++ (U ++
      (List.replicate (n2 + 1) ' ' ++ (V ++ ['\r', '\n']))))).getLast? = some '\n' := by
    have e : (M ++ (List.replicate (n1 + 1) ' ' ++ (U ++
        (List.replicate (n2 + 1) ' ' ++ (V ++ ['\r', '\n']))))) =
        (M ++ (List.replicate (n1 + 1) ' ' ++ (U ++
          (List.replicate (n2 + 1) ' ' ++ (V ++ ['\r']))))) ++ ['\n'] := by
      simp
    rw [e, List.getLast?_append_of_ne_nil _ (by simp)]
    rfl
  obtain ⟨ln, hp, -, -⟩ := parse_finished maxbuf InitHttpRequest _ initHttpRequest_bufOk
    (by simp [InitHttpRequest, HttpRequest.cur_line]) hnul hne hlen hfin
  have hst : InitHttpRequest.parse_state = ParseState.PARSE_LINE := rfl
  simp only [hst] at hp
  have hol : InitHttpRequest.origin_lines = [] := rfl
  rw [hol, List.nil_append, totLine_single] at hp
  refine ⟨ln, ?_⟩
  rw [hp, parseRequestLine_three_tokens _ M U V n1 n2
    (fun c hc => ⟨(hM c hc).1, (hM c hc).2.1, (hM c hc).2.2.1⟩) hM0 hMl
    (fun c hc => ⟨(hU c hc).1, (hU c hc).2.1, (hU c hc).2.2.1⟩) hU0 hUl
    (fun c hc => ⟨(hV c hc).1, (hV c hc).2.1, (hV c hc).2.2.1⟩) hV0 hVl]
  rfl

/-- C6 (amended): the request line forwarded to the origin is method, one
space, derived path, one space, version, CRLF.  So for every accepted request
line in that canonical form (M, U, V as in C2, separated by single spaces and
ended by CRLF) it is the original line with the absolute URL replaced by the
derived relative path, every other byte as the client sent it; and every line
fed after it (NUL-free, accepted by the parser) is forwarded byte for byte. -/
theorem request_line_rewrite (maxbuf : Nat) (M U V path : List Char)
    (more : List (List Char))
    (hM : ∀ c ∈ M, c ≠ ' ' ∧ c ≠ '\r' ∧ c ≠ '\n' ∧ c ≠ '\x00') (hM0 : M ≠ [])
    (hMl : M.length < METHOD_LEN)
    (hU : ∀ c ∈ U, c ≠ ' ' ∧ c ≠ '\r' ∧ c ≠ '\n' ∧ c ≠ '\x00') (hU0 : U ≠ [])
    (hUl : U.length < URL_LEN)
    (hV : ∀ c ∈ V, c ≠ ' ' ∧ c ≠ '\r' ∧ c ≠ '\n' ∧ c ≠ '\x00') (hV0 : V ≠ [])
    (hVl : V.length < VER_LEN)
    (hlen : (M ++ ([' '] ++ (U ++ ([' '] ++ (V ++ ['\r', '\n']))))).length < maxbuf)
    (hpath : (GetProxyUrl { InitHttpRequest with url := U }).proxyPath = some path)
    (hmore : ∀ l ∈ more, '\x00' ∉ l)
    (hfeed : (feedLines maxbuf InitHttpRequest
      ((M ++ ([' '] ++ (U ++ ([' '] ++ (V ++ ['\r', '\n']))))) :: more)).1 = 0) :
    linesToSend (feedLines maxbuf InitHttpRequest
        ((M ++ ([' '] ++ (U ++ ([' '] ++ (V ++ ['\r', '\n']))))) :: more)).2 =
      (M ++ ([' '] ++ (path ++ ([' '] ++ (V ++ ['\r', '\n']))))) :: more := by
  obtain ⟨ln, hp⟩ := parse_request_line_fresh maxbuf M U V 0 0 hM hM0 hMl hU hU0 hUl hV hV0 hVl
    (by simpa using hlen)
  have e1 : List.replicate (0 + 1) ' ' = [' '] := rfl
  rw [e1] at hp
  simp only [feedLines, hp, if_true] at hfeed ⊢
  obtain ⟨g1, g2, g3, g4, g5⟩ := feed_after_request_line maxbuf more _ (by simp) hfeed
  have hmap : more.map (fun l => (⟨cstr l, decide ((cstr l).getLast? = some '\n')⟩ : ReadLine)) =
      more.map (fun l => (⟨l, decide (l.getLast? = some '\n')⟩ : ReadLine)) := by
    apply List.map_congr_left
    intro l hl
    rw [cstr_eq_self (hmore l hl)]
  simp only [HttpRequest.proxyPath, GetProxyUrl] at hpath
  simp only at g1 g2 g3 g4 g5
  generalize (feedLines maxbuf _ more).2 = res at g1 g2 g3 g4 g5 ⊢
  have hsend : linesToSend res = rebuiltRequestLine res ::
      (more.map (fun l => (⟨l, decide (l.getLast? = some '\n')⟩ : ReadLine))).map
        ReadLine.line := by
    apply linesToSend_split res [] _ ⟨M ++ ([' '] ++ (U ++ ([' '] ++ (V ++ ['\r', '\n'])))), true⟩
    · rw [g5, hmap]; rfl
    · intro l hl; exact absurd hl (List.not_mem_nil _)
    · rfl
  rw [hsend]
  have hreb : rebuiltRequestLine res = M ++ ([' '] ++ (path ++ ([' '] ++ (V ++ ['\r', '\n'])))) := by
    unfold rebuiltRequestLine HttpRequest.proxyPath
    rw [g1, g2, g3, g4, hpath]
    simp
  rw [hreb]
  simp [List.map_map, Function.comp_def]

/-- C6 (witness): the request of the scenario. -/
theorem request_line_rewrite_witness :
    linesToSend (feedLines 8192 InitHttpRequest
        (("GET".toList ++ ([' '] ++ ("http://example.com/a".toList ++ ([' '] ++
          ("HTTP/1.1".toList ++ ['\r', '\n']))))) :: ["Host: example.com\r\n".toList])).2 =
      ("GET".toList ++ ([' '] ++ ("/a".toList ++ ([' '] ++
        ("HTTP/1.1".toList ++ ['\r', '\n']))))) :: ["Host: example.com\r\n".toList] :=
  request_line_rewrite 8192 "GET".toList "http://example.com/a".toList "HTTP/1.1".toList
    "/a".toList ["Host: example.com\r\n".toList]
    (by decide) (by decide) (by decide) (by decide) (by decide) (by decide)
    (by decide) (by decide) (by decide) (by decide) (by decide) (by decide) (by decide)

/-- C6 (counterexample): the client sends the request line
`GET  http://example.com/a HTTP/1.1` with two spaces after the method and a
bare LF at its end, then the Host header.  The parser accepts the line, the
connection becomes `CONNECTED`, and the origin receives
`GET /a HTTP/1.1` + CRLF: one of the two spaces is gone and the LF has become
CRLF, so the forwarded line is not the original with only the URL replaced. -/
theorem request_line_separators_not_preserved :
    (HandleUnconnectedClientFd csapp8192 scenarioModule (worldWithClient looseRequestBytes)
        scenarioPool scenarioRequest).2.2.2.proxy_state = ProxyState.CONNECTED ∧
      (HandleUnconnectedClientFd csapp8192 scenarioModule (worldWithClient looseRequestBytes)
        scenarioPool scenarioRequest).2.2.2.http_request.origin_lines.map ReadLine.line =
        ["GET  http://example.com/a HTTP/1.1\n".toList, "Host: example.com\r\n".toList] ∧
      (HandleUnconnectedClientFd csapp8192 scenarioModule (worldWithClient looseRequestBytes)
        scenarioPool scenarioRequest).2.2.2.http_request.proxyPath = some "/a".toList ∧
      ((HandleUnconnectedClientFd csapp8192 scenarioModule (worldWithClient looseRequestBytes)
        scenarioPool scenarioRequest).2.1.sock
          (HandleUnconnectedClientFd csapp8192 scenarioModule (worldWithClient looseRequestBytes)
            scenarioPool scenarioRequest).2.2.2.server_fd).map Sock.tx =
        some "GET /a HTTP/1.1\r\nHost: example.com\r\n".toList ∧
      "GET /a HTTP/1.1\r\nHost: example.com\r\n".toList ≠
        "GET  /a HTTP/1.1\nHost: example.com\r\n".toList := by
  decide

/-! ## Theorems: file system -/

theorem lookupNode_filter (l : List (Path × Node)) (p q : Path) :
    lookupNode (l.filter (fun e => decide (e.1 ≠ p))) q =
      if q = p then none else lookupNode l q := by
  induction l with
  | nil => simp [lookupNode]
  | cons e rest ih =>
    by_cases he : e.1 = p
    · have : (decide (e.1 ≠ p)) = false := by simp [he]
      rw [List.filter_cons_of_neg (by simp [he]), ih]
      by_cases hq : q = p
      · simp [hq]
      · have hqe : q ≠ e.1 := by rw [he]; exact hq
        simp [hq, lookupNode, hqe]
    · rw [List.filter_cons_of_pos (by simp [he])]
      simp only [lookupNode, ih]
      by_cases hq : q = p
      · have hqe : p ≠ e.1 := fun h => he h.symm
        simp [hq, hqe]
      · simp [hq]

theorem node_setNode (os : OS) (p : Path) (n : Option Node) (q : Path) :
    (os.setNode p n).node q =
      if q = [] then some Node.dir else if q = p then n else os.node q := by
  unfold OS.node OS.setNode
  by_cases hq : q = []
  · simp [hq]
  · simp only [hq, if_false]
    cases n with
    | none =>
      simp only [lookupNode_filter]
    | some x =>
      simp only [lookupNode, lookupNode_filter]
      by_cases hqp : q = p
      · simp [hqp]
      · simp [hqp]

theorem node_root (os : OS) : os.node [] = some Node.dir := by
  simp [OS.node]

theorem setNode_cwd (os : OS) (p : Path) (n : Option Node) : (os.setNode p n).cwd = os.cwd := rfl

theorem foldl_step_none (os : OS) (comps : List (List Char)) :
    comps.foldl os.step none = none := by
  induction comps with
  | nil => rfl
  | cons c cs ih => simpa [List.foldl, OS.step] using ih

theorem step_congr (os os2 : OS) (st : Option Path) (c : List Char)
    (h : ∀ q, os.node q = some Node.dir ↔ os2.node q = some Node.dir) :
    os.step st c = os2.step st c := by
  cases st with
  | none => rfl
  | some s =>
    unfold OS.step
    simp only
    by_cases hd : os.node s = some Node.dir
    · rw [if_pos hd, if_pos ((h s).mp hd)]
    · rw [if_neg hd, if_neg (fun h2 => hd ((h s).mpr h2))]

theorem resolve_congr (os os2 : OS) (path : List Char) (hcwd : os2.cwd = os.cwd)
    (h : ∀ q, os.node q = some Node.dir ↔ os2.node q = some Node.dir) :
    os.resolve path = os2.resolve path := by
  unfold OS.resolve OS.start
  rw [hcwd]
  have : os.step = os2.step := by
    funext st c
    exact step_congr os os2 st c h
  rw [this]

theorem foldl_step_mono (os os2 : OS)
    (h : ∀ q, os.node q = some Node.dir → os2.node q = some Node.dir) :
    ∀ (comps : List (List Char)) (st r : Path),
      comps.foldl os.step (some st) = some r → comps.foldl os2.step (some st) = some r := by
  intro comps
  induction comps with
  | nil => intro st r hr; exact hr
  | cons c cs ih =>
    intro st r hr
    simp only [List.foldl] at hr ⊢
    by_cases hd : os.node st = some Node.dir
    · have e : os2.step (some st) c = os.step (some st) c := by
        simp only [OS.step, hd, h st hd, if_true]
      rw [e]
      cases hs : os.step (some st) c with
      | none => rw [hs, foldl_step_none] at hr; exact absurd hr (by simp)
      | some s1 =>
        rw [hs] at hr
        exact ih s1 r hr
    · have : os.step (some st) c = none := by simp [OS.step, hd]
      rw [this, foldl_step_none] at hr
      exact absurd hr (by simp)

theorem resolve_mono (os os2 : OS) (path : List Char) (r : Path) (hcwd : os2.cwd = os.cwd)
    (h : ∀ q, os.node q = some Node.dir → os2.node q = some Node.dir)
    (hr : os.resolve path = some r) : os2.resolve path = some r := by
  unfold OS.resolve OS.start at hr ⊢
  rw [hcwd]
  by_cases hp : path = []
  · simp [hp] at hr
  · simp only [hp, if_false] at hr ⊢
    exact foldl_step_mono os os2 h _ _ _ hr

theorem lookupNode_mem (l : List (Path × Node)) (p : Path) (n : Node)
    (h : lookupNode l p = some n) : ∃ e ∈ l, e.1 = p := by
  induction l with
  | nil => simp [lookupNode] at h
  | cons e rest ih =>
    simp only [lookupNode] at h
    by_cases he : p = e.1
    · exact ⟨e, List.mem_cons_self _ _, he.symm⟩
    · rw [if_neg he] at h
      obtain ⟨e2, h2, h3⟩ := ih h
      exact ⟨e2, List.mem_cons_of_mem _ h2, h3⟩

theorem wf_parent (os : OS) (hwf : os.WF) (p : Path) (n : Node) (hn : os.node p = some n)
    (hp : p ≠ []) : os.node p.dropLast = some Node.dir := by
  unfold OS.node at hn
  rw [if_neg hp] at hn
  obtain ⟨e, he, rfl⟩ := lookupNode_mem _ _ _ hn
  exact hwf e he hp

theorem wf_free (os : OS) (x : Nat) : ({ os with free := x } : OS).WF ↔ os.WF := Iff.rfl

theorem node_free (os : OS) (x : Nat) (q : Path) : ({ os with free := x } : OS).node q = os.node q :=
  rfl

theorem wf_setNode_some (os : OS) (p : Path) (n : Node) (hwf : os.WF) (hp : p ≠ [])
    (hpar : os.node p.dropLast = some Node.dir) (hnd : os.node p ≠ some Node.dir) :
    (os.setNode p (some n)).WF := by
  have hdl : p.dropLast ≠ p := by
    intro h
    have := congrArg List.length h
    simp at this
    have : 0 < p.length := List.length_pos.mpr hp
    omega
  intro e he hne
  rw [node_setNode]
  simp only [OS.setNode, List.mem_cons, List.mem_filter] at he
  rcases he with rfl | ⟨he, _⟩
  · by_cases h0 : p.dropLast = []
    · simp [h0]
    · simp only at h0 ⊢
      rw [if_neg h0, if_neg hdl]
      exact hpar
  · have hpe := hwf e he hne
    by_cases h0 : e.1.dropLast = []
    · simp [h0]
    · rw [if_neg h0]
      by_cases h1 : e.1.dropLast = p
      · rw [h1] at hpe
        exact absurd hpe hnd
      · rw [if_neg h1]
        exact hpe

theorem wf_setNode_none (os : OS) (p : Path) (hwf : os.WF)
    (hnd : os.node p ≠ some Node.dir) : (os.setNode p none).WF := by
  intro e he hne
  rw [node_setNode]
  simp only [OS.setNode, List.mem_filter] at he
  have hpe := hwf e he.1 hne
  by_cases h0 : e.1.dropLast = []
  · simp [h0]
  · rw [if_neg h0]
    by_cases h1 : e.1.dropLast = p
    · rw [h1] at hpe
      exact absurd hpe hnd
    · rw [if_neg h1]
      exact hpe

theorem fileStep_refl (os : OS) (p : Path) : FileStep os os p :=
  ⟨rfl, fun _ _ => rfl, Or.inl rfl, id⟩

theorem fileStep_trans {os os1 os2 : OS} {p : Path} (h1 : FileStep os os1 p)
    (h2 : FileStep os1 os2 p) : FileStep os os2 p := by
  obtain ⟨a1, b1, c1, d1⟩ := h1
  obtain ⟨a2, b2, c2, d2⟩ := h2
  refine ⟨a2.trans a1, fun q hq => (b2 q hq).trans (b1 q hq), ?_, fun h => d2 (d1 h)⟩
  rcases c1 with c1 | ⟨d, d', e1, e2⟩
  · rcases c2 with c2 | ⟨d, d', e1, e2⟩
    · exact Or.inl (c2.trans c1)
    · exact Or.inr ⟨d, d', c1 ▸ e1, e2⟩
  · rcases c2 with c2 | ⟨x, x', f1, f2⟩
    · exact Or.inr ⟨d, d', e1, c2.trans e2⟩
    · exact Or.inr ⟨d, x', e1, f2⟩

/-- Replacing the contents of a file is a `FileStep`. -/
theorem fileStep_setFile (os : OS) (p : Path) (d d2 : List Char) (fr : Nat)
    (hn : os.node p = some (Node.file d)) :
    FileStep os { os.setNode p (some (Node.file d2)) with free := fr } p := by
  have hp : p ≠ [] := by
    rintro rfl
    rw [node_root] at hn
    exact absurd hn (by simp)
  refine ⟨rfl, ?_, Or.inr ⟨d, d2, hn, ?_⟩, ?_⟩
  · intro q hq
    rw [node_free, node_setNode]
    by_cases h0 : q = []
    · rw [if_pos h0, h0, node_root]
    · rw [if_neg h0, if_neg hq]
  · rw [node_free, node_setNode, if_neg hp, if_pos rfl]
  · intro hwf
    rw [wf_free]
    exact wf_setNode_some os p _ hwf hp (wf_parent os hwf p _ hn hp) (by rw [hn]; simp)

theorem sys_write_fileStep (os : OS) (f : Fd) (bytes : List Char) :
    FileStep os (sys_write (os, f) bytes).2.1 f.path ∧
      (sys_write (os, f) bytes).2.2.path = f.path ∧
      (sys_write (os, f) bytes).2.2.writable = f.writable := by
  unfold sys_write
  simp only
  by_cases h1 : (!f.writable) = true
  · rw [if_pos h1]
    exact ⟨fileStep_refl _ _, rfl, rfl⟩
  · rw [if_neg h1]
    cases hn : os.node f.path with
    | none => exact ⟨fileStep_refl _ _, rfl, rfl⟩
    | some n =>
      cases n with
      | dir => exact ⟨fileStep_refl _ _, rfl, rfl⟩
      | file data =>
        simp only
        by_cases h2 : bytes = []
        · rw [if_pos h2]
          exact ⟨fileStep_refl _ _, rfl, rfl⟩
        · rw [if_neg h2]
          by_cases h3 : min bytes.length (os.free + (data.length - f.pos)) = 0
          · rw [if_pos h3]
            exact ⟨fileStep_refl _ _, rfl, rfl⟩
          · rw [if_neg h3]
            exact ⟨fileStep_setFile os f.path data _ _ hn, rfl, rfl⟩

theorem file_write_fileStep (os : OS) (fd : Option Fd) (bytes : List Char) (p : Path)
    (hp : ∀ f, fd = some f → f.path = p) :
    FileStep os (file_write (os, fd) bytes).2.1 p ∧
      (∀ f, (file_write (os, fd) bytes).2.2 = some f → f.path = p) := by
  unfold file_write
  cases fd with
  | none => exact ⟨fileStep_refl _ _, fun f h => by simp at h⟩
  | some f =>
    simp only
    obtain ⟨h1, h2, _⟩ := sys_write_fileStep os f bytes
    rw [hp f rfl] at h1 h2
    refine ⟨h1, fun g hg => ?_⟩
    simp only [Option.some.injEq] at hg
    rw [← hg]
    exact h2

theorem rio_writen_loop_fileStep (p : Path) :
    ∀ (fuel : Nat) (os : OS) (fd : Option Fd) (left : List Char),
      (∀ f, fd = some f → f.path = p) →
      FileStep os (rio_writen.loop file_write fuel (os, fd) left).2.1 p ∧
        (∀ f, (rio_writen.loop file_write fuel (os, fd) left).2.2 = some f → f.path = p) := by
  intro fuel
  induction fuel with
  | zero => intro os fd left hp; exact ⟨fileStep_refl _ _, hp⟩
  | succ fuel ih =>
    intro os fd left hp
    simp only [rio_writen.loop]
    obtain ⟨h1, h2⟩ := file_write_fileStep os fd left p hp
    split_ifs
    · exact ⟨fileStep_refl _ _, hp⟩
    · exact ⟨h1, h2⟩
    · obtain ⟨h3, h4⟩ := ih (file_write (os, fd) left).2.1 (file_write (os, fd) left).2.2
        (left.drop (file_write (os, fd) left).1.toNat) h2
      exact ⟨fileStep_trans h1 h3, h4⟩

theorem fileStep_dir_iff {os os2 : OS} {p : Path} (h : FileStep os os2 p) (q : Path) :
    os.node q = some Node.dir ↔ os2.node q = some Node.dir := by
  obtain ⟨_, b, c, _⟩ := h
  by_cases hq : q = p
  · subst hq
    rcases c with c | ⟨d, d2, e1, e2⟩
    · rw [c]
    · rw [e1, e2]; simp
  · rw [b q hq]

theorem fileStep_resolve {os os2 : OS} {p : Path} (h : FileStep os os2 p) (path : List Char) :
    os2.resolve path = os.resolve path :=
  (resolve_congr os os2 path h.1 (fileStep_dir_iff h)).symm

theorem sys_write_writing (os : OS) (f : Fd) (data bytes : List Char)
    (hw : Writing os f data) (hb : bytes ≠ []) :
    ((sys_write (os, f) bytes).1 ≤ 0 ∧ (sys_write (os, f) bytes).2 = (os, f)) ∨
      (0 < (sys_write (os, f) bytes).1 ∧
        Writing (sys_write (os, f) bytes).2.1 (sys_write (os, f) bytes).2.2
          (data ++ bytes.take (sys_write (os, f) bytes).1.toNat)) := by
  obtain ⟨h1, h2, h3⟩ := hw
  have hp : f.path ≠ [] := by
    intro h0
    rw [h0, node_root] at h2
    exact absurd h2 (by simp)
  unfold sys_write
  simp only [h1, Bool.not_true, Bool.false_eq_true, if_false, h2, hb]
  by_cases hz : min bytes.length (os.free + (data.length - f.pos)) = 0
  · rw [if_pos hz]
    exact Or.inl ⟨by norm_num, rfl⟩
  · rw [if_neg hz]
    refine Or.inr ⟨by simp only; omega, rfl, ?_, ?_⟩
    · simp only [Int.toNat_ofNat]
      rw [node_free, node_setNode, if_neg hp, if_pos rfl, h3]
      simp
    · simp only [Int.toNat_ofNat, h3, List.length_append, List.length_take]
      omega

theorem rio_writen_loop_writing :
    ∀ (fuel : Nat) (os : OS) (f : Fd) (left data : List Char), Writing os f data →
      ∃ f2 written,
        (rio_writen.loop file_write fuel (os, some f) left).2.2 = some f2 ∧
        Writing (rio_writen.loop file_write fuel (os, some f) left).2.1 f2 (data ++ written) ∧
        ((rio_writen.loop file_write fuel (os, some f) left).1 = true → written = left) := by
  intro fuel
  induction fuel with
  | zero =>
    intro os f left data hw
    refine ⟨f, [], rfl, by simpa using hw, ?_⟩
    intro h
    simp only [rio_writen.loop, decide_eq_true_eq] at h
    exact h.symm
  | succ fuel ih =>
    intro os f left data hw
    simp only [rio_writen.loop]
    by_cases hl : left = []
    · rw [if_pos hl]
      exact ⟨f, [], rfl, by simpa using hw, fun _ => hl.symm⟩
    · rw [if_neg hl]
      have hfw : file_write (os, some f) left = ((sys_write (os, f) left).1,
          ((sys_write (os, f) left).2.1, some (sys_write (os, f) left).2.2)) := rfl
      rw [hfw]
      simp only
      rcases sys_write_writing os f data left hw hl with ⟨h1, h2⟩ | ⟨h1, h2⟩
      · rw [if_pos h1, h2]
        exact ⟨f, [], rfl, by simpa using hw, fun h => by simp at h⟩
      · rw [if_neg (by omega)]
        obtain ⟨f2, written, e1, e2, e3⟩ := ih _ _ (left.drop (sys_write (os, f) left).1.toNat) _ h2
        refine ⟨f2, left.take (sys_write (os, f) left).1.toNat ++ written, e1, ?_, ?_⟩
        · rw [← List.append_assoc]; exact e2
        · intro h
          rw [e3 h, List.take_append_drop]

theorem write_writing (os : OS) (ci : CacheInfo) (f : Fd) (data content : List Char)
    (hfd : ci.fd = some f) (hw : Writing os f data)
    (h0 : (WriteToCache.write os ci content).1 = 0) :
    ∃ f2, (WriteToCache.write os ci content).2.2 = { ci with fd := some f2 } ∧
      f2.path = f.path ∧
      Writing (WriteToCache.write os ci content).2.1 f2 (data ++ content) ∧
      FileStep os (WriteToCache.write os ci content).2.1 f.path := by
  unfold WriteToCache.write rio_writen at h0 ⊢
  rw [hfd] at h0 ⊢
  obtain ⟨f2, written, e1, e2, e3⟩ := rio_writen_loop_writing (content.length + 1) os f content
    data hw
  obtain ⟨s1, s2⟩ := rio_writen_loop_fileStep f.path (content.length + 1) os (some f) content
    (fun g hg => by simp at hg; rw [← hg])
  by_cases hl : (rio_writen.loop file_write (content.length + 1) (os, some f) content).1 = true
  · simp only [hl, if_true] at h0 ⊢
    have hneg : ¬ ((content.length : Int) < 0) := by omega
    rw [if_neg hneg]
    simp only
    rw [e1]
    refine ⟨f2, rfl, s2 f2 e1, ?_, s1⟩
    rw [e3 hl] at e2
    exact e2
  · simp [hl] at h0

theorem openTempFile_cases (os : OS) (ci : CacheInfo) (hw : ci.is_write = false) :
    OpenTempFile os ci OpenFlags.O_WRONLY_CREAT_EXCL = (1, os, { ci with fd := none }) ∨
      ∃ t, os.resolve ci.temp_path = some t ∧ os.node t = none ∧
        ci.temp_path.getLast? ≠ some '/' ∧
        OpenTempFile os ci OpenFlags.O_WRONLY_CREAT_EXCL =
          (0, os.setNode t (some (Node.file [])),
            { ci with fd := some ⟨t, 0, true⟩, rp := rio_readinitb (some ⟨t, 0, true⟩),
                      is_write := true }) := by
  unfold OpenTempFile sys_open
  simp only [hw, Bool.not_false, if_true]
  cases hr : os.resolve ci.temp_path with
  | none => exact Or.inl rfl
  | some t =>
    simp only
    by_cases hc : (os.node t).isSome = true ∨ ci.temp_path.getLast? = some '/'
    · rw [if_pos hc]
      exact Or.inl rfl
    · rw [if_neg hc]
      refine Or.inr ⟨t, rfl, ?_, fun h => hc (Or.inr h), rfl⟩
      cases hn : os.node t with
      | none => rfl
      | some n => exact absurd (Or.inl (by simp [hn])) hc

theorem node_ne_root_of_none {os : OS} {t : Path} (h : os.node t = none) : t ≠ [] := by
  rintro rfl
  rw [node_root] at h
  exact absurd h (by simp)

/-- The first successful `WriteToCache` on a handle creates the temp file and
stores the chunk in it. -/
theorem first_write_written (os : OS) (ci : CacheInfo) (content : List Char)
    (hw : ci.is_write = false) (h0 : (WriteToCache os ci content).1 = 0) :
    ∃ t, Written (WriteToCache os ci content).2.1 (WriteToCache os ci content).2.2 t content ∧
      (WriteToCache os ci content).2.2.is_open = ci.is_open ∧
      (WriteToCache os ci content).2.2.error_msg = ci.error_msg ∧
      (WriteToCache os ci content).2.2.cache_path = ci.cache_path ∧
      (WriteToCache os ci content).2.2.temp_path = ci.temp_path := by
  unfold WriteToCache at h0 ⊢
  simp only [hw, Bool.not_false, if_true] at h0 ⊢
  by_cases h1 : (CreateCacheDir os ci).1 ≠ 0
  · rw [if_pos h1] at h0
    simp at h0
  rw [if_neg h1] at h0 ⊢
  by_cases h2 : (CreateTempDir (CreateCacheDir os ci).2 ci).1 ≠ 0
  · rw [if_pos h2] at h0
    simp at h0
  rw [if_neg h2] at h0 ⊢
  rcases openTempFile_cases (CreateTempDir (CreateCacheDir os ci).2 ci).2 ci hw with
    he | ⟨t, hr, hn, hsl, he⟩
  · rw [he] at h0
    simp at h0
  · rw [he] at h0 ⊢
    simp only [ne_eq, not_true_eq_false, if_false] at h0 ⊢
    have ht : t ≠ [] := node_ne_root_of_none hn
    have hwr : Writing ((CreateTempDir (CreateCacheDir os ci).2 ci).2.setNode t
        (some (Node.file []))) ⟨t, 0, true⟩ [] := by
      refine ⟨rfl, ?_, rfl⟩
      rw [node_setNode, if_neg ht, if_pos rfl]
    obtain ⟨f2, e1, e2, e3, e4⟩ := write_writing _ _ ⟨t, 0, true⟩ [] content rfl hwr h0
    refine ⟨t, ⟨?_, ?_, ?_, f2, ?_, e2, by simpa using e3⟩, ?_, ?_, ?_, ?_⟩
    · rw [e1]
    · rw [fileStep_resolve e4, e1]
      have hdir : ∀ q, (CreateTempDir (CreateCacheDir os ci).2 ci).2.node q = some Node.dir ↔
          ((CreateTempDir (CreateCacheDir os ci).2 ci).2.setNode t
            (some (Node.file []))).node q = some Node.dir := by
        intro q
        rw [node_setNode]
        by_cases hq0 : q = []
        · simp [hq0, node_root]
        · rw [if_neg hq0]
          by_cases hqt : q = t
          · rw [if_pos hqt, hqt, hn]; simp
          · rw [if_neg hqt]
      rw [← resolve_congr _ _ _ (setNode_cwd _ _ _) hdir]
      exact hr
    · rw [e1]; exact hsl
    · rw [e1]
    · rw [e1]
    · rw [e1]
    · rw [e1]
    · rw [e1]

theorem next_write_written (os : OS) (ci : CacheInfo) (t : Path) (data content : List Char)
    (hW : Written os ci t data) (h0 : (WriteToCache os ci content).1 = 0) :
    Written (WriteToCache os ci content).2.1 (WriteToCache os ci content).2.2 t
        (data ++ content) ∧
      (WriteToCache os ci content).2.2.is_open = ci.is_open ∧
      (WriteToCache os ci content).2.2.error_msg = ci.error_msg ∧
      (WriteToCache os ci content).2.2.cache_path = ci.cache_path ∧
      (WriteToCache os ci content).2.2.temp_path = ci.temp_path ∧
      FileStep os (WriteToCache os ci content).2.1 t := by
  obtain ⟨hw, hr, hsl, f, hfd, hp, hwr⟩ := hW
  have e : WriteToCache os ci content = WriteToCache.write os ci content := by
    unfold WriteToCache
    simp [hw]
  rw [e] at h0 ⊢
  obtain ⟨f2, e1, e2, e3, e4⟩ := write_writing os ci f data content hfd hwr h0
  rw [hp] at e2 e4
  refine ⟨⟨?_, ?_, ?_, f2, ?_, e2, e3⟩, ?_, ?_, ?_, ?_, e4⟩
  · rw [e1]; exact hw
  · rw [fileStep_resolve e4, e1]; exact hr
  · rw [e1]; exact hsl
  · rw [e1]
  · rw [e1]
  · rw [e1]
  · rw [e1]
  · rw [e1]

theorem writeChunks_written :
    ∀ (chunks : List (List Char)) (os : OS) (ci : CacheInfo) (t : Path) (data : List Char),
      Written os ci t data → (∀ r ∈ (writeChunks os ci chunks).1, r = 0) →
      Written (writeChunks os ci chunks).2.1 (writeChunks os ci chunks).2.2 t
          (data ++ chunks.flatten) ∧
        (writeChunks os ci chunks).2.2.is_open = ci.is_open ∧
        (writeChunks os ci chunks).2.2.error_msg = ci.error_msg ∧
        (writeChunks os ci chunks).2.2.cache_path = ci.cache_path ∧
        (writeChunks os ci chunks).2.2.temp_path = ci.temp_path ∧
        FileStep os (writeChunks os ci chunks).2.1 t := by
  intro chunks
  induction chunks with
  | nil =>
    intro os ci t data hW _
    exact ⟨by simpa [writeChunks] using hW, rfl, rfl, rfl, rfl, fileStep_refl _ _⟩
  | cons c cs ih =>
    intro os ci t data hW hall
    simp only [writeChunks] at hall ⊢
    have h0 : (WriteToCache os ci c).1 = 0 := hall _ (List.mem_cons_self _ _)
    obtain ⟨a1, a2, a3, a4, a5, a6⟩ := next_write_written os ci t data c hW h0
    obtain ⟨b1, b2, b3, b4, b5, b6⟩ := ih _ _ t (data ++ c) a1
      (fun r hr => hall r (List.mem_cons_of_mem _ hr))
    refine ⟨?_, b2.trans a2, b3.trans a3, b4.trans a4, b5.trans a5, fileStep_trans a6 b6⟩
    simpa [List.append_assoc] using b1

/-- After one or more `WriteToCache` calls on a fresh handle that all return
0, the temp file holds the chunks in order. -/
theorem writeChunks_fresh (chunks : List (List Char)) (os : OS) (ci : CacheInfo)
    (hw : ci.is_write = false) (hne : chunks ≠ [])
    (hall : ∀ r ∈ (writeChunks os ci chunks).1, r = 0) :
    ∃ t, Written (writeChunks os ci chunks).2.1 (writeChunks os ci chunks).2.2 t
          chunks.flatten ∧
        (writeChunks os ci chunks).2.2.is_open = ci.is_open ∧
        (writeChunks os ci chunks).2.2.error_msg = ci.error_msg ∧
        (writeChunks os ci chunks).2.2.cache_path = ci.cache_path ∧
        (writeChunks os ci chunks).2.2.temp_path = ci.temp_path := by
  cases chunks with
  | nil => exact absurd rfl hne
  | cons c cs =>
    simp only [writeChunks] at hall ⊢
    have h0 : (WriteToCache os ci c).1 = 0 := hall _ (List.mem_cons_self _ _)
    obtain ⟨t, a1, a2, a3, a4, a5⟩ := first_write_written os ci c hw h0
    obtain ⟨b1, b2, b3, b4, b5, _⟩ := writeChunks_written cs _ _ t c a1
      (fun r hr => hall r (List.mem_cons_of_mem _ hr))
    exact ⟨t, by simpa using b1, b2.trans a2, b3.trans a3, b4.trans a4, b5.trans a5⟩

/-! ## Theorems: reading lines -/

theorem takeLine_append_drop : ∀ (n : Nat) (l : List Char),
    takeLine n l ++ l.drop (takeLine n l).length = l := by
  intro n
  induction n with
  | zero => intro l; simp [takeLine]
  | succ n ih =>
    intro l
    cases l with
    | nil => simp [takeLine]
    | cons c rest =>
      simp only [takeLine]
      split_ifs
      · simp
      · simpa using ih rest

theorem takeLine_ne_nil (n : Nat) (l : List Char) (hn : 0 < n) (hl : l ≠ []) :
    takeLine n l ≠ [] := by
  cases n with
  | zero => omega
  | succ n =>
    cases l with
    | nil => exact absurd rfl hl
    | cons c rest =>
      simp only [takeLine]
      split_ifs <;> simp

theorem takeLine_readerLine : ∀ (c : List Char) (n : Nat) (x : List Char),
    isReaderLine n c → takeLine n (c ++ x) = c := by
  intro c
  induction c with
  | nil => intro n x h; exact absurd rfl h.1
  | cons a c ih =>
    intro n x ⟨_, hlen, hnl, hend⟩
    cases n with
    | zero => simp at hlen
    | succ n =>
      simp only [List.cons_append, takeLine]
      cases c with
      | nil =>
        by_cases ha : a = '\n'
        · rw [if_pos ha]
        · rw [if_neg ha]
          rcases hend with hend | hend
          · exact absurd (by simpa using hend) ha
          · simp at hend
            subst hend
            simp [takeLine]
      | cons b c =>
        have ha : a ≠ '\n' := by
          intro h
          apply hnl
          rw [h]
          simp [List.dropLast]
        rw [if_neg ha]
        congr 1
        apply ih n x
        refine ⟨by simp, by simp at hlen ⊢; omega, ?_, ?_⟩
        · intro h
          apply hnl
          simp only [List.dropLast_cons₂] at h ⊢
          exact List.mem_cons_of_mem _ h
        · rcases hend with hend | hend
          · left
            simpa [List.getLast?_cons_cons] using hend
          · right
            simp at hend ⊢
            omega

theorem rio_read1_file (os : OS) (rp : Rio (Option Fd)) (data rest : List Char)
    (bufsize : Nat) (hb : 0 < bufsize) (hR : Reading os rp data rest) :
    ∃ rp2, rio_read1 file_read bufsize os rp = (nextByte rest, os, rp2) ∧
      Reading os rp2 data rest.tail := by
  obtain ⟨f, hfd, hw, hn, hrest⟩ := hR
  unfold rio_read1
  cases hbuf : rp.buf with
  | cons c b =>
    rw [hbuf] at hrest
    simp only
    subst hrest
    exact ⟨{ rp with buf := b }, rfl, f, hfd, hw, hn, rfl⟩
  | nil =>
    rw [hbuf, List.nil_append] at hrest
    simp only
    have hfr : file_read os rp.rio_fd bufsize =
        ((sys_read os f bufsize).1, os, some (sys_read os f bufsize).2) := by
      rw [hfd]; rfl
    rw [hfr]
    unfold sys_read
    simp only [hw, Bool.false_eq_true, if_false, hn, hrest]
    cases hre : rest with
    | nil =>
      simp only [List.take_nil, if_true]
      refine ⟨_, rfl, f, rfl, hw, hn, ?_⟩
      simp [hrest, hre]
    | cons c r =>
      obtain ⟨b, rfl⟩ : ∃ b, bufsize = b + 1 := ⟨bufsize - 1, by omega⟩
      simp only [List.take_succ_cons, if_false, List.length_cons, List.tail_cons]
      have hne : ¬ (c :: List.take b r = []) := by simp
      rw [if_neg hne]
      refine ⟨_, rfl, _, rfl, rfl, hn, ?_⟩
      simp only
      rw [← List.drop_drop, hrest, hre]
      have hd : List.drop (min b r.length) r = List.drop b r := by
        rcases Nat.le_total b r.length with h | h
        · rw [Nat.min_eq_left h]
        · rw [Nat.min_eq_right h, List.drop_length, List.drop_eq_nil_of_le h]
      simp [hd, List.take_append_drop]

theorem rio_readlineb_loop_file (os : OS) (data : List Char) (bufsize : Nat)
    (hb : 0 < bufsize) :
    ∀ (k : Nat) (rp : Rio (Option Fd)) (acc rest : List Char), Reading os rp data rest →
      ∃ rp2, rio_readlineb.loop file_read bufsize k os rp acc =
          (((acc ++ takeLine k rest).length : Int), acc ++ takeLine k rest, os, rp2) ∧
        Reading os rp2 data (rest.drop (takeLine k rest).length) := by
  intro k
  induction k with
  | zero =>
    intro rp acc rest hR
    exact ⟨rp, by simp [rio_readlineb.loop, takeLine], by simpa [takeLine] using hR⟩
  | succ k ih =>
    intro rp acc rest hR
    obtain ⟨rp2, h1, h2⟩ := rio_read1_file os rp data rest bufsize hb hR
    simp only [rio_readlineb.loop, h1, nextByte]
    cases rest with
    | nil =>
      simp only [takeLine, List.append_nil, List.length_nil, List.drop_nil]
      exact ⟨rp2, rfl, by simpa using h2⟩
    | cons c r =>
      simp only [takeLine, List.tail_cons] at h2 ⊢
      by_cases hc : c = '\n'
      · simp only [hc, if_true]
        refine ⟨rp2, rfl, by simpa using h2⟩
      · simp only [hc, if_false]
        obtain ⟨rp3, h3, h4⟩ := ih rp2 (acc ++ [c]) r h2
        refine ⟨rp3, ?_, by simpa using h4⟩
        rw [h3]
        simp

theorem readLine_of_reading (k : Csapp) (os : OS) (ci : CacheInfo) (data rest : List Char)
    (max_len : Nat) (hb : 0 < k.RIO_BUFSIZE) (hopen : ci.is_open = true)
    (hR : Reading os ci.rp data rest) :
    ∃ ci2, ReadLineFromCache k os ci max_len =
        (((takeLine (max_len - 1) rest).length : Int), takeLine (max_len - 1) rest, ci2) ∧
      ci2.is_open = true ∧
      Reading os ci2.rp data (rest.drop (takeLine (max_len - 1) rest).length) := by
  obtain ⟨rp2, h1, h2⟩ := rio_readlineb_loop_file os data k.RIO_BUFSIZE hb (max_len - 1) ci.rp
    [] rest hR
  simp only [List.nil_append] at h1
  unfold ReadLineFromCache rio_readlineb
  simp only [hopen, Bool.not_true, Bool.false_eq_true, if_false, ne_eq, not_true_eq_false, h1]
  have hneg : ¬ (((takeLine (max_len - 1) rest).length : Int) < 0) := by omega
  rw [if_neg hneg]
  exact ⟨_, rfl, rfl, h2⟩

theorem readLine_cacheReading (k : Csapp) (os : OS) (ci : CacheInfo) (data rest : List Char)
    (max_len : Nat) (hb : 0 < k.RIO_BUFSIZE) (hC : CacheReading os ci data rest) :
    ∃ ci2, ReadLineFromCache k os ci max_len =
        (((takeLine (max_len - 1) rest).length : Int), takeLine (max_len - 1) rest, ci2) ∧
      CacheReading os ci2 data (rest.drop (takeLine (max_len - 1) rest).length) := by
  rcases hC with ⟨hopen, hR⟩ | ⟨hclosed, hrest, c, hres, hn⟩
  · obtain ⟨ci2, h1, h2, h3⟩ := readLine_of_reading k os ci data rest max_len hb hopen hR
    exact ⟨ci2, h1, Or.inl ⟨h2, h3⟩⟩
  · subst hrest
    have hoc : OpenCacheFile os ci OpenFlags.O_RDONLY =
        (0, os, { ci with fd := some ⟨c, 0, false⟩, rp := rio_readinitb (some ⟨c, 0, false⟩),
                          is_open := true }) := by
      unfold OpenCacheFile sys_open
      simp [hclosed, hres, hn]
    have hR : Reading os (rio_readinitb (some (Fd.mk c 0 false))) rest rest :=
      ⟨⟨c, 0, false⟩, rfl, rfl, hn, by simp [rio_readinitb]⟩
    obtain ⟨ci2, h1, h2, h3⟩ := readLine_of_reading k os
      { ci with fd := some ⟨c, 0, false⟩, rp := rio_readinitb (some ⟨c, 0, false⟩),
                is_open := true } rest rest max_len hb rfl hR
    refine ⟨ci2, ?_, Or.inl ⟨h2, h3⟩⟩
    rw [← h1]
    unfold ReadLineFromCache
    simp only [hclosed, Bool.not_false, if_true, hoc, Bool.not_true, Bool.false_eq_true, if_false]

/-- Reading a published file to its end returns its bytes, cut into the lines
of the line reader. -/
theorem readCacheLines_all (k : Csapp) (os : OS) (data : List Char) (max_len : Nat)
    (hb : 0 < k.RIO_BUFSIZE) (hmax : 2 ≤ max_len) :
    ∀ (fuel : Nat) (rest : List Char) (ci : CacheInfo), CacheReading os ci data rest →
      rest.length < fuel →
      ∃ lines ci2, readCacheLines k os max_len fuel ci = some (0, lines, ci2) ∧
        lines.flatten = rest ∧
        ∀ chunks : List (List Char), chunks.flatten = rest →
          (∀ c ∈ chunks, isReaderLine (max_len - 1) c) → lines = chunks := by
  intro fuel
  induction fuel with
  | zero => intro rest ci _ h; omega
  | succ fuel ih =>
    intro rest ci hC hlen
    obtain ⟨ci2, h1, h2⟩ := readLine_cacheReading k os ci data rest max_len hb hC
    simp only [readCacheLines, h1]
    by_cases hrest : rest = []
    · subst hrest
      have e : takeLine (max_len - 1) [] = [] := by
        cases (max_len - 1) <;> rfl
      simp only [e, List.length_nil, Nat.cast_zero, lt_self_iff_false, if_false]
      refine ⟨[], ci2, rfl, rfl, ?_⟩
      intro chunks hfl hall
      cases chunks with
      | nil => rfl
      | cons c cs =>
        have hc := (hall c (List.mem_cons_self _ _)).1
        simp at hfl
        exact absurd hfl.1 hc
    · have hne := takeLine_ne_nil (max_len - 1) rest (by omega) hrest
      have hpos : 0 < (takeLine (max_len - 1) rest).length := List.length_pos.mpr hne
      have hposI : (0 : Int) < ((takeLine (max_len - 1) rest).length : Int) := by omega
      rw [if_pos hposI]
      have hlen2 : (rest.drop (takeLine (max_len - 1) rest).length).length < fuel := by
        have : 0 < rest.length := List.length_pos.mpr hrest
        simp only [List.length_drop]
        omega
      obtain ⟨lines, ci3, e1, e2, e3⟩ := ih _ ci2 h2 hlen2
      rw [e1]
      refine ⟨takeLine (max_len - 1) rest :: lines, ci3, rfl, ?_, ?_⟩
      · simp only [List.flatten_cons, e2]
        exact takeLine_append_drop _ _
      · intro chunks hfl hall
        cases chunks with
        | nil => simp at hfl; exact absurd hfl hrest
        | cons c cs =>
          have hc := hall c (List.mem_cons_self _ _)
          simp only [List.flatten_cons] at hfl
          have htl : takeLine (max_len - 1) rest = c := by
            rw [← hfl]
            exact takeLine_readerLine c _ _ hc
          rw [htl]
          congr 1
          apply e3
          · rw [htl, ← hfl]
            simp
          · exact fun d hd => hall d (List.mem_cons_of_mem _ hd)

/-! ## Theorems: publishing -/

theorem dropTrailingSlashes_eq_self (path : List Char) (h : path.getLast? ≠ some '/') :
    dropTrailingSlashes path = path := by
  unfold dropTrailingSlashes
  cases hr : path.reverse with
  | nil => simp at hr; simp [hr]
  | cons c rest =>
    have hc : c ≠ '/' := by
      intro hc
      apply h
      rw [← List.head?_reverse, hr, hc]
      rfl
    simp only [List.dropWhile, hc, decide_False]
    rw [← hr, List.reverse_reverse]

theorem moved_dir_iff (os : OS) (po pn : Path) (data : List Char)
    (hpo : ∃ d, os.node po = some (Node.file d)) (hpn : os.node pn ≠ some Node.dir) (q : Path) :
    os.node q = some Node.dir ↔
      ((os.setNode po none).setNode pn (some (Node.file data))).node q = some Node.dir := by
  rw [node_setNode, node_setNode]
  by_cases hq0 : q = []
  · simp [hq0, node_root]
  · simp only [hq0, if_false]
    by_cases hqn : q = pn
    · simp only [hqn, if_true]
      constructor
      · intro h; exact absurd h hpn
      · intro h; exact absurd h (by simp)
    · simp only [hqn, if_false]
      by_cases hqo : q = po
      · obtain ⟨d, hd⟩ := hpo
        simp [hqo, hd]
      · simp [hqo]

theorem moved_dir_iff_free (os : OS) (po pn : Path) (data : List Char) (fr : Nat)
    (hpo : ∃ d, os.node po = some (Node.file d)) (hpn : os.node pn ≠ some Node.dir) (q : Path) :
    os.node q = some Node.dir ↔
      ({ (os.setNode po none).setNode pn (some (Node.file data)) with free := fr } : OS).node q =
        some Node.dir :=
  moved_dir_iff os po pn data hpo hpn q

/-- What a successful `rename` of the temp file of a handle onto its cache
path leaves behind. -/
theorem rename_published (os : OS) (ci : CacheInfo) (t : Path) (data : List Char)
    (hW : Written os ci t data)
    (h0 : (sys_rename os ci.temp_path ci.cache_path).1 = 0) :
    ∃ c, (sys_rename os ci.temp_path ci.cache_path).2.resolve ci.cache_path = some c ∧
      (sys_rename os ci.temp_path ci.cache_path).2.node c = some (Node.file data) ∧
      os.resolve ci.cache_path = some c ∧
      (sys_rename os ci.temp_path ci.cache_path).2.resolve ci.temp_path = some t ∧
      (c ≠ t → (sys_rename os ci.temp_path ci.cache_path).2.node t = none) := by
  obtain ⟨_, hr, hsl, f, _, hp, _, hn, _⟩ := hW
  rw [hp] at hn
  have ht : t ≠ [] := by
    rintro rfl
    rw [node_root] at hn
    exact absurd hn (by simp)
  unfold sys_rename at h0 ⊢
  rw [dropTrailingSlashes_eq_self _ hsl, hr] at h0 ⊢
  cases hrn : os.resolve (dropTrailingSlashes ci.cache_path) with
  | none => rw [hrn] at h0; simp at h0
  | some pn =>
    rw [hrn] at h0
    simp only [hn] at h0 ⊢
    by_cases hs : ci.temp_path.getLast? = some '/' ∨ ci.cache_path.getLast? = some '/'
    · rw [if_pos hs] at h0; simp at h0
    · rw [if_neg hs] at h0 ⊢
      have hcs : ci.cache_path.getLast? ≠ some '/' := fun h => hs (Or.inr h)
      rw [dropTrailingSlashes_eq_self _ hcs] at hrn
      by_cases hsame : t = pn
      · rw [if_pos hsame] at h0 ⊢
        subst hsame
        exact ⟨t, hrn, hn, hrn, hr, fun h => absurd rfl h⟩
      · rw [if_neg hsame] at h0 ⊢
        have hpn0 : pn ≠ [] ∨ True := Or.inr trivial
        cases hnn : os.node pn with
        | none =>
          simp only [hnn] at h0 ⊢
          have hdir := moved_dir_iff os t pn data ⟨data, hn⟩ (by rw [hnn]; simp)
          have hpn : pn ≠ [] := node_ne_root_of_none hnn
          refine ⟨pn, ?_, ?_, hrn, ?_, fun _ => ?_⟩
          · exact (resolve_congr os _ ci.cache_path (by rfl) hdir).symm.trans hrn
          · rw [node_setNode, if_neg hpn, if_pos rfl]
          · exact (resolve_congr os _ ci.temp_path (by rfl) hdir).symm.trans hr
          · rw [node_setNode, if_neg ht, if_neg hsame, node_setNode, if_neg ht, if_pos rfl]
        | some nn =>
          cases nn with
          | dir => simp [hnn] at h0
          | file old_data =>
            simp only [hnn] at h0 ⊢
            have hdir := moved_dir_iff_free os t pn data (os.free + old_data.length) ⟨data, hn⟩
              (by rw [hnn]; simp)
            have hpn : pn ≠ [] := by
              rintro rfl
              rw [node_root] at hnn
              exact absurd hnn (by simp)
            refine ⟨pn, ?_, ?_, hrn, ?_, fun _ => ?_⟩
            · exact (resolve_congr os _ ci.cache_path (by rfl) hdir).symm.trans hrn
            · change ((os.setNode t none).setNode pn (some (Node.file data))).node pn = _
              rw [node_setNode, if_neg hpn, if_pos rfl]
            · exact (resolve_congr os _ ci.temp_path (by rfl) hdir).symm.trans hr
            · change ((os.setNode t none).setNode pn (some (Node.file data))).node t = _
              rw [node_setNode, if_neg ht, if_neg hsame, node_setNode, if_neg ht, if_pos rfl]

theorem createCacheInfo_ok (m : CacheModule) (host url : List Char)
    (h : (CreateCacheInfo m host url).1 = 0) :
    (CreateCacheInfo m host url).2 =
      { is_open := false, is_write := false, fd := none, rp := rio_readinitb none,
        cache_path := dropTrailingSlashes (m.CACHE_DIR ++ host ++ url),
        temp_path := dropTrailingSlashes (m.TEMP_DIR ++ host ++ url), error_msg := [] } := by
  unfold CreateCacheInfo at h ⊢
  simp only at h ⊢
  split_ifs at h ⊢
  all_goals first
    | rfl
    | simp at h

/-- `FreeCacheInfo` on a handle that has written without error: the temp
file is renamed, and removed when that fails. -/
theorem free_after_writes (os : OS) (ci : CacheInfo) (hopen : ci.is_open = false)
    (hw : ci.is_write = true) (herr : ci.error_msg = []) :
    FreeCacheInfo os ci =
      (if (sys_rename os ci.temp_path ci.cache_path).1 < 0 then
          (RemoveDir (sys_rename os ci.temp_path ci.cache_path).2 ci.temp_path).2
        else (sys_rename os ci.temp_path ci.cache_path).2,
        { ci with fd := none, is_write := false }) := by
  unfold FreeCacheInfo IsCacheError
  simp only [hopen, hw, herr, List.length_nil, lt_self_iff_false, if_false, if_true,
    Bool.false_eq_true]
  split_ifs <;> first | rfl | simp_all

/-- C7: for every key for which `CreateCacheInfo` succeeds and every
non-empty sequence of chunks that `WriteToCache` all accepts (returns 0) and
that `FreeCacheInfo` publishes (its `rename` returns 0), reading the entry
with `ReadLineFromCache` (buffer of at least 2 bytes) until it returns 0 does
reach that 0 and yields lines whose concatenation is the concatenation of the
chunks; when every chunk is one line of the reader (it ends at its first
newline or is `max_len - 1` bytes long) the lines read are the chunks. -/
theorem cache_round_trip (k : Csapp) (m : CacheModule) (os : OS) (host url : List Char)
    (chunks : List (List Char)) (max_len fuel : Nat)
    (hb : 0 < k.RIO_BUFSIZE) (hmax : 2 ≤ max_len)
    (hci : (CreateCacheInfo m host url).1 = 0) (hne : chunks ≠ [])
    (hall : ∀ r ∈ (writeChunks os (CreateCacheInfo m host url).2 chunks).1, r = 0)
    (hpub : (sys_rename (writeChunks os (CreateCacheInfo m host url).2 chunks).2.1
      (CreateCacheInfo m host url).2.temp_path (CreateCacheInfo m host url).2.cache_path).1 = 0)
    (hfuel : chunks.flatten.length < fuel) :
    ∃ lines ci2,
      readCacheLines k
          (FreeCacheInfo (writeChunks os (CreateCacheInfo m host url).2 chunks).2.1
            (writeChunks os (CreateCacheInfo m host url).2 chunks).2.2).1 max_len fuel
          (FreeCacheInfo (writeChunks os (CreateCacheInfo m host url).2 chunks).2.1
            (writeChunks os (CreateCacheInfo m host url).2 chunks).2.2).2 =
        some (0, lines, ci2) ∧
      lines.flatten = chunks.flatten ∧
      ((∀ c ∈ chunks, isReaderLine (max_len - 1) c) → lines = chunks) := by
  have hfresh := createCacheInfo_ok m host url hci
  generalize (CreateCacheInfo m host url).2 = ci at hall hpub hfresh ⊢
  have hw0 : ci.is_write = false := by rw [hfresh]
  have ho0 : ci.is_open = false := by rw [hfresh]
  have he0 : ci.error_msg = [] := by rw [hfresh]
  obtain ⟨t, hW, a2, a3, a4, a5⟩ := writeChunks_fresh chunks os ci hw0 hne hall
  generalize (writeChunks os ci chunks).2.1 = osn at hW hpub ⊢
  generalize (writeChunks os ci chunks).2.2 = cin at hW a2 a3 a4 a5 ⊢
  rw [← a4, ← a5] at hpub
  rw [free_after_writes osn cin (a2.trans ho0) hW.1 (a3.trans he0)]
  have hnl : ¬ (sys_rename osn cin.temp_path cin.cache_path).1 < 0 := by rw [hpub]; decide
  rw [if_neg hnl]
  obtain ⟨c, h1, h2, _, _, _⟩ := rename_published osn cin t chunks.flatten hW hpub
  have hC : CacheReading (sys_rename osn cin.temp_path cin.cache_path).2
      { cin with fd := none, is_write := false } chunks.flatten chunks.flatten :=
    Or.inr ⟨a2.trans ho0, rfl, c, h1, h2⟩
  obtain ⟨lines, ci2, e1, e2, e3⟩ := readCacheLines_all k _ chunks.flatten max_len hb hmax fuel
    chunks.flatten _ hC hfuel
  exact ⟨lines, ci2, e1, e2, fun hl => e3 chunks rfl hl⟩

/-- C7 (witness): the second key and content of `test_cache.c`, written
twice as the test does. -/
theorem cache_round_trip_witness :
    ∃ lines ci2,
      readCacheLines csapp8192
          (FreeCacheInfo (writeChunks scenarioOS
              (CreateCacheInfo scenarioModule "www.baidu.com".toList "/".toList).2
              ["www.baidu.com\nHello, baidu ! ! !".toList,
                "www.baidu.com\nHello, baidu ! ! !".toList]).2.1
            (writeChunks scenarioOS
              (CreateCacheInfo scenarioModule "www.baidu.com".toList "/".toList).2
              ["www.baidu.com\nHello, baidu ! ! !".toList,
                "www.baidu.com\nHello, baidu ! ! !".toList]).2.2).1 8192 100
          (FreeCacheInfo (writeChunks scenarioOS
              (CreateCacheInfo scenarioModule "www.baidu.com".toList "/".toList).2
              ["www.baidu.com\nHello, baidu ! ! !".toList,
                "www.baidu.com\nHello, baidu ! ! !".toList]).2.1
            (writeChunks scenarioOS
              (CreateCacheInfo scenarioModule "www.baidu.com".toList "/".toList).2
              ["www.baidu.com\nHello, baidu ! ! !".toList,
                "www.baidu.com\nHello, baidu ! ! !".toList]).2.2).2 =
        some (0, lines, ci2) ∧
      lines.flatten = (["www.baidu.com\nHello, baidu ! ! !".toList,
        "www.baidu.com\nHello, baidu ! ! !".toList] : List (List Char)).flatten ∧
      ((∀ c ∈ (["www.baidu.com\nHello, baidu ! ! !".toList,
          "www.baidu.com\nHello, baidu ! ! !".toList] : List (List Char)),
          isReaderLine (8192 - 1) c) →
        lines = ["www.baidu.com\nHello, baidu ! ! !".toList,
          "www.baidu.com\nHello, baidu ! ! !".toList]) :=
  cache_round_trip csapp8192 scenarioModule scenarioOS "www.baidu.com".toList "/".toList
    ["www.baidu.com\nHello, baidu ! ! !".toList, "www.baidu.com\nHello, baidu ! ! !".toList]
    8192 100 (by decide) (by decide) (by decide) (by decide) (by decide) (by decide)
    (by decide)

/-! ## Theorems: paths without `..` -/

theorem foldl_step_lexical (os : OS) :
    ∀ (comps : List (List Char)) (st r : Path), ['.', '.'] ∉ comps →
      comps.foldl os.step (some st) = some r → r = st ++ properNames comps := by
  intro comps
  induction comps with
  | nil =>
    intro st r _ hr
    simp only [List.foldl, Option.some.injEq] at hr
    simp [properNames, hr]
  | cons c cs ih =>
    intro st r hdd hr
    have hc : c ≠ ['.', '.'] := fun h => hdd (h ▸ List.mem_cons_self _ _)
    have hcs : ['.', '.'] ∉ cs := fun h => hdd (List.mem_cons_of_mem _ h)
    simp only [List.foldl] at hr
    by_cases hd : os.node st = some Node.dir
    · by_cases he : c = [] ∨ c = ['.']
      · have e : os.step (some st) c = some st := by simp [OS.step, hd, he]
        rw [e] at hr
        have hp : properNames (c :: cs) = properNames cs := by
          unfold properNames
          rw [List.filter_cons_of_neg]
          rcases he with he | he <;> simp [he]
        rw [hp]
        exact ih st r hcs hr
      · have e : os.step (some st) c = some (st ++ [c]) := by simp [OS.step, hd, he, hc]
        rw [e] at hr
        have hp : properNames (c :: cs) = c :: properNames cs := by
          unfold properNames
          rw [List.filter_cons_of_pos]
          simpa [not_or] using he
        rw [hp, ih _ r hcs hr]
        simp
    · have e : os.step (some st) c = none := by simp [OS.step, hd]
      rw [e, foldl_step_none] at hr
      exact absurd hr (by simp)

theorem resolve_lexical (os : OS) (path : List Char) (r : Path)
    (hdd : ['.', '.'] ∉ splitPath path) (hr : os.resolve path = some r) :
    r = os.lexical path := by
  unfold OS.resolve at hr
  by_cases hp : path = []
  · simp [hp] at hr
  · rw [if_neg hp] at hr
    exact foldl_step_lexical os _ _ _ hdd hr

theorem foldl_step_transfer (os os2 : OS) (r : Path)
    (h : ∀ q, q <+: r → os2.node q = some Node.dir → os.node q = some Node.dir) :
    ∀ (comps : List (List Char)) (st : Path), ['.', '.'] ∉ comps →
      comps.foldl os2.step (some st) = some r → comps.foldl os.step (some st) = some r := by
  intro comps
  induction comps with
  | nil => intro st _ hr; exact hr
  | cons c cs ih =>
    intro st hdd hr
    have hcs : ['.', '.'] ∉ cs := fun h => hdd (List.mem_cons_of_mem _ h)
    have hpre : st <+: r := by
      rw [foldl_step_lexical os2 _ st r hdd hr]
      exact List.prefix_append _ _
    simp only [List.foldl] at hr ⊢
    by_cases hd : os2.node st = some Node.dir
    · have e : os.step (some st) c = os2.step (some st) c := by
        simp only [OS.step, hd, h st hpre hd, if_true]
      rw [e]
      cases hs : os2.step (some st) c with
      | none => rw [hs, foldl_step_none] at hr; exact absurd hr (by simp)
      | some s1 =>
        rw [hs] at hr
        exact ih s1 hcs hr
    · have e : os2.step (some st) c = none := by simp [OS.step, hd]
      rw [e, foldl_step_none] at hr
      exact absurd hr (by simp)

theorem wf_ancestors (os : OS) (hwf : os.WF) :
    ∀ (n : Nat) (r : Path) (x : Node), r.length = n → os.node r = some x →
      ∀ q, q <+: r → q ≠ r → os.node q = some Node.dir := by
  intro n
  induction n with
  | zero =>
    intro r x hl _ q hq hne
    have : r = [] := List.length_eq_zero.mp hl
    subst this
    exact absurd (List.prefix_nil.mp hq) hne
  | succ n ih =>
    intro r x hl hx q hq hne
    have hr : r ≠ [] := by
      intro h
      rw [h] at hl
      simp at hl
    have hpar := wf_parent os hwf r x hx hr
    have hq2 : q <+: r.dropLast := by
      obtain ⟨suf, hs⟩ := hq
      have hsuf : suf ≠ [] := by
        intro h
        apply hne
        rw [← hs, h, List.append_nil]
      rw [← hs, List.dropLast_append_of_ne_nil _ hsuf]
      exact List.prefix_append _ _
    by_cases hqe : q = r.dropLast
    · rw [hqe]; exact hpar
    · exact ih r.dropLast Node.dir (by simp [hl]) hpar q hq2 hqe

theorem lexical_cwd (os os2 : OS) (path : List Char) (h : os2.cwd = os.cwd) :
    os2.lexical path = os.lexical path := by
  unfold OS.lexical OS.start
  rw [h]

theorem isCacheHit_eq_one_iff (os : OS) (ci : CacheInfo) :
    IsCacheHit os ci = 1 ↔ ∃ d, os.stat ci.cache_path = some (Node.file d) := by
  unfold IsCacheHit sys_access
  cases hs : os.stat ci.cache_path with
  | none => simp
  | some n =>
    cases n with
    | file d => simp
    | dir => simp

theorem isCacheHit_zero_or_one (os : OS) (ci : CacheInfo) :
    IsCacheHit os ci = 0 ∨ IsCacheHit os ci = 1 := by
  unfold IsCacheHit
  split_ifs
  · exact Or.inl rfl
  · split
    · exact Or.inl rfl
    · exact Or.inr rfl
    · exact Or.inl rfl

/-- A file that a path name without `..` reaches in `os2` and that exists in
the tree `os` is reached by the same name in `os`. -/
theorem stat_file_transfer (os os2 : OS) (path : List Char) (d d0 : List Char)
    (hwf : os.WF) (hcwd : os2.cwd = os.cwd) (hdd : ['.', '.'] ∉ splitPath path)
    (hs : os2.stat path = some (Node.file d))
    (hn : os.node (os.lexical path) = some (Node.file d0)) :
    os.stat path = some (Node.file d0) := by
  unfold OS.stat at hs ⊢
  cases hr : os2.resolve path with
  | none => rw [hr] at hs; simp at hs
  | some r =>
    rw [hr] at hs
    change os2.node r = _ at hs
    have hlex : r = os.lexical path := by
      rw [resolve_lexical os2 path r hdd hr]
      exact lexical_cwd os os2 path hcwd
    rw [← hlex] at hn
    have hres : os.resolve path = some r := by
      unfold OS.resolve OS.start at hr ⊢
      by_cases hp : path = []
      · simp [hp] at hr
      · rw [if_neg hp] at hr ⊢
        rw [hcwd] at hr
        apply foldl_step_transfer os os2 r _ _ _ hdd hr
        intro q hq hqd
        have hqr : q ≠ r := by
          rintro rfl
          rw [hs] at hqd
          exact absurd hqd (by simp)
        exact wf_ancestors os hwf r.length r _ rfl hn q hq hqr
    rw [hres]
    exact hn

theorem grow_refl (os : OS) (t : Path) : Grow os os t :=
  ⟨rfl, fun _ h => h, fun _ d h => Or.inr ⟨d, h⟩, id⟩

theorem grow_trans {os os1 os2 : OS} {t : Path} (h1 : Grow os os1 t) (h2 : Grow os1 os2 t) :
    Grow os os2 t := by
  obtain ⟨a1, b1, c1, d1⟩ := h1
  obtain ⟨a2, b2, c2, d2⟩ := h2
  refine ⟨a2.trans a1, fun q h => b2 q (b1 q h), ?_, fun h => d2 (d1 h)⟩
  intro q d hq
  rcases c2 q d hq with h | ⟨d0, h⟩
  · exact Or.inl h
  · exact c1 q d0 h

theorem grow_of_fileStep {os os2 : OS} {p : Path} (h : FileStep os os2 p) (t : Path) :
    Grow os os2 t := by
  obtain ⟨a, b, c, d⟩ := h
  refine ⟨a, fun q hq => (fileStep_dir_iff ⟨a, b, c, d⟩ q).mp hq, ?_, d⟩
  intro q x hq
  by_cases hqp : q = p
  · subst hqp
    rcases c with c | ⟨d1, d2, e1, e2⟩
    · exact Or.inr ⟨x, by rw [← c]; exact hq⟩
    · exact Or.inr ⟨d1, e1⟩
  · exact Or.inr ⟨x, by rw [← b q hqp]; exact hq⟩

theorem splitPath_ne_nil : ∀ path : List Char, splitPath path ≠ [] := by
  intro path
  induction path with
  | nil => simp [splitPath]
  | cons c rest ih =>
    simp only [splitPath]
    split_ifs
    · simp
    · split <;> simp

/-- In a tree, the place a path name resolves to, when nothing is there, lies
in an existing directory. -/
theorem resolve_parent (os : OS) (hwf : os.WF) (path : List Char) (p : Path)
    (hr : os.resolve path = some p) (hn : os.node p = none) :
    p ≠ [] ∧ os.node p.dropLast = some Node.dir := by
  refine ⟨node_ne_root_of_none hn, ?_⟩
  unfold OS.resolve at hr
  by_cases hp : path = []
  · simp [hp] at hr
  · rw [if_neg hp] at hr
    obtain ⟨ini, c, hc⟩ : ∃ ini c, splitPath path = ini ++ [c] :=
      ⟨(splitPath path).dropLast, (splitPath path).getLast (splitPath_ne_nil path),
        (List.dropLast_append_getLast (splitPath_ne_nil path)).symm⟩
    rw [hc, List.foldl_append] at hr
    simp only [List.foldl] at hr
    cases hs : ini.foldl os.step (some (os.start path)) with
    | none => rw [hs] at hr; simp [OS.step] at hr
    | some s =>
      rw [hs] at hr
      unfold OS.step at hr
      simp only at hr
      by_cases hd : os.node s = some Node.dir
      · rw [if_pos hd] at hr
        split_ifs at hr with h1 h2
        · simp only [Option.some.injEq] at hr
          rw [← hr, hd] at hn
          exact absurd hn (by simp)
        · simp only [Option.some.injEq] at hr
          by_cases hs0 : s = []
          · rw [hs0] at hr
            simp at hr
            rw [hr, node_root] at hn
            exact absurd hn (by simp)
          · have := wf_parent os hwf s _ hd hs0
            rw [hr, hn] at this
            exact absurd this (by simp)
        · simp only [Option.some.injEq] at hr
          rw [← hr, List.dropLast_concat]
          exact hd
      · rw [if_neg hd] at hr
        exact absurd hr (by simp)

theorem mkdir_grow (os : OS) (path : List Char) (t : Path) :
    Grow os (sys_mkdir os path).2 t := by
  unfold sys_mkdir
  cases hr : os.resolve (dropTrailingSlashes path) with
  | none => exact grow_refl _ _
  | some p =>
    simp only
    by_cases hs : (os.node p).isSome = true
    · rw [if_pos hs]
      exact grow_refl _ _
    · rw [if_neg hs]
      have hn : os.node p = none := by
        cases h : os.node p with
        | none => rfl
        | some x => rw [h] at hs; simp at hs
      have hp0 : p ≠ [] := node_ne_root_of_none hn
      refine ⟨rfl, ?_, ?_, ?_⟩
      · intro q hq
        rw [node_setNode]
        by_cases hq0 : q = []
        · simp [hq0]
        · rw [if_neg hq0]
          by_cases hqp : q = p
          · rw [if_pos hqp]
          · rw [if_neg hqp]; exact hq
      · intro q d hq
        rw [node_setNode] at hq
        by_cases hq0 : q = []
        · simp [hq0] at hq
        · rw [if_neg hq0] at hq
          by_cases hqp : q = p
          · rw [if_pos hqp] at hq
            simp at hq
          · rw [if_neg hqp] at hq
            exact Or.inr ⟨d, hq⟩
      · intro hwf
        obtain ⟨_, hpar⟩ := resolve_parent os hwf _ p hr hn
        exact wf_setNode_some os p _ hwf hp0 hpar (by rw [hn]; simp)

theorem createDir_loop_grow (path : List Char) (t : Path) :
    ∀ (rest : List Char) (i : Nat) (os : OS), Grow os (CreateDir.loop path i rest os).2 t := by
  intro rest
  induction rest with
  | nil =>
    intro i os
    simp only [CreateDir.loop]
    by_cases h : DirExist os path = 0
    · rw [if_pos h]
      exact mkdir_grow os path t
    · rw [if_neg h]
      exact grow_refl _ _
  | cons c rest ih =>
    intro i os
    simp only [CreateDir.loop]
    by_cases h1 : i ≠ 0 ∧ c = '/'
    · rw [if_pos h1]
      by_cases h2 : DirExist os (path.take i) = 0
      · rw [if_pos h2]
        by_cases h3 : (sys_mkdir os (path.take i)).1 ≠ 0
        · rw [if_pos h3]
          exact mkdir_grow os _ t
        · rw [if_neg h3]
          exact grow_trans (mkdir_grow os _ t) (ih _ _)
      · rw [if_neg h2]
        exact ih _ _
    · rw [if_neg h1]
      exact ih _ _

theorem createDir_grow (os : OS) (path : List Char) (t : Path) :
    Grow os (CreateDir os path).2 t :=
  createDir_loop_grow path t path 0 os

theorem createCacheDir_grow (os : OS) (ci : CacheInfo) (t : Path) :
    Grow os (CreateCacheDir os ci).2 t := by
  unfold CreateCacheDir
  by_cases h : 0 < (dirPart ci.cache_path).length
  · rw [if_pos h]
    exact createDir_grow _ _ _
  · rw [if_neg h]
    exact grow_refl _ _

theorem createTempDir_grow (os : OS) (ci : CacheInfo) (t : Path) :
    Grow os (CreateTempDir os ci).2 t := by
  unfold CreateTempDir
  by_cases h : 0 < (dirPart ci.temp_path).length
  · rw [if_pos h]
    exact createDir_grow _ _ _
  · rw [if_neg h]
    exact grow_refl _ _

theorem fileStep_file {os os2 : OS} {p : Path} (h : FileStep os os2 p) (q : Path)
    (d : List Char) (hq : os.node q = some (Node.file d)) :
    ∃ d2, os2.node q = some (Node.file d2) := by
  obtain ⟨_, b, c, _⟩ := h
  by_cases hqp : q = p
  · subst hqp
    rcases c with c | ⟨d1, d2, _, e2⟩
    · exact ⟨d, by rw [c]; exact hq⟩
    · exact ⟨d2, e2⟩
  · exact ⟨d, by rw [b q hqp]; exact hq⟩

theorem write_os (os : OS) (ci : CacheInfo) (content : List Char) :
    (WriteToCache.write os ci content).2.1 =
      (rio_writen.loop file_write (content.length + 1) (os, ci.fd) content).2.1 := by
  unfold WriteToCache.write rio_writen
  simp only
  split_ifs <;> rfl

theorem write_fileStep (os : OS) (ci : CacheInfo) (content : List Char) :
    ∃ p, FileStep os (WriteToCache.write os ci content).2.1 p := by
  rw [write_os]
  cases hfd : ci.fd with
  | none =>
    exact ⟨[], (rio_writen_loop_fileStep [] (content.length + 1) os none content
      (fun f hf => by simp at hf)).1⟩
  | some f =>
    exact ⟨f.path, (rio_writen_loop_fileStep f.path (content.length + 1) os (some f) content
      (fun g hg => by simp at hg; rw [← hg])).1⟩

theorem write_frame (os : OS) (ci : CacheInfo) (content : List Char) :
    (WriteToCache.write os ci content).2.2.cache_path = ci.cache_path ∧
      (WriteToCache.write os ci content).2.2.temp_path = ci.temp_path ∧
      (WriteToCache.write os ci content).2.2.is_open = ci.is_open ∧
      (WriteToCache.write os ci content).2.2.is_write = ci.is_write ∧
      (((WriteToCache.write os ci content).1 = 0 ∧
          (WriteToCache.write os ci content).2.2.error_msg = ci.error_msg) ∨
        ((WriteToCache.write os ci content).1 = -1 ∧
          (WriteToCache.write os ci content).2.2.error_msg = strerror_r)) := by
  unfold WriteToCache.write
  simp only
  split_ifs
  · exact ⟨rfl, rfl, rfl, rfl, Or.inr ⟨rfl, rfl⟩⟩
  · exact ⟨rfl, rfl, rfl, rfl, Or.inl ⟨rfl, rfl⟩⟩

theorem writeToCache_frame (os : OS) (ci : CacheInfo) (content : List Char) :
    (WriteToCache os ci content).2.2.cache_path = ci.cache_path ∧
      (WriteToCache os ci content).2.2.temp_path = ci.temp_path ∧
      (WriteToCache os ci content).2.2.is_open = ci.is_open ∧
      (((WriteToCache os ci content).1 = 0 ∧
          (WriteToCache os ci content).2.2.error_msg = ci.error_msg) ∨
        ((WriteToCache os ci content).1 = -1 ∧
          (WriteToCache os ci content).2.2.error_msg = strerror_r)) := by
  unfold WriteToCache
  by_cases hw : ci.is_write = true
  · simp only [hw, Bool.not_true, Bool.false_eq_true, if_false]
    obtain ⟨a, b, c, _, e⟩ := write_frame os ci content
    exact ⟨a, b, c, e⟩
  · have hw2 : ci.is_write = false := by simpa using hw
    simp only [hw2, Bool.not_false, if_true]
    by_cases h1 : (CreateCacheDir os ci).1 ≠ 0
    · rw [if_pos h1]
      exact ⟨rfl, rfl, rfl, Or.inr ⟨rfl, rfl⟩⟩
    rw [if_neg h1]
    by_cases h2 : (CreateTempDir (CreateCacheDir os ci).2 ci).1 ≠ 0
    · rw [if_pos h2]
      exact ⟨rfl, rfl, rfl, Or.inr ⟨rfl, rfl⟩⟩
    rw [if_neg h2]
    rcases openTempFile_cases (CreateTempDir (CreateCacheDir os ci).2 ci).2 ci hw2 with
      he | ⟨t, _, _, _, he⟩
    · rw [he]
      exact ⟨rfl, rfl, rfl, Or.inr ⟨rfl, rfl⟩⟩
    · rw [he]
      simp only [ne_eq, not_true_eq_false, if_false]
      obtain ⟨a, b, c, _, e⟩ := write_frame
        ((CreateTempDir (CreateCacheDir os ci).2 ci).2.setNode t (some (Node.file [])))
        { ci with fd := some ⟨t, 0, true⟩, rp := rio_readinitb (some ⟨t, 0, true⟩),
                  is_write := true } content
      exact ⟨a, b, c, e⟩

theorem write_inv (os : OS) (ci : CacheInfo) (content : List Char) (t : Path)
    (hC : Created os ci t) :
    Grow os (WriteToCache.write os ci content).2.1 t ∧
      Created (WriteToCache.write os ci content).2.1 (WriteToCache.write os ci content).2.2
        t := by
  obtain ⟨p, hp⟩ := write_fileStep os ci content
  obtain ⟨_, b, _, d, _⟩ := write_frame os ci content
  refine ⟨grow_of_fileStep hp t, ?_⟩
  intro hw
  rw [d] at hw
  obtain ⟨h1, d0, h2⟩ := hC hw
  rw [b, fileStep_resolve hp]
  exact ⟨h1, fileStep_file hp t d0 h2⟩

theorem create_grow (os : OS) (t : Path) (hn : os.node t = none)
    (hpar : os.WF → os.node t.dropLast = some Node.dir) :
    Grow os (os.setNode t (some (Node.file []))) t := by
  have ht : t ≠ [] := node_ne_root_of_none hn
  refine ⟨rfl, ?_, ?_, ?_⟩
  · intro q hq
    rw [node_setNode]
    by_cases hq0 : q = []
    · simp [hq0]
    · rw [if_neg hq0]
      by_cases hqt : q = t
      · rw [hqt, hn] at hq
        exact absurd hq (by simp)
      · rw [if_neg hqt]
        exact hq
  · intro q d hq
    by_cases hqt : q = t
    · exact Or.inl hqt
    · rw [node_setNode] at hq
      by_cases hq0 : q = []
      · simp [hq0] at hq
      · rw [if_neg hq0, if_neg hqt] at hq
        exact Or.inr ⟨d, hq⟩
  · intro hwf
    exact wf_setNode_some os t _ hwf ht (hpar hwf) (by rw [hn]; simp)

theorem create_dir_iff (os : OS) (t : Path) (hn : os.node t = none) (q : Path) :
    os.node q = some Node.dir ↔ (os.setNode t (some (Node.file []))).node q = some Node.dir := by
  rw [node_setNode]
  by_cases hq0 : q = []
  · simp [hq0, node_root]
  · rw [if_neg hq0]
    by_cases hqt : q = t
    · rw [if_pos hqt, hqt, hn]
      simp
    · rw [if_neg hqt]

/-- One `WriteToCache` call, whatever it returns, only adds directories to
the file system, creates the temp file or changes a file that exists. -/
theorem writeToCache_inv (os0 os : OS) (ci : CacheInfo) (content : List Char)
    (hdd : ['.', '.'] ∉ splitPath ci.temp_path)
    (hG : Grow os0 os (os0.lexical ci.temp_path))
    (hC : Created os ci (os0.lexical ci.temp_path)) :
    Grow os0 (WriteToCache os ci content).2.1 (os0.lexical ci.temp_path) ∧
      Created (WriteToCache os ci content).2.1 (WriteToCache os ci content).2.2
        (os0.lexical ci.temp_path) := by
  unfold WriteToCache
  by_cases hw : ci.is_write = true
  · simp only [hw, Bool.not_true, Bool.false_eq_true, if_false]
    obtain ⟨g, c⟩ := write_inv os ci content _ hC
    exact ⟨grow_trans hG g, c⟩
  · have hw2 : ci.is_write = false := by simpa using hw
    simp only [hw2, Bool.not_false, if_true]
    have g1 : Grow os0 (CreateCacheDir os ci).2 (os0.lexical ci.temp_path) :=
      grow_trans hG (createCacheDir_grow os ci _)
    have g2 : Grow os0 (CreateTempDir (CreateCacheDir os ci).2 ci).2 (os0.lexical ci.temp_path) :=
      grow_trans g1 (createTempDir_grow _ ci _)
    by_cases h1 : (CreateCacheDir os ci).1 ≠ 0
    · rw [if_pos h1]
      exact ⟨g1, fun h => absurd h (by simp [hw2])⟩
    rw [if_neg h1]
    by_cases h2 : (CreateTempDir (CreateCacheDir os ci).2 ci).1 ≠ 0
    · rw [if_pos h2]
      exact ⟨g2, fun h => absurd h (by simp [hw2])⟩
    rw [if_neg h2]
    rcases openTempFile_cases (CreateTempDir (CreateCacheDir os ci).2 ci).2 ci hw2 with
      he | ⟨t, hr, hn, _, he⟩
    · rw [he]
      exact ⟨g2, fun h => absurd h (by simp [hw2])⟩
    · rw [he]
      simp only [ne_eq, not_true_eq_false, if_false]
      have ht : t = os0.lexical ci.temp_path := by
        rw [resolve_lexical _ _ t hdd hr]
        exact lexical_cwd os0 _ _ g2.1
      rw [← ht] at g2 ⊢
      have g3 := create_grow (CreateTempDir (CreateCacheDir os ci).2 ci).2 t hn
        (fun hwf => (resolve_parent _ hwf _ t hr hn).2)
      have c3 : Created ((CreateTempDir (CreateCacheDir os ci).2 ci).2.setNode t
          (some (Node.file [])))
          { ci with fd := some ⟨t, 0, true⟩, rp := rio_readinitb (some ⟨t, 0, true⟩),
                    is_write := true } t := by
        intro _
        refine ⟨?_, [], ?_⟩
        · rw [← resolve_congr _ _ _ (setNode_cwd _ _ _) (create_dir_iff _ t hn)]
          exact hr
        · rw [node_setNode, if_neg (node_ne_root_of_none hn), if_pos rfl]
      obtain ⟨g, c⟩ := write_inv _ _ content t c3
      exact ⟨grow_trans (grow_trans g2 g3) g, c⟩

/-- Any number of `WriteToCache` calls on one handle, whatever they return. -/
theorem writeChunks_inv (os0 : OS) :
    ∀ (chunks : List (List Char)) (os : OS) (ci : CacheInfo),
      ['.', '.'] ∉ splitPath ci.temp_path →
      Grow os0 os (os0.lexical ci.temp_path) → Created os ci (os0.lexical ci.temp_path) →
      Grow os0 (writeChunks os ci chunks).2.1 (os0.lexical ci.temp_path) ∧
        Created (writeChunks os ci chunks).2.1 (writeChunks os ci chunks).2.2
          (os0.lexical ci.temp_path) ∧
        (writeChunks os ci chunks).2.2.cache_path = ci.cache_path ∧
        (writeChunks os ci chunks).2.2.temp_path = ci.temp_path ∧
        (writeChunks os ci chunks).2.2.is_open = ci.is_open ∧
        (IsCacheError ci = 1 ∨ (-1 : Int) ∈ (writeChunks os ci chunks).1 →
          IsCacheError (writeChunks os ci chunks).2.2 = 1) := by
  intro chunks
  induction chunks with
  | nil =>
    intro os ci _ hG hC
    refine ⟨hG, hC, rfl, rfl, rfl, ?_⟩
    intro h
    rcases h with h | h
    · exact h
    · simp [writeChunks] at h
  | cons c cs ih =>
    intro os ci hdd hG hC
    obtain ⟨f1, f2, f3, f4⟩ := writeToCache_frame os ci c
    obtain ⟨g1, c1⟩ := writeToCache_inv os0 os ci c hdd hG hC
    simp only [writeChunks]
    rw [← f2] at hdd g1 c1
    obtain ⟨a1, a2, a3, a4, a5, a6⟩ := ih _ _ hdd g1 c1
    rw [f2] at a1 a2
    refine ⟨a1, a2, a3.trans f1, a4.trans f2, a5.trans f3, ?_⟩
    intro h
    apply a6
    rcases f4 with ⟨r0, e0⟩ | ⟨r1, e1⟩
    · rcases h with h | h
      · left
        unfold IsCacheError at h ⊢
        rw [e0]
        exact h
      · right
        rw [r0] at h
        simpa using h
    · left
      unfold IsCacheError
      rw [e1]
      decide

/-- A path name without `..` that names no file in a tree names no file after
the tree has grown, unless it is the place of the new file. -/
theorem miss_preserved (os0 os : OS) (path : List Char) (t : Path) (d : List Char)
    (hwf : os0.WF) (hdd : ['.', '.'] ∉ splitPath path) (hG : Grow os0 os t)
    (hne : os0.lexical path ≠ t) (hs : os.stat path = some (Node.file d)) :
    ∃ d0, os0.stat path = some (Node.file d0) := by
  have hs2 := hs
  unfold OS.stat at hs2
  cases hr : os.resolve path with
  | none => rw [hr] at hs2; simp at hs2
  | some r =>
    rw [hr] at hs2
    change os.node r = _ at hs2
    have hlex : r = os0.lexical path := by
      rw [resolve_lexical os path r hdd hr]
      exact lexical_cwd os0 os path hG.1
    rcases hG.2.2.1 r d hs2 with h | ⟨d0, h⟩
    · exact absurd (hlex.symm.trans h) hne
    · rw [hlex] at h
      exact ⟨d0, stat_file_transfer os0 os path d d0 hwf hG.1 hdd hs h⟩

/-! ## Theorems: the paths of a key -/

theorem dropWhile_append_stop (p : Char → Bool) (c : Char) (hc : p c = false) :
    ∀ (a b : List Char), (a ++ c :: b).dropWhile p = a.dropWhile p ++ c :: b := by
  intro a
  induction a with
  | nil => intro b; simp [List.dropWhile, hc]
  | cons h t ih =>
    intro b
    simp only [List.cons_append, List.dropWhile]
    cases hp : p h with
    | true => exact ih b
    | false => rfl

theorem dropWhile_head (p : Char → Bool) :
    ∀ (l : List Char) (c : Char) (t : List Char), l.dropWhile p = c :: t → p c = false := by
  intro l
  induction l with
  | nil => intro c t h; simp at h
  | cons a l ih =>
    intro c t h
    simp only [List.dropWhile] at h
    cases hp : p a with
    | true => rw [hp] at h; exact ih c t h
    | false =>
      rw [hp] at h
      simp only [List.cons.injEq] at h
      rw [← h.1]
      exact hp

theorem dropTrailingSlashes_mid (x y : List Char) (c : Char) (hc : c ≠ '/') :
    dropTrailingSlashes (x ++ c :: y) = x ++ c :: dropTrailingSlashes y := by
  unfold dropTrailingSlashes
  rw [List.reverse_append, List.reverse_cons, List.append_assoc, List.singleton_append,
    dropWhile_append_stop _ c (by simpa using hc)]
  simp

theorem dropTrailingSlashes_prefix (l : List Char) : dropTrailingSlashes l <+: l := by
  unfold dropTrailingSlashes
  have h := List.dropWhile_suffix (fun c => decide (c = '/')) (l := l.reverse)
  have h2 := List.reverse_prefix.mpr h
  rw [List.reverse_reverse] at h2
  exact h2

theorem splitPath_append_slash (b : List Char) : ∀ a : List Char,
    splitPath (a ++ '/' :: b) = splitPath a ++ splitPath b := by
  intro a
  induction a with
  | nil => simp [splitPath]
  | cons c a ih =>
    simp only [List.cons_append, splitPath]
    by_cases hc : c = '/'
    · simp [hc, ih]
    · rw [if_neg hc, if_neg hc]
      change (match splitPath (a ++ '/' :: b) with
        | [] => [[c]]
        | h :: t => (c :: h) :: t) = _
      rw [ih]
      cases hs : splitPath a with
      | nil => exact absurd hs (splitPath_ne_nil a)
      | cons h t => rfl

theorem splitPath_noslash : ∀ w : List Char, '/' ∉ w → splitPath w = [w] := by
  intro w
  induction w with
  | nil => intro _; rfl
  | cons c w ih =>
    intro h
    have hc : c ≠ '/' := fun e => h (by simp [e])
    have hw : '/' ∉ w := fun e => h (List.mem_cons_of_mem _ e)
    simp only [splitPath]
    rw [if_neg hc, ih hw]

theorem exeDir_cases (exe : List Char) : exeDir exe = [] ∨ ∃ d, exeDir exe = d ++ ['/'] := by
  unfold exeDir
  cases h : exe.reverse.dropWhile (fun c => decide (c ≠ '/')) with
  | nil => left; rfl
  | cons c t =>
    right
    have hc := dropWhile_head _ _ c t h
    have hc2 : c = '/' := by simpa using hc
    exact ⟨t.reverse, by simp [hc2]⟩

/-- The components of the two path names of a key: they differ in the name of
the directory below the directory of the executable only. -/
theorem key_split (exe x : List Char) :
    ∃ pre tl, ∀ w, '/' ∉ w →
      splitPath (exeDir exe ++ w ++ dropTrailingSlashes ('/' :: x)) = pre ++ w :: tl := by
  have hR : ∃ tl, ∀ w, '/' ∉ w →
      splitPath (w ++ dropTrailingSlashes ('/' :: x)) = w :: tl := by
    cases hr : dropTrailingSlashes ('/' :: x) with
    | nil =>
      refine ⟨[], fun w hw => ?_⟩
      rw [List.append_nil]
      exact splitPath_noslash w hw
    | cons c r =>
      have hpre := dropTrailingSlashes_prefix ('/' :: x)
      rw [hr] at hpre
      have hc : c = '/' := by
        obtain ⟨suf, hs⟩ := hpre
        simp only [List.cons_append, List.cons.injEq] at hs
        exact hs.1
      refine ⟨splitPath r, fun w hw => ?_⟩
      rw [hc, splitPath_append_slash, splitPath_noslash w hw]
      rfl
  obtain ⟨tl, htl⟩ := hR
  rcases exeDir_cases exe with h | ⟨d, h⟩
  · refine ⟨[], tl, fun w hw => ?_⟩
    rw [h, List.nil_append, List.nil_append]
    exact htl w hw
  · refine ⟨splitPath d, tl, fun w hw => ?_⟩
    rw [h, List.append_assoc, List.append_assoc, List.singleton_append, splitPath_append_slash,
      htl w hw]

theorem cache_path_eq (exe host url : List Char) :
    dropTrailingSlashes ((InitCacheModule.dirs exe).CACHE_DIR ++ host ++ url) =
      exeDir exe ++ ['.', 'c', 'a', 'c', 'h', 'e'] ++ dropTrailingSlashes ('/' :: (host ++ url)) := by
  have e : (InitCacheModule.dirs exe).CACHE_DIR ++ host ++ url =
      (exeDir exe ++ ['.', 'c', 'a', 'c', 'h']) ++ 'e' :: ('/' :: (host ++ url)) := by
    change exeDir exe ++ ['.', 'c', 'a', 'c', 'h', 'e', '/'] ++ host ++ url = _
    simp
  rw [e, dropTrailingSlashes_mid _ _ _ (by decide)]
  simp

theorem temp_path_eq (exe host url : List Char) :
    dropTrailingSlashes ((InitCacheModule.dirs exe).TEMP_DIR ++ host ++ url) =
      exeDir exe ++ ['.', 't', 'm', 'p'] ++ dropTrailingSlashes ('/' :: (host ++ url)) := by
  have e : (InitCacheModule.dirs exe).TEMP_DIR ++ host ++ url =
      (exeDir exe ++ ['.', 't', 'm']) ++ 'p' :: ('/' :: (host ++ url)) := by
    change exeDir exe ++ ['.', 't', 'm', 'p', '/'] ++ host ++ url = _
    simp
  rw [e, dropTrailingSlashes_mid _ _ _ (by decide)]
  simp

theorem start_dot (os : OS) (d x y : List Char) :
    os.start (d ++ '.' :: x) = os.start (d ++ '.' :: y) := by
  unfold OS.start
  cases d <;> rfl

theorem properNames_mid (pre tl : List (List Char)) (w : List Char) (h1 : w ≠ [])
    (h2 : w ≠ ['.']) :
    properNames (pre ++ w :: tl) = properNames pre ++ w :: properNames tl := by
  unfold properNames
  rw [List.filter_append, List.filter_cons_of_pos]
  simp [h1, h2]

/-- The path names `CreateCacheInfo` builds for a key: the temp path has a
`..` component only if the cache path has one, and without `..` the two name
different places. -/
theorem key_paths (exe host url : List Char) (os : OS)
    (hci : (CreateCacheInfo (InitCacheModule.dirs exe) host url).1 = 0) :
    (['.', '.'] ∉ splitPath (CreateCacheInfo (InitCacheModule.dirs exe) host url).2.cache_path →
        ['.', '.'] ∉ splitPath (CreateCacheInfo (InitCacheModule.dirs exe) host url).2.temp_path) ∧
      os.lexical (CreateCacheInfo (InitCacheModule.dirs exe) host url).2.cache_path ≠
        os.lexical (CreateCacheInfo (InitCacheModule.dirs exe) host url).2.temp_path := by
  rw [createCacheInfo_ok _ host url hci]
  simp only
  rw [cache_path_eq, temp_path_eq]
  obtain ⟨pre, tl, h⟩ := key_split exe (host ++ url)
  have hc := h ['.', 'c', 'a', 'c', 'h', 'e'] (by decide)
  have ht := h ['.', 't', 'm', 'p'] (by decide)
  constructor
  · rw [hc, ht]
    intro hdd hmem
    apply hdd
    rcases List.mem_append.mp hmem with hm | hm
    · exact List.mem_append_left _ hm
    · rcases List.mem_cons.mp hm with hm | hm
      · exact absurd hm (by decide)
      · exact List.mem_append_right _ (List.mem_cons_of_mem _ hm)
  · unfold OS.lexical
    rw [hc, ht, properNames_mid _ _ _ (by decide) (by decide),
      properNames_mid _ _ _ (by decide) (by decide)]
    have hs : os.start (exeDir exe ++ ['.', 'c', 'a', 'c', 'h', 'e'] ++
          dropTrailingSlashes ('/' :: (host ++ url))) =
        os.start (exeDir exe ++ ['.', 't', 'm', 'p'] ++
          dropTrailingSlashes ('/' :: (host ++ url))) := by
      have e1 : exeDir exe ++ ['.', 'c', 'a', 'c', 'h', 'e'] ++
          dropTrailingSlashes ('/' :: (host ++ url)) =
          exeDir exe ++ '.' :: (['c', 'a', 'c', 'h', 'e'] ++
            dropTrailingSlashes ('/' :: (host ++ url))) := by simp
      have e2 : exeDir exe ++ ['.', 't', 'm', 'p'] ++
          dropTrailingSlashes ('/' :: (host ++ url)) =
          exeDir exe ++ '.' :: (['t', 'm', 'p'] ++
            dropTrailingSlashes ('/' :: (host ++ url))) := by simp
      rw [e1, e2]
      exact start_dot os _ _ _
    rw [hs]
    intro heq
    have h1 := List.append_cancel_left heq
    have h2 := List.append_cancel_left h1
    simp only [List.cons.injEq] at h2
    exact absurd h2.1 (by decide)

/-- The temp path built for one key is not the cache path built for any key. -/
theorem temp_path_ne_cache_path (exe host url host2 url2 : List Char)
    (h1 : (CreateCacheInfo (InitCacheModule.dirs exe) host url).1 = 0)
    (h2 : (CreateCacheInfo (InitCacheModule.dirs exe) host2 url2).1 = 0) :
    (CreateCacheInfo (InitCacheModule.dirs exe) host url).2.temp_path ≠
      (CreateCacheInfo (InitCacheModule.dirs exe) host2 url2).2.cache_path := by
  rw [createCacheInfo_ok _ host url h1, createCacheInfo_ok _ host2 url2 h2]
  simp only
  rw [cache_path_eq, temp_path_eq, List.append_assoc, List.append_assoc]
  intro heq
  have h3 := List.append_cancel_left heq
  simp only [List.cons_append, List.cons.injEq] at h3
  exact absurd h3.2.1 (by decide)

/-! ## Theorems: releasing a handle -/

theorem removed_node (os : OS) (t : Path) (fr : Nat) (ht : t ≠ []) (q : Path) :
    ({ os.setNode t none with free := fr } : OS).node q = if q = t then none else os.node q := by
  change (os.setNode t none).node q = _
  rw [node_setNode]
  by_cases hq0 : q = []
  · rw [if_pos hq0, if_neg (by rw [hq0]; exact fun h => ht h.symm), hq0, node_root]
  · rw [if_neg hq0]

theorem removed_resolve (os : OS) (t : Path) (fr : Nat) (d : List Char)
    (hn : os.node t = some (Node.file d)) (path : List Char) :
    ({ os.setNode t none with free := fr } : OS).resolve path = os.resolve path := by
  have ht : t ≠ [] := by
    rintro rfl
    rw [node_root] at hn
    exact absurd hn (by simp)
  symm
  apply resolve_congr os _ path (by rfl)
  intro q
  rw [removed_node os t fr ht q]
  by_cases hq : q = t
  · rw [if_pos hq, hq, hn]
    simp
  · rw [if_neg hq]

/-- Removing a file creates no file: a path name that names a file afterwards
named it before. -/
theorem removed_stat (os : OS) (t : Path) (fr : Nat) (d : List Char)
    (hn : os.node t = some (Node.file d)) (path : List Char) (x : Node)
    (hs : ({ os.setNode t none with free := fr } : OS).stat path = some x) :
    os.stat path = some x := by
  have ht : t ≠ [] := by
    rintro rfl
    rw [node_root] at hn
    exact absurd hn (by simp)
  unfold OS.stat at hs ⊢
  rw [removed_resolve os t fr d hn path] at hs
  cases hr : os.resolve path with
  | none => rw [hr] at hs; exact hs
  | some r =>
    rw [hr] at hs
    change ({ os.setNode t none with free := fr } : OS).node r = _ at hs
    rw [removed_node os t fr ht r] at hs
    by_cases hq : r = t
    · rw [if_pos hq] at hs
      exact absurd hs (by simp)
    · rw [if_neg hq] at hs
      exact hs

theorem removed_stat_self (os : OS) (t : Path) (fr : Nat) (d : List Char)
    (hn : os.node t = some (Node.file d)) (path : List Char) (hr : os.resolve path = some t) :
    ({ os.setNode t none with free := fr } : OS).stat path = none := by
  have ht : t ≠ [] := by
    rintro rfl
    rw [node_root] at hn
    exact absurd hn (by simp)
  unfold OS.stat
  rw [removed_resolve os t fr d hn path, hr]
  change ({ os.setNode t none with free := fr } : OS).node t = _
  rw [removed_node os t fr ht t, if_pos rfl]

/-- `RemoveDir` on the name of a regular file unlinks the file. -/
theorem removeDir_file (os : OS) (path : List Char) (t : Path) (d : List Char)
    (hr : os.resolve path = some t) (hn : os.node t = some (Node.file d)) :
    (RemoveDir os path).2 = { os.setNode t none with free := os.free + d.length } := by
  have hs : os.stat path = some (Node.file d) := by
    unfold OS.stat
    rw [hr]
    exact hn
  unfold RemoveDir
  simp only [RemoveDir.go, sys_access, hs, Option.isSome_some, if_true, ne_eq,
    not_true_eq_false, if_false, sys_remove, sys_unlink, hr, hn]

theorem sys_rename_fail (os : OS) (old new : List Char)
    (h : (sys_rename os old new).1 < 0) : (sys_rename os old new).2 = os := by
  unfold sys_rename at h ⊢
  repeat' split
  all_goals first
    | rfl
    | (exfalso; revert h; simp_all)

theorem sys_rename_ret (os : OS) (old new : List Char) :
    (sys_rename os old new).1 = 0 ∨ (sys_rename os old new).1 = -1 := by
  unfold sys_rename
  repeat' split
  all_goals simp

/-- While a handle of a key is being written, whatever the calls return, a
cache path without `..` that named no file names no file. -/
theorem writes_keep_miss (exe host url : List Char) (os : OS) (chunks : List (List Char))
    (hwf : os.WF) (hci : (CreateCacheInfo (InitCacheModule.dirs exe) host url).1 = 0)
    (hdd : ['.', '.'] ∉ splitPath (CreateCacheInfo (InitCacheModule.dirs exe) host url).2.cache_path)
    (hmiss : IsCacheHit os (CreateCacheInfo (InitCacheModule.dirs exe) host url).2 = 0)
    (ci2 : CacheInfo) (hci2 : ci2.cache_path = (CreateCacheInfo (InitCacheModule.dirs exe) host url).2.cache_path) :
    IsCacheHit (writeChunks os (CreateCacheInfo (InitCacheModule.dirs exe) host url).2 chunks).2.1 ci2 = 0 := by
  obtain ⟨hddt, hne⟩ := key_paths exe host url os hci
  have hw0 : (CreateCacheInfo (InitCacheModule.dirs exe) host url).2.is_write = false := by
    rw [createCacheInfo_ok _ host url hci]
  obtain ⟨hG, _, _, _, _, _⟩ := writeChunks_inv os chunks os (CreateCacheInfo (InitCacheModule.dirs exe) host url).2 (hddt hdd) (grow_refl _ _)
    (fun h => absurd h (by rw [hw0]; simp))
  rcases isCacheHit_zero_or_one (writeChunks os (CreateCacheInfo (InitCacheModule.dirs exe) host url).2 chunks).2.1 ci2 with h | h
  · exact h
  · obtain ⟨d, hd⟩ := (isCacheHit_eq_one_iff _ _).mp h
    rw [hci2] at hd
    obtain ⟨d0, hd0⟩ := miss_preserved os _ _ _ d hwf hdd hG hne hd
    have := (isCacheHit_eq_one_iff os (CreateCacheInfo (InitCacheModule.dirs exe) host url).2).mpr ⟨d0, hd0⟩
    rw [hmiss] at this
    exact absurd this (by decide)

/-- C9 (amended): `IsCacheHit` returns 1 exactly when a regular file exists at
the cache path of the handle; the temp path built for a key is never the cache
path built for any key; and on a file system that is a tree, for a key whose
cache path has no `..` component and that is a miss, the key is still a miss
after any number of `WriteToCache` calls on its handle (so between the first
`WriteToCache` and `FreeCacheInfo`), for the writing handle and for every other
handle of the key. -/
theorem unfinished_write_never_hit (exe host url host2 url2 : List Char) (os : OS)
    (chunks : List (List Char)) (hci : (CreateCacheInfo (InitCacheModule.dirs exe) host url).1 = 0) :
    (∀ (os1 : OS) (ci1 : CacheInfo),
        IsCacheHit os1 ci1 = 1 ↔ ∃ d, os1.stat ci1.cache_path = some (Node.file d)) ∧
      ((CreateCacheInfo (InitCacheModule.dirs exe) host2 url2).1 = 0 →
        (CreateCacheInfo (InitCacheModule.dirs exe) host url).2.temp_path ≠ (CreateCacheInfo (InitCacheModule.dirs exe) host2 url2).2.cache_path) ∧
      (os.WF → ['.', '.'] ∉ splitPath (CreateCacheInfo (InitCacheModule.dirs exe) host url).2.cache_path → IsCacheHit os (CreateCacheInfo (InitCacheModule.dirs exe) host url).2 = 0 →
        IsCacheHit (writeChunks os (CreateCacheInfo (InitCacheModule.dirs exe) host url).2 chunks).2.1 (writeChunks os (CreateCacheInfo (InitCacheModule.dirs exe) host url).2 chunks).2.2 = 0 ∧
          ∀ ci2 : CacheInfo, ci2.cache_path = (CreateCacheInfo (InitCacheModule.dirs exe) host url).2.cache_path →
            IsCacheHit (writeChunks os (CreateCacheInfo (InitCacheModule.dirs exe) host url).2 chunks).2.1 ci2 = 0) := by
  refine ⟨isCacheHit_eq_one_iff, temp_path_ne_cache_path exe host url host2 url2 hci, ?_⟩
  intro hwf hdd hmiss
  have hw0 : (CreateCacheInfo (InitCacheModule.dirs exe) host url).2.is_write = false := by
    rw [createCacheInfo_ok _ host url hci]
  obtain ⟨_, _, hcp, _, _, _⟩ := writeChunks_inv os chunks os (CreateCacheInfo (InitCacheModule.dirs exe) host url).2
    ((key_paths exe host url os hci).1 hdd) (grow_refl _ _)
    (fun h => absurd h (by rw [hw0]; simp))
  exact ⟨writes_keep_miss exe host url os chunks hwf hci hdd hmiss _ hcp,
    writes_keep_miss exe host url os chunks hwf hci hdd hmiss⟩

/-- C9 (witness): the key of the scenario, written in two chunks. -/
theorem unfinished_write_never_hit_witness :
    (CreateCacheInfo scenarioModule "example.com".toList "/a".toList).2.temp_path ≠
        (CreateCacheInfo scenarioModule "example.com".toList "/a".toList).2.cache_path ∧
      IsCacheHit
        (writeChunks scenarioOS (CreateCacheInfo scenarioModule "example.com".toList "/a".toList).2
          ["HTTP/1.0 200 OK\r\n".toList, "\r\n".toList]).2.1
        (writeChunks scenarioOS (CreateCacheInfo scenarioModule "example.com".toList "/a".toList).2
          ["HTTP/1.0 200 OK\r\n".toList, "\r\n".toList]).2.2 = 0 :=
  ⟨(unfinished_write_never_hit "/srv/proxy".toList "example.com".toList "/a".toList
      "example.com".toList "/a".toList scenarioOS
      ["HTTP/1.0 200 OK\r\n".toList, "\r\n".toList] (by decide)).2.1 (by decide),
    ((unfinished_write_never_hit "/srv/proxy".toList "example.com".toList "/a".toList
      "example.com".toList "/a".toList scenarioOS
      ["HTTP/1.0 200 OK\r\n".toList, "\r\n".toList] (by decide)).2.2
      (by unfold OS.WF; decide) (by decide) (by decide)).1⟩

/-- C9 (counterexample): the key with host `example.com` and path `/../../a`
on the file system `InitCacheModule` leaves behind.  `CreateCacheInfo` accepts
the key and it is a miss.  The first `WriteToCache` returns 0: it has created
the directories `.cache/example.com` and `.tmp/example.com`, so that both
`<dir>/.tmp/example.com/../../a` and `<dir>/.cache/example.com/../../a` now name
the file `<dir>/a`, the temp file.  `FreeCacheInfo` has not been called, the
handle is still open for writing, and `IsCacheHit` returns 1. -/
theorem unfinished_write_is_hit :
    (CreateCacheInfo scenarioModule "example.com".toList "/../../a".toList).1 = 0 ∧
      IsCacheHit scenarioOS traversalHandle = 0 ∧
      (WriteToCache scenarioOS traversalHandle "x".toList).1 = 0 ∧
      (WriteToCache scenarioOS traversalHandle "x".toList).2.2.is_write = true ∧
      IsCacheHit (WriteToCache scenarioOS traversalHandle "x".toList).2.1
        (WriteToCache scenarioOS traversalHandle "x".toList).2.2 = 1 := by
  decide

/-- C8 (amended): on a file system that is a tree, for every key whose cache
path has no `..` component and that is a miss, after one or more
`WriteToCache` calls that all return 0, `FreeCacheInfo` clears the
open-for-write flag and leaves nothing at the temp path; when its `rename`
succeeds `IsCacheHit` on the key returns 1 afterwards, and when the `rename`
fails the key is still a miss. -/
theorem publish_on_release (exe host url : List Char) (os : OS) (chunks : List (List Char))
    (hwf : os.WF) (hci : (CreateCacheInfo (InitCacheModule.dirs exe) host url).1 = 0)
    (hdd : ['.', '.'] ∉ splitPath (CreateCacheInfo (InitCacheModule.dirs exe) host url).2.cache_path)
    (hmiss : IsCacheHit os (CreateCacheInfo (InitCacheModule.dirs exe) host url).2 = 0) (hne : chunks ≠ [])
    (hall : ∀ r ∈ (writeChunks os (CreateCacheInfo (InitCacheModule.dirs exe) host url).2 chunks).1, r = 0) :
    (writeAndFree os (CreateCacheInfo (InitCacheModule.dirs exe) host url).2 chunks).2.is_write = false ∧
      (writeAndFree os (CreateCacheInfo (InitCacheModule.dirs exe) host url).2 chunks).1.stat (CreateCacheInfo (InitCacheModule.dirs exe) host url).2.temp_path = none ∧
      (¬ (sys_rename (writeChunks os (CreateCacheInfo (InitCacheModule.dirs exe) host url).2 chunks).2.1 (CreateCacheInfo (InitCacheModule.dirs exe) host url).2.temp_path (CreateCacheInfo (InitCacheModule.dirs exe) host url).2.cache_path).1 < 0 →
        IsCacheHit (writeAndFree os (CreateCacheInfo (InitCacheModule.dirs exe) host url).2 chunks).1 (writeAndFree os (CreateCacheInfo (InitCacheModule.dirs exe) host url).2 chunks).2 = 1) ∧
      ((sys_rename (writeChunks os (CreateCacheInfo (InitCacheModule.dirs exe) host url).2 chunks).2.1 (CreateCacheInfo (InitCacheModule.dirs exe) host url).2.temp_path (CreateCacheInfo (InitCacheModule.dirs exe) host url).2.cache_path).1 < 0 →
        IsCacheHit (writeAndFree os (CreateCacheInfo (InitCacheModule.dirs exe) host url).2 chunks).1 (writeAndFree os (CreateCacheInfo (InitCacheModule.dirs exe) host url).2 chunks).2 = 0) := by
  obtain ⟨hddt, hlex⟩ := key_paths exe host url os hci
  have hkeep := writes_keep_miss exe host url os chunks hwf hci hdd hmiss
  have hfresh := createCacheInfo_ok _ host url hci
  generalize (CreateCacheInfo (InitCacheModule.dirs exe) host url).2 = ci at hdd hmiss hall hddt hlex hkeep hfresh ⊢
  have hw0 : ci.is_write = false := by rw [hfresh]
  have ho0 : ci.is_open = false := by rw [hfresh]
  have he0 : ci.error_msg = [] := by rw [hfresh]
  obtain ⟨hG, _, _, _, _, _⟩ := writeChunks_inv os chunks os ci (hddt hdd) (grow_refl _ _)
    (fun h => absurd h (by rw [hw0]; simp))
  obtain ⟨t, hW, a2, a3, a4, a5⟩ := writeChunks_fresh chunks os ci hw0 hne hall
  unfold writeAndFree
  generalize (writeChunks os ci chunks).2.1 = osn at hG hW hkeep ⊢
  generalize (writeChunks os ci chunks).2.2 = cin at hW a2 a3 a4 a5 ⊢
  rw [free_after_writes osn cin (a2.trans ho0) hW.1 (a3.trans he0)]
  rw [← a4] at hdd hddt hlex
  rw [← a5] at hddt hlex
  rw [← a4, ← a5]
  have ht : t = os.lexical cin.temp_path := by
    rw [resolve_lexical osn _ t (hddt hdd) hW.2.1]
    exact lexical_cwd os osn _ hG.1
  have hrt := hW.2.1
  obtain ⟨f, _, hfp, _, hnt, _⟩ := hW.2.2.2
  rw [hfp] at hnt
  refine ⟨rfl, ?_⟩
  by_cases hren : (sys_rename osn cin.temp_path cin.cache_path).1 < 0
  · simp only [hren, if_true, not_true_eq_false, false_implies, true_implies, true_and]
    rw [sys_rename_fail osn _ _ hren, removeDir_file osn _ t _ hrt hnt]
    refine ⟨removed_stat_self osn t _ _ hnt _ hrt, ?_⟩
    rcases isCacheHit_zero_or_one { osn.setNode t none with
        free := osn.free + chunks.flatten.length }
      { cin with fd := none, is_write := false } with h | h
    · exact h
    · obtain ⟨d, hd⟩ := (isCacheHit_eq_one_iff _ _).mp h
      have h1 := (isCacheHit_eq_one_iff osn cin).mpr
        ⟨d, removed_stat osn t _ _ hnt _ _ hd⟩
      rw [hkeep cin a4] at h1
      exact absurd h1 (by decide)
  · simp only [hren, if_false, not_false_eq_true, true_implies, false_implies, and_true]
    have h0 : (sys_rename osn cin.temp_path cin.cache_path).1 = 0 := by
      rcases sys_rename_ret osn cin.temp_path cin.cache_path with h | h
      · exact h
      · rw [h] at hren
        exact absurd (by decide) hren
    obtain ⟨c, h1, h2, h3, h4, h5⟩ := rename_published osn cin t chunks.flatten hW h0
    have hc : c = os.lexical cin.cache_path := by
      rw [resolve_lexical osn _ c hdd h3]
      exact lexical_cwd os osn _ hG.1
    have hct : c ≠ t := by
      rw [hc, ht]
      exact hlex
    constructor
    · unfold OS.stat
      rw [h4]
      exact h5 hct
    · apply (isCacheHit_eq_one_iff _ _).mpr
      refine ⟨chunks.flatten, ?_⟩
      unfold OS.stat
      change ((sys_rename osn cin.temp_path cin.cache_path).2.resolve cin.cache_path).bind _ = _
      rw [h1]
      exact h2

/-- C8 (witness): the key of the scenario, written in two chunks; the
`rename` succeeds. -/
theorem publish_on_release_witness :
    (writeAndFree scenarioOS (CreateCacheInfo scenarioModule "example.com".toList "/a".toList).2
        ["HTTP/1.0 200 OK\r\n".toList, "\r\n".toList]).2.is_write = false ∧
      (writeAndFree scenarioOS (CreateCacheInfo scenarioModule "example.com".toList "/a".toList).2
        ["HTTP/1.0 200 OK\r\n".toList, "\r\n".toList]).1.stat (CreateCacheInfo scenarioModule "example.com".toList "/a".toList).2.temp_path = none ∧
      IsCacheHit
        (writeAndFree scenarioOS (CreateCacheInfo scenarioModule "example.com".toList "/a".toList).2 ["HTTP/1.0 200 OK\r\n".toList, "\r\n".toList]).1
        (writeAndFree scenarioOS (CreateCacheInfo scenarioModule "example.com".toList "/a".toList).2 ["HTTP/1.0 200 OK\r\n".toList, "\r\n".toList]).2 = 1 :=
  ⟨(publish_on_release "/srv/proxy".toList "example.com".toList "/a".toList scenarioOS
      ["HTTP/1.0 200 OK\r\n".toList, "\r\n".toList] (by unfold OS.WF; decide) (by decide)
      (by decide) (by decide) (by decide) (by decide)).1,
    (publish_on_release "/srv/proxy".toList "example.com".toList "/a".toList scenarioOS
      ["HTTP/1.0 200 OK\r\n".toList, "\r\n".toList] (by unfold OS.WF; decide) (by decide)
      (by decide) (by decide) (by decide) (by decide)).2.1,
    (publish_on_release "/srv/proxy".toList "example.com".toList "/a".toList scenarioOS
      ["HTTP/1.0 200 OK\r\n".toList, "\r\n".toList] (by unfold OS.WF; decide) (by decide)
      (by decide) (by decide) (by decide) (by decide)).2.2.1 (by decide)⟩

/-- C8 (counterexample): the key with host `example.com` and path `/../../a`
on the file system `InitCacheModule` leaves behind.  The key is accepted and is
a miss, the one `WriteToCache` call returns 0, and `FreeCacheInfo` calls
`rename`, which returns 0.  Both path names of the key name the same file,
`<dir>/a`, so the `rename` moves nothing: after `FreeCacheInfo` the temp path
still names a regular file, the one that holds the chunk. -/
theorem temp_file_survives_release :
    (CreateCacheInfo scenarioModule "example.com".toList "/../../a".toList).1 = 0 ∧
      IsCacheHit scenarioOS traversalHandle = 0 ∧
      (writeChunks scenarioOS traversalHandle ["x".toList]).1 = [0] ∧
      (sys_rename (writeChunks scenarioOS traversalHandle ["x".toList]).2.1
        traversalHandle.temp_path traversalHandle.cache_path).1 = 0 ∧
      (writeAndFree scenarioOS traversalHandle ["x".toList]).2.is_write = false ∧
      (writeAndFree scenarioOS traversalHandle ["x".toList]).1.stat traversalHandle.temp_path =
        some (Node.file "x".toList) := by
  decide

/-- C10 (amended): on a file system that is a tree, for every key whose cache
path has no `..` component and that is a miss, and every sequence of
`WriteToCache` calls on its handle of which one returned -1: `IsCacheError`
is 1 after the sequence (so after the failing call and after every later one)
and after `FreeCacheInfo`; after `FreeCacheInfo` the key is still a miss, and
if the handle had created its temp file nothing is left at the temp path. -/
theorem failed_write_never_hit (exe host url : List Char) (os : OS) (chunks : List (List Char))
    (hwf : os.WF) (hci : (CreateCacheInfo (InitCacheModule.dirs exe) host url).1 = 0)
    (hdd : ['.', '.'] ∉ splitPath (CreateCacheInfo (InitCacheModule.dirs exe) host url).2.cache_path)
    (hmiss : IsCacheHit os (CreateCacheInfo (InitCacheModule.dirs exe) host url).2 = 0)
    (hfail : (-1 : Int) ∈ (writeChunks os (CreateCacheInfo (InitCacheModule.dirs exe) host url).2 chunks).1) :
    IsCacheError (writeChunks os (CreateCacheInfo (InitCacheModule.dirs exe) host url).2 chunks).2.2 = 1 ∧
      IsCacheError (writeAndFree os (CreateCacheInfo (InitCacheModule.dirs exe) host url).2 chunks).2 = 1 ∧
      IsCacheHit (writeAndFree os (CreateCacheInfo (InitCacheModule.dirs exe) host url).2 chunks).1 (writeAndFree os (CreateCacheInfo (InitCacheModule.dirs exe) host url).2 chunks).2 = 0 ∧
      ((writeChunks os (CreateCacheInfo (InitCacheModule.dirs exe) host url).2 chunks).2.2.is_write = true →
        (writeAndFree os (CreateCacheInfo (InitCacheModule.dirs exe) host url).2 chunks).1.stat (CreateCacheInfo (InitCacheModule.dirs exe) host url).2.temp_path = none) := by
  obtain ⟨hddt, _⟩ := key_paths exe host url os hci
  have hkeep := writes_keep_miss exe host url os chunks hwf hci hdd hmiss
  have hfresh := createCacheInfo_ok _ host url hci
  generalize (CreateCacheInfo (InitCacheModule.dirs exe) host url).2 = ci at hdd hmiss hfail hddt hkeep hfresh ⊢
  have hw0 : ci.is_write = false := by rw [hfresh]
  have ho0 : ci.is_open = false := by rw [hfresh]
  obtain ⟨_, hC, a4, a5, a2, hE⟩ := writeChunks_inv os chunks os ci (hddt hdd) (grow_refl _ _)
    (fun h => absurd h (by rw [hw0]; simp))
  have hE1 := hE (Or.inr hfail)
  unfold writeAndFree FreeCacheInfo
  generalize (writeChunks os ci chunks).2.1 = osn at hC hkeep ⊢
  generalize (writeChunks os ci chunks).2.2 = cin at hC a2 a4 a5 hE1 ⊢
  have ho : cin.is_open = false := a2.trans ho0
  refine ⟨hE1, ?_⟩
  simp only [ho, Bool.false_eq_true, if_false, hE1, if_true]
  by_cases hw : cin.is_write = true
  · simp only [hw, if_true, true_implies]
    obtain ⟨hrt, d, hnt⟩ := hC hw
    rw [← a5, removeDir_file osn _ _ d hrt hnt]
    refine ⟨hE1, ?_, removed_stat_self osn _ _ d hnt _ hrt⟩
    by_contra hcon
    have h := (isCacheHit_zero_or_one _ _).resolve_left hcon
    obtain ⟨d2, hd⟩ := (isCacheHit_eq_one_iff _ _).mp h
    have h1 := (isCacheHit_eq_one_iff osn cin).mpr ⟨d2, removed_stat osn _ _ d hnt _ _ hd⟩
    rw [hkeep cin a4] at h1
    exact absurd h1 (by decide)
  · have hw2 : cin.is_write = false := by simpa using hw
    simp only [hw2, Bool.false_eq_true, if_false, false_implies, and_true]
    exact ⟨hE1, hkeep cin a4⟩

/-- C10 (witness): the key of the scenario on a disk with room for three
bytes; the write of five bytes fails after the temp file has been created. -/
theorem failed_write_never_hit_witness :
    (writeChunks fullDiskOS (CreateCacheInfo scenarioModule "example.com".toList "/a".toList).2 ["hello".toList]).1 = [-1] ∧
      (writeChunks fullDiskOS (CreateCacheInfo scenarioModule "example.com".toList "/a".toList).2 ["hello".toList]).2.2.is_write = true ∧
      IsCacheError (writeAndFree fullDiskOS (CreateCacheInfo scenarioModule "example.com".toList "/a".toList).2 ["hello".toList]).2 = 1 ∧
      IsCacheHit (writeAndFree fullDiskOS (CreateCacheInfo scenarioModule "example.com".toList "/a".toList).2 ["hello".toList]).1
        (writeAndFree fullDiskOS (CreateCacheInfo scenarioModule "example.com".toList "/a".toList).2 ["hello".toList]).2 = 0 ∧
      (writeAndFree fullDiskOS (CreateCacheInfo scenarioModule "example.com".toList "/a".toList).2 ["hello".toList]).1.stat (CreateCacheInfo scenarioModule "example.com".toList "/a".toList).2.temp_path = none :=
  ⟨by decide, by decide,
    (failed_write_never_hit "/srv/proxy".toList "example.com".toList "/a".toList fullDiskOS
      ["hello".toList] (by unfold OS.WF; decide) (by decide) (by decide) (by decide)
      (by decide)).2.1,
    (failed_write_never_hit "/srv/proxy".toList "example.com".toList "/a".toList fullDiskOS
      ["hello".toList] (by unfold OS.WF; decide) (by decide) (by decide) (by decide)
      (by decide)).2.2.1,
    (failed_write_never_hit "/srv/proxy".toList "example.com".toList "/a".toList fullDiskOS
      ["hello".toList] (by unfold OS.WF; decide) (by decide) (by decide) (by decide)
      (by decide)).2.2.2 (by decide)⟩

/-- C10 (counterexample): the cache holds an entry for the key with host `x`
and an empty path, the file `<dir>/.cache/x`, and the disk has room for three
bytes.  The key with host `example.com` and path `/../x` is accepted and is a
miss: `<dir>/.cache/example.com` does not exist.  `WriteToCache` with five
bytes creates that directory and the temp file, then returns -1 because the
disk is full; `IsCacheError` is 1.  After `FreeCacheInfo` the temp file is
gone, but the cache path `<dir>/.cache/example.com/../x` now names the entry of
the other key, and `IsCacheHit` returns 1. -/
theorem failed_write_becomes_hit :
    (CreateCacheInfo scenarioModule "example.com".toList "/../x".toList).1 = 0 ∧
      IsCacheHit fullDiskOS siblingHandle = 0 ∧
      (writeChunks fullDiskOS siblingHandle ["hello".toList]).1 = [-1] ∧
      IsCacheError (writeChunks fullDiskOS siblingHandle ["hello".toList]).2.2 = 1 ∧
      IsCacheHit (writeAndFree fullDiskOS siblingHandle ["hello".toList]).1
        (writeAndFree fullDiskOS siblingHandle ["hello".toList]).2 = 1 := by
  decide

/-! ## Theorems: the limits of the parser -/

theorem addLine_cases (maxbuf : Nat) (r : HttpRequest) (buf : List Char) :
    (maxbuf ≤ (cstr buf).length ∧ AddLineToHttpRequest maxbuf r buf = (ERROR_LINE_TOO_LONG, r)) ∨
      ((cstr buf).length < maxbuf ∧ (cstr buf).length = 0 ∧
        AddLineToHttpRequest maxbuf r buf = (ERROR_LINE_ZERO, r)) ∨
      ((cstr buf).length < maxbuf ∧ 0 < (cstr buf).length ∧ r.cur_line = r.line_num ∧
        MAX_PARSE_LINES ≤ r.line_num ∧
        AddLineToHttpRequest maxbuf r buf = (ERROR_READLINE_TOO_MUCH, r)) ∨
      ((cstr buf).length < maxbuf ∧ 0 < (cstr buf).length ∧
        ¬ (r.cur_line = r.line_num ∧ MAX_PARSE_LINES ≤ r.line_num) ∧
        AddLineToHttpRequest maxbuf r buf =
          (0, withBuf r (r.origin_lines ++
            [⟨cstr buf, decide ((cstr buf).getLast? = some '\n')⟩])
            (if r.cur_line = r.line_num then r.line_num * 2 else r.line_num))) := by
  unfold AddLineToHttpRequest
  simp only
  by_cases h1 : maxbuf ≤ (cstr buf).length
  · left
    exact ⟨h1, by rw [if_pos (Nat.min_eq_right h1)]⟩
  · right
    have hlt : (cstr buf).length < maxbuf := Nat.lt_of_not_le h1
    have hmin : min (cstr buf).length maxbuf = (cstr buf).length :=
      Nat.min_eq_left (Nat.le_of_lt hlt)
    rw [hmin, if_neg (Nat.ne_of_lt hlt)]
    by_cases h2 : (cstr buf).length = 0
    · left
      exact ⟨hlt, h2, by rw [if_pos h2]⟩
    · right
      rw [if_neg h2]
      have hpos : 0 < (cstr buf).length := Nat.pos_of_ne_zero h2
      by_cases h3 : r.cur_line = r.line_num
      · rw [if_pos h3]
        by_cases h4 : MAX_PARSE_LINES ≤ r.line_num
        · left
          exact ⟨hlt, hpos, h3, h4, by rw [if_pos h4]⟩
        · right
          refine ⟨hlt, hpos, fun h => h4 h.2, ?_⟩
          rw [if_neg h4, if_pos h3]
          rfl
      · right
        refine ⟨hlt, hpos, fun h => h3 h.1, ?_⟩
        rw [if_neg h3, if_neg h3]
        rfl

/-- What the scan of `ParseRequestLine` leaves alone, the codes it returns,
and the sizes of the fields it stores. -/
theorem scan_props : ∀ (l : List Char) (r : HttpRequest) (tok : List Char) (cnt : Nat),
    (ParseRequestLine.scan r tok cnt l).2.origin_lines = r.origin_lines ∧
      (ParseRequestLine.scan r tok cnt l).2.line_num = r.line_num ∧
      (ParseRequestLine.scan r tok cnt l).2.host = r.host ∧
      (ParseRequestLine.scan r tok cnt l).1 ≠ ERROR_READLINE_TOO_MUCH ∧
      (ParseRequestLine.scan r tok cnt l).1 ≠ ERROR_LINE_TOO_LONG ∧
      (r.method.length < METHOD_LEN ∧ r.url.length < URL_LEN ∧ r.version.length < VER_LEN →
        (ParseRequestLine.scan r tok cnt l).2.method.length < METHOD_LEN ∧
          (ParseRequestLine.scan r tok cnt l).2.url.length < URL_LEN ∧
          (ParseRequestLine.scan r tok cnt l).2.version.length < VER_LEN) := by
  intro l
  induction l with
  | nil =>
    intro r tok cnt
    exact ⟨rfl, rfl, rfl, by simp [ParseRequestLine.scan], by simp [ParseRequestLine.scan], id⟩
  | cons c rest ih =>
    intro r tok cnt
    rw [ParseRequestLine.scan]
    by_cases hd : c = ' ' ∨ c = '\r' ∨ c = '\n'
    · rw [if_pos hd]
      by_cases ht : 0 < tok.length
      · rw [if_pos ht]
        by_cases h0 : cnt = 0
        · rw [if_pos h0]
          by_cases hm : METHOD_LEN ≤ tok.length
          · rw [if_pos hm]
            exact ⟨rfl, rfl, rfl, by simp, by simp, id⟩
          · rw [if_neg hm]
            obtain ⟨a, b, c2, d, e, f⟩ := ih { r with method := tok } [] 1
            exact ⟨a, b, c2, d, e, fun h => f ⟨Nat.lt_of_not_le hm, h.2.1, h.2.2⟩⟩
        · rw [if_neg h0]
          by_cases h1 : cnt = 1
          · rw [if_pos h1]
            by_cases hu : URL_LEN ≤ tok.length
            · rw [if_pos hu]
              exact ⟨rfl, rfl, rfl, by simp, by simp, id⟩
            · rw [if_neg hu]
              obtain ⟨a, b, c2, d, e, f⟩ := ih (GetProxyUrl { r with url := tok }) [] 2
              exact ⟨a, b, c2, d, e, fun h => f ⟨h.1, Nat.lt_of_not_le hu, h.2.2⟩⟩
          · rw [if_neg h1]
            by_cases h2 : cnt = 2
            · rw [if_pos h2]
              by_cases hv : VER_LEN ≤ tok.length
              · rw [if_pos hv]
                exact ⟨rfl, rfl, rfl, by simp, by simp, id⟩
              · rw [if_neg hv]
                exact ⟨rfl, rfl, rfl, by simp, by simp,
                  fun h => ⟨h.1, h.2.1, Nat.lt_of_not_le hv⟩⟩
            · rw [if_neg h2]
              exact ih r [] cnt
      · rw [if_neg ht]
        exact ih r [] cnt
    · rw [if_neg hd]
      exact ih r (tok ++ [c]) cnt

theorem parseHeaders_props (r : HttpRequest) (line : List Char) :
    (ParseHeaders r line).2.origin_lines = r.origin_lines ∧
      (ParseHeaders r line).2.line_num = r.line_num ∧
      (ParseHeaders r line).2.method = r.method ∧
      (ParseHeaders r line).2.url = r.url ∧
      (ParseHeaders r line).2.version = r.version ∧
      (ParseHeaders r line).1 ≠ ERROR_READLINE_TOO_MUCH ∧
      (ParseHeaders r line).1 ≠ ERROR_LINE_TOO_LONG ∧
      (r.host.length < HOST_LEN → (ParseHeaders r line).2.host.length < HOST_LEN) := by
  unfold ParseHeaders
  by_cases h1 : line = ['\r', '\n']
  · rw [if_pos h1]
    exact ⟨rfl, rfl, rfl, rfl, rfl, by simp, by simp, id⟩
  · rw [if_neg h1]
    cases hd : line.dropWhile (fun c => c ≠ ':') with
    | nil => exact ⟨rfl, rfl, rfl, rfl, rfl, by simp, by simp, id⟩
    | cons c rest =>
      simp only
      by_cases h2 : (rest.dropWhile (fun c => c = ' ')).length ≤ 2
      · rw [if_pos h2]
        exact ⟨rfl, rfl, rfl, rfl, rfl, by simp, by simp, id⟩
      · rw [if_neg h2]
        by_cases h3 : line.takeWhile (fun c => c ≠ ':') = ['H', 'o', 's', 't']
        · rw [if_pos h3]
          by_cases h4 : HOST_LEN ≤ (rest.dropWhile (fun c => c = ' ')).length - 2
          · rw [if_pos h4]
            exact ⟨rfl, rfl, rfl, rfl, rfl, by simp, by simp, id⟩
          · rw [if_neg h4]
            refine ⟨rfl, rfl, rfl, rfl, rfl, by simp, by simp, fun _ => ?_⟩
            simp only [List.length_take]
            omega
        · rw [if_neg h3]
          exact ⟨rfl, rfl, rfl, rfl, rfl, by simp, by simp, id⟩

/-- `ParseHttpRequest` in full: either `AddLineToHttpRequest` refuses the line
and nothing changes, or the line takes one more entry of `origin_lines`,
whatever the parsing of the logical line then returns. -/
theorem parse_props (maxbuf : Nat) (r : HttpRequest) (buf : List Char) :
    ((AddLineToHttpRequest maxbuf r buf).1 ≠ 0 →
        ParseHttpRequest maxbuf r buf = AddLineToHttpRequest maxbuf r buf) ∧
      ((AddLineToHttpRequest maxbuf r buf).1 = 0 →
        (ParseHttpRequest maxbuf r buf).2.origin_lines =
            (AddLineToHttpRequest maxbuf r buf).2.origin_lines ∧
          (ParseHttpRequest maxbuf r buf).2.line_num =
            (AddLineToHttpRequest maxbuf r buf).2.line_num ∧
          (ParseHttpRequest maxbuf r buf).1 ≠ ERROR_READLINE_TOO_MUCH ∧
          (ParseHttpRequest maxbuf r buf).1 ≠ ERROR_LINE_TOO_LONG ∧
          (fieldsFit (AddLineToHttpRequest maxbuf r buf).2 →
            fieldsFit (ParseHttpRequest maxbuf r buf).2)) := by
  unfold ParseHttpRequest
  simp only
  constructor
  · intro h
    rw [if_pos h]
  · intro h
    rw [if_neg (by rw [h]; simp)]
    generalize (AddLineToHttpRequest maxbuf r buf).2 = r1
    cases hl : r1.origin_lines.getLast? with
    | none => exact ⟨rfl, rfl, by simp, by simp, id⟩
    | some last =>
      simp only
      by_cases hf : (!last.line_finish) = true
      · rw [if_pos hf]
        exact ⟨rfl, rfl, by simp, by simp, id⟩
      · rw [if_neg hf]
        cases hs : r1.parse_state with
        | PARSE_LINE =>
          simp only
          obtain ⟨a, b, c, d, e, f⟩ := scan_props (totLine r1.origin_lines) r1 [] 0
          refine ⟨a, b, d, e, fun hfit => ?_⟩
          obtain ⟨g1, g2, g3⟩ := f ⟨hfit.1, hfit.2.1, hfit.2.2.1⟩
          exact ⟨g1, g2, g3, by rw [ParseRequestLine, c]; exact hfit.2.2.2⟩
        | PARSE_HEADERS =>
          simp only
          obtain ⟨a, b, c, d, e, f, g, h2⟩ := parseHeaders_props r1 (totLine r1.origin_lines)
          refine ⟨a, b, f, g, fun hfit => ?_⟩
          exact ⟨by rw [c]; exact hfit.1, by rw [d]; exact hfit.2.1,
            by rw [e]; exact hfit.2.2.1, h2 hfit.2.2.2⟩
        | PARSE_DATA =>
          exact ⟨rfl, rfl, by simp, by simp, id⟩

theorem parse_bufOk (maxbuf : Nat) (r : HttpRequest) (buf : List Char) (hok : bufOk r) :
    bufOk (ParseHttpRequest maxbuf r buf).2 := by
  obtain ⟨p1, p2⟩ := parse_props maxbuf r buf
  obtain ⟨hcap, hle⟩ := hok
  have hcap2 : r.line_num = 8 ∨ r.line_num = 16 ∨ r.line_num = 32 := hcap
  have hle2 : r.origin_lines.length ≤ r.line_num := hle
  rcases addLine_cases maxbuf r buf with ⟨_, h⟩ | ⟨_, _, h⟩ | ⟨_, _, _, _, h⟩ | ⟨_, _, hn, h⟩
  · rw [p1 (by rw [h]; simp), h]
    exact ⟨hcap, hle⟩
  · rw [p1 (by rw [h]; simp), h]
    exact ⟨hcap, hle⟩
  · rw [p1 (by rw [h]; simp), h]
    exact ⟨hcap, hle⟩
  · obtain ⟨a, b, _⟩ := p2 (by rw [h])
    rw [h] at a b
    unfold bufOk HttpRequest.cur_line
    rw [a, b]
    simp only [withBuf, List.length_append, List.length_singleton]
    have hn2 : ¬ (r.origin_lines.length = r.line_num ∧ 32 ≤ r.line_num) := hn
    by_cases hc : r.cur_line = r.line_num
    · have hc2 : r.origin_lines.length = r.line_num := hc
      rw [if_pos hc]
      omega
    · have hc2 : ¬ r.origin_lines.length = r.line_num := hc
      rw [if_neg hc]
      omega

theorem parse_fieldsFit (maxbuf : Nat) (r : HttpRequest) (buf : List Char)
    (hfit : fieldsFit r) : fieldsFit (ParseHttpRequest maxbuf r buf).2 := by
  obtain ⟨p1, p2⟩ := parse_props maxbuf r buf
  rcases addLine_cases maxbuf r buf with ⟨_, h⟩ | ⟨_, _, h⟩ | ⟨_, _, _, _, h⟩ | ⟨_, _, _, h⟩
  · rw [p1 (by rw [h]; simp), h]
    exact hfit
  · rw [p1 (by rw [h]; simp), h]
    exact hfit
  · rw [p1 (by rw [h]; simp), h]
    exact hfit
  · obtain ⟨_, _, _, _, e⟩ := p2 (by rw [h])
    apply e
    rw [h]
    exact hfit

theorem reachable_inv (maxbuf : Nat) (r : HttpRequest) (h : Reachable maxbuf r) :
    bufOk r ∧ fieldsFit r := by
  induction h with
  | init => exact ⟨initHttpRequest_bufOk, by unfold fieldsFit; decide⟩
  | feed r buf _ ih => exact ⟨parse_bufOk maxbuf r buf ih.1, parse_fieldsFit maxbuf r buf ih.2⟩

/-- C15 (amended): `origin_lines` keeps every physical line `ParseHttpRequest`
has accepted since `InitHttpRequest`, complete logical lines included, and is
never emptied.  In every reachable request: the call returns
`ERROR_READLINE_TOO_MUCH` exactly when the line is acceptable (not empty,
shorter than `MAXBUF`) and 32 entries are stored; every call that does not
return one of the three codes of `AddLineToHttpRequest` adds one entry; no
call removes an entry; and at most 32 entries are ever stored. -/
theorem too_many_lines_counts_every_line (maxbuf : Nat) (r : HttpRequest) (buf : List Char)
    (hr : Reachable maxbuf r) :
    ((ParseHttpRequest maxbuf r buf).1 = ERROR_READLINE_TOO_MUCH ↔
        0 < (cstr buf).length ∧ (cstr buf).length < maxbuf ∧ r.cur_line = MAX_PARSE_LINES) ∧
      ((ParseHttpRequest maxbuf r buf).1 ≠ ERROR_LINE_TOO_LONG →
        (ParseHttpRequest maxbuf r buf).1 ≠ ERROR_LINE_ZERO →
        (ParseHttpRequest maxbuf r buf).1 ≠ ERROR_READLINE_TOO_MUCH →
        (ParseHttpRequest maxbuf r buf).2.cur_line = r.cur_line + 1) ∧
      r.cur_line ≤ (ParseHttpRequest maxbuf r buf).2.cur_line ∧
      r.cur_line ≤ MAX_PARSE_LINES := by
  obtain ⟨⟨hcap, hle⟩, _⟩ := reachable_inv maxbuf r hr
  have hcap2 : r.line_num = 8 ∨ r.line_num = 16 ∨ r.line_num = 32 := hcap
  have hle2 : r.cur_line ≤ r.line_num := hle
  obtain ⟨p1, p2⟩ := parse_props maxbuf r buf
  have h32 : r.cur_line ≤ 32 := by omega
  rcases addLine_cases maxbuf r buf with ⟨a, h⟩ | ⟨a, b, h⟩ | ⟨a, b, c, d, h⟩ | ⟨a, b, c, h⟩
  · rw [p1 (by rw [h]; simp), h]
    refine ⟨⟨fun e => absurd e (by simp), fun e => ?_⟩, fun e => absurd rfl e, Nat.le_refl _, h32⟩
    omega
  · rw [p1 (by rw [h]; simp), h]
    refine ⟨⟨fun e => absurd e (by simp), fun e => ?_⟩, fun _ e => absurd rfl e,
      Nat.le_refl _, h32⟩
    omega
  · rw [p1 (by rw [h]; simp), h]
    have d2 : 32 ≤ r.line_num := d
    refine ⟨⟨fun _ => ⟨b, a, ?_⟩, fun _ => rfl⟩, fun _ _ e => absurd rfl e, Nat.le_refl _, h32⟩
    show r.cur_line = 32
    omega
  · obtain ⟨q1, _, q3, _, _⟩ := p2 (by rw [h])
    rw [h] at q1
    have hlen : (ParseHttpRequest maxbuf r buf).2.cur_line = r.cur_line + 1 := by
      unfold HttpRequest.cur_line
      rw [q1]
      simp [withBuf]
    refine ⟨⟨fun e => absurd e q3, fun e => ?_⟩, fun _ _ _ => hlen, by omega, h32⟩
    exfalso
    apply c
    have e3 : r.cur_line = 32 := e.2.2
    constructor
    · omega
    · show 32 ≤ r.line_num
      omega

/-- C15 (witness): the Host line after the request line takes the second
entry. -/
theorem too_many_lines_counts_every_line_witness :
    (ParseHttpRequest 8192 (ParseHttpRequest 8192 InitHttpRequest exampleRequestLine).2
        exampleHostLine).2.cur_line =
      (ParseHttpRequest 8192 InitHttpRequest exampleRequestLine).2.cur_line + 1 :=
  (too_many_lines_counts_every_line 8192
    (ParseHttpRequest 8192 InitHttpRequest exampleRequestLine).2 exampleHostLine
    (Reachable.feed _ _ Reachable.init)).2.1 (by decide) (by decide) (by decide)

/-- C15 (counterexample): a request line and 31 header lines, every one a
complete logical line, are fed with return code 0; no entry of `origin_lines`
is an unterminated fragment.  The next complete line, the empty line that ends
the headers, is refused with `ERROR_READLINE_TOO_MUCH`. -/
theorem complete_lines_reach_the_cap :
    (feedLines 8192 InitHttpRequest
        (exampleRequestLine :: List.replicate 31 "Accept: */*\r\n".toList)).1 = 0 ∧
      (∀ l ∈ requestWith32Lines.origin_lines, l.line_finish = true) ∧
      (ParseHttpRequest 8192 requestWith32Lines ['\r', '\n']).1 = ERROR_READLINE_TOO_MUCH := by
  decide

theorem takeWhile_stop (p : Char → Bool) (c : Char) (b : List Char) (hc : p c = false) :
    ∀ a : List Char, (∀ x ∈ a, p x = true) → (a ++ c :: b).takeWhile p = a := by
  intro a
  induction a with
  | nil => intro _; simp [List.takeWhile, hc]
  | cons h t ih =>
    intro ha
    have hh : p h = true := ha h (List.mem_cons_self _ _)
    simp only [List.cons_append, List.takeWhile, hh]
    exact congrArg (List.cons h) (ih (fun x hx => ha x (List.mem_cons_of_mem _ hx)))

theorem dropWhile_stop (p : Char → Bool) (c : Char) (b : List Char) (hc : p c = false) :
    ∀ a : List Char, (∀ x ∈ a, p x = true) → (a ++ c :: b).dropWhile p = c :: b := by
  intro a
  induction a with
  | nil => intro _; simp [List.dropWhile, hc]
  | cons h t ih =>
    intro ha
    have hh : p h = true := ha h (List.mem_cons_self _ _)
    simp only [List.cons_append, List.dropWhile, hh]
    exact ih (fun x hx => ha x (List.mem_cons_of_mem _ hx))

/-- `ParseHeaders` on a header line: name, colon, spaces, value, CR LF. -/
theorem parseHeaders_line (r : HttpRequest) (name : List Char) (n : Nat) (v : List Char)
    (hname : ':' ∉ name) (hv0 : v ≠ []) (hsp : v.head? ≠ some ' ') :
    ParseHeaders r (name ++ ':' :: (List.replicate n ' ' ++ (v ++ ['\r', '\n']))) =
      if name = ['H', 'o', 's', 't'] then
        if HOST_LEN ≤ v.length then (ERROR_HOST_TOO_LONG, r) else (0, { r with host := v })
      else (0, r) := by
  have hp : ∀ x ∈ name, (fun c => decide (c ≠ ':')) x = true := by
    intro x hx
    have : x ≠ ':' := fun e => hname (e ▸ hx)
    simpa using this
  have hne : name ++ ':' :: (List.replicate n ' ' ++ (v ++ ['\r', '\n'])) ≠ ['\r', '\n'] := by
    intro e
    have hmem : ':' ∈ name ++ ':' :: (List.replicate n ' ' ++ (v ++ ['\r', '\n'])) := by simp
    rw [e] at hmem
    exact absurd hmem (by decide)
  unfold ParseHeaders
  rw [if_neg hne, dropWhile_stop _ ':' _ (by simp) name hp,
    takeWhile_stop _ ':' _ (by simp) name hp]
  simp only [dropWhile_spaces v _ hv0 hsp n]
  have hpos : 0 < v.length := List.length_pos.mpr hv0
  have hl : (v ++ ['\r', '\n']).length - 2 = v.length := by simp
  have hl2 : ¬ (v ++ ['\r', '\n']).length ≤ 2 := by
    simp only [List.length_append, List.length_cons, List.length_nil]
    omega
  rw [if_neg hl2, hl]
  have ht : (v ++ ['\r', '\n']).take v.length = v := by simp
  rw [ht]

theorem header_line_facts (name : List Char) (n : Nat) (v : List Char)
    (hnn : '\x00' ∉ name) (hnul : '\x00' ∉ v) :
    '\x00' ∉ name ++ ':' :: (List.replicate n ' ' ++ (v ++ ['\r', '\n'])) ∧
      name ++ ':' :: (List.replicate n ' ' ++ (v ++ ['\r', '\n'])) ≠ [] ∧
      (name ++ ':' :: (List.replicate n ' ' ++ (v ++ ['\r', '\n']))).getLast? = some '\n' := by
  refine ⟨?_, by simp, ?_⟩
  · intro h
    simp only [List.mem_append, List.mem_cons, List.mem_replicate] at h
    rcases h with h | h | ⟨_, h⟩ | h | h | h | h
    · exact hnn h
    · exact absurd h (by decide)
    · exact absurd h (by decide)
    · exact hnul h
    · exact absurd h (by decide)
    · exact absurd h (by decide)
    · exact absurd h (List.not_mem_nil _)
  · have e : name ++ ':' :: (List.replicate n ' ' ++ (v ++ ['\r', '\n'])) =
        (name ++ ':' :: (List.replicate n ' ' ++ (v ++ ['\r']))) ++ ['\n'] := by
      simp
    rw [e, List.getLast?_append_of_ne_nil _ (by simp)]
    rfl

/-- C18 (amended): in the `PARSE_HEADERS` state, when the raw-line buffer
still accepts a line and no unterminated fragment is pending, every header
line (name without colon, colon, spaces, a value that is not empty, CR LF;
shorter than `MAXBUF`, without NUL) whose name is not exactly `Host` makes
`ParseHttpRequest` return 0 and leaves method, url, version, the derived path,
host and the parse state as they were, whatever the length of the value. -/
theorem other_headers_discarded (maxbuf : Nat) (r : HttpRequest) (name : List Char) (n : Nat)
    (v : List Char) (hstate : r.parse_state = ParseState.PARSE_HEADERS)
    (hacc : r.cur_line = r.line_num → r.line_num < MAX_PARSE_LINES)
    (hprev : ∀ p, r.origin_lines.getLast? = some p → p.line_finish = true)
    (hname : ':' ∉ name) (hnot : name ≠ ['H', 'o', 's', 't']) (hnn : '\x00' ∉ name)
    (hv0 : v ≠ []) (hsp : v.head? ≠ some ' ') (hnul : '\x00' ∉ v)
    (hlen : (name ++ ':' :: (List.replicate n ' ' ++ (v ++ ['\r', '\n']))).length < maxbuf) :
    (ParseHttpRequest maxbuf r
        (name ++ ':' :: (List.replicate n ' ' ++ (v ++ ['\r', '\n'])))).1 = 0 ∧
      (ParseHttpRequest maxbuf r
        (name ++ ':' :: (List.replicate n ' ' ++ (v ++ ['\r', '\n'])))).2.method = r.method ∧
      (ParseHttpRequest maxbuf r
        (name ++ ':' :: (List.replicate n ' ' ++ (v ++ ['\r', '\n'])))).2.url = r.url ∧
      (ParseHttpRequest maxbuf r
        (name ++ ':' :: (List.replicate n ' ' ++ (v ++ ['\r', '\n'])))).2.version = r.version ∧
      (ParseHttpRequest maxbuf r
        (name ++ ':' :: (List.replicate n ' ' ++ (v ++ ['\r', '\n'])))).2.proxyPath =
          r.proxyPath ∧
      (ParseHttpRequest maxbuf r
        (name ++ ':' :: (List.replicate n ' ' ++ (v ++ ['\r', '\n'])))).2.host = r.host ∧
      (ParseHttpRequest maxbuf r
        (name ++ ':' :: (List.replicate n ' ' ++ (v ++ ['\r', '\n'])))).2.parse_state =
          r.parse_state := by
  obtain ⟨f1, f2, f3⟩ := header_line_facts name n v hnn hnul
  obtain ⟨ln, hp⟩ := parse_header_line maxbuf r _ hstate hacc hprev f1 f2 hlen f3
  rw [hp, parseHeaders_line _ name n v hname hv0 hsp, if_neg hnot]
  exact ⟨rfl, rfl, rfl, rfl, rfl, rfl, rfl⟩

/-- C18 (witness): `host: example.com` (lower case) after the request line of
the scenario. -/
theorem other_headers_discarded_witness :
    (ParseHttpRequest 8192 (ParseHttpRequest 8192 InitHttpRequest exampleRequestLine).2
        ("host".toList ++ ':' :: (List.replicate 1 ' ' ++
          ("example.com".toList ++ ['\r', '\n'])))).1 = 0 ∧
      (ParseHttpRequest 8192 (ParseHttpRequest 8192 InitHttpRequest exampleRequestLine).2
        ("host".toList ++ ':' :: (List.replicate 1 ' ' ++
          ("example.com".toList ++ ['\r', '\n'])))).2.host = [] :=
  ⟨(other_headers_discarded 8192 (ParseHttpRequest 8192 InitHttpRequest exampleRequestLine).2
      "host".toList 1 "example.com".toList (by decide) (by decide) (by decide) (by decide)
      (by decide) (by decide) (by decide) (by decide) (by decide) (by decide)).1,
    (other_headers_discarded 8192 (ParseHttpRequest 8192 InitHttpRequest exampleRequestLine).2
      "host".toList 1 "example.com".toList (by decide) (by decide) (by decide) (by decide)
      (by decide) (by decide) (by decide) (by decide) (by decide) (by decide)).2.2.2.2.2.1⟩

/-- C18 (counterexample): two well-formed header lines whose name is not
`Host`, fed in the `PARSE_HEADERS` state, on which `ParseHttpRequest` does not
return 0.  (1) `X-Pad:` with a value of 8192 bytes after the request line: the
line does not fit the line buffer, the call returns `ERROR_LINE_TOO_LONG`.
(2) `HOST: example.com` after a request line and 31 header lines: the buffer
of raw lines is full, the call returns `ERROR_READLINE_TOO_MUCH`. -/
theorem other_header_refused :
    ((ParseHttpRequest 8192 InitHttpRequest exampleRequestLine).2.parse_state =
        ParseState.PARSE_HEADERS ∧
      (ParseHttpRequest 8192 (ParseHttpRequest 8192 InitHttpRequest exampleRequestLine).2
        ("X-Pad".toList ++ ':' :: (List.replicate 1 ' ' ++
          (List.replicate 8192 'a' ++ ['\r', '\n'])))).1 = ERROR_LINE_TOO_LONG) ∧
    (requestWith32Lines.parse_state = ParseState.PARSE_HEADERS ∧
      (ParseHttpRequest 8192 requestWith32Lines "HOST: example.com\r\n".toList).1 =
        ERROR_READLINE_TOO_MUCH) := by
  refine ⟨⟨by decide, ?_⟩, by decide, by decide⟩
  rw [parse_too_long]
  rw [cstr_eq_self]
  · simp only [List.length_append, List.length_cons, List.length_replicate]
    decide
  · intro h
    simp only [List.mem_append, List.mem_cons, List.mem_replicate] at h
    rcases h with h | h | ⟨_, h⟩ | ⟨_, h⟩ | h | h | h
    · exact absurd h (by decide)
    · exact absurd h (by decide)
    · exact absurd h (by decide)
    · exact absurd h (by decide)
    · exact absurd h (by decide)
    · exact absurd h (by decide)
    · exact absurd h (List.not_mem_nil _)

/-- The code `ParseRequestLine` returns on a line of three tokens separated by
runs of spaces and ended by CR LF. -/
theorem parseRequestLine_codes (r : HttpRequest) (M U V : List Char) (n1 n2 : Nat)
    (hM : ∀ c ∈ M, c ≠ ' ' ∧ c ≠ '\r' ∧ c ≠ '\n') (hM0 : M ≠ [])
    (hU : ∀ c ∈ U, c ≠ ' ' ∧ c ≠ '\r' ∧ c ≠ '\n') (hU0 : U ≠ [])
    (hV : ∀ c ∈ V, c ≠ ' ' ∧ c ≠ '\r' ∧ c ≠ '\n') (hV0 : V ≠ []) :
    (ParseRequestLine r
        (M ++ (List.replicate (n1 + 1) ' ' ++ (U ++ (List.replicate (n2 + 1) ' ' ++
          (V ++ ['\r', '\n'])))))).1 =
      if METHOD_LEN ≤ M.length then ERROR_METHOD_TOO_LONG
      else if URL_LEN ≤ U.length then ERROR_URL_TOO_LONG
      else if VER_LEN ≤ V.length then ERROR_VERSION_TOO_LONG
      else 0 := by
  unfold ParseRequestLine
  rw [scan_token _ M r [] 0 hM, List.nil_append, List.replicate_succ, List.cons_append]
  by_cases hm : METHOD_LEN ≤ M.length
  · rw [if_pos hm, ParseRequestLine.scan, if_pos (Or.inl rfl),
      if_pos (List.length_pos.mpr hM0), if_pos rfl, if_pos hm]
  · rw [if_neg hm, scan_cons_delim_method _ M ' ' _ (Or.inl rfl) hM0 (Nat.lt_of_not_le hm),
      scan_spaces, scan_token _ U _ [] 1 hU, List.nil_append, List.replicate_succ,
      List.cons_append]
    by_cases hu : URL_LEN ≤ U.length
    · rw [if_pos hu, ParseRequestLine.scan, if_pos (Or.inl rfl),
        if_pos (List.length_pos.mpr hU0), if_neg (by decide), if_pos rfl, if_pos hu]
    · rw [if_neg hu, scan_cons_delim_url _ U ' ' _ (Or.inl rfl) hU0 (Nat.lt_of_not_le hu),
        scan_spaces, scan_token _ V _ [] 2 hV, List.nil_append]
      by_cases hv : VER_LEN ≤ V.length
      · rw [if_pos hv, ParseRequestLine.scan, if_pos (Or.inr (Or.inl rfl)),
          if_pos (List.length_pos.mpr hV0), if_neg (by decide), if_neg (by decide), if_pos rfl,
          if_pos hv]
      · rw [if_neg hv,
          scan_cons_delim_version _ V '\r' _ (Or.inr (Or.inl rfl)) hV0 (Nat.lt_of_not_le hv)]

theorem three_token_line_facts (M U V : List Char) (n1 n2 : Nat)
    (hM : '\x00' ∉ M) (hU : '\x00' ∉ U) (hV : '\x00' ∉ V) :
    '\x00' ∉ (M ++ (List.replicate (n1 + 1) ' ' ++ (U ++ (List.replicate (n2 + 1) ' ' ++
        (V ++ ['\r', '\n']))))) ∧
      (M ++ (List.replicate (n1 + 1) ' ' ++ (U ++ (List.replicate (n2 + 1) ' ' ++
        (V ++ ['\r', '\n']))))) ≠ [] ∧
      (M ++ (List.replicate (n1 + 1) ' ' ++ (U ++ (List.replicate (n2 + 1) ' ' ++
        (V ++ ['\r', '\n']))))).getLast? = some '\n' := by
  refine ⟨?_, by simp, ?_⟩
  · intro h
    simp only [List.mem_append, List.mem_replicate, List.mem_cons] at h
    rcases h with h | ⟨_, h⟩ | h | ⟨_, h⟩ | h | h | h | h
    · exact hM h
    · exact absurd h (by decide)
    · exact hU h
    · exact absurd h (by decide)
    · exact hV h
    · exact absurd h (by decide)
    · exact absurd h (by decide)
    · exact absurd h (List.not_mem_nil _)
  · have e : (M ++ (List.replicate (n1 + 1) ' ' ++ (U ++
        (List.replicate (n2 + 1) ' ' ++ (V ++ ['\r', '\n']))))) =
        (M ++ (List.replicate (n1 + 1) ' ' ++ (U ++
          (List.replicate (n2 + 1) ' ' ++ (V ++ ['\r']))))) ++ ['\n'] := by
      simp
    rw [e, List.getLast?_append_of_ne_nil _ (by simp)]
    rfl

/-- A complete line fed to a fresh request is handed to `ParseRequestLine`
as it is. -/
theorem parse_fresh_line (maxbuf : Nat) (f : List Char) (hnul : '\x00' ∉ f) (hne : f ≠ [])
    (hlen : f.length < maxbuf) (hfin : f.getLast? = some '\n') :
    ∃ ln, ParseHttpRequest maxbuf InitHttpRequest f =
      ParseRequestLine (withBuf InitHttpRequest [⟨f, true⟩] ln) f := by
  obtain ⟨ln, hp, -, -⟩ := parse_finished maxbuf InitHttpRequest f initHttpRequest_bufOk
    (by simp [InitHttpRequest, HttpRequest.cur_line]) hnul hne hlen hfin
  have hst : InitHttpRequest.parse_state = ParseState.PARSE_LINE := rfl
  simp only [hst] at hp
  have hol : InitHttpRequest.origin_lines = [] := rfl
  rw [hol, List.nil_append, totLine_single] at hp
  exact ⟨ln, hp⟩

/-- C17 (amended): for every request line of three tokens (not empty, without
space, CR, LF and NUL) separated by runs of spaces and ended by CR LF, whose
length is below `MAXBUF`, `ParseHttpRequest` on a fresh request returns the
method-too-long error exactly when the method has 32 bytes or more, otherwise
the URL-too-long error exactly when the URL has 2560 bytes or more, otherwise
the version-too-long error exactly when the version has 32 bytes or more,
otherwise 0.  For every Host header shorter than `MAXBUF`, fed in the
`PARSE_HEADERS` state while the buffer of raw lines accepts a line and no
fragment is pending, it returns the host-too-long error exactly when the value
has 256 bytes or more, otherwise 0.  In every reachable request each stored
field with its terminator fits its array. -/
theorem field_capacity_errors (maxbuf : Nat) (M U V : List Char) (n1 n2 : Nat)
    (hM : ∀ c ∈ M, c ≠ ' ' ∧ c ≠ '\r' ∧ c ≠ '\n' ∧ c ≠ '\x00') (hM0 : M ≠ [])
    (hU : ∀ c ∈ U, c ≠ ' ' ∧ c ≠ '\r' ∧ c ≠ '\n' ∧ c ≠ '\x00') (hU0 : U ≠ [])
    (hV : ∀ c ∈ V, c ≠ ' ' ∧ c ≠ '\r' ∧ c ≠ '\n' ∧ c ≠ '\x00') (hV0 : V ≠ [])
    (hlen : (M ++ (List.replicate (n1 + 1) ' ' ++ (U ++ (List.replicate (n2 + 1) ' ' ++
      (V ++ ['\r', '\n']))))).length < maxbuf) :
    (ParseHttpRequest maxbuf InitHttpRequest
        (M ++ (List.replicate (n1 + 1) ' ' ++ (U ++ (List.replicate (n2 + 1) ' ' ++
          (V ++ ['\r', '\n'])))))).1 =
        (if METHOD_LEN ≤ M.length then ERROR_METHOD_TOO_LONG
         else if URL_LEN ≤ U.length then ERROR_URL_TOO_LONG
         else if VER_LEN ≤ V.length then ERROR_VERSION_TOO_LONG
         else 0) ∧
      (∀ (r : HttpRequest) (n : Nat) (v : List Char),
        r.parse_state = ParseState.PARSE_HEADERS →
        (r.cur_line = r.line_num → r.line_num < MAX_PARSE_LINES) →
        (∀ p, r.origin_lines.getLast? = some p → p.line_finish = true) →
        v ≠ [] → v.head? ≠ some ' ' → '\x00' ∉ v →
        (['H', 'o', 's', 't'] ++ ':' :: (List.replicate n ' ' ++
          (v ++ ['\r', '\n']))).length < maxbuf →
        (ParseHttpRequest maxbuf r (['H', 'o', 's', 't'] ++ ':' :: (List.replicate n ' ' ++
          (v ++ ['\r', '\n'])))).1 =
          (if HOST_LEN ≤ v.length then ERROR_HOST_TOO_LONG else 0)) ∧
      (∀ s : HttpRequest, Reachable maxbuf s → fieldsFit s) := by
  refine ⟨?_, ?_, fun s hs => (reachable_inv maxbuf s hs).2⟩
  · obtain ⟨f1, f2, f3⟩ := three_token_line_facts M U V n1 n2
      (fun h => (hM _ h).2.2.2 rfl) (fun h => (hU _ h).2.2.2 rfl) (fun h => (hV _ h).2.2.2 rfl)
    obtain ⟨ln, hp⟩ := parse_fresh_line maxbuf _ f1 f2 hlen f3
    rw [hp]
    exact parseRequestLine_codes _ M U V n1 n2
      (fun c hc => ⟨(hM c hc).1, (hM c hc).2.1, (hM c hc).2.2.1⟩) hM0
      (fun c hc => ⟨(hU c hc).1, (hU c hc).2.1, (hU c hc).2.2.1⟩) hU0
      (fun c hc => ⟨(hV c hc).1, (hV c hc).2.1, (hV c hc).2.2.1⟩) hV0
  · intro r n v hstate hacc hprev hv0 hsp hnul hl
    obtain ⟨f1, f2, f3⟩ := header_line_facts ['H', 'o', 's', 't'] n v (by decide) hnul
    obtain ⟨ln, hp⟩ := parse_header_line maxbuf r _ hstate hacc hprev f1 f2 hl f3
    rw [hp, parseHeaders_line _ ['H', 'o', 's', 't'] n v (by decide) hv0 hsp, if_pos rfl]
    by_cases hh : HOST_LEN ≤ v.length
    · rw [if_pos hh, if_pos hh]
    · rw [if_neg hh, if_neg hh]

/-- C17 (witness): a request line whose method has 32 bytes. -/
theorem field_capacity_errors_witness :
    (ParseHttpRequest 8192 InitHttpRequest
        (List.replicate 32 'G' ++ (List.replicate (0 + 1) ' ' ++
          ("http://example.com/a".toList ++ (List.replicate (0 + 1) ' ' ++
            ("HTTP/1.1".toList ++ ['\r', '\n'])))))).1 = ERROR_METHOD_TOO_LONG :=
  (field_capacity_errors 8192 (List.replicate 32 'G') "http://example.com/a".toList
    "HTTP/1.1".toList 0 0 (by decide) (by decide) (by decide) (by decide) (by decide)
    (by decide) (by decide)).1

/-- C17 (counterexample): a request line of three tokens whose method has
8192 bytes, fed to a fresh request in one call.  The method does not fit its
array, but the return code is `ERROR_LINE_TOO_LONG`, not the method-too-long
error: the line is refused before any token is looked at. -/
theorem long_method_refused_as_long_line :
    METHOD_LEN ≤ (List.replicate 8192 'G').length ∧
      (ParseHttpRequest 8192 InitHttpRequest
        (List.replicate 8192 'G' ++ " / HTTP/1.1\r\n".toList)).1 = ERROR_LINE_TOO_LONG ∧
      ERROR_LINE_TOO_LONG ≠ ERROR_METHOD_TOO_LONG := by
  refine ⟨by rw [List.length_replicate]; decide, ?_, by decide⟩
  rw [parse_too_long]
  rw [cstr_eq_self]
  · simp only [List.length_append, List.length_replicate]
    decide
  · intro h
    simp only [List.mem_append, List.mem_replicate] at h
    rcases h with ⟨_, h⟩ | h <;> exact absurd h (by decide)

/-! ## Theorems: the handle of a key -/

/-- C13: `CreateCacheInfo` in full.  When cache root, host and path do not fit
`PATH_MAX` it returns 1 with the path-too-long message; otherwise `cache_path`
is root ++ host ++ path without its trailing slashes, and when nothing is left
of it the function returns 1 with the empty-path message; otherwise the same
holds for the temp root and `temp_path`; otherwise it returns 0 with no error
recorded.  Both open flags are cleared in every case, and the return value is
not 0 exactly when `IsCacheError` is 1 afterwards. -/
theorem cache_path_construction (m : CacheModule) (host url : List Char) :
    (PATH_MAX ≤ m.CACHE_DIR.length + host.length + url.length →
        (CreateCacheInfo m host url).1 = 1 ∧
          (CreateCacheInfo m host url).2.error_msg = CACHE_PATH_TOO_LONG) ∧
      (m.CACHE_DIR.length + host.length + url.length < PATH_MAX →
        (CreateCacheInfo m host url).2.cache_path =
            dropTrailingSlashes (m.CACHE_DIR ++ host ++ url) ∧
          (dropTrailingSlashes (m.CACHE_DIR ++ host ++ url) = [] →
            (CreateCacheInfo m host url).1 = 1 ∧
              (CreateCacheInfo m host url).2.error_msg = CACHE_PATH_EMPTY) ∧
          (dropTrailingSlashes (m.CACHE_DIR ++ host ++ url) ≠ [] →
            (PATH_MAX ≤ m.TEMP_DIR.length + host.length + url.length →
              (CreateCacheInfo m host url).1 = 1 ∧
                (CreateCacheInfo m host url).2.error_msg = TEMP_PATH_TOO_LONG) ∧
            (m.TEMP_DIR.length + host.length + url.length < PATH_MAX →
              (CreateCacheInfo m host url).2.temp_path =
                  dropTrailingSlashes (m.TEMP_DIR ++ host ++ url) ∧
                (dropTrailingSlashes (m.TEMP_DIR ++ host ++ url) = [] →
                  (CreateCacheInfo m host url).1 = 1 ∧
                    (CreateCacheInfo m host url).2.error_msg = TEMP_PATH_EMPTY) ∧
                (dropTrailingSlashes (m.TEMP_DIR ++ host ++ url) ≠ [] →
                  (CreateCacheInfo m host url).1 = 0 ∧
                    (CreateCacheInfo m host url).2.error_msg = [])))) ∧
      (CreateCacheInfo m host url).2.is_open = false ∧
      (CreateCacheInfo m host url).2.is_write = false ∧
      ((CreateCacheInfo m host url).1 ≠ 0 ↔ IsCacheError (CreateCacheInfo m host url).2 = 1) := by
  unfold CreateCacheInfo IsCacheError
  simp only
  by_cases h1 : PATH_MAX ≤ m.CACHE_DIR.length + host.length + url.length
  · rw [if_pos h1]
    refine ⟨fun _ => ⟨rfl, rfl⟩, fun h => absurd h1 (Nat.not_le.mpr h), rfl, rfl, ?_⟩
    simp [CACHE_PATH_TOO_LONG]
  · rw [if_neg h1]
    refine ⟨fun h => absurd h h1, ?_⟩
    by_cases h2 : (dropTrailingSlashes (m.CACHE_DIR ++ host ++ url)).length ≤ 0
    · rw [if_pos h2]
      have h2e : dropTrailingSlashes (m.CACHE_DIR ++ host ++ url) = [] :=
        List.length_eq_zero.mp (Nat.le_zero.mp h2)
      refine ⟨fun _ => ⟨rfl, fun _ => ⟨rfl, rfl⟩, fun h => absurd h2e h⟩, rfl, rfl, ?_⟩
      simp [CACHE_PATH_EMPTY]
    · rw [if_neg h2]
      have h2n : dropTrailingSlashes (m.CACHE_DIR ++ host ++ url) ≠ [] := by
        intro e
        rw [e] at h2
        exact h2 (Nat.le_refl 0)
      by_cases h3 : PATH_MAX ≤ m.TEMP_DIR.length + host.length + url.length
      · rw [if_pos h3]
        refine ⟨fun _ => ⟨rfl, fun h => absurd h h2n, fun _ =>
          ⟨fun _ => ⟨rfl, rfl⟩, fun h => absurd h3 (Nat.not_le.mpr h)⟩⟩, rfl, rfl, ?_⟩
        simp [TEMP_PATH_TOO_LONG]
      · rw [if_neg h3]
        by_cases h4 : (dropTrailingSlashes (m.TEMP_DIR ++ host ++ url)).length ≤ 0
        · rw [if_pos h4]
          have h4e : dropTrailingSlashes (m.TEMP_DIR ++ host ++ url) = [] :=
            List.length_eq_zero.mp (Nat.le_zero.mp h4)
          refine ⟨fun _ => ⟨rfl, fun h => absurd h h2n, fun _ =>
            ⟨fun h => absurd h h3, fun _ => ⟨rfl, fun _ => ⟨rfl, rfl⟩,
              fun h => absurd h4e h⟩⟩⟩, rfl, rfl, ?_⟩
          simp [TEMP_PATH_EMPTY]
        · rw [if_neg h4]
          have h4n : dropTrailingSlashes (m.TEMP_DIR ++ host ++ url) ≠ [] := by
            intro e
            rw [e] at h4
            exact h4 (Nat.le_refl 0)
          refine ⟨fun _ => ⟨rfl, fun h => absurd h h2n, fun _ =>
            ⟨fun h => absurd h h3, fun _ => ⟨rfl, fun h => absurd h h4n,
              fun _ => ⟨rfl, rfl⟩⟩⟩⟩, rfl, rfl, ?_⟩
          simp [rio_readinitb]

/-- C13 (witness): the second key of `test_cache.c`; the slash that ends the
path is removed. -/
theorem cache_path_construction_witness :
    (CreateCacheInfo scenarioModule "www.baidu.com".toList "/".toList).2.cache_path =
      "/srv/.cache/www.baidu.com".toList :=
  ((cache_path_construction scenarioModule "www.baidu.com".toList "/".toList).2.1
    (by decide)).1.trans (by decide)

theorem extends_refl (os : OS) : Extends os os := ⟨rfl, fun _ _ h => h⟩

theorem extends_trans {os os1 os2 : OS} (h1 : Extends os os1) (h2 : Extends os1 os2) :
    Extends os os2 :=
  ⟨h2.1.trans h1.1, fun q n h => h2.2 q n (h1.2 q n h)⟩

theorem mkdir_extends (os : OS) (path : List Char) : Extends os (sys_mkdir os path).2 := by
  unfold sys_mkdir
  cases hr : os.resolve (dropTrailingSlashes path) with
  | none => exact extends_refl _
  | some p =>
    simp only
    by_cases hs : (os.node p).isSome = true
    · rw [if_pos hs]
      exact extends_refl _
    · rw [if_neg hs]
      refine ⟨rfl, fun q n hq => ?_⟩
      rw [node_setNode]
      by_cases hq0 : q = []
      · rw [if_pos hq0]
        rw [hq0, node_root] at hq
        exact hq
      · rw [if_neg hq0]
        by_cases hqp : q = p
        · rw [← hqp, hq] at hs
          exact absurd rfl hs
        · rw [if_neg hqp]
          exact hq

theorem createDir_loop_extends (path : List Char) :
    ∀ (rest : List Char) (i : Nat) (os : OS), Extends os (CreateDir.loop path i rest os).2 := by
  intro rest
  induction rest with
  | nil =>
    intro i os
    simp only [CreateDir.loop]
    by_cases h : DirExist os path = 0
    · rw [if_pos h]
      exact mkdir_extends os path
    · rw [if_neg h]
      exact extends_refl _
  | cons c rest ih =>
    intro i os
    simp only [CreateDir.loop]
    by_cases h1 : i ≠ 0 ∧ c = '/'
    · rw [if_pos h1]
      by_cases h2 : DirExist os (path.take i) = 0
      · rw [if_pos h2]
        by_cases h3 : (sys_mkdir os (path.take i)).1 ≠ 0
        · rw [if_pos h3]
          exact mkdir_extends os _
        · rw [if_neg h3]
          exact extends_trans (mkdir_extends os _) (ih _ _)
      · rw [if_neg h2]
        exact ih _ _
    · rw [if_neg h1]
      exact ih _ _

theorem createCacheDir_extends (os : OS) (ci : CacheInfo) :
    Extends os (CreateCacheDir os ci).2 := by
  unfold CreateCacheDir
  by_cases h : 0 < (dirPart ci.cache_path).length
  · rw [if_pos h]
    exact createDir_loop_extends _ _ 0 os
  · rw [if_neg h]
    exact extends_refl _

theorem createTempDir_extends (os : OS) (ci : CacheInfo) :
    Extends os (CreateTempDir os ci).2 := by
  unfold CreateTempDir
  by_cases h : 0 < (dirPart ci.temp_path).length
  · rw [if_pos h]
    exact createDir_loop_extends _ _ 0 os
  · rw [if_neg h]
    exact extends_refl _

theorem extends_stat {os os2 : OS} (h : Extends os os2) (path : List Char) (n : Node)
    (hs : os.stat path = some n) : os2.stat path = some n := by
  unfold OS.stat at hs ⊢
  cases hr : os.resolve path with
  | none => rw [hr] at hs; simp at hs
  | some r =>
    rw [hr] at hs
    rw [resolve_mono os os2 path r h.1 (fun q hq => h.2 q _ hq) hr]
    exact h.2 r n hs

/-- C12: when a regular file exists at the temp path of a handle that is not
open for writing, `WriteToCache` returns -1 and records an error
(`IsCacheError` is 1); the handle is still not open for writing; the file
system holds everything it held, unchanged (directories may have been added),
so the temp file has its content; and `FreeCacheInfo` on the handle leaves the
file system as it is: the temp file is neither removed nor renamed. -/
theorem exclusive_writer (os : OS) (ci : CacheInfo) (content d : List Char)
    (hw : ci.is_write = false) (hs : os.stat ci.temp_path = some (Node.file d)) :
    (WriteToCache os ci content).1 = -1 ∧
      IsCacheError (WriteToCache os ci content).2.2 = 1 ∧
      (WriteToCache os ci content).2.2.is_write = false ∧
      Extends os (WriteToCache os ci content).2.1 ∧
      (WriteToCache os ci content).2.1.stat ci.temp_path = some (Node.file d) ∧
      (FreeCacheInfo (WriteToCache os ci content).2.1 (WriteToCache os ci content).2.2).1 =
        (WriteToCache os ci content).2.1 ∧
      (FreeCacheInfo (WriteToCache os ci content).2.1
        (WriteToCache os ci content).2.2).1.stat ci.temp_path = some (Node.file d) := by
  have key : (WriteToCache os ci content).1 = -1 ∧
      (WriteToCache os ci content).2.2.error_msg = strerror_r ∧
      (WriteToCache os ci content).2.2.is_write = false ∧
      Extends os (WriteToCache os ci content).2.1 := by
    unfold WriteToCache
    simp only [hw, Bool.not_false, if_true]
    have e1 := createCacheDir_extends os ci
    have e2 := extends_trans e1 (createTempDir_extends (CreateCacheDir os ci).2 ci)
    by_cases h1 : (CreateCacheDir os ci).1 ≠ 0
    · rw [if_pos h1]
      exact ⟨rfl, rfl, rfl, e1⟩
    rw [if_neg h1]
    by_cases h2 : (CreateTempDir (CreateCacheDir os ci).2 ci).1 ≠ 0
    · rw [if_pos h2]
      exact ⟨rfl, rfl, rfl, e2⟩
    rw [if_neg h2]
    rcases openTempFile_cases (CreateTempDir (CreateCacheDir os ci).2 ci).2 ci hw with
      he | ⟨t, hr, hn, _, _⟩
    · rw [he]
      exact ⟨rfl, rfl, hw, e2⟩
    · exfalso
      have hs2 := extends_stat e2 _ _ hs
      unfold OS.stat at hs2
      rw [hr] at hs2
      change (CreateTempDir (CreateCacheDir os ci).2 ci).2.node t = _ at hs2
      rw [hn] at hs2
      exact absurd hs2 (by simp)
  obtain ⟨k1, k2, k3, k4⟩ := key
  have hfree : (FreeCacheInfo (WriteToCache os ci content).2.1
      (WriteToCache os ci content).2.2).1 = (WriteToCache os ci content).2.1 := by
    unfold FreeCacheInfo
    by_cases ho : (WriteToCache os ci content).2.2.is_open = true
    · rw [if_pos ho]
    · rw [if_neg ho, k3]
      rfl
  refine ⟨k1, ?_, k3, k4, extends_stat k4 _ _ hs, hfree, ?_⟩
  · unfold IsCacheError
    rw [k2]
    decide
  · rw [hfree]
    exact extends_stat k4 _ _ hs

/-- C12 (witness): a second handle for the key of the scenario while the
first writer's temp file exists. -/
theorem exclusive_writer_witness :
    (WriteToCache busyTempOS
        (CreateCacheInfo scenarioModule "example.com".toList "/a".toList).2
        "HTTP/1.0 200 OK\r\n".toList).1 = -1 ∧
      (FreeCacheInfo
        (WriteToCache busyTempOS
          (CreateCacheInfo scenarioModule "example.com".toList "/a".toList).2
          "HTTP/1.0 200 OK\r\n".toList).2.1
        (WriteToCache busyTempOS
          (CreateCacheInfo scenarioModule "example.com".toList "/a".toList).2
          "HTTP/1.0 200 OK\r\n".toList).2.2).1.stat
        (CreateCacheInfo scenarioModule "example.com".toList "/a".toList).2.temp_path =
        some (Node.file "HTTP/1.0 200 OK\r\n".toList) :=
  ⟨(exclusive_writer busyTempOS
      (CreateCacheInfo scenarioModule "example.com".toList "/a".toList).2
      "HTTP/1.0 200 OK\r\n".toList "HTTP/1.0 200 OK\r\n".toList (by decide) (by decide)).1,
    (exclusive_writer busyTempOS
      (CreateCacheInfo scenarioModule "example.com".toList "/a".toList).2
      "HTTP/1.0 200 OK\r\n".toList "HTTP/1.0 200 OK\r\n".toList (by decide)
      (by decide)).2.2.2.2.2.2⟩

/-! ## Theorems: what sockets and the line reader do -/

theorem find?_filter_fd (fd fd2 : Int) (hne : fd ≠ fd2) :
    ∀ l : List (Int × Sock),
      (l.filter (fun e => decide (e.1 ≠ fd2))).find? (fun e => decide (e.1 = fd)) =
        l.find? (fun e => decide (e.1 = fd)) := by
  intro l
  induction l with
  | nil => rfl
  | cons e rest ih =>
    by_cases h2 : e.1 = fd2
    · have h1 : ¬ e.1 = fd := fun h => hne (h.symm.trans h2)
      rw [List.filter_cons_of_neg (by simpa using h2),
        List.find?_cons_of_neg _ (by simpa using h1)]
      exact ih
    · rw [List.filter_cons_of_pos (by simpa using h2)]
      by_cases h1 : e.1 = fd
      · rw [List.find?_cons_of_pos _ (by simpa using h1),
          List.find?_cons_of_pos _ (by simpa using h1)]
      · rw [List.find?_cons_of_neg _ (by simpa using h1),
          List.find?_cons_of_neg _ (by simpa using h1)]
        exact ih

theorem sock_setSock (w : World) (fd : Int) (s : Sock) (fd2 : Int) :
    (w.setSock fd s).sock fd2 = if fd2 = fd then some s else w.sock fd2 := by
  by_cases h : fd2 = fd
  · rw [if_pos h, h]
    exact sock_setSock_same w fd s
  · rw [if_neg h]
    unfold World.sock World.setSock
    have hne : ¬ ((fd, s) : Int × Sock).1 = fd2 := fun e => h e.symm
    rw [List.find?_cons_of_neg _ (by simpa using hne), find?_filter_fd fd2 fd h]

theorem worldStep_refl (P : Sock → Sock → Prop) (hP : ∀ s, P s s) (w : World) :
    WorldStep P w w :=
  ⟨rfl, rfl, fun _ s h => ⟨s, h, hP s⟩, fun _ h => h⟩

theorem worldStep_trans {P : Sock → Sock → Prop} (hP : ∀ a b c, P a b → P b c → P a c)
    {w w1 w2 : World} (h1 : WorldStep P w w1) (h2 : WorldStep P w1 w2) : WorldStep P w w2 := by
  obtain ⟨a1, b1, c1, d1⟩ := h1
  obtain ⟨a2, b2, c2, d2⟩ := h2
  refine ⟨a2.trans a1, b2.trans b1, ?_, fun fd h => d2 fd (d1 fd h)⟩
  intro fd s hs
  obtain ⟨s1, hs1, p1⟩ := c1 fd s hs
  obtain ⟨s2, hs2, p2⟩ := c2 fd s1 hs1
  exact ⟨s2, hs2, hP _ _ _ p1 p2⟩

theorem worldStep_setSock (P : Sock → Sock → Prop) (hP : ∀ s, P s s) (w : World) (fd : Int)
    (s s2 : Sock) (hs : w.sock fd = some s) (h : P s s2) : WorldStep P w (w.setSock fd s2) := by
  refine ⟨rfl, rfl, ?_, ?_⟩
  · intro fd2 x hx
    rw [sock_setSock]
    by_cases hf : fd2 = fd
    · rw [if_pos hf]
      rw [hf, hs] at hx
      simp only [Option.some.injEq] at hx
      exact ⟨s2, rfl, hx ▸ h⟩
    · rw [if_neg hf]
      exact ⟨x, hx, hP x⟩
  · intro fd2 hx
    rw [sock_setSock]
    by_cases hf : fd2 = fd
    · rw [hf, hs] at hx
      exact absurd hx (by simp)
    · rw [if_neg hf]
      exact hx

theorem readStep_refl (s : Sock) : readStep s s := ⟨rfl, rfl, rfl⟩

theorem readStep_trans (a b c : Sock) (h1 : readStep a b) (h2 : readStep b c) : readStep a c :=
  ⟨h2.1.trans h1.1, h2.2.1.trans h1.2.1, h2.2.2.trans h1.2.2⟩

theorem writeStep_refl (s : Sock) : writeStep s s := ⟨rfl, rfl⟩

theorem writeStep_trans (a b c : Sock) (h1 : writeStep a b) (h2 : writeStep b c) :
    writeStep a c :=
  ⟨h2.1.trans h1.1, h2.2.trans h1.2⟩

theorem sock_read_step (w : World) (fd : Int) (n : Nat) :
    WorldStep readStep w (sock_read w fd n).2.1 ∧ (sock_read w fd n).2.2 = fd := by
  unfold sock_read
  cases hs : w.sock fd with
  | none => exact ⟨worldStep_refl _ readStep_refl w, rfl⟩
  | some s =>
    simp only
    cases hrx : s.rx with
    | nil => exact ⟨worldStep_refl _ readStep_refl w, rfl⟩
    | cons seg rest =>
      simp only
      by_cases hl : seg.length ≤ n
      · rw [if_pos hl]
        exact ⟨worldStep_setSock _ readStep_refl w fd s _ hs ⟨rfl, rfl, rfl⟩, rfl⟩
      · rw [if_neg hl]
        exact ⟨worldStep_setSock _ readStep_refl w fd s _ hs ⟨rfl, rfl, rfl⟩, rfl⟩

theorem rio_read1_step (bufsize : Nat) (w : World) (rp : Rio Int) :
    WorldStep readStep w (rio_read1 sock_read bufsize w rp).2.1 ∧
      (rio_read1 sock_read bufsize w rp).2.2.rio_fd = rp.rio_fd := by
  unfold rio_read1
  cases hb : rp.buf with
  | cons c rest => exact ⟨worldStep_refl _ readStep_refl w, rfl⟩
  | nil =>
    simp only
    obtain ⟨h1, h2⟩ := sock_read_step w rp.rio_fd bufsize
    generalize sock_read w rp.rio_fd bufsize = res at h1 h2
    obtain ⟨r, w1, d⟩ := res
    simp only at h1 h2
    cases r with
    | data bs =>
      cases bs with
      | nil => exact ⟨h1, h2⟩
      | cons c rest => exact ⟨h1, h2⟩
    | eof => exact ⟨h1, h2⟩
    | error => exact ⟨h1, h2⟩

/-- The line reader on a socket: it only consumes bytes of that socket, keeps
its descriptor, and stores at most as many bytes as the loop has rounds. -/
theorem rio_readlineb_loop_step (bufsize : Nat) :
    ∀ (k : Nat) (w : World) (rp : Rio Int) (acc : List Char),
      WorldStep readStep w (rio_readlineb.loop sock_read bufsize k w rp acc).2.2.1 ∧
        (rio_readlineb.loop sock_read bufsize k w rp acc).2.2.2.rio_fd = rp.rio_fd ∧
        (rio_readlineb.loop sock_read bufsize k w rp acc).2.1.length ≤ acc.length + k := by
  intro k
  induction k with
  | zero =>
    intro w rp acc
    exact ⟨worldStep_refl _ readStep_refl w, rfl, Nat.le_refl _⟩
  | succ k ih =>
    intro w rp acc
    rw [rio_readlineb.loop]
    obtain ⟨h1, h2⟩ := rio_read1_step bufsize w rp
    generalize rio_read1 sock_read bufsize w rp = res at h1 h2
    obtain ⟨b, w1, rp1⟩ := res
    simp only at h1 h2
    cases b with
    | byte c =>
      simp only
      by_cases hc : c = '\n'
      · rw [if_pos hc]
        refine ⟨h1, h2, ?_⟩
        simp only [List.length_append, List.length_singleton]
        omega
      · rw [if_neg hc]
        obtain ⟨g1, g2, g3⟩ := ih w1 rp1 (acc ++ [c])
        refine ⟨worldStep_trans readStep_trans h1 g1, g2.trans h2, ?_⟩
        simp only [List.length_append, List.length_singleton] at g3
        omega
    | eof => exact ⟨h1, h2, by simp only; omega⟩
    | error => exact ⟨h1, h2, by simp only; omega⟩

theorem rio_readlineb_step (bufsize : Nat) (w : World) (rp : Rio Int) (maxlen : Nat) :
    WorldStep readStep w (rio_readlineb sock_read bufsize w rp maxlen).2.2.1 ∧
      (rio_readlineb sock_read bufsize w rp maxlen).2.2.2.rio_fd = rp.rio_fd ∧
      (rio_readlineb sock_read bufsize w rp maxlen).2.1.length ≤ maxlen - 1 := by
  unfold rio_readlineb
  obtain ⟨a, b, c⟩ := rio_readlineb_loop_step bufsize (maxlen - 1) w rp []
  exact ⟨a, b, by simpa using c⟩

theorem cstr_length_le (buf : List Char) : (cstr buf).length ≤ buf.length := by
  unfold cstr
  exact (List.takeWhile_sublist _).length_le

theorem scan_error_state : ∀ (l : List Char) (r : HttpRequest) (tok : List Char) (cnt : Nat),
    (ParseRequestLine.scan r tok cnt l).1 ≠ 0 →
      (ParseRequestLine.scan r tok cnt l).2.parse_state = r.parse_state := by
  intro l
  induction l with
  | nil => intro r tok cnt _; rfl
  | cons c rest ih =>
    intro r tok cnt
    rw [ParseRequestLine.scan]
    by_cases hd : c = ' ' ∨ c = '\r' ∨ c = '\n'
    · rw [if_pos hd]
      by_cases ht : 0 < tok.length
      · rw [if_pos ht]
        by_cases h0 : cnt = 0
        · rw [if_pos h0]
          by_cases hm : METHOD_LEN ≤ tok.length
          · rw [if_pos hm]
            exact fun _ => rfl
          · rw [if_neg hm]
            exact ih { r with method := tok } [] 1
        · rw [if_neg h0]
          by_cases h1 : cnt = 1
          · rw [if_pos h1]
            by_cases hu : URL_LEN ≤ tok.length
            · rw [if_pos hu]
              exact fun _ => rfl
            · rw [if_neg hu]
              exact ih (GetProxyUrl { r with url := tok }) [] 2
          · rw [if_neg h1]
            by_cases h2 : cnt = 2
            · rw [if_pos h2]
              by_cases hv : VER_LEN ≤ tok.length
              · rw [if_pos hv]
                exact fun _ => rfl
              · rw [if_neg hv]
                exact fun h => absurd rfl h
            · rw [if_neg h2]
              exact ih r [] cnt
      · rw [if_neg ht]
        exact ih r [] cnt
    · rw [if_neg hd]
      exact ih r (tok ++ [c]) cnt

theorem parseHeaders_error (r : HttpRequest) (line : List Char)
    (h : (ParseHeaders r line).1 ≠ 0) : (ParseHeaders r line).2 = r := by
  unfold ParseHeaders at h ⊢
  by_cases h1 : line = ['\r', '\n']
  · rw [if_pos h1] at h
    exact absurd rfl h
  · rw [if_neg h1] at h ⊢
    cases hd : line.dropWhile (fun c => c ≠ ':') with
    | nil => rfl
    | cons c rest =>
      rw [hd] at h
      simp only at h ⊢
      by_cases h2 : (rest.dropWhile (fun c => c = ' ')).length ≤ 2
      · rw [if_pos h2]
      · rw [if_neg h2] at h ⊢
        by_cases h3 : line.takeWhile (fun c => c ≠ ':') = ['H', 'o', 's', 't']
        · rw [if_pos h3] at h ⊢
          by_cases h4 : HOST_LEN ≤ (rest.dropWhile (fun c => c = ' ')).length - 2
          · rw [if_pos h4]
          · rw [if_neg h4] at h
            exact absurd rfl h
        · rw [if_neg h3]

/-- A call of `ParseHttpRequest` that returns an error leaves the parse state
and the stored host as they were. -/
theorem parse_error_state (maxbuf : Nat) (r : HttpRequest) (buf : List Char)
    (h : (ParseHttpRequest maxbuf r buf).1 ≠ 0) :
    (ParseHttpRequest maxbuf r buf).2.parse_state = r.parse_state ∧
      (ParseHttpRequest maxbuf r buf).2.host = r.host := by
  obtain ⟨p1, _⟩ := parse_props maxbuf r buf
  rcases addLine_cases maxbuf r buf with ⟨_, e⟩ | ⟨_, _, e⟩ | ⟨_, _, _, _, e⟩ | ⟨_, _, _, e⟩
  · rw [p1 (by rw [e]; simp), e]
    exact ⟨rfl, rfl⟩
  · rw [p1 (by rw [e]; simp), e]
    exact ⟨rfl, rfl⟩
  · rw [p1 (by rw [e]; simp), e]
    exact ⟨rfl, rfl⟩
  · unfold ParseHttpRequest at h ⊢
    simp only at h ⊢
    rw [e] at h ⊢
    simp only [ne_eq, not_true_eq_false, if_false] at h ⊢
    generalize hr1 : withBuf r (r.origin_lines ++
      [⟨cstr buf, decide ((cstr buf).getLast? = some '\n')⟩])
      (if r.cur_line = r.line_num then r.line_num * 2 else r.line_num) = r1 at h ⊢
    have hs1 : r1.parse_state = r.parse_state := by rw [← hr1]; rfl
    have hh1 : r1.host = r.host := by rw [← hr1]; rfl
    cases hl : r1.origin_lines.getLast? with
    | none => rw [hl] at h; exact absurd rfl h
    | some last =>
      rw [hl] at h
      simp only at h ⊢
      by_cases hf : (!last.line_finish) = true
      · rw [if_pos hf] at h
        exact absurd rfl h
      · rw [if_neg hf] at h ⊢
        cases hs : r1.parse_state with
        | PARSE_LINE =>
          rw [hs] at h
          simp only at h ⊢
          refine ⟨?_, ?_⟩
          · rw [ParseRequestLine, scan_error_state _ r1 [] 0 h, hs1]
          · rw [ParseRequestLine, (scan_props _ r1 [] 0).2.2.1, hh1]
        | PARSE_HEADERS =>
          rw [hs] at h
          simp only at h ⊢
          rw [parseHeaders_error r1 _ h]
          exact ⟨hs1, hh1⟩
        | PARSE_DATA =>
          rw [hs] at h
          exact absurd rfl h

/-- The three ways `ParseHttpRequest` ends: with the request as
`AddLineToHttpRequest` has left it, or with what `ParseRequestLine` or
`ParseHeaders` makes of that. -/
theorem parse_shape (maxbuf : Nat) (r : HttpRequest) (buf : List Char) :
    ∃ (ol : List ReadLine) (ln : Nat) (line : List Char),
      (ParseHttpRequest maxbuf r buf).2 = withBuf r ol ln ∨
        ParseHttpRequest maxbuf r buf = ParseRequestLine (withBuf r ol ln) line ∨
        ParseHttpRequest maxbuf r buf = ParseHeaders (withBuf r ol ln) line := by
  obtain ⟨p1, _⟩ := parse_props maxbuf r buf
  rcases addLine_cases maxbuf r buf with ⟨_, e⟩ | ⟨_, _, e⟩ | ⟨_, _, _, _, e⟩ | ⟨_, _, _, e⟩
  · exact ⟨r.origin_lines, r.line_num, [], Or.inl (by rw [p1 (by rw [e]; simp), e]; rfl)⟩
  · exact ⟨r.origin_lines, r.line_num, [], Or.inl (by rw [p1 (by rw [e]; simp), e]; rfl)⟩
  · exact ⟨r.origin_lines, r.line_num, [], Or.inl (by rw [p1 (by rw [e]; simp), e]; rfl)⟩
  · refine ⟨r.origin_lines ++ [⟨cstr buf, decide ((cstr buf).getLast? = some '\n')⟩],
      if r.cur_line = r.line_num then r.line_num * 2 else r.line_num,
      totLine (r.origin_lines ++ [⟨cstr buf, decide ((cstr buf).getLast? = some '\n')⟩]), ?_⟩
    unfold ParseHttpRequest
    simp only
    rw [e]
    simp only [ne_eq, not_true_eq_false, if_false]
    generalize hr1 : withBuf r (r.origin_lines ++
      [⟨cstr buf, decide ((cstr buf).getLast? = some '\n')⟩])
      (if r.cur_line = r.line_num then r.line_num * 2 else r.line_num) = r1
    have hol : r1.origin_lines = r.origin_lines ++
        [⟨cstr buf, decide ((cstr buf).getLast? = some '\n')⟩] := by rw [← hr1]; rfl
    rw [← hol]
    cases hl : r1.origin_lines.getLast? with
    | none => exact Or.inl rfl
    | some last =>
      simp only
      by_cases hf : (!last.line_finish) = true
      · rw [if_pos hf]
        exact Or.inl rfl
      · rw [if_neg hf]
        cases hs : r1.parse_state with
        | PARSE_LINE => exact Or.inr (Or.inl rfl)
        | PARSE_HEADERS => exact Or.inr (Or.inr rfl)
        | PARSE_DATA => exact Or.inl rfl

theorem scan_url : ∀ (l : List Char) (r : HttpRequest) (tok : List Char) (cnt : Nat),
    r.proxy_url = GetProxyUrl.scan r.url 0 0 →
      (ParseRequestLine.scan r tok cnt l).2.proxy_url =
        GetProxyUrl.scan (ParseRequestLine.scan r tok cnt l).2.url 0 0 := by
  intro l
  induction l with
  | nil => intro r tok cnt h; exact h
  | cons c rest ih =>
    intro r tok cnt h
    rw [ParseRequestLine.scan]
    by_cases hd : c = ' ' ∨ c = '\r' ∨ c = '\n'
    · rw [if_pos hd]
      by_cases ht : 0 < tok.length
      · rw [if_pos ht]
        by_cases h0 : cnt = 0
        · rw [if_pos h0]
          by_cases hm : METHOD_LEN ≤ tok.length
          · rw [if_pos hm]
            exact h
          · rw [if_neg hm]
            exact ih { r with method := tok } [] 1 h
        · rw [if_neg h0]
          by_cases h1 : cnt = 1
          · rw [if_pos h1]
            by_cases hu : URL_LEN ≤ tok.length
            · rw [if_pos hu]
              exact h
            · rw [if_neg hu]
              exact ih (GetProxyUrl { r with url := tok }) [] 2 rfl
          · rw [if_neg h1]
            by_cases h2 : cnt = 2
            · rw [if_pos h2]
              by_cases hv : VER_LEN ≤ tok.length
              · rw [if_pos hv]
                exact h
              · rw [if_neg hv]
                exact h
            · rw [if_neg h2]
              exact ih r [] cnt h
      · rw [if_neg ht]
        exact ih r [] cnt h
    · rw [if_neg hd]
      exact ih r (tok ++ [c]) cnt h

/-- In every reachable request `proxy_url` is what `GetProxyUrl` derives from
the stored url. -/
theorem reachable_url (maxbuf : Nat) (r : HttpRequest) (h : Reachable maxbuf r) :
    r.proxy_url = GetProxyUrl.scan r.url 0 0 := by
  induction h with
  | init => rfl
  | feed r buf _ ih =>
    obtain ⟨ol, ln, line, e | e | e⟩ := parse_shape maxbuf r buf
    · rw [e]
      exact ih
    · rw [e]
      exact scan_url line (withBuf r ol ln) [] 0 ih
    · rw [e]
      obtain ⟨_, h2, _, h4, _⟩ := parseHeaders_frame (withBuf r ol ln) line
      rw [h4, h2]
      exact ih

/-- How the loop of `HandleUnconnectedClientFd` ends: either the call has only
read from the client, and the request line or the Host header is still not
parsed if one of them was not at the start; or a line has completed the two,
and the result is that of the code from the check of the proxy url on. -/
theorem loop_cases (k : Csapp) (m : CacheModule) :
    ∀ (fuel : Nat) (w : World) (pool : RequestPool) (request : ProxyMeta),
      Reachable k.MAXBUF request.http_request →
      ((HandleUnconnectedClientFd.loop k m fuel w pool request).2.2.1 = pool ∧
          WorldStep readStep w (HandleUnconnectedClientFd.loop k m fuel w pool request).2.1 ∧
          (HandleUnconnectedClientFd.loop k m fuel w pool request).2.2.2.proxy_state =
            request.proxy_state ∧
          (HandleUnconnectedClientFd.loop k m fuel w pool request).2.2.2.cache_info =
            request.cache_info ∧
          (HandleUnconnectedClientFd.loop k m fuel w pool request).2.2.2.server_fd =
            request.server_fd ∧
          ((IsRequestLineParsed request.http_request = 0 ∨
              IsHostParsed request.http_request = 0) →
            (IsRequestLineParsed
                (HandleUnconnectedClientFd.loop k m fuel w pool request).2.2.2.http_request = 0 ∨
              IsHostParsed
                (HandleUnconnectedClientFd.loop k m fuel w pool request).2.2.2.http_request =
                  0))) ∨
        ∃ (w1 : World) (rp1 : Rio Int) (hr1 : HttpRequest),
          WorldStep readStep w w1 ∧ Reachable k.MAXBUF hr1 ∧
          IsRequestLineParsed hr1 ≠ 0 ∧ IsHostParsed hr1 ≠ 0 ∧
          HandleUnconnectedClientFd.loop k m fuel w pool request =
            HandleUnconnectedClientFd.serve m w1 pool
              { request with client_rp := rp1, http_request := hr1 } := by
  intro fuel
  induction fuel with
  | zero =>
    intro w pool request _
    exact Or.inl ⟨rfl, worldStep_refl _ readStep_refl w, rfl, rfl, rfl, id⟩
  | succ fuel ih =>
    intro w pool request hre
    simp only [HandleUnconnectedClientFd.loop]
    obtain ⟨hstep, -, -⟩ := rio_readlineb_step k.RIO_BUFSIZE w request.client_rp k.MAXBUF
    have hperr := parse_error_state k.MAXBUF request.http_request
      (rio_readlineb sock_read k.RIO_BUFSIZE w request.client_rp k.MAXBUF).2.1
    have hre2 := Reachable.feed request.http_request
      (rio_readlineb sock_read k.RIO_BUFSIZE w request.client_rp k.MAXBUF).2.1 hre
    generalize rio_readlineb sock_read k.RIO_BUFSIZE w request.client_rp k.MAXBUF = rd
      at hstep hperr hre2 ⊢
    generalize ParseHttpRequest k.MAXBUF request.http_request rd.2.1 = parsed
      at hperr hre2 ⊢
    by_cases h1 : rd.1 < 0
    · rw [if_pos h1]
      exact Or.inl ⟨rfl, hstep, rfl, rfl, rfl, id⟩
    rw [if_neg h1]
    by_cases h2 : rd.1 = 0
    · rw [if_pos h2]
      exact Or.inl ⟨rfl, hstep, rfl, rfl, rfl, id⟩
    rw [if_neg h2]
    by_cases h3 : parsed.1 ≠ 0
    · rw [if_pos h3]
      refine Or.inl ⟨rfl, hstep, rfl, rfl, rfl, fun hnb => ?_⟩
      obtain ⟨e1, e2⟩ := hperr h3
      unfold IsRequestLineParsed IsHostParsed at hnb ⊢
      simp only
      rw [e1, e2]
      exact hnb
    rw [if_neg h3]
    by_cases h4 : IsRequestLineParsed parsed.2 = 0 ∨ IsHostParsed parsed.2 = 0
    · rw [if_pos h4]
      by_cases h5 : 0 < rd.2.2.2.buf.length
      · rw [if_pos h5]
        rcases ih rd.2.2.1 pool { request with client_rp := rd.2.2.2, http_request := parsed.2 }
          hre2 with ⟨a, b, c, d, e, f⟩ | ⟨w1, rp1, hr1, a, b, c, d, e⟩
        · exact Or.inl ⟨a, worldStep_trans readStep_trans hstep b, c, d, e, fun _ => f h4⟩
        · exact Or.inr ⟨w1, rp1, hr1, worldStep_trans readStep_trans hstep a, b, c, d, e⟩
      · rw [if_neg h5]
        exact Or.inl ⟨rfl, hstep, rfl, rfl, rfl, fun _ => h4⟩
    · rw [if_neg h4]
      exact Or.inr ⟨rd.2.2.1, rd.2.2.2, parsed.2, hstep, hre2, fun e => h4 (Or.inl e),
        fun e => h4 (Or.inr e), rfl⟩

theorem forward_http_request (w : World) (pool : RequestPool) (request : ProxyMeta) :
    (HandleUnconnectedClientFd.forward w pool request).2.2.2.http_request =
      request.http_request := by
  unfold HandleUnconnectedClientFd.forward
  simp only
  split_ifs <;> rfl

theorem serve_http_request (m : CacheModule) (w : World) (pool : RequestPool)
    (request : ProxyMeta) :
    (HandleUnconnectedClientFd.serve m w pool request).2.2.2.http_request =
      request.http_request := by
  unfold HandleUnconnectedClientFd.serve
  cases hp : request.http_request.proxyPath with
  | none => rfl
  | some path =>
    simp only
    split_ifs
    · rfl
    · exact forward_http_request _ _ _

/-- C19: when a call of `HandleUnconnectedClientFd` completes the request line
and the Host header of a request and the stored URL has fewer than three
slashes, the call returns -1; the connection state, the cache handle (none is
created), the origin descriptor and the pool are as before, the file system
and the reachable peers are untouched, and no socket has appeared: the call
has only read from the client. -/
theorem missing_path_fails (k : Csapp) (m : CacheModule) (w : World) (pool : RequestPool)
    (request : ProxyMeta) (hre : Reachable k.MAXBUF request.http_request)
    (hnb : IsRequestLineParsed request.http_request = 0 ∨
      IsHostParsed request.http_request = 0)
    (hl : IsRequestLineParsed
      (HandleUnconnectedClientFd k m w pool request).2.2.2.http_request = 1)
    (hh : IsHostParsed (HandleUnconnectedClientFd k m w pool request).2.2.2.http_request = 1)
    (hurl : (HandleUnconnectedClientFd k m w pool request).2.2.2.http_request.url.count '/' <
      3) :
    (HandleUnconnectedClientFd k m w pool request).1 = -1 ∧
      (HandleUnconnectedClientFd k m w pool request).2.2.2.proxy_state = request.proxy_state ∧
      (HandleUnconnectedClientFd k m w pool request).2.2.2.cache_info = request.cache_info ∧
      (HandleUnconnectedClientFd k m w pool request).2.2.2.server_fd = request.server_fd ∧
      (HandleUnconnectedClientFd k m w pool request).2.2.1 = pool ∧
      WorldStep readStep w (HandleUnconnectedClientFd k m w pool request).2.1 := by
  unfold HandleUnconnectedClientFd at hl hh hurl ⊢
  rcases loop_cases k m (unreadBytes w request + 1) w pool request hre with
    ⟨_, _, _, _, _, f⟩ | ⟨w1, rp1, hr1, a, b, c, d, e⟩
  · rcases f hnb with f | f
    · rw [f] at hl
      exact absurd hl (by decide)
    · rw [f] at hh
      exact absurd hh (by decide)
  · rw [e] at hurl ⊢
    rw [serve_http_request] at hurl
    have hnone : hr1.proxyPath = none := by
      unfold HttpRequest.proxyPath
      rw [reachable_url k.MAXBUF hr1 b, getProxyUrl_scan_none hr1.url 0 0 (by simpa using hurl)]
      rfl
    unfold HandleUnconnectedClientFd.serve
    simp only [hnone]
    exact ⟨trivial, trivial, trivial, trivial, trivial, a⟩

/-- C19 (witness): the request `GET http://example.com HTTP/1.1` with its Host
header fails the connection. -/
theorem missing_path_fails_witness :
    Reachable csapp8192.MAXBUF scenarioRequest.http_request ∧
      (HandleUnconnectedClientFd csapp8192 scenarioModule (worldWithClient shortUrlBytes)
        scenarioPool scenarioRequest).2.2.2.http_request.url = "http://example.com".toList ∧
      (HandleUnconnectedClientFd csapp8192 scenarioModule (worldWithClient shortUrlBytes)
        scenarioPool scenarioRequest).1 = -1 ∧
      (HandleUnconnectedClientFd csapp8192 scenarioModule (worldWithClient shortUrlBytes)
        scenarioPool scenarioRequest).2.2.2.proxy_state = ProxyState.UNCONNECTED ∧
      (HandleUnconnectedClientFd csapp8192 scenarioModule (worldWithClient shortUrlBytes)
        scenarioPool scenarioRequest).2.2.2.cache_info = blankCacheInfo ∧
      (HandleUnconnectedClientFd csapp8192 scenarioModule (worldWithClient shortUrlBytes)
        scenarioPool scenarioRequest).2.2.2.server_fd = -1 ∧
      WorldStep readStep (worldWithClient shortUrlBytes)
        (HandleUnconnectedClientFd csapp8192 scenarioModule (worldWithClient shortUrlBytes)
          scenarioPool scenarioRequest).2.1 :=
  have h := missing_path_fails csapp8192 scenarioModule (worldWithClient shortUrlBytes)
    scenarioPool scenarioRequest Reachable.init (Or.inl (by decide)) (by decide) (by decide)
    (by decide)
  ⟨Reachable.init, by decide, h.1, h.2.1, h.2.2.1, h.2.2.2.1, h.2.2.2.2.2⟩

/-! ## Theorems: the origin address -/

theorem hostName_no_colon (v : List Char) (h : ':' ∉ v) : hostName v = v := by
  unfold hostName
  rw [List.takeWhile_eq_self_iff]
  intro c hc
  simp only [ne_eq, decide_not, Bool.not_eq_eq_eq_not, Bool.not_true, decide_eq_false_iff_not]
  intro e
  exact h (e ▸ hc)

theorem hostPort_no_colon (v : List Char) (h : ':' ∉ v) : hostPort v = HTTP_PORT := by
  unfold hostPort
  have : v.dropWhile (fun c => decide (c ≠ ':')) = [] := by
    rw [List.dropWhile_eq_nil_iff]
    intro c hc
    simp only [ne_eq, decide_not, Bool.not_eq_eq_eq_not, Bool.not_true, decide_eq_false_iff_not]
    intro e
    exact h (e ▸ hc)
  rw [this]

theorem hostName_colon (h p : List Char) (hh : ':' ∉ h) : hostName (h ++ ':' :: p) = h := by
  unfold hostName
  induction h with
  | nil => simp
  | cons c rest ih =>
    have hc : c ≠ ':' := fun e => hh (by simp [e])
    have hr : ':' ∉ rest := fun e => hh (List.mem_cons_of_mem _ e)
    simp only [List.cons_append]
    rw [List.takeWhile_cons_of_pos (by simpa using hc), ih hr]

theorem hostPort_colon (h p : List Char) (hh : ':' ∉ h) : hostPort (h ++ ':' :: p) = p := by
  unfold hostPort
  have : (h ++ ':' :: p).dropWhile (fun c => decide (c ≠ ':')) = ':' :: p := by
    induction h with
    | nil => simp
    | cons c rest ih =>
      have hc : c ≠ ':' := fun e => hh (by simp [e])
      have hr : ':' ∉ rest := fun e => hh (List.mem_cons_of_mem _ e)
      simp only [List.cons_append]
      rw [List.dropWhile_cons_of_pos (by simpa using hc), ih hr]
  rw [this]

theorem sock_write_step (fd : Int) (w : World) (bytes : List Char) :
    WorldStep writeStep w (sock_write fd w bytes).2 := by
  unfold sock_write
  cases hs : w.sock fd with
  | none => exact worldStep_refl _ writeStep_refl w
  | some s =>
    simp only
    cases hroom : s.tx_room with
    | none => exact worldStep_setSock _ writeStep_refl w fd s _ hs ⟨rfl, rfl⟩
    | some room =>
      simp only
      by_cases h0 : room = 0
      · rw [if_pos h0]
        exact worldStep_refl _ writeStep_refl w
      · rw [if_neg h0]
        exact worldStep_setSock _ writeStep_refl w fd s _ hs ⟨rfl, rfl⟩

theorem rio_writen_loop_step (fd : Int) :
    ∀ (fuel : Nat) (w : World) (left : List Char),
      WorldStep writeStep w (rio_writen.loop (sock_write fd) fuel w left).2 := by
  intro fuel
  induction fuel with
  | zero =>
    intro w left
    exact worldStep_refl _ writeStep_refl w
  | succ fuel ih =>
    intro w left
    rw [rio_writen.loop]
    by_cases hl : left = []
    · rw [if_pos hl]
      exact worldStep_refl _ writeStep_refl w
    · rw [if_neg hl]
      simp only
      by_cases hw : (sock_write fd w left).1 ≤ 0
      · rw [if_pos hw]
        exact sock_write_step fd w left
      · rw [if_neg hw]
        exact worldStep_trans writeStep_trans (sock_write_step fd w left) (ih _ _)

theorem rio_writen_step (fd : Int) (w : World) (bytes : List Char) :
    WorldStep writeStep w (rio_writen (sock_write fd) w bytes).2 :=
  rio_writen_loop_step fd _ w bytes

theorem sendLoop_step (fd : Int) :
    ∀ (lines : List (List Char)) (w : World), WorldStep writeStep w (sendLoop fd w lines).2 := by
  intro lines
  induction lines with
  | nil =>
    intro w
    exact worldStep_refl _ writeStep_refl w
  | cons l rest ih =>
    intro w
    rw [sendLoop]
    by_cases hw : (rio_writen (sock_write fd) w l).1 < 0
    · rw [if_pos hw]
      exact rio_writen_step fd w l
    · rw [if_neg hw]
      exact worldStep_trans writeStep_trans (rio_writen_step fd w l) (ih _)

/-- The connection `forward` has made when it leaves the request `CONNECTED`:
the one `open_clientfd` obtains for the two parts of the Host value. -/
theorem forward_peer (w : World) (pool : RequestPool) (request : ProxyMeta)
    (hne : request.proxy_state ≠ ProxyState.CONNECTED)
    (hc : (HandleUnconnectedClientFd.forward w pool request).2.2.2.proxy_state =
      ProxyState.CONNECTED) :
    ∃ s0 s, w.peers (hostName request.http_request.host) (hostPort request.http_request.host) =
        some s0 ∧
      (HandleUnconnectedClientFd.forward w pool request).2.1.sock
        (HandleUnconnectedClientFd.forward w pool request).2.2.2.server_fd = some s ∧
      s.rx = s0.rx ∧ s.rx_err = s0.rx_err := by
  unfold HandleUnconnectedClientFd.forward at hc ⊢
  by_cases h1 : (open_clientfd w (hostName request.http_request.host)
      (hostPort request.http_request.host)).1 < 0
  · simp only [h1, if_true] at hc
    exact absurd hc hne
  · simp only [h1, if_false] at hc ⊢
    by_cases h2 : (sendLoop (open_clientfd w (hostName request.http_request.host)
        (hostPort request.http_request.host)).1
        (open_clientfd w (hostName request.http_request.host)
          (hostPort request.http_request.host)).2 (linesToSend request.http_request)).1 < 0
    · simp only [h2, if_true] at hc
      exact absurd hc hne
    · simp only [h2, if_false]
      have hstep := sendLoop_step (open_clientfd w (hostName request.http_request.host)
        (hostPort request.http_request.host)).1 (linesToSend request.http_request)
        (open_clientfd w (hostName request.http_request.host)
          (hostPort request.http_request.host)).2
      unfold open_clientfd at h1 hstep ⊢
      cases hp : w.peers (hostName request.http_request.host)
          (hostPort request.http_request.host) with
      | none => simp [hp] at h1
      | some s0 =>
        simp only [hp] at hstep ⊢
        obtain ⟨s2, hs2, hw⟩ := hstep.2.2.1 w.freshFd { s0 with tx := [] }
          (by simp [World.sock])
        exact ⟨s0, s2, rfl, hs2, hw.1, hw.2⟩

theorem serve_peer (m : CacheModule) (w : World) (pool : RequestPool)
    (request : ProxyMeta) (hne : request.proxy_state ≠ ProxyState.CONNECTED)
    (hc : (HandleUnconnectedClientFd.serve m w pool request).2.2.2.proxy_state =
      ProxyState.CONNECTED) :
    ∃ s0 s, w.peers (hostName request.http_request.host) (hostPort request.http_request.host) =
        some s0 ∧
      (HandleUnconnectedClientFd.serve m w pool request).2.1.sock
        (HandleUnconnectedClientFd.serve m w pool request).2.2.2.server_fd = some s ∧
      s.rx = s0.rx ∧ s.rx_err = s0.rx_err := by
  unfold HandleUnconnectedClientFd.serve at hc ⊢
  cases hp : request.http_request.proxyPath with
  | none =>
    simp only [hp] at hc
    exact absurd hc hne
  | some path =>
    simp only [hp] at hc ⊢
    by_cases hhit : (CreateCacheInfo m request.http_request.host path).1 = 0 ∧
        IsCacheHit w.os (CreateCacheInfo m request.http_request.host path).2 = 1
    · simp only [hhit, and_self, if_true] at hc
      exact absurd hc (by decide)
    · simp only [hhit, if_false] at hc ⊢
      exact forward_peer w pool
        { request with cache_info := (CreateCacheInfo m request.http_request.host path).2 }
        hne hc

/-- C20: when `HandleUnconnectedClientFd` takes a connection from `UNCONNECTED`
to `CONNECTED`, the origin connection behind `server_fd` is the one
`open_clientfd` obtains for the host name and the port taken from the stored
Host value: the whole value and "80" when it has no colon, the part before
the first colon and the part after it otherwise.  The code from the split on
(`forward`) leaves the request, and so the stored Host value, as it was. -/
theorem origin_address (k : Csapp) (m : CacheModule) (w : World) (pool : RequestPool)
    (request : ProxyMeta) (hre : Reachable k.MAXBUF request.http_request)
    (hstate : request.proxy_state = ProxyState.UNCONNECTED)
    (hconn : (HandleUnconnectedClientFd k m w pool request).2.2.2.proxy_state =
      ProxyState.CONNECTED) :
    (∃ s0 s,
        w.peers (hostName (HandleUnconnectedClientFd k m w pool request).2.2.2.http_request.host)
          (hostPort (HandleUnconnectedClientFd k m w pool request).2.2.2.http_request.host) =
          some s0 ∧
        (HandleUnconnectedClientFd k m w pool request).2.1.sock
          (HandleUnconnectedClientFd k m w pool request).2.2.2.server_fd = some s ∧
        s.rx = s0.rx ∧ s.rx_err = s0.rx_err) ∧
      (∀ v : List Char, ':' ∉ v → hostName v = v ∧ hostPort v = "80".toList) ∧
      (∀ h p : List Char, ':' ∉ h →
        hostName (h ++ ':' :: p) = h ∧ hostPort (h ++ ':' :: p) = p) ∧
      ∀ (w2 : World) (pool2 : RequestPool) (request2 : ProxyMeta),
        (HandleUnconnectedClientFd.forward w2 pool2 request2).2.2.2.http_request =
          request2.http_request := by
  refine ⟨?_, fun v hv => ⟨hostName_no_colon v hv, hostPort_no_colon v hv⟩,
    fun h p hh => ⟨hostName_colon h p hh, hostPort_colon h p hh⟩, forward_http_request⟩
  have hne : request.proxy_state ≠ ProxyState.CONNECTED := by rw [hstate]; decide
  unfold HandleUnconnectedClientFd at hconn ⊢
  rcases loop_cases k m (unreadBytes w request + 1) w pool request hre with
    ⟨_, _, c, _⟩ | ⟨w1, rp1, hr1, a, _, _, _, e⟩
  · rw [c] at hconn
    exact absurd hconn hne
  · rw [e] at hconn ⊢
    obtain ⟨s0, s, h1, h2, h3, h4⟩ := serve_peer m w1 pool
      { request with client_rp := rp1, http_request := hr1 } hne hconn
    rw [serve_http_request]
    rw [a.2.1] at h1
    exact ⟨s0, s, h1, h2, h3, h4⟩

/-- C20 (witness): the request with `Host: example.com:80` is connected to the
peer with host name `example.com` and port `80`. -/
theorem origin_address_witness :
    (HandleUnconnectedClientFd csapp8192 scenarioModule (worldWithClient portRequestBytes)
        scenarioPool scenarioRequest).2.2.2.http_request.host = "example.com:80".toList ∧
      ∃ s0 s,
        (worldWithClient portRequestBytes).peers "example.com".toList "80".toList = some s0 ∧
        (HandleUnconnectedClientFd csapp8192 scenarioModule (worldWithClient portRequestBytes)
          scenarioPool scenarioRequest).2.1.sock
          (HandleUnconnectedClientFd csapp8192 scenarioModule (worldWithClient portRequestBytes)
            scenarioPool scenarioRequest).2.2.2.server_fd = some s ∧
        s.rx = s0.rx ∧ s.rx_err = s0.rx_err :=
  ⟨by decide,
    (origin_address csapp8192 scenarioModule (worldWithClient portRequestBytes) scenarioPool
      scenarioRequest Reachable.init (by decide) (by decide)).1⟩

/-! ## Theorems: lines longer than the line buffer -/

theorem readline_loop_buffered (bufsize : Nat) :
    ∀ (pre : List Char) (k : Nat) (w : World) (fd : Int) (rest acc : List Char),
      '\n' ∉ pre → pre.length ≤ k →
      rio_readlineb.loop sock_read bufsize k w { rio_fd := fd, buf := pre ++ rest } acc =
        rio_readlineb.loop sock_read bufsize (k - pre.length) w { rio_fd := fd, buf := rest }
          (acc ++ pre) := by
  intro pre
  induction pre with
  | nil =>
    intro k w fd rest acc _ _
    simp
  | cons c t ih =>
    intro k w fd rest acc hn hk
    have hc : c ≠ '\n' := fun e => hn (by simp [e])
    have ht : '\n' ∉ t := fun e => hn (List.mem_cons_of_mem _ e)
    cases k with
    | zero => simp at hk
    | succ k =>
      have hk2 : t.length ≤ k := by simpa using hk
      rw [rio_readlineb.loop]
      simp only [rio_read1, List.cons_append]
      rw [if_neg hc, ih k w fd rest (acc ++ [c]) ht hk2]
      simp only [List.length_cons, Nat.add_sub_add_right, List.append_assoc, List.singleton_append]

theorem readline_loop_newline (bufsize k : Nat) (w : World) (fd : Int) (rest acc : List Char)
    (hk : 0 < k) :
    rio_readlineb.loop sock_read bufsize k w { rio_fd := fd, buf := '\n' :: rest } acc =
      ((((acc ++ ['\n']).length : Nat) : Int), acc ++ ['\n'], w, { rio_fd := fd, buf := rest }) := by
  cases k with
  | zero => exact absurd hk (by decide)
  | succ k =>
    rw [rio_readlineb.loop]
    simp [rio_read1]

theorem readline_loop_refill (bufsize k : Nat) (w w1 : World) (fd : Int) (seg acc : List Char)
    (hk : 0 < k) (hseg : seg ≠ [])
    (hrd : sock_read w fd bufsize = (ReadRes.data seg, w1, fd)) :
    rio_readlineb.loop sock_read bufsize k w { rio_fd := fd, buf := [] } acc =
      rio_readlineb.loop sock_read bufsize k w1 { rio_fd := fd, buf := seg } acc := by
  cases k with
  | zero => exact absurd hk (by decide)
  | succ k =>
    cases seg with
    | nil => exact absurd rfl hseg
    | cons c t =>
      rw [rio_readlineb.loop, rio_readlineb.loop]
      simp only [rio_read1, hrd]

/-- The line reader when the buffer holds a whole line that fits. -/
theorem readline_buffered_line (bufsize : Nat) (w : World) (fd : Int) (pre rest : List Char)
    (maxlen : Nat) (hn : '\n' ∉ pre) (hlen : pre.length + 1 ≤ maxlen - 1) :
    rio_readlineb sock_read bufsize w { rio_fd := fd, buf := pre ++ '\n' :: rest } maxlen =
      ((((pre ++ ['\n']).length : Nat) : Int), pre ++ ['\n'], w, { rio_fd := fd, buf := rest }) := by
  unfold rio_readlineb
  rw [readline_loop_buffered bufsize pre _ w fd _ [] hn (by omega),
    readline_loop_newline bufsize _ w fd rest _ (by omega)]
  simp

/-- The line reader when the buffer is empty and the next `read` brings a
whole line that fits. -/
theorem readline_refill_line (bufsize : Nat) (w w1 : World) (fd : Int) (pre rest : List Char)
    (maxlen : Nat) (hn : '\n' ∉ pre) (hlen : pre.length + 1 ≤ maxlen - 1)
    (hrd : sock_read w fd bufsize = (ReadRes.data (pre ++ '\n' :: rest), w1, fd)) :
    rio_readlineb sock_read bufsize w { rio_fd := fd, buf := [] } maxlen =
      ((((pre ++ ['\n']).length : Nat) : Int), pre ++ ['\n'], w1, { rio_fd := fd, buf := rest }) := by
  have h := readline_buffered_line bufsize w1 fd pre rest maxlen hn hlen
  unfold rio_readlineb at h ⊢
  rw [readline_loop_refill bufsize _ w w1 fd _ [] (by omega) (by simp) hrd]
  exact h

/-- The line reader when the line in the buffer goes on in the bytes of the
next `read` beyond what the caller has room for: it returns `maxlen - 1` bytes
without a newline. -/
theorem readline_cut (bufsize : Nat) (w w1 : World) (fd : Int) (pre mid rest : List Char)
    (maxlen : Nat) (hn : '\n' ∉ pre) (hm : '\n' ∉ mid) (hmid : mid ≠ [])
    (hlen : pre.length + mid.length = maxlen - 1)
    (hrd : sock_read w fd bufsize = (ReadRes.data (mid ++ rest), w1, fd)) :
    rio_readlineb sock_read bufsize w { rio_fd := fd, buf := pre } maxlen =
      ((((pre ++ mid).length : Nat) : Int), pre ++ mid, w1, { rio_fd := fd, buf := rest }) := by
  have hpos : 0 < mid.length := List.length_pos.mpr hmid
  unfold rio_readlineb
  have h1 := readline_loop_buffered bufsize pre (maxlen - 1) w fd [] [] hn (by omega)
  rw [List.append_nil] at h1
  rw [h1, readline_loop_refill bufsize _ w w1 fd (mid ++ rest) _ (by omega) (by simp [hmid]) hrd,
    readline_loop_buffered bufsize mid _ w1 fd rest _ hm (by omega)]
  have h0 : maxlen - 1 - pre.length - mid.length = 0 := by omega
  rw [h0, rio_readlineb.loop]
  simp

theorem sock_read_long (w : World) (fd : Int) (n : Nat) (s : Sock) (more : List (List Char))
    (P Q : List Char) (hs : w.sock fd = some s) (hrx : s.rx = (P ++ Q) :: more)
    (hP : P.length = n) (hQ : Q ≠ []) :
    sock_read w fd n = (ReadRes.data P, w.setSock fd { s with rx := Q :: more }, fd) := by
  have hpos : 0 < Q.length := List.length_pos.mpr hQ
  unfold sock_read
  rw [hs]
  simp only
  rw [hrx]
  simp only
  rw [if_neg (by rw [List.length_append]; omega), List.take_left' hP, List.drop_left' hP]

theorem sock_read_short (w : World) (fd : Int) (n : Nat) (s : Sock) (more : List (List Char))
    (seg : List Char) (hs : w.sock fd = some s) (hrx : s.rx = seg :: more)
    (hlen : seg.length ≤ n) :
    sock_read w fd n = (ReadRes.data seg, w.setSock fd { s with rx := more }, fd) := by
  unfold sock_read
  rw [hs]
  simp only
  rw [hrx]
  simp only
  rw [if_pos hlen]

/-- One round of the loop of `HandleUnconnectedClientFd` that reads a line the
parser accepts, with the request line or the Host header still to come and
bytes left in the read buffer: the loop goes on. -/
theorem loop_round_continue (k : Csapp) (m : CacheModule) (fuel : Nat) (w : World)
    (pool : RequestPool) (request : ProxyMeta) (n : Int) (line : List Char) (w1 : World)
    (rp1 : Rio Int) (hr1 : HttpRequest)
    (hrd : rio_readlineb sock_read k.RIO_BUFSIZE w request.client_rp k.MAXBUF =
      (n, line, w1, rp1))
    (hn : 0 < n) (hp : ParseHttpRequest k.MAXBUF request.http_request line = (0, hr1))
    (hnb : IsRequestLineParsed hr1 = 0 ∨ IsHostParsed hr1 = 0) (hbuf : 0 < rp1.buf.length) :
    HandleUnconnectedClientFd.loop k m (fuel + 1) w pool request =
      HandleUnconnectedClientFd.loop k m fuel w1 pool
        { request with client_rp := rp1, http_request := hr1 } := by
  rw [HandleUnconnectedClientFd.loop]
  simp only [hrd, hp]
  rw [if_neg (by omega), if_neg (by omega), if_neg (by simp), if_pos hnb, if_pos hbuf]

/-- One round of the loop of `HandleUnconnectedClientFd` that reads a line the
parser accepts, with the request line or the Host header still to come and
nothing left in the read buffer: the handler returns 1. -/
theorem loop_round_stop (k : Csapp) (m : CacheModule) (fuel : Nat) (w : World)
    (pool : RequestPool) (request : ProxyMeta) (n : Int) (line : List Char) (w1 : World)
    (rp1 : Rio Int) (hr1 : HttpRequest)
    (hrd : rio_readlineb sock_read k.RIO_BUFSIZE w request.client_rp k.MAXBUF =
      (n, line, w1, rp1))
    (hn : 0 < n) (hp : ParseHttpRequest k.MAXBUF request.http_request line = (0, hr1))
    (hnb : IsRequestLineParsed hr1 = 0 ∨ IsHostParsed hr1 = 0) (hbuf : rp1.buf = []) :
    HandleUnconnectedClientFd.loop k m (fuel + 1) w pool request =
      (1, w1, pool, { request with client_rp := rp1, http_request := hr1 }) := by
  rw [HandleUnconnectedClientFd.loop]
  simp only [hrd, hp]
  rw [if_neg (by omega), if_neg (by omega), if_neg (by simp), if_pos hnb,
    if_neg (by rw [hbuf]; simp)]

/-- A line the buffer has room for without growing is stored as it is. -/
theorem addLine_room (maxbuf : Nat) (r : HttpRequest) (f : List Char)
    (hroom : r.cur_line ≠ r.line_num) (hnul : '\x00' ∉ f) (hne : f ≠ [])
    (hlen : f.length < maxbuf) :
    AddLineToHttpRequest maxbuf r f =
      (0, withBuf r (r.origin_lines ++ [⟨f, decide (f.getLast? = some '\n')⟩]) r.line_num) := by
  have hpos : 0 < f.length := List.length_pos.mpr hne
  have hmin : min f.length maxbuf = f.length := Nat.min_eq_left (Nat.le_of_lt hlen)
  unfold AddLineToHttpRequest
  simp only [cstr_eq_self hnul, hmin]
  rw [if_neg (Nat.ne_of_lt hlen), if_neg (Nat.ne_of_gt hpos), if_neg hroom]
  rfl

theorem parse_room_unfinished (maxbuf : Nat) (r : HttpRequest) (f : List Char)
    (hroom : r.cur_line ≠ r.line_num) (hnul : '\x00' ∉ f) (hne : f ≠ [])
    (hlen : f.length < maxbuf) (hunf : f.getLast? ≠ some '\n') :
    ParseHttpRequest maxbuf r f =
      (0, withBuf r (r.origin_lines ++ [⟨f, false⟩]) r.line_num) := by
  unfold ParseHttpRequest
  simp [addLine_room maxbuf r f hroom hnul hne hlen, withBuf, hunf]

theorem parse_room_header (maxbuf : Nat) (r : HttpRequest) (f : List Char)
    (hstate : r.parse_state = ParseState.PARSE_HEADERS)
    (hroom : r.cur_line ≠ r.line_num) (hnul : '\x00' ∉ f) (hne : f ≠ [])
    (hlen : f.length < maxbuf) (hfin : f.getLast? = some '\n') :
    ParseHttpRequest maxbuf r f =
      ParseHeaders (withBuf r (r.origin_lines ++ [⟨f, true⟩]) r.line_num)
        (totLine (r.origin_lines ++ [⟨f, true⟩])) := by
  unfold ParseHttpRequest
  simp [addLine_room maxbuf r f hroom hnul hne hlen, withBuf, hfin, hstate]

/-- The only way to `ERROR_LINE_TOO_LONG`: a line of `maxbuf` bytes or more. -/
theorem parse_too_long_iff (maxbuf : Nat) (r : HttpRequest) (buf : List Char) :
    (ParseHttpRequest maxbuf r buf).1 = ERROR_LINE_TOO_LONG ↔ maxbuf ≤ (cstr buf).length := by
  constructor
  · intro h
    by_contra hlt
    obtain ⟨p1, p2⟩ := parse_props maxbuf r buf
    rcases addLine_cases maxbuf r buf with ⟨a, _⟩ | ⟨_, _, e⟩ | ⟨_, _, _, _, e⟩ | ⟨_, _, _, e⟩
    · exact hlt a
    · rw [p1 (by rw [e]; simp), e] at h
      exact absurd h (by simp)
    · rw [p1 (by rw [e]; simp), e] at h
      exact absurd h (by simp)
    · exact (p2 (by rw [e])).2.2.2.1 h
  · intro h
    rw [parse_too_long maxbuf r buf h]

theorem longHeaderLine_length : longHeaderLine.length = 9000 := by
  unfold longHeaderLine
  rw [List.length_append, List.length_append, List.length_replicate]
  rfl

theorem longHeaderLine_nul : '\x00' ∉ longHeaderLine := by
  unfold longHeaderLine
  intro h
  simp only [List.mem_append, List.mem_replicate] at h
  rcases h with h | ⟨_, h⟩ | h
  · exact absurd h (by decide)
  · exact absurd h (by decide)
  · exact absurd h (by decide)

theorem longHeaderLine_split :
    longHeaderLine = (longLineHead ++ longLineMid) ++ longLineTail := by
  have e : List.replicate 8991 'a' =
      List.replicate 8150 'a' ++ (List.replicate 34 'a' ++ List.replicate 807 'a') := by
    rw [← List.replicate_add, ← List.replicate_add]
  unfold longHeaderLine longLineHead longLineMid longLineTail
  rw [e]
  simp only [List.append_assoc]

theorem longLineHead_length : longLineHead.length = 8157 := by
  unfold longLineHead
  rw [List.length_append, List.length_replicate]
  rfl

theorem longLineHead_newline : '\n' ∉ longLineHead := by
  unfold longLineHead
  intro h
  simp only [List.mem_append, List.mem_replicate] at h
  rcases h with h | ⟨_, h⟩
  · exact absurd h (by decide)
  · exact absurd h (by decide)

theorem longLineMid_newline : '\n' ∉ longLineMid := by
  unfold longLineMid
  intro h
  simp only [List.mem_replicate] at h
  exact absurd h.2 (by decide)

theorem longLineTail_length : longLineTail.length = 809 := by
  unfold longLineTail
  rw [List.length_append, List.length_replicate]
  rfl

/-- C16 (amended): at the parser level a buffer whose string has `MAXBUF`
bytes or more is refused with `ERROR_LINE_TOO_LONG` and the request is left as
it was, and no other buffer gets that code.  The handlers never pass such a
buffer: the line reader returns at most `MAXBUF - 1` bytes per call, so what
the parser gets from a connection is never refused as too long; a longer
logical line reaches the parser in pieces. -/
theorem oversized_line (k : Csapp) (r : HttpRequest) (w : World) (rp : Rio Int)
    (buf : List Char) (hk : 0 < k.MAXBUF) (hbuf : k.MAXBUF ≤ (cstr buf).length) :
    ParseHttpRequest k.MAXBUF r buf = (ERROR_LINE_TOO_LONG, r) ∧
      (∀ buf2 : List Char, (ParseHttpRequest k.MAXBUF r buf2).1 = ERROR_LINE_TOO_LONG →
        k.MAXBUF ≤ (cstr buf2).length) ∧
      (rio_readlineb sock_read k.RIO_BUFSIZE w rp k.MAXBUF).2.1.length < k.MAXBUF ∧
      (ParseHttpRequest k.MAXBUF r
        (rio_readlineb sock_read k.RIO_BUFSIZE w rp k.MAXBUF).2.1).1 ≠ ERROR_LINE_TOO_LONG := by
  obtain ⟨_, _, hlen⟩ := rio_readlineb_step k.RIO_BUFSIZE w rp k.MAXBUF
  have hlt : (rio_readlineb sock_read k.RIO_BUFSIZE w rp k.MAXBUF).2.1.length < k.MAXBUF := by
    omega
  refine ⟨parse_too_long k.MAXBUF r buf hbuf,
    fun buf2 h => (parse_too_long_iff k.MAXBUF r buf2).mp h, hlt, fun h => ?_⟩
  have h2 := (parse_too_long_iff k.MAXBUF r _).mp h
  have h3 := cstr_length_le (rio_readlineb sock_read k.RIO_BUFSIZE w rp k.MAXBUF).2.1
  omega

/-- C16 (witness): the header line of 9000 bytes handed to the parser in one
buffer is refused as too long; the line reader on the connection that has sent
it returns fewer than 8192 bytes. -/
theorem oversized_line_witness :
    ParseHttpRequest csapp8192.MAXBUF InitHttpRequest longHeaderLine =
        (ERROR_LINE_TOO_LONG, InitHttpRequest) ∧
      (rio_readlineb sock_read csapp8192.RIO_BUFSIZE longLineWorld (rio_readinitb 4)
        csapp8192.MAXBUF).2.1.length < csapp8192.MAXBUF :=
  have h := oversized_line csapp8192 InitHttpRequest longLineWorld (rio_readinitb 4)
    longHeaderLine (by decide)
    (by rw [cstr_eq_self longHeaderLine_nul, longHeaderLine_length]; decide)
  ⟨h.1, h.2.2.1⟩

theorem longLine_first_read :
    sock_read longLineWorld 4 8192 =
      (ReadRes.data ("GET http://example.com/a HTTP/1.1\r".toList ++ '\n' :: longLineHead),
        longLineWorld.setSock 4
          { rx := [longLineMid ++ longLineTail], rx_err := false, tx := [], tx_room := none },
        4) := by
  have hrx : exampleRequestLine ++ longHeaderLine =
      ("GET http://example.com/a HTTP/1.1\r".toList ++ '\n' :: longLineHead) ++
        (longLineMid ++ longLineTail) := by
    have e : exampleRequestLine = "GET http://example.com/a HTTP/1.1\r".toList ++ ['\n'] := by
      decide
    rw [longHeaderLine_split, e]
    simp only [List.append_assoc, List.singleton_append, List.cons_append, List.nil_append]
  exact sock_read_long longLineWorld 4 8192
    { rx := [exampleRequestLine ++ longHeaderLine], rx_err := false, tx := [], tx_room := none }
    [] _ _ rfl (by rw [hrx]) (by
      rw [List.length_append, List.length_cons, longLineHead_length]
      rfl) (by
      intro h
      have := congrArg List.length h
      rw [List.length_append, longLineTail_length] at this
      simp at this)

theorem longLine_first_line :
    rio_readlineb sock_read 8192 longLineWorld { rio_fd := 4, buf := [] } 8192 =
      (35, exampleRequestLine,
        longLineWorld.setSock 4
          { rx := [longLineMid ++ longLineTail], rx_err := false, tx := [], tx_room := none },
        { rio_fd := 4, buf := longLineHead }) := by
  rw [readline_refill_line 8192 longLineWorld _ 4 "GET http://example.com/a HTTP/1.1\r".toList
    longLineHead 8192 (by decide) (by decide) longLine_first_read]
  rfl

theorem longLine_second_line :
    rio_readlineb sock_read 8192
        (longLineWorld.setSock 4
          { rx := [longLineMid ++ longLineTail], rx_err := false, tx := [], tx_room := none })
        { rio_fd := 4, buf := longLineHead } 8192 =
      (8191, longLineHead ++ longLineMid,
        (longLineWorld.setSock 4
          { rx := [longLineMid ++ longLineTail], rx_err := false, tx := [],
            tx_room := none }).setSock 4
          { rx := [], rx_err := false, tx := [], tx_room := none },
        { rio_fd := 4, buf := longLineTail }) := by
  have hmid : longLineMid.length = 34 := by
    unfold longLineMid
    rw [List.length_replicate]
  have hrd := sock_read_short
    (longLineWorld.setSock 4
      { rx := [longLineMid ++ longLineTail], rx_err := false, tx := [], tx_room := none })
    4 8192 { rx := [longLineMid ++ longLineTail], rx_err := false, tx := [], tx_room := none }
    [] (longLineMid ++ longLineTail) (sock_setSock_same _ _ _) rfl (by
      rw [List.length_append, longLineTail_length, hmid]
      decide)
  rw [readline_cut 8192 _ _ 4 longLineHead longLineMid longLineTail 8192 longLineHead_newline
    longLineMid_newline (by
      intro h
      have := congrArg List.length h
      rw [hmid] at this
      simp at this) (by rw [longLineHead_length, hmid]) hrd]
  rw [List.length_append, longLineHead_length, hmid]
  rfl

theorem longLine_third_line (w : World) :
    rio_readlineb sock_read 8192 w { rio_fd := 4, buf := longLineTail } 8192 =
      (809, longLineTail, w, { rio_fd := 4, buf := [] }) := by
  have e : longLineTail = (List.replicate 807 'a' ++ ['\r']) ++ '\n' :: [] := by
    unfold longLineTail
    have : "\r\n".toList = ['\r', '\n'] := by decide
    rw [this]
    simp only [List.append_assoc, List.singleton_append]
  have hl : (List.replicate 807 'a' ++ ['\r']).length = 808 := by
    rw [List.length_append, List.length_replicate]
    rfl
  have h := readline_buffered_line 8192 w 4 (List.replicate 807 'a' ++ ['\r']) [] 8192 (by
      intro h
      simp only [List.mem_append, List.mem_replicate, List.mem_singleton] at h
      rcases h with ⟨_, h⟩ | h
      · exact absurd h (by decide)
      · exact absurd h (by decide)) (by rw [hl]; decide)
  rw [← e] at h
  rw [h, longLineTail_length]
  rfl

theorem longLine_first_parse :
    ParseHttpRequest 8192 InitHttpRequest exampleRequestLine = (0, requestAfterLine) := by
  decide

theorem requestAfterLine_lines :
    requestAfterLine.origin_lines = [⟨exampleRequestLine, true⟩] ∧
      requestAfterLine.line_num = 8 ∧
      requestAfterLine.parse_state = ParseState.PARSE_HEADERS ∧ requestAfterLine.host = [] := by
  decide

theorem longLine_piece_facts :
    '\x00' ∉ longLineHead ++ longLineMid ∧ '\n' ∉ longLineHead ++ longLineMid ∧
      (longLineHead ++ longLineMid).length = 8191 ∧ '\x00' ∉ longLineTail ∧
      longLineTail.getLast? = some '\n' := by
  refine ⟨?_, ?_, ?_, ?_, ?_⟩
  · unfold longLineHead longLineMid
    intro h
    simp only [List.mem_append, List.mem_replicate] at h
    rcases h with (h | ⟨_, h⟩) | ⟨_, h⟩
    · exact absurd h (by decide)
    · exact absurd h (by decide)
    · exact absurd h (by decide)
  · intro h
    rcases List.mem_append.mp h with h | h
    · exact longLineHead_newline h
    · exact longLineMid_newline h
  · rw [List.length_append, longLineHead_length]
    unfold longLineMid
    rw [List.length_replicate]
  · unfold longLineTail
    intro h
    simp only [List.mem_append, List.mem_replicate] at h
    rcases h with ⟨_, h⟩ | h
    · exact absurd h (by decide)
    · exact absurd h (by decide)
  · unfold longLineTail
    rw [List.getLast?_append_of_ne_nil _ (by decide)]
    decide

theorem requestAfterLine_host : IsHostParsed requestAfterLine = 0 := by
  decide

theorem isHostParsed_withBuf (r : HttpRequest) (lines : List ReadLine) (cap : Nat) :
    IsHostParsed (withBuf r lines cap) = IsHostParsed r := rfl

theorem longLine_second_parse :
    ParseHttpRequest 8192 requestAfterLine (longLineHead ++ longLineMid) =
      (0, withBuf requestAfterLine
        [⟨exampleRequestLine, true⟩, ⟨longLineHead ++ longLineMid, false⟩] 8) := by
  obtain ⟨h1, h2, h3, _, _⟩ := longLine_piece_facts
  obtain ⟨g1, g2, _, _⟩ := requestAfterLine_lines
  have hne : longLineHead ++ longLineMid ≠ [] := by
    intro h
    have := congrArg List.length h
    rw [h3] at this
    simp at this
  rw [parse_room_unfinished 8192 requestAfterLine _
    (by unfold HttpRequest.cur_line; rw [g1, g2]; decide) h1 hne (by rw [h3]; decide)
    (fun h => h2 (List.mem_of_getLast?_eq_some h)), g1, g2]
  rfl

theorem longLine_third_parse :
    ParseHttpRequest 8192
        (withBuf requestAfterLine
          [⟨exampleRequestLine, true⟩, ⟨longLineHead ++ longLineMid, false⟩] 8) longLineTail =
      (0, withBuf requestAfterLine
        [⟨exampleRequestLine, true⟩, ⟨longLineHead ++ longLineMid, false⟩,
          ⟨longLineTail, true⟩] 8) := by
  obtain ⟨_, _, _, h4, h5⟩ := longLine_piece_facts
  obtain ⟨_, _, g3, _⟩ := requestAfterLine_lines
  have hne : longLineTail ≠ [] := by
    intro h
    have := congrArg List.length h
    rw [longLineTail_length] at this
    simp at this
  have htot : totLine [⟨exampleRequestLine, true⟩, ⟨longLineHead ++ longLineMid, false⟩,
      ⟨longLineTail, true⟩] = (longLineHead ++ longLineMid) ++ longLineTail := by
    simp [totLine, pendingBefore]
  have hline : (longLineHead ++ longLineMid) ++ longLineTail =
      "X-Pad".toList ++ ':' :: (List.replicate 1 ' ' ++
        (List.replicate 8991 'a' ++ ['\r', '\n'])) := by
    rw [← longHeaderLine_split]
    rfl
  have hv : List.replicate 8991 'a' = 'a' :: List.replicate 8990 'a' :=
    List.replicate_succ 'a' 8990
  rw [parse_room_header 8192
    (withBuf requestAfterLine
      [⟨exampleRequestLine, true⟩, ⟨longLineHead ++ longLineMid, false⟩] 8) longLineTail g3
    (by unfold HttpRequest.cur_line withBuf; simp) h4 hne
    (by rw [longLineTail_length]; decide) h5]
  change ParseHeaders _ (totLine [⟨exampleRequestLine, true⟩,
    ⟨longLineHead ++ longLineMid, false⟩, ⟨longLineTail, true⟩]) = _
  rw [htot, hline, parseHeaders_line _ "X-Pad".toList 1 (List.replicate 8991 'a') (by decide)
    (by rw [hv]; exact List.cons_ne_nil _ _)
    (by rw [hv]; exact fun h => absurd (Option.some.inj h) (by decide)), if_neg (by decide)]
  rfl

/-- C16 (counterexample): a client sends the example request line and then one
header line of 9000 bytes.  `HandleUnconnectedClientFd` returns 1, not a
negative value: the line reader hands the parser the first 8191 bytes of the
line and then the other 809, the parser stores both pieces and accepts the
line they make. -/
theorem long_line_accepted_in_pieces :
    longHeaderLine.length = 9000 ∧
      (HandleUnconnectedClientFd csapp8192 scenarioModule longLineWorld scenarioPool
        scenarioRequest).1 = 1 ∧
      (HandleUnconnectedClientFd csapp8192 scenarioModule longLineWorld scenarioPool
        scenarioRequest).2.2.2.http_request.origin_lines =
        [⟨exampleRequestLine, true⟩, ⟨longHeaderLine.take 8191, false⟩,
          ⟨longHeaderLine.drop 8191, true⟩] := by
  obtain ⟨_, _, h3, _, _⟩ := longLine_piece_facts
  have htake : longHeaderLine.take 8191 = longLineHead ++ longLineMid := by
    rw [longHeaderLine_split, List.take_left' h3]
  have hdrop : longHeaderLine.drop 8191 = longLineTail := by
    rw [longHeaderLine_split, List.drop_left' h3]
  have hfuel : unreadBytes longLineWorld scenarioRequest = 9033 + 1 + 1 := by
    have hs : longLineWorld.sock scenarioRequest.client_fd =
        some { rx := [exampleRequestLine ++ longHeaderLine], rx_err := false, tx := [],
               tx_room := none } := rfl
    have hb : scenarioRequest.client_rp.buf = [] := rfl
    have hreq : exampleRequestLine.length = 35 := by decide
    unfold unreadBytes
    rw [hs, hb]
    simp only [List.map_cons, List.map_nil, List.sum_cons, List.sum_nil, List.length_append,
      List.length_nil, longHeaderLine_length, hreq]
    rfl
  have hrun : HandleUnconnectedClientFd csapp8192 scenarioModule longLineWorld scenarioPool
      scenarioRequest =
      (1, (longLineWorld.setSock 4
            { rx := [longLineMid ++ longLineTail], rx_err := false, tx := [],
              tx_room := none }).setSock 4
            { rx := [], rx_err := false, tx := [], tx_room := none },
        scenarioPool,
        { scenarioRequest with
          client_rp := { rio_fd := 4, buf := [] },
          http_request := withBuf requestAfterLine
            [⟨exampleRequestLine, true⟩, ⟨longLineHead ++ longLineMid, false⟩,
              ⟨longLineTail, true⟩] 8 }) := by
    unfold HandleUnconnectedClientFd
    rw [hfuel,
      loop_round_continue csapp8192 scenarioModule (9033 + 1 + 1) longLineWorld scenarioPool
        scenarioRequest 35 exampleRequestLine
        (longLineWorld.setSock 4
          { rx := [longLineMid ++ longLineTail], rx_err := false, tx := [], tx_room := none })
        { rio_fd := 4, buf := longLineHead } requestAfterLine
        longLine_first_line (by omega) longLine_first_parse (Or.inr requestAfterLine_host)
        (by show 0 < longLineHead.length; rw [longLineHead_length]; decide),
      loop_round_continue csapp8192 scenarioModule (9033 + 1)
        (longLineWorld.setSock 4
          { rx := [longLineMid ++ longLineTail], rx_err := false, tx := [], tx_room := none })
        scenarioPool
        { scenarioRequest with
          client_rp := { rio_fd := 4, buf := longLineHead }, http_request := requestAfterLine }
        8191 (longLineHead ++ longLineMid)
        ((longLineWorld.setSock 4
          { rx := [longLineMid ++ longLineTail], rx_err := false, tx := [],
            tx_room := none }).setSock 4
          { rx := [], rx_err := false, tx := [], tx_room := none })
        { rio_fd := 4, buf := longLineTail }
        (withBuf requestAfterLine
          [⟨exampleRequestLine, true⟩, ⟨longLineHead ++ longLineMid, false⟩] 8)
        longLine_second_line (by omega) longLine_second_parse
        (Or.inr ((isHostParsed_withBuf _ _ _).trans requestAfterLine_host))
        (by show 0 < longLineTail.length; rw [longLineTail_length]; decide)]
    exact loop_round_stop csapp8192 scenarioModule 9033
      ((longLineWorld.setSock 4
        { rx := [longLineMid ++ longLineTail], rx_err := false, tx := [],
          tx_room := none }).setSock 4
        { rx := [], rx_err := false, tx := [], tx_room := none })
      scenarioPool
      { scenarioRequest with
        client_rp := { rio_fd := 4, buf := longLineTail },
        http_request := withBuf requestAfterLine
          [⟨exampleRequestLine, true⟩, ⟨longLineHead ++ longLineMid, false⟩] 8 }
      809 longLineTail _ { rio_fd := 4, buf := [] }
      (withBuf requestAfterLine
        [⟨exampleRequestLine, true⟩, ⟨longLineHead ++ longLineMid, false⟩,
          ⟨longLineTail, true⟩] 8)
      (longLine_third_line _) (by omega) longLine_third_parse
      (Or.inr ((isHostParsed_withBuf _ _ _).trans requestAfterLine_host)) rfl
  rw [hrun, htake, hdrop]
  exact ⟨longHeaderLine_length, rfl, rfl⟩

/-! ## Theorems: serving from the cache -/

theorem rio_writen_loop_nil (fd : Int) (fuel : Nat) (w : World) :
    rio_writen.loop (sock_write fd) fuel w [] = (true, w) := by
  cases fuel with
  | zero => simp [rio_writen.loop]
  | succ fuel => simp [rio_writen.loop]

/-- `rio_writen` to a socket whose peer accepts everything: all bytes are
appended to what the peer has received. -/
theorem rio_writen_unlimited (fd : Int) (w : World) (bytes : List Char) (s : Sock)
    (hs : w.sock fd = some s) (hroom : s.tx_room = none) (hne : bytes ≠ []) :
    rio_writen (sock_write fd) w bytes =
      ((bytes.length : Int), w.setSock fd { s with tx := s.tx ++ bytes }) := by
  have hpos : 0 < bytes.length := List.length_pos.mpr hne
  have hw : sock_write fd w bytes =
      ((bytes.length : Int), w.setSock fd { s with tx := s.tx ++ bytes }) := by
    unfold sock_write
    rw [hs]
    simp only [hroom]
  have hcond : ¬ ((bytes.length : Int) ≤ 0) := by omega
  unfold rio_writen
  simp only
  rw [rio_writen.loop, if_neg hne]
  simp only [hw, hcond, if_false, Int.toNat_ofNat, List.drop_length, rio_writen_loop_nil,
    if_true]

/-- The loop of `HandleCachedClientFd` on a handle that reads a published
file, with a client that accepts everything: it returns 0 and the client has
received the rest of the file. -/
theorem cached_loop (k : Csapp) (data : List Char) (hb : 0 < k.RIO_BUFSIZE)
    (hmax : 2 ≤ k.MAXBUF) :
    ∀ (fuel : Nat) (rest : List Char) (w : World) (request : ProxyMeta) (s : Sock),
      CacheReading w.os request.cache_info data rest → rest.length < fuel →
      w.sock request.client_fd = some s → s.tx_room = none →
      (HandleCachedClientFd.loop k fuel w request).1 = 0 ∧
        (HandleCachedClientFd.loop k fuel w request).2.1.os = w.os ∧
        ∃ s2, (HandleCachedClientFd.loop k fuel w request).2.1.sock request.client_fd =
            some s2 ∧
          s2.tx = s.tx ++ rest ∧ s2.rx = s.rx := by
  intro fuel
  induction fuel with
  | zero => intro rest w request s _ h; omega
  | succ fuel ih =>
    intro rest w request s hC hlen hs hroom
    obtain ⟨ci2, h1, h2⟩ := readLine_cacheReading k w.os request.cache_info data rest k.MAXBUF
      hb hC
    rw [HandleCachedClientFd.loop]
    simp only [h1]
    by_cases hrest : rest = []
    · subst hrest
      have e : takeLine (k.MAXBUF - 1) [] = [] := by
        cases (k.MAXBUF - 1) <;> rfl
      simp only [e, List.length_nil, Nat.cast_zero, lt_self_iff_false, if_false]
      exact ⟨trivial, trivial, s, hs, by simp, rfl⟩
    · have hne := takeLine_ne_nil (k.MAXBUF - 1) rest (by omega) hrest
      have hpos : 0 < (takeLine (k.MAXBUF - 1) rest).length := List.length_pos.mpr hne
      have hposI : (0 : Int) < ((takeLine (k.MAXBUF - 1) rest).length : Int) := by omega
      rw [if_pos hposI, rio_writen_unlimited request.client_fd w _ s hs hroom hne]
      have hlen2 : (rest.drop (takeLine (k.MAXBUF - 1) rest).length).length < fuel := by
        have : 0 < rest.length := List.length_pos.mpr hrest
        simp only [List.length_drop]
        omega
      obtain ⟨a, b, s2, c, d, e⟩ := ih (rest.drop (takeLine (k.MAXBUF - 1) rest).length)
        (w.setSock request.client_fd
          { s with tx := s.tx ++ takeLine (k.MAXBUF - 1) rest })
        { request with cache_info := ci2 }
        { s with tx := s.tx ++ takeLine (k.MAXBUF - 1) rest } h2 hlen2
        (sock_setSock_same _ _ _) hroom
      refine ⟨a, b, s2, c, ?_, e⟩
      rw [d]
      simp only [List.append_assoc, takeLine_append_drop]

theorem stat_file_resolve (os : OS) (path : List Char) (data : List Char)
    (h : os.stat path = some (Node.file data)) :
    ∃ c, os.resolve path = some c ∧ os.node c = some (Node.file data) := by
  unfold OS.stat at h
  cases hr : os.resolve path with
  | none => rw [hr] at h; simp at h
  | some c =>
    rw [hr] at h
    exact ⟨c, rfl, h⟩

/-- C14: when a call of `HandleUnconnectedClientFd` completes the request line
and the Host header of a request whose host and derived path name a published
cache entry (the cache path is a regular file), the call returns 1 and leaves
the connection `CACHED` with `server_fd` as it was; it has opened no
connection and only read from the client.  `HandleCachedClientFd` on that
state, with a client that accepts what is written, returns 0 and has written
to the client exactly the bytes of the cache file, in order. -/
theorem cache_hit_served (k : Csapp) (m : CacheModule) (w : World) (pool : RequestPool)
    (request : ProxyMeta) (path data : List Char) (s : Sock)
    (hb : 0 < k.RIO_BUFSIZE) (hmax : 2 ≤ k.MAXBUF)
    (hre : Reachable k.MAXBUF request.http_request)
    (hnb : IsRequestLineParsed request.http_request = 0 ∨
      IsHostParsed request.http_request = 0)
    (hl : IsRequestLineParsed
      (HandleUnconnectedClientFd k m w pool request).2.2.2.http_request = 1)
    (hh : IsHostParsed (HandleUnconnectedClientFd k m w pool request).2.2.2.http_request = 1)
    (hpath : (HandleUnconnectedClientFd k m w pool request).2.2.2.http_request.proxyPath =
      some path)
    (hci : (CreateCacheInfo m
      (HandleUnconnectedClientFd k m w pool request).2.2.2.http_request.host path).1 = 0)
    (hpub : w.os.stat (CreateCacheInfo m
      (HandleUnconnectedClientFd k m w pool request).2.2.2.http_request.host path).2.cache_path =
        some (Node.file data))
    (hs : w.sock request.client_fd = some s) (hroom : s.tx_room = none) :
    (HandleUnconnectedClientFd k m w pool request).1 = 1 ∧
      (HandleUnconnectedClientFd k m w pool request).2.2.2.proxy_state = ProxyState.CACHED ∧
      (HandleUnconnectedClientFd k m w pool request).2.2.2.server_fd = request.server_fd ∧
      (HandleUnconnectedClientFd k m w pool request).2.2.1 = pool ∧
      WorldStep readStep w (HandleUnconnectedClientFd k m w pool request).2.1 ∧
      (HandleCachedClientFd k (HandleUnconnectedClientFd k m w pool request).2.1
        (HandleUnconnectedClientFd k m w pool request).2.2.2).1 = 0 ∧
      ∃ s2,
        (HandleCachedClientFd k (HandleUnconnectedClientFd k m w pool request).2.1
          (HandleUnconnectedClientFd k m w pool request).2.2.2).2.1.sock request.client_fd =
            some s2 ∧
        s2.tx = s.tx ++ data := by
  unfold HandleUnconnectedClientFd at hl hh hpath hci hpub ⊢
  rcases loop_cases k m (unreadBytes w request + 1) w pool request hre with
    ⟨_, _, _, _, _, f⟩ | ⟨w1, rp1, hr1, a, _, _, _, e⟩
  · rcases f hnb with f | f
    · rw [f] at hl
      exact absurd hl (by decide)
    · rw [f] at hh
      exact absurd hh (by decide)
  · rw [e] at hpath hci hpub ⊢
    rw [serve_http_request] at hpath hci hpub
    simp only at hpath hci hpub
    have hhit : IsCacheHit w1.os (CreateCacheInfo m hr1.host path).2 = 1 := by
      rw [a.1]
      exact (isCacheHit_eq_one_iff _ _).mpr ⟨data, hpub⟩
    have hfresh := createCacheInfo_ok m hr1.host path hci
    obtain ⟨s1, hs1, hst, hsr, _⟩ := a.2.2.1 request.client_fd s hs
    have hserve : HandleUnconnectedClientFd.serve m w1 pool
        { request with client_rp := rp1, http_request := hr1 } =
        (1, w1, pool,
          { request with client_rp := rp1, http_request := hr1,
                         cache_info := (CreateCacheInfo m hr1.host path).2,
                         proxy_state := ProxyState.CACHED }) := by
      unfold HandleUnconnectedClientFd.serve
      simp only [hpath]
      rw [if_pos ⟨hci, hhit⟩]
    rw [hserve]
    refine ⟨rfl, rfl, rfl, rfl, a, ?_⟩
    have herr : IsCacheError (CreateCacheInfo m hr1.host path).2 = 0 := by
      rw [hfresh]
      rfl
    have hopen : (CreateCacheInfo m hr1.host path).2.is_open = false := by rw [hfresh]
    have hbuf : (CreateCacheInfo m hr1.host path).2.rp.buf = [] := by rw [hfresh]; rfl
    obtain ⟨c, hc1, hc2⟩ := stat_file_resolve w.os _ data hpub
    have hC : CacheReading w1.os (CreateCacheInfo m hr1.host path).2 data data := by
      rw [a.1]
      exact Or.inr ⟨hopen, rfl, c, hc1, hc2⟩
    have hfuel : cacheUnread w1.os (CreateCacheInfo m hr1.host path).2 = data.length := by
      unfold cacheUnread
      rw [hbuf, a.1]
      simp only [hopen, Bool.false_eq_true, if_false, hpub, List.length_nil, Nat.zero_add]
    unfold HandleCachedClientFd
    simp only [herr]
    rw [if_neg (by decide), hfuel]
    obtain ⟨r1, _, s2, r3, r4, _⟩ := cached_loop k data hb hmax (data.length + 1) data w1
      { request with client_rp := rp1, http_request := hr1,
                     cache_info := (CreateCacheInfo m hr1.host path).2,
                     proxy_state := ProxyState.CACHED } s1 hC (by omega) hs1 (by rw [hsr, hroom])
    exact ⟨r1, s2, r3, by rw [r4, hst]⟩

/-- C14 (witness): the request of the scenario on a file system whose cache
holds the entry of `example.com/a`. -/
theorem cache_hit_served_witness :
    (HandleUnconnectedClientFd csapp8192 scenarioModule cachedWorld scenarioPool
        scenarioRequest).1 = 1 ∧
      (HandleUnconnectedClientFd csapp8192 scenarioModule cachedWorld scenarioPool
        scenarioRequest).2.2.2.proxy_state = ProxyState.CACHED ∧
      (HandleUnconnectedClientFd csapp8192 scenarioModule cachedWorld scenarioPool
        scenarioRequest).2.2.2.server_fd = -1 ∧
      (HandleCachedClientFd csapp8192
        (HandleUnconnectedClientFd csapp8192 scenarioModule cachedWorld scenarioPool
          scenarioRequest).2.1
        (HandleUnconnectedClientFd csapp8192 scenarioModule cachedWorld scenarioPool
          scenarioRequest).2.2.2).1 = 0 ∧
      ∃ s2,
        (HandleCachedClientFd csapp8192
          (HandleUnconnectedClientFd csapp8192 scenarioModule cachedWorld scenarioPool
            scenarioRequest).2.1
          (HandleUnconnectedClientFd csapp8192 scenarioModule cachedWorld scenarioPool
            scenarioRequest).2.2.2).2.1.sock 4 = some s2 ∧
        s2.tx = [] ++ "HTTP/1.0 200 OK\r\nContent-Length: 5\r\n\r\nhello".toList :=
  have h := cache_hit_served csapp8192 scenarioModule cachedWorld scenarioPool scenarioRequest
    "/a".toList "HTTP/1.0 200 OK\r\nContent-Length: 5\r\n\r\nhello".toList
    { rx := [scenarioBytes], rx_err := false, tx := [], tx_room := none }
    (by decide) (by decide) Reachable.init (Or.inl (by decide)) (by decide) (by decide)
    (by decide) (by decide) (by decide) (by decide) rfl
  ⟨h.1, h.2.1, h.2.2.1, h.2.2.2.2.2.1, h.2.2.2.2.2.2⟩

/-! ## Theorems: what the removal of a connection publishes -/

/-- `FreeCacheInfo` after writes that all returned 0, on a tree and for a key
without `..` that was a miss: nothing is left at the temp path; when the
`rename` succeeds the cache path holds the bytes written, and when it fails
the cache path is no regular file. -/
theorem free_publishes (exe host url : List Char) (os : OS) (chunks : List (List Char))
    (hwf : os.WF) (hci : (CreateCacheInfo (InitCacheModule.dirs exe) host url).1 = 0)
    (hdd : ['.', '.'] ∉
      splitPath (CreateCacheInfo (InitCacheModule.dirs exe) host url).2.cache_path)
    (hmiss : IsCacheHit os (CreateCacheInfo (InitCacheModule.dirs exe) host url).2 = 0)
    (hne : chunks ≠ [])
    (hall : ∀ r ∈ (writeChunks os (CreateCacheInfo (InitCacheModule.dirs exe) host url).2
      chunks).1, r = 0) :
    (FreeCacheInfo (writeChunks os (CreateCacheInfo (InitCacheModule.dirs exe) host url).2
        chunks).2.1
      (writeChunks os (CreateCacheInfo (InitCacheModule.dirs exe) host url).2
        chunks).2.2).1.stat
        (CreateCacheInfo (InitCacheModule.dirs exe) host url).2.temp_path = none ∧
      (¬ (sys_rename
          (writeChunks os (CreateCacheInfo (InitCacheModule.dirs exe) host url).2 chunks).2.1
          (CreateCacheInfo (InitCacheModule.dirs exe) host url).2.temp_path
          (CreateCacheInfo (InitCacheModule.dirs exe) host url).2.cache_path).1 < 0 →
        (FreeCacheInfo
          (writeChunks os (CreateCacheInfo (InitCacheModule.dirs exe) host url).2 chunks).2.1
          (writeChunks os (CreateCacheInfo (InitCacheModule.dirs exe) host url).2
            chunks).2.2).1.stat
          (CreateCacheInfo (InitCacheModule.dirs exe) host url).2.cache_path =
            some (Node.file chunks.flatten)) ∧
      ((sys_rename
          (writeChunks os (CreateCacheInfo (InitCacheModule.dirs exe) host url).2 chunks).2.1
          (CreateCacheInfo (InitCacheModule.dirs exe) host url).2.temp_path
          (CreateCacheInfo (InitCacheModule.dirs exe) host url).2.cache_path).1 < 0 →
        ∀ d, (FreeCacheInfo
          (writeChunks os (CreateCacheInfo (InitCacheModule.dirs exe) host url).2 chunks).2.1
          (writeChunks os (CreateCacheInfo (InitCacheModule.dirs exe) host url).2
            chunks).2.2).1.stat
          (CreateCacheInfo (InitCacheModule.dirs exe) host url).2.cache_path ≠
            some (Node.file d)) := by
  obtain ⟨hddt, hlex⟩ := key_paths exe host url os hci
  have hkeep := writes_keep_miss exe host url os chunks hwf hci hdd hmiss
  have hfresh := createCacheInfo_ok _ host url hci
  generalize (CreateCacheInfo (InitCacheModule.dirs exe) host url).2 = ci
    at hdd hmiss hall hddt hlex hkeep hfresh ⊢
  have hw0 : ci.is_write = false := by rw [hfresh]
  have ho0 : ci.is_open = false := by rw [hfresh]
  have he0 : ci.error_msg = [] := by rw [hfresh]
  obtain ⟨hG, _, _, _, _, _⟩ := writeChunks_inv os chunks os ci (hddt hdd) (grow_refl _ _)
    (fun h => absurd h (by rw [hw0]; simp))
  obtain ⟨t, hW, a2, a3, a4, a5⟩ := writeChunks_fresh chunks os ci hw0 hne hall
  generalize (writeChunks os ci chunks).2.1 = osn at hG hW hkeep ⊢
  generalize (writeChunks os ci chunks).2.2 = cin at hW a2 a3 a4 a5 ⊢
  rw [free_after_writes osn cin (a2.trans ho0) hW.1 (a3.trans he0)]
  rw [← a4] at hdd hddt hlex
  rw [← a5] at hddt hlex
  rw [← a4, ← a5]
  have ht : t = os.lexical cin.temp_path := by
    rw [resolve_lexical osn _ t (hddt hdd) hW.2.1]
    exact lexical_cwd os osn _ hG.1
  have hrt := hW.2.1
  obtain ⟨f, _, hfp, _, hnt, _⟩ := hW.2.2.2
  rw [hfp] at hnt
  by_cases hren : (sys_rename osn cin.temp_path cin.cache_path).1 < 0
  · simp only [hren, if_true, not_true_eq_false, false_implies, true_implies, true_and]
    rw [sys_rename_fail osn _ _ hren, removeDir_file osn _ t _ hrt hnt]
    refine ⟨removed_stat_self osn t _ _ hnt _ hrt, ?_⟩
    intro d hd
    have h1 := (isCacheHit_eq_one_iff osn cin).mpr ⟨d, removed_stat osn t _ _ hnt _ _ hd⟩
    rw [hkeep cin a4] at h1
    exact absurd h1 (by decide)
  · simp only [hren, if_false, not_false_eq_true, true_implies, false_implies, and_true]
    have h0 : (sys_rename osn cin.temp_path cin.cache_path).1 = 0 := by
      rcases sys_rename_ret osn cin.temp_path cin.cache_path with h | h
      · exact h
      · rw [h] at hren
        exact absurd (by decide) hren
    obtain ⟨c, h1, h2, h3, h4, h5⟩ := rename_published osn cin t chunks.flatten hW h0
    have hc : c = os.lexical cin.cache_path := by
      rw [resolve_lexical osn _ c hdd h3]
      exact lexical_cwd os osn _ hG.1
    have hct : c ≠ t := by
      rw [hc, ht]
      exact hlex
    constructor
    · unfold OS.stat
      rw [h4]
      exact h5 hct
    · unfold OS.stat
      change ((sys_rename osn cin.temp_path cin.cache_path).2.resolve cin.cache_path).bind _ = _
      rw [h1]
      exact h2

theorem rmRequestInpool_os (w : World) (pool : RequestPool) (index : Nat) (request : ProxyMeta)
    (hreq : pool.requests[index]? = some request) :
    (RmRequestInpool w pool index).1.os = (FreeCacheInfo w.os request.cache_info).1 := by
  unfold RmRequestInpool
  rw [hreq]
  simp only
  congr 2
  split_ifs <;> rfl

theorem main_free_os (w : World) (request : ProxyMeta) :
    (main.free w request).os = (FreeCacheInfo w.os request.cache_info).1 := by
  unfold main.free
  simp only
  congr 2
  split_ifs <;> rfl

/-- C11 (amended): `RmRequestInpool` releases the cache handle of the
connection with `FreeCacheInfo` whatever the reason of the removal, and so
does the last loop of `main`.  On a file system that is a tree, for a key
whose cache path has no `..` component and that was a miss, when the
connection has made one or more `WriteToCache` calls that all returned 0, the
removal leaves nothing at the temp path; when its `rename` succeeds the key is
a hit afterwards and the cache file holds exactly the bytes written so far,
whether or not they are the whole response; when the `rename` fails the key is
still a miss. -/
theorem removal_publishes (exe host url : List Char) (os : OS) (chunks : List (List Char))
    (w : World) (pool : RequestPool) (index : Nat) (request : ProxyMeta)
    (hwf : os.WF) (hci : (CreateCacheInfo (InitCacheModule.dirs exe) host url).1 = 0)
    (hdd : ['.', '.'] ∉
      splitPath (CreateCacheInfo (InitCacheModule.dirs exe) host url).2.cache_path)
    (hmiss : IsCacheHit os (CreateCacheInfo (InitCacheModule.dirs exe) host url).2 = 0)
    (hne : chunks ≠ [])
    (hall : ∀ r ∈ (writeChunks os (CreateCacheInfo (InitCacheModule.dirs exe) host url).2
      chunks).1, r = 0)
    (hreq : pool.requests[index]? = some request)
    (hos : w.os =
      (writeChunks os (CreateCacheInfo (InitCacheModule.dirs exe) host url).2 chunks).2.1)
    (hcache : request.cache_info =
      (writeChunks os (CreateCacheInfo (InitCacheModule.dirs exe) host url).2 chunks).2.2) :
    (RmRequestInpool w pool index).1.os = (main.free w request).os ∧
      (RmRequestInpool w pool index).1.os.stat
        (CreateCacheInfo (InitCacheModule.dirs exe) host url).2.temp_path = none ∧
      (¬ (sys_rename w.os (CreateCacheInfo (InitCacheModule.dirs exe) host url).2.temp_path
          (CreateCacheInfo (InitCacheModule.dirs exe) host url).2.cache_path).1 < 0 →
        (RmRequestInpool w pool index).1.os.stat
            (CreateCacheInfo (InitCacheModule.dirs exe) host url).2.cache_path =
            some (Node.file chunks.flatten) ∧
          IsCacheHit (RmRequestInpool w pool index).1.os
            (CreateCacheInfo (InitCacheModule.dirs exe) host url).2 = 1) ∧
      ((sys_rename w.os (CreateCacheInfo (InitCacheModule.dirs exe) host url).2.temp_path
          (CreateCacheInfo (InitCacheModule.dirs exe) host url).2.cache_path).1 < 0 →
        IsCacheHit (RmRequestInpool w pool index).1.os
          (CreateCacheInfo (InitCacheModule.dirs exe) host url).2 = 0) := by
  obtain ⟨p1, p2, p3⟩ := free_publishes exe host url os chunks hwf hci hdd hmiss hne hall
  rw [rmRequestInpool_os w pool index request hreq, main_free_os, hos, hcache]
  refine ⟨rfl, p1, fun h => ⟨p2 h, (isCacheHit_eq_one_iff _ _).mpr ⟨_, p2 h⟩⟩, fun h => ?_⟩
  by_contra hcon
  have h1 := (isCacheHit_zero_or_one _ _).resolve_left hcon
  obtain ⟨d, hd⟩ := (isCacheHit_eq_one_iff _ _).mp h1
  exact p3 h d hd

/-- C11 (witness): the connection of the scenario after the status line of the
response has been written to the cache; its removal publishes that line. -/
theorem removal_publishes_witness :
    (RmRequestInpool partialStep2.1 partialStep2.2 0).1.os.stat
        (CreateCacheInfo scenarioModule "example.com".toList "/a".toList).2.temp_path = none ∧
      (RmRequestInpool partialStep2.1 partialStep2.2 0).1.os.stat
        (CreateCacheInfo scenarioModule "example.com".toList "/a".toList).2.cache_path =
        some (Node.file "HTTP/1.0 200 OK\r\n".toList) :=
  have h := removal_publishes "/srv/proxy".toList "example.com".toList "/a".toList scenarioOS
    ["HTTP/1.0 200 OK\r\n".toList] partialStep2.1 partialStep2.2 0
    (partialStep2.2.requests.headD scenarioRequest)
    (by unfold OS.WF; decide) (by decide) (by decide) (by decide) (by decide) (by decide)
    (by decide) (by decide) (by decide)
  ⟨h.2.1, (h.2.2.1 (by decide)).1⟩

/-- C11 (counterexample): the client sends the request of the scenario, the
proxy forwards it, the origin sends the status line of its response, which the
proxy relays and writes to the cache, and then the client closes while the
rest of the response is still to come.  The connection is removed, and the key,
a miss before, is a hit afterwards: the cache file holds the status line
only. -/
theorem partial_entry_published :
    IsCacheHit partialWorld.os
        (CreateCacheInfo scenarioModule "example.com".toList "/a".toList).2 = 0 ∧
      (partialStep2.1.sock 0).map Sock.rx = some ["Content-Length: 5\r\n\r\nhello".toList] ∧
      partialStep2.2.requests.map (fun r => r.cache_info.is_write) = [true] ∧
      partialStep2.2.enabled = [true] ∧
      partialStep3.2.enabled = [false] ∧
      IsCacheHit partialStep3.1.os
        (CreateCacheInfo scenarioModule "example.com".toList "/a".toList).2 = 1 ∧
      partialStep3.1.os.stat
        (CreateCacheInfo scenarioModule "example.com".toList "/a".toList).2.cache_path =
        some (Node.file "HTTP/1.0 200 OK\r\n".toList) := by
  decide

/-! ## Theorems: what the raw-line buffer keeps, what the queries report -/

/-- The ways `ParseHttpRequest` goes, by what `AddLineToHttpRequest` does with
the buffer and whether the stored string ends a line. -/
theorem parse_cases (maxbuf : Nat) (r : HttpRequest) (buf : List Char) :
    ((ParseHttpRequest maxbuf r buf).1 ≠ 0 ∧ (ParseHttpRequest maxbuf r buf).2 = r) ∨
      ((cstr buf).getLast? ≠ some '\n' ∧
        ∃ ln, ParseHttpRequest maxbuf r buf =
          (0, withBuf r (r.origin_lines ++ [⟨cstr buf, false⟩]) ln)) ∨
      ((cstr buf).getLast? = some '\n' ∧
        ∃ ln, ParseHttpRequest maxbuf r buf =
          match r.parse_state with
          | ParseState.PARSE_LINE =>
            ParseRequestLine (withBuf r (r.origin_lines ++ [⟨cstr buf, true⟩]) ln)
              (totLine (r.origin_lines ++ [⟨cstr buf, true⟩]))
          | ParseState.PARSE_HEADERS =>
            ParseHeaders (withBuf r (r.origin_lines ++ [⟨cstr buf, true⟩]) ln)
              (totLine (r.origin_lines ++ [⟨cstr buf, true⟩]))
          | ParseState.PARSE_DATA =>
            (0, withBuf r (r.origin_lines ++ [⟨cstr buf, true⟩]) ln)) := by
  obtain ⟨p1, _⟩ := parse_props maxbuf r buf
  rcases addLine_cases maxbuf r buf with ⟨_, e⟩ | ⟨_, _, e⟩ | ⟨_, _, _, _, e⟩ | ⟨_, _, _, e⟩
  · exact Or.inl (by rw [p1 (by rw [e]; simp), e]; exact ⟨by simp, rfl⟩)
  · exact Or.inl (by rw [p1 (by rw [e]; simp), e]; exact ⟨by simp, rfl⟩)
  · exact Or.inl (by rw [p1 (by rw [e]; simp), e]; exact ⟨by simp, rfl⟩)
  · right
    by_cases hfin : (cstr buf).getLast? = some '\n'
    · right
      refine ⟨hfin, if r.cur_line = r.line_num then r.line_num * 2 else r.line_num, ?_⟩
      unfold ParseHttpRequest
      simp only [e, hfin, decide_True]
      cases hs : r.parse_state <;> simp [withBuf, hs]
    · left
      refine ⟨hfin, if r.cur_line = r.line_num then r.line_num * 2 else r.line_num, ?_⟩
      unfold ParseHttpRequest
      simp [e, hfin, withBuf]

/-- C25 (amended): `ParseHttpRequest` never removes an entry of the raw-line
buffer: after every call `origin_lines` is what it was, followed by at most
one new entry, and after every call that returns 0 it is what it was followed
by the string just fed, marked as terminated when it ends in a newline.  A
line that has been completed and parsed stays in the buffer. -/
theorem raw_lines_kept (maxbuf : Nat) (r : HttpRequest) (buf : List Char) :
    (∃ added, (ParseHttpRequest maxbuf r buf).2.origin_lines = r.origin_lines ++ added ∧
        added.length ≤ 1) ∧
      ((ParseHttpRequest maxbuf r buf).1 = 0 →
        (ParseHttpRequest maxbuf r buf).2.origin_lines =
          r.origin_lines ++ [⟨cstr buf, decide ((cstr buf).getLast? = some '\n')⟩]) := by
  rcases parse_cases maxbuf r buf with ⟨h1, h2⟩ | ⟨hf, ln, e⟩ | ⟨hf, ln, e⟩
  · exact ⟨⟨[], by rw [h2]; simp, by simp⟩, fun h => absurd h h1⟩
  · have : (ParseHttpRequest maxbuf r buf).2.origin_lines =
        r.origin_lines ++ [⟨cstr buf, decide ((cstr buf).getLast? = some '\n')⟩] := by
      rw [e]
      simp [withBuf, hf]
    exact ⟨⟨_, this, by simp⟩, fun _ => this⟩
  · have : (ParseHttpRequest maxbuf r buf).2.origin_lines =
        r.origin_lines ++ [⟨cstr buf, decide ((cstr buf).getLast? = some '\n')⟩] := by
      rw [e]
      cases hs : r.parse_state with
      | PARSE_LINE =>
        simp only
        unfold ParseRequestLine
        rw [(scan_props _ _ _ _).1]
        simp [withBuf, hf]
      | PARSE_HEADERS =>
        simp only
        rw [(parseHeaders_props _ _).1]
        simp [withBuf, hf]
      | PARSE_DATA => simp [withBuf, hf]
    exact ⟨⟨_, this, by simp⟩, fun _ => this⟩

/-- C25 (witness): the request line of the scenario fed to a fresh request. -/
theorem raw_lines_kept_witness :
    (ParseHttpRequest 8192 InitHttpRequest exampleRequestLine).2.origin_lines =
      [] ++ [⟨cstr exampleRequestLine, decide ((cstr exampleRequestLine).getLast? = some '\n')⟩] :=
  (raw_lines_kept 8192 InitHttpRequest exampleRequestLine).2 (by decide)

/-- C25 (counterexample): the request line and the Host header of the scenario
are fed to a fresh request; both calls return 0 and complete a line, and both
lines are in the raw-line buffer afterwards, marked as terminated. -/
theorem terminated_lines_stay_buffered :
    (feedLines 8192 InitHttpRequest [exampleRequestLine, exampleHostLine]).1 = 0 ∧
      (feedLines 8192 InitHttpRequest [exampleRequestLine, exampleHostLine]).2.origin_lines =
        [⟨exampleRequestLine, true⟩, ⟨exampleHostLine, true⟩] := by
  decide

theorem scan_fields : ∀ (l : List Char) (r : HttpRequest) (tok : List Char) (cnt : Nat),
    r.parse_state = ParseState.PARSE_LINE → r.version = [] →
    (1 ≤ cnt → r.method ≠ []) → (2 ≤ cnt → r.url ≠ []) →
      ((ParseRequestLine.scan r tok cnt l).2.parse_state = ParseState.PARSE_LINE ∧
          (ParseRequestLine.scan r tok cnt l).2.version = []) ∨
        ((ParseRequestLine.scan r tok cnt l).2.parse_state ≠ ParseState.PARSE_LINE ∧
          (ParseRequestLine.scan r tok cnt l).2.method ≠ [] ∧
          (ParseRequestLine.scan r tok cnt l).2.url ≠ [] ∧
          (ParseRequestLine.scan r tok cnt l).2.version ≠ []) := by
  intro l
  induction l with
  | nil => intro r tok cnt hs hv _ _; exact Or.inl ⟨hs, hv⟩
  | cons c rest ih =>
    intro r tok cnt hs hv hm hu
    rw [ParseRequestLine.scan]
    by_cases hd : c = ' ' ∨ c = '\r' ∨ c = '\n'
    · rw [if_pos hd]
      by_cases ht : 0 < tok.length
      · have htok : tok ≠ [] := List.length_pos.mp ht
        rw [if_pos ht]
        by_cases h0 : cnt = 0
        · rw [if_pos h0]
          by_cases hl : METHOD_LEN ≤ tok.length
          · rw [if_pos hl]
            exact Or.inl ⟨hs, hv⟩
          · rw [if_neg hl]
            exact ih { r with method := tok } [] 1 hs hv (fun _ => htok)
              (fun h => absurd h (by decide))
        · rw [if_neg h0]
          by_cases h1 : cnt = 1
          · rw [if_pos h1]
            by_cases hl : URL_LEN ≤ tok.length
            · rw [if_pos hl]
              exact Or.inl ⟨hs, hv⟩
            · rw [if_neg hl]
              exact ih (GetProxyUrl { r with url := tok }) [] 2 hs hv
                (fun _ => hm (by omega)) (fun _ => htok)
          · rw [if_neg h1]
            by_cases h2 : cnt = 2
            · rw [if_pos h2]
              by_cases hl : VER_LEN ≤ tok.length
              · rw [if_pos hl]
                exact Or.inl ⟨hs, hv⟩
              · rw [if_neg hl]
                exact Or.inr ⟨by simp, hm (by omega), hu (by omega), htok⟩
            · rw [if_neg h2]
              exact ih r [] cnt hs hv hm hu
      · rw [if_neg ht]
        exact ih r [] cnt hs hv hm hu
    · rw [if_neg hd]
      exact ih r (tok ++ [c]) cnt hs hv hm hu

/-- `ParseHeaders` stores a host, which is not empty, exactly when it returns 0
on a line whose field name is `Host`. -/
theorem parseHeaders_host_cases (r : HttpRequest) (line : List Char) :
    ((ParseHeaders r line).1 = 0 ∧ line.takeWhile (fun c => c ≠ ':') = ['H', 'o', 's', 't'] →
        (ParseHeaders r line).2.host ≠ []) ∧
      (¬ ((ParseHeaders r line).1 = 0 ∧
          line.takeWhile (fun c => c ≠ ':') = ['H', 'o', 's', 't']) →
        (ParseHeaders r line).2.host = r.host) := by
  unfold ParseHeaders
  by_cases h1 : line = ['\r', '\n']
  · rw [if_pos h1]
    subst h1
    exact ⟨fun h => absurd h.2 (by decide), fun _ => rfl⟩
  · rw [if_neg h1]
    cases hd : line.dropWhile (fun c => c ≠ ':') with
    | nil => exact ⟨fun h => absurd h.1 (by simp), fun _ => rfl⟩
    | cons x rest =>
      simp only
      by_cases h2 : (rest.dropWhile (fun c => c = ' ')).length ≤ 2
      · rw [if_pos h2]
        exact ⟨fun h => absurd h.1 (by simp), fun _ => rfl⟩
      · rw [if_neg h2]
        by_cases h3 : line.takeWhile (fun c => c ≠ ':') = ['H', 'o', 's', 't']
        · rw [if_pos h3]
          by_cases h4 : HOST_LEN ≤ (rest.dropWhile (fun c => c = ' ')).length - 2
          · rw [if_pos h4]
            exact ⟨fun h => absurd h.1 (by simp), fun _ => rfl⟩
          · rw [if_neg h4]
            refine ⟨fun _ => ?_, fun h => absurd ⟨rfl, h3⟩ h⟩
            intro hnil
            have := congrArg List.length hnil
            simp only [List.length_take, List.length_nil] at this
            omega
        · rw [if_neg h3]
          exact ⟨fun h => absurd h.2 h3, fun _ => rfl⟩

/-- What holds of every request a connection can hold: the version is stored
exactly when the request line has been parsed, with method and url stored
before it, and the host is stored exactly when a Host header was parsed. -/
theorem fed_inv (maxbuf : Nat) (r : HttpRequest) (seen : Bool) (h : Fed maxbuf r seen) :
    ((r.parse_state = ParseState.PARSE_LINE ∧ r.version = []) ∨
        (r.parse_state ≠ ParseState.PARSE_LINE ∧ r.method ≠ [] ∧ r.url ≠ [] ∧
          r.version ≠ [])) ∧
      (r.host ≠ [] ↔ seen = true) := by
  induction h with
  | init => exact ⟨Or.inl ⟨rfl, rfl⟩, by simp [InitHttpRequest]⟩
  | feed r seen buf _ ih =>
    obtain ⟨ihf, ihh⟩ := ih
    rcases parse_cases maxbuf r buf with ⟨h1, h2⟩ | ⟨hf, ln, e⟩ | ⟨hf, ln, e⟩
    · have hp : parsesHost maxbuf r buf = false := by
        unfold parsesHost
        simp [h1]
      rw [h2, hp, Bool.or_false]
      exact ⟨ihf, ihh⟩
    · have hp : parsesHost maxbuf r buf = false := by
        unfold parsesHost
        simp [hf]
      rw [e, hp, Bool.or_false]
      exact ⟨ihf, ihh⟩
    · cases hs : r.parse_state with
      | PARSE_LINE =>
        have hp : parsesHost maxbuf r buf = false := by
          unfold parsesHost
          simp [hs]
        rw [hs] at e
        simp only at e
        rw [e, hp, Bool.or_false]
        have hv : r.version = [] := by
          rcases ihf with ⟨_, hv⟩ | ⟨hne, _⟩
          · exact hv
          · exact absurd hs hne
        unfold ParseRequestLine
        refine ⟨scan_fields _ (withBuf r _ ln) [] 0 hs hv (fun h => absurd h (by decide))
          (fun h => absurd h (by decide)), ?_⟩
        rw [(scan_props _ _ _ _).2.2.1]
        exact ihh
      | PARSE_HEADERS =>
        rw [hs] at e
        simp only at e
        have hfields : r.method ≠ [] ∧ r.url ≠ [] ∧ r.version ≠ [] := by
          rcases ihf with ⟨hl, _⟩ | ⟨_, hm⟩
          · rw [hs] at hl
            exact absurd hl (by decide)
          · exact hm
        obtain ⟨f1, f2, f3, _, _, f6⟩ := parseHeaders_frame
          (withBuf r (r.origin_lines ++ [⟨cstr buf, true⟩]) ln)
          (totLine (r.origin_lines ++ [⟨cstr buf, true⟩]))
        obtain ⟨g1, g2⟩ := parseHeaders_host_cases
          (withBuf r (r.origin_lines ++ [⟨cstr buf, true⟩]) ln)
          (totLine (r.origin_lines ++ [⟨cstr buf, true⟩]))
        have hst : (withBuf r (r.origin_lines ++ [⟨cstr buf, true⟩]) ln).parse_state ≠
            ParseState.PARSE_LINE := by
          show r.parse_state ≠ _
          rw [hs]
          decide
        refine ⟨Or.inr ⟨by rw [e]; exact f6 hst, by rw [e, f1]; exact hfields.1,
          by rw [e, f2]; exact hfields.2.1, by rw [e, f3]; exact hfields.2.2⟩, ?_⟩
        by_cases hp : parsesHost maxbuf r buf = true
        · rw [hp, Bool.or_true]
          unfold parsesHost at hp
          simp only [decide_eq_true_eq] at hp
          obtain ⟨q1, _, _, q4⟩ := hp
          rw [e] at q1 ⊢
          exact ⟨fun _ => rfl, fun _ => g1 ⟨q1, q4⟩⟩
        · have hp2 : parsesHost maxbuf r buf = false := by simpa using hp
          rw [hp2, Bool.or_false, ← ihh, e]
          have hnot : ¬ ((ParseHeaders (withBuf r (r.origin_lines ++ [⟨cstr buf, true⟩]) ln)
              (totLine (r.origin_lines ++ [⟨cstr buf, true⟩]))).1 = 0 ∧
              (totLine (r.origin_lines ++ [⟨cstr buf, true⟩])).takeWhile (fun c => c ≠ ':') =
                ['H', 'o', 's', 't']) := by
            intro hc
            apply hp
            unfold parsesHost
            simp only [decide_eq_true_eq]
            exact ⟨by rw [e]; exact hc.1, hs, hf, hc.2⟩
          rw [g2 hnot]
          rfl
      | PARSE_DATA =>
        have hp : parsesHost maxbuf r buf = false := by
          unfold parsesHost
          simp [hs]
        rw [hs] at e
        simp only at e
        rw [e, hp, Bool.or_false]
        exact ⟨ihf, ihh⟩

/-- C23: in every state a request reaches from `InitHttpRequest` by calls of
`ParseHttpRequest`, whatever they return, `IsRequestLineParsed` returns 1
exactly when method, url and version are all stored (not empty) and 0
otherwise, and `IsHostParsed` returns 1 exactly when one of the calls has
parsed a Host header successfully and 0 otherwise. -/
theorem query_functions (maxbuf : Nat) (r : HttpRequest) (seen : Bool)
    (h : Fed maxbuf r seen) :
    (IsRequestLineParsed r = 1 ↔ r.method ≠ [] ∧ r.url ≠ [] ∧ r.version ≠ []) ∧
      (IsRequestLineParsed r = 0 ↔ ¬ (r.method ≠ [] ∧ r.url ≠ [] ∧ r.version ≠ [])) ∧
      (IsHostParsed r = 1 ↔ seen = true) ∧ (IsHostParsed r = 0 ↔ seen = false) := by
  obtain ⟨hf, hh⟩ := fed_inv maxbuf r seen h
  have hhost : (0 < r.host.length) ↔ seen = true := by
    rw [← hh]
    exact List.length_pos
  unfold IsRequestLineParsed IsHostParsed
  refine ⟨?_, ?_, ?_, ?_⟩
  · rcases hf with ⟨hs, hv⟩ | ⟨hs, hm⟩
    · simp [hs, hv]
    · simp [hs, hm]
  · rcases hf with ⟨hs, hv⟩ | ⟨hs, hm⟩
    · simp [hs, hv]
    · simp [hs, hm]
  · by_cases hp : 0 < r.host.length
    · simp [hp, hhost.mp hp]
    · have : seen = false := by
        cases seen
        · rfl
        · exact absurd (hhost.mpr rfl) hp
      simp [hp, this]
  · by_cases hp : 0 < r.host.length
    · simp [hp, hhost.mp hp]
    · have : seen = false := by
        cases seen
        · rfl
        · exact absurd (hhost.mpr rfl) hp
      simp [hp, this]

/-- C23 (witness): after the request line of the scenario the request line is
reported as parsed and the host is not; after the Host header both are. -/
theorem query_functions_witness :
    (IsRequestLineParsed (ParseHttpRequest 8192 InitHttpRequest exampleRequestLine).2 = 1 ∧
        IsHostParsed (ParseHttpRequest 8192 InitHttpRequest exampleRequestLine).2 = 0) ∧
      IsHostParsed (ParseHttpRequest 8192
        (ParseHttpRequest 8192 InitHttpRequest exampleRequestLine).2 exampleHostLine).2 = 1 :=
  ⟨⟨(query_functions 8192 _ _ (Fed.feed _ _ exampleRequestLine Fed.init)).1.mpr (by decide),
      (query_functions 8192 _ _ (Fed.feed _ _ exampleRequestLine Fed.init)).2.2.2.mpr
        (by decide)⟩,
    (query_functions 8192 _ _
      (Fed.feed _ _ exampleHostLine (Fed.feed _ _ exampleRequestLine Fed.init))).2.2.1.mpr
      (by decide)⟩

/-! ## Theorems: the dispatch of the worker -/

theorem forward_state (w : World) (pool : RequestPool) (request : ProxyMeta) :
    ((HandleUnconnectedClientFd.forward w pool request).2.2.2.proxy_state ≠
        request.proxy_state →
      (HandleUnconnectedClientFd.forward w pool request).1 = 1) ∧
      (HandleUnconnectedClientFd.forward w pool request).2.2.1.req_num = pool.req_num ∧
      (HandleUnconnectedClientFd.forward w pool request).2.2.1.enabled = pool.enabled ∧
      (HandleUnconnectedClientFd.forward w pool request).2.2.1.requests = pool.requests := by
  unfold HandleUnconnectedClientFd.forward
  by_cases h1 : (open_clientfd w (hostName request.http_request.host)
      (hostPort request.http_request.host)).1 < 0
  · simp [h1]
  · by_cases h2 : (sendLoop (open_clientfd w (hostName request.http_request.host)
        (hostPort request.http_request.host)).1
        (open_clientfd w (hostName request.http_request.host)
          (hostPort request.http_request.host)).2 (linesToSend request.http_request)).1 < 0
    · simp [h1, h2]
    · simp [h1, h2]

theorem serve_state (m : CacheModule) (w : World) (pool : RequestPool) (request : ProxyMeta) :
    ((HandleUnconnectedClientFd.serve m w pool request).2.2.2.proxy_state ≠
        request.proxy_state →
      (HandleUnconnectedClientFd.serve m w pool request).1 = 1) ∧
      (HandleUnconnectedClientFd.serve m w pool request).2.2.1.req_num = pool.req_num ∧
      (HandleUnconnectedClientFd.serve m w pool request).2.2.1.enabled = pool.enabled ∧
      (HandleUnconnectedClientFd.serve m w pool request).2.2.1.requests = pool.requests := by
  unfold HandleUnconnectedClientFd.serve
  cases hp : request.http_request.proxyPath with
  | none => exact ⟨fun h => absurd rfl h, rfl, rfl, rfl⟩
  | some path =>
    simp only
    split_ifs
    · exact ⟨fun _ => rfl, rfl, rfl, rfl⟩
    · exact forward_state w pool _

/-- `HandleUnconnectedClientFd` changes the state of the connection only when
it returns 1, and leaves the slots and the count of the pool as they were. -/
theorem loop_state (k : Csapp) (m : CacheModule) :
    ∀ (fuel : Nat) (w : World) (pool : RequestPool) (request : ProxyMeta),
      ((HandleUnconnectedClientFd.loop k m fuel w pool request).2.2.2.proxy_state ≠
          request.proxy_state →
        (HandleUnconnectedClientFd.loop k m fuel w pool request).1 = 1) ∧
        (HandleUnconnectedClientFd.loop k m fuel w pool request).2.2.1.req_num =
          pool.req_num ∧
        (HandleUnconnectedClientFd.loop k m fuel w pool request).2.2.1.enabled =
          pool.enabled ∧
        (HandleUnconnectedClientFd.loop k m fuel w pool request).2.2.1.requests =
          pool.requests := by
  intro fuel
  induction fuel with
  | zero =>
    intro w pool request
    exact ⟨fun _ => rfl, rfl, rfl, rfl⟩
  | succ fuel ih =>
    intro w pool request
    simp only [HandleUnconnectedClientFd.loop]
    split_ifs
    · exact ⟨fun h => absurd rfl h, rfl, rfl, rfl⟩
    · exact ⟨fun h => absurd rfl h, rfl, rfl, rfl⟩
    · exact ⟨fun h => absurd rfl h, rfl, rfl, rfl⟩
    · exact ih _ pool _
    · exact ⟨fun _ => rfl, rfl, rfl, rfl⟩
    · exact serve_state m _ pool _

theorem connected_loop_state (k : Csapp) :
    ∀ (fuel : Nat) (w : World) (request : ProxyMeta),
      (HandleConnectedClientFd.loop k fuel w request).2.2.proxy_state = request.proxy_state ∧
        (HandleConnectedClientFd.loop k fuel w request).2.2.server_fd = request.server_fd := by
  intro fuel
  induction fuel with
  | zero => intro w request; exact ⟨rfl, rfl⟩
  | succ fuel ih =>
    intro w request
    simp only [HandleConnectedClientFd.loop]
    split_ifs
    · exact ⟨rfl, rfl⟩
    · exact ⟨rfl, rfl⟩
    · exact ⟨rfl, rfl⟩
    · exact ih _ _
    · exact ⟨rfl, rfl⟩

theorem cached_loop_state (k : Csapp) :
    ∀ (fuel : Nat) (w : World) (request : ProxyMeta),
      (HandleCachedClientFd.loop k fuel w request).2.2.proxy_state = request.proxy_state ∧
        (HandleCachedClientFd.loop k fuel w request).2.2.server_fd = request.server_fd := by
  intro fuel
  induction fuel with
  | zero => intro w request; exact ⟨rfl, rfl⟩
  | succ fuel ih =>
    intro w request
    simp only [HandleCachedClientFd.loop]
    split_ifs
    · exact ih _ _
    · exact ⟨rfl, rfl⟩
    · exact ⟨rfl, rfl⟩

theorem server_loop_state (k : Csapp) :
    ∀ (fuel : Nat) (w : World) (request : ProxyMeta),
      (HandleServerFd.loop k fuel w request).2.2.proxy_state = request.proxy_state ∧
        (HandleServerFd.loop k fuel w request).2.2.server_fd = request.server_fd := by
  intro fuel
  induction fuel with
  | zero => intro w request; exact ⟨rfl, rfl⟩
  | succ fuel ih =>
    intro w request
    simp only [HandleServerFd.loop]
    split_ifs
    all_goals first
      | exact ⟨rfl, rfl⟩
      | exact ih _ _

theorem rmRequestInpool_counts (w : World) (pool : RequestPool) (index : Nat)
    (request : ProxyMeta) (hreq : pool.requests[index]? = some request) :
    (RmRequestInpool w pool index).2.req_num = pool.req_num - 1 ∧
      (RmRequestInpool w pool index).2.enabled = pool.enabled.set index false := by
  unfold RmRequestInpool
  rw [hreq]
  exact ⟨rfl, rfl⟩

/-- The handlers for the client descriptor leave the slots and the count of
the pool as they were. -/
theorem client_pool (k : Csapp) (m : CacheModule) (w : World) (pool : RequestPool)
    (request : ProxyMeta) :
    (WorkThread.client k m w pool request).2.2.1.req_num = pool.req_num ∧
      (WorkThread.client k m w pool request).2.2.1.enabled = pool.enabled ∧
      (WorkThread.client k m w pool request).2.2.1.requests = pool.requests := by
  obtain ⟨_, h2, h3, h4⟩ := loop_state k m (unreadBytes w request + 1) w pool request
  unfold WorkThread.client
  simp only
  by_cases hu : request.proxy_state = ProxyState.UNCONNECTED
  · simp only [hu, if_true]
    unfold HandleUnconnectedClientFd
    split_ifs <;> exact ⟨h2, h3, h4⟩
  · simp only [hu, if_false]
    split_ifs <;> exact ⟨rfl, rfl, rfl⟩

/-- The part of the body of the inner loop of `WorkThread` after the handlers
for the client descriptor, on what they have left (`c`): the slot is disabled
and the count decreased exactly when the last handler run returned a
non-positive value. -/
theorem handle_tail (k : Csapp) (pool : RequestPool) (ready_set : List Int) (req_ind : Nat)
    (server_fd : Int) (c : Int × World × RequestPool × ProxyMeta)
    (hlen : req_ind < pool.requests.length)
    (hc1 : c.2.2.1.req_num = pool.req_num ∧ c.2.2.1.enabled = pool.enabled ∧
      c.2.2.1.requests = pool.requests) :
    (let pool1 : RequestPool :=
        { c.2.2.1 with requests := c.2.2.1.requests.set req_ind c.2.2.2 }
      let s1 := if c.1 ≤ 0 then RmRequestInpool c.2.1 pool1 req_ind else (c.2.1, pool1)
      if 0 < c.1 ∧ 0 ≤ server_fd ∧ server_fd ∈ ready_set then
        let r := HandleServerFd k s1.1 c.2.2.2
        let pool2 : RequestPool := { s1.2 with requests := s1.2.requests.set req_ind r.2.2 }
        if r.1 ≤ 0 then RmRequestInpool r.2.1 pool2 req_ind else (r.2.1, pool2)
      else s1).2.enabled =
        (if (if 0 < c.1 ∧ 0 ≤ server_fd ∧ server_fd ∈ ready_set then
              (HandleServerFd k c.2.1 c.2.2.2).1 else c.1) ≤ 0 then
          pool.enabled.set req_ind false else pool.enabled) ∧
      (let pool1 : RequestPool :=
        { c.2.2.1 with requests := c.2.2.1.requests.set req_ind c.2.2.2 }
      let s1 := if c.1 ≤ 0 then RmRequestInpool c.2.1 pool1 req_ind else (c.2.1, pool1)
      if 0 < c.1 ∧ 0 ≤ server_fd ∧ server_fd ∈ ready_set then
        let r := HandleServerFd k s1.1 c.2.2.2
        let pool2 : RequestPool := { s1.2 with requests := s1.2.requests.set req_ind r.2.2 }
        if r.1 ≤ 0 then RmRequestInpool r.2.1 pool2 req_ind else (r.2.1, pool2)
      else s1).2.req_num =
        (if (if 0 < c.1 ∧ 0 ≤ server_fd ∧ server_fd ∈ ready_set then
              (HandleServerFd k c.2.1 c.2.2.2).1 else c.1) ≤ 0 then
          pool.req_num - 1 else pool.req_num) := by
  simp only
  have hget : ∀ x : ProxyMeta, (c.2.2.1.requests.set req_ind x)[req_ind]? = some x := by
    intro x
    rw [List.getElem?_set_self (by rw [hc1.2.2]; exact hlen)]
  by_cases hneg : c.1 ≤ 0
  · have hrm := rmRequestInpool_counts c.2.1
      { c.2.2.1 with requests := c.2.2.1.requests.set req_ind c.2.2.2 } req_ind c.2.2.2
      (hget _)
    have hn : ¬ (0 < c.1 ∧ 0 ≤ server_fd ∧ server_fd ∈ ready_set) := fun h => by omega
    simp only [hn, if_false, hneg, if_true]
    rw [hrm.1, hrm.2]
    exact ⟨by rw [hc1.2.1], by rw [hc1.1]⟩
  · simp only [hneg, if_false]
    by_cases hs : 0 < c.1 ∧ 0 ≤ server_fd ∧ server_fd ∈ ready_set
    · simp only [hs, and_self, if_true]
      by_cases hr : (HandleServerFd k c.2.1 c.2.2.2).1 ≤ 0
      · have hrm := rmRequestInpool_counts (HandleServerFd k c.2.1 c.2.2.2).2.1
          { c.2.2.1 with
            requests := (c.2.2.1.requests.set req_ind c.2.2.2).set req_ind
              (HandleServerFd k c.2.1 c.2.2.2).2.2 } req_ind
          (HandleServerFd k c.2.1 c.2.2.2).2.2
          (by
            show ((c.2.2.1.requests.set req_ind c.2.2.2).set req_ind _)[req_ind]? = _
            rw [List.getElem?_set_self (by rw [List.length_set, hc1.2.2]; exact hlen)])
        simp only [hr, if_true]
        rw [hrm.1, hrm.2]
        exact ⟨by rw [hc1.2.1], by rw [hc1.1]⟩
      · simp only [hr, if_false]
        exact ⟨hc1.2.1, hc1.1⟩
    · simp only [hs, if_false, hneg]
      exact ⟨hc1.2.1, hc1.1⟩

/-- C29: `HandleUnconnectedClientFd` changes the state of the connection only
when it returns 1, so a non-positive return of it is the result of the chain
of handlers for the client descriptor, and so is every return of
`HandleConnectedClientFd`; when that chain ends with a non-positive value the
pass is exactly one `RmRequestInpool` on what the chain has left (the handler
for the origin descriptor does not run); and the slot is disabled and the
count of the pool decreased, once, exactly when the last handler run for the
request has returned a non-positive value. -/
theorem dispatch_keeps_results (k : Csapp) (m : CacheModule) (w : World)
    (pool : RequestPool) (ready_set : List Int) (req_ind : Nat) (request : ProxyMeta)
    (hreq : pool.requests[req_ind]? = some request) :
    ((HandleUnconnectedClientFd k m w pool request).2.2.2.proxy_state ≠ request.proxy_state →
        (HandleUnconnectedClientFd k m w pool request).1 = 1) ∧
      (request.proxy_state = ProxyState.UNCONNECTED →
        (HandleUnconnectedClientFd k m w pool request).1 ≤ 0 →
        WorkThread.client k m w pool request = HandleUnconnectedClientFd k m w pool request) ∧
      (request.proxy_state = ProxyState.CONNECTED →
        WorkThread.client k m w pool request =
          ((HandleConnectedClientFd k w request).1, (HandleConnectedClientFd k w request).2.1,
            pool, (HandleConnectedClientFd k w request).2.2)) ∧
      (0 ≤ request.client_fd ∧ request.client_fd ∈ ready_set →
        (WorkThread.client k m w pool request).1 ≤ 0 →
        WorkThread.handle k m w pool ready_set req_ind =
          RmRequestInpool (WorkThread.client k m w pool request).2.1
            { (WorkThread.client k m w pool request).2.2.1 with
              requests := (WorkThread.client k m w pool request).2.2.1.requests.set req_ind
                (WorkThread.client k m w pool request).2.2.2 } req_ind) ∧
      (WorkThread.handle k m w pool ready_set req_ind).2.enabled =
        (if WorkThread.retval k m w pool ready_set req_ind ≤ 0 then
          pool.enabled.set req_ind false else pool.enabled) ∧
      (WorkThread.handle k m w pool ready_set req_ind).2.req_num =
        (if WorkThread.retval k m w pool ready_set req_ind ≤ 0 then pool.req_num - 1
          else pool.req_num) := by
  have hst := (loop_state k m (unreadBytes w request + 1) w pool request).1
  have hlen : req_ind < pool.requests.length := by
    rcases Nat.lt_or_ge req_ind pool.requests.length with h | h
    · exact h
    · rw [List.getElem?_eq_none h] at hreq
      exact absurd hreq (by simp)
  refine ⟨hst, ?_, ?_, ?_, ?_⟩
  · intro hu hret
    have hsame : (HandleUnconnectedClientFd k m w pool request).2.2.2.proxy_state =
        ProxyState.UNCONNECTED := by
      by_contra hne
      have := hst (by rw [hu]; exact hne)
      unfold HandleUnconnectedClientFd at hret
      omega
    have n1 : ¬ (HandleUnconnectedClientFd k m w pool request).2.2.2.proxy_state =
        ProxyState.CONNECTED := by rw [hsame]; decide
    have n2 : ¬ (HandleUnconnectedClientFd k m w pool request).2.2.2.proxy_state =
        ProxyState.CACHED := by rw [hsame]; decide
    unfold WorkThread.client
    simp only
    rw [if_pos hu, if_neg n1, if_neg n2]
  · intro hc
    have hkeep : (HandleConnectedClientFd k w request).2.2.proxy_state =
        request.proxy_state :=
      (connected_loop_state k (unreadBytes w request + 1) w request).1
    have n0 : ¬ request.proxy_state = ProxyState.UNCONNECTED := by rw [hc]; decide
    have n2 : ¬ (HandleConnectedClientFd k w request).2.2.proxy_state = ProxyState.CACHED := by
      rw [hkeep, hc]
      decide
    unfold WorkThread.client
    simp only
    rw [if_neg n0]
    simp only
    rw [if_pos hc, if_neg n2]
  · intro hready hret
    have hn : ¬ (0 < (WorkThread.client k m w pool request).1 ∧ 0 ≤ request.server_fd ∧
        request.server_fd ∈ ready_set) := fun h => by omega
    unfold WorkThread.handle
    rw [hreq]
    simp only
    rw [if_pos hready, if_neg hn, if_pos hret]
  · obtain ⟨c1, c2, c3⟩ := client_pool k m w pool request
    unfold WorkThread.handle WorkThread.retval
    rw [hreq]
    refine handle_tail k pool ready_set req_ind request.server_fd
      (if 0 ≤ request.client_fd ∧ request.client_fd ∈ ready_set then
        WorkThread.client k m w pool request else (1, w, pool, request)) hlen ?_
    split_ifs
    · exact ⟨c1, c2, c3⟩
    · exact ⟨rfl, rfl, rfl⟩

/-- C29 (witness): the request without a path: `HandleUnconnectedClientFd`
returns -1, no other handler runs, and the connection is removed. -/
theorem dispatch_keeps_results_witness :
    (HandleUnconnectedClientFd csapp8192 scenarioModule (worldWithClient shortUrlBytes)
        scenarioPool scenarioRequest).1 = -1 ∧
      WorkThread.client csapp8192 scenarioModule (worldWithClient shortUrlBytes) scenarioPool
          scenarioRequest =
        HandleUnconnectedClientFd csapp8192 scenarioModule (worldWithClient shortUrlBytes)
          scenarioPool scenarioRequest ∧
      (WorkThread.handle csapp8192 scenarioModule (worldWithClient shortUrlBytes) scenarioPool
        [4] 0).2.enabled = [false] ∧
      (WorkThread.handle csapp8192 scenarioModule (worldWithClient shortUrlBytes) scenarioPool
        [4] 0).2.req_num = 0 :=
  have h := dispatch_keeps_results csapp8192 scenarioModule (worldWithClient shortUrlBytes)
    scenarioPool [4] 0 scenarioRequest rfl
  ⟨by decide, h.2.1 rfl (by decide), h.2.2.2.2.1.trans (by decide),
    h.2.2.2.2.2.trans (by decide)⟩

/-! ## Theorems: relaying the response -/

theorem rio_readlineb_loop_ret {σ δ : Type} (read : σ → δ → Nat → ReadRes × σ × δ)
    (bufsize : Nat) :
    ∀ (k : Nat) (s : σ) (rp : Rio δ) (acc : List Char),
      (rio_readlineb.loop read bufsize k s rp acc).1 < 0 ∨
        (rio_readlineb.loop read bufsize k s rp acc).1 =
          ((rio_readlineb.loop read bufsize k s rp acc).2.1.length : Int) := by
  intro k
  induction k with
  | zero => intro s rp acc; exact Or.inr rfl
  | succ k ih =>
    intro s rp acc
    rw [rio_readlineb.loop]
    generalize rio_read1 read bufsize s rp = res
    obtain ⟨b, s1, rp1⟩ := res
    cases b with
    | byte c =>
      simp only
      split_ifs
      · exact Or.inr rfl
      · exact ih s1 rp1 _
    | eof => exact Or.inr rfl
    | error => exact Or.inl (by simp)

theorem sock_congr (w w2 : World) (h : w.socks = w2.socks) (fd : Int) :
    w.sock fd = w2.sock fd := by
  unfold World.sock
  rw [h]

theorem sock_read_socks (w w2 : World) (h : w.socks = w2.socks) (fd : Int) (n : Nat) :
    (sock_read w fd n).1 = (sock_read w2 fd n).1 ∧
      (sock_read w fd n).2.1.socks = (sock_read w2 fd n).2.1.socks ∧
      (sock_read w fd n).2.1.os = w.os ∧
      (sock_read w fd n).2.2 = (sock_read w2 fd n).2.2 := by
  unfold sock_read
  rw [← sock_congr w w2 h fd]
  cases w.sock fd with
  | none => exact ⟨rfl, h, rfl, rfl⟩
  | some s =>
    simp only
    cases s.rx with
    | nil => exact ⟨rfl, h, rfl, rfl⟩
    | cons seg rest =>
      simp only
      split_ifs
      · exact ⟨rfl, by simp only [World.setSock]; rw [h], rfl, rfl⟩
      · exact ⟨rfl, by simp only [World.setSock]; rw [h], rfl, rfl⟩

theorem rio_read1_socks (bufsize : Nat) (w w2 : World) (h : w.socks = w2.socks)
    (rp : Rio Int) :
    (rio_read1 sock_read bufsize w rp).1 = (rio_read1 sock_read bufsize w2 rp).1 ∧
      (rio_read1 sock_read bufsize w rp).2.1.socks =
        (rio_read1 sock_read bufsize w2 rp).2.1.socks ∧
      (rio_read1 sock_read bufsize w rp).2.1.os = w.os ∧
      (rio_read1 sock_read bufsize w rp).2.2 = (rio_read1 sock_read bufsize w2 rp).2.2 := by
  unfold rio_read1
  cases rp.buf with
  | cons c rest => exact ⟨rfl, h, rfl, rfl⟩
  | nil =>
    simp only
    obtain ⟨a1, a2, a3, a4⟩ := sock_read_socks w w2 h rp.rio_fd bufsize
    generalize sock_read w rp.rio_fd bufsize = r1 at a1 a2 a3 a4
    generalize sock_read w2 rp.rio_fd bufsize = r2 at a1 a2 a4
    obtain ⟨x1, y1, z1⟩ := r1
    obtain ⟨x2, y2, z2⟩ := r2
    simp only at a1 a2 a3 a4
    subst a1 a4
    cases x1 with
    | data bs =>
      cases bs with
      | nil => exact ⟨rfl, a2, a3, rfl⟩
      | cons c rest => exact ⟨rfl, a2, a3, rfl⟩
    | eof => exact ⟨rfl, a2, a3, rfl⟩
    | error => exact ⟨rfl, a2, a3, rfl⟩

/-- The line reader on a socket depends on the sockets only, and leaves the
file system as it is. -/
theorem rio_readlineb_loop_socks (bufsize : Nat) :
    ∀ (k : Nat) (w w2 : World) (rp : Rio Int) (acc : List Char), w.socks = w2.socks →
      (rio_readlineb.loop sock_read bufsize k w rp acc).1 =
          (rio_readlineb.loop sock_read bufsize k w2 rp acc).1 ∧
        (rio_readlineb.loop sock_read bufsize k w rp acc).2.1 =
          (rio_readlineb.loop sock_read bufsize k w2 rp acc).2.1 ∧
        (rio_readlineb.loop sock_read bufsize k w rp acc).2.2.1.socks =
          (rio_readlineb.loop sock_read bufsize k w2 rp acc).2.2.1.socks ∧
        (rio_readlineb.loop sock_read bufsize k w rp acc).2.2.1.os = w.os ∧
        (rio_readlineb.loop sock_read bufsize k w rp acc).2.2.2 =
          (rio_readlineb.loop sock_read bufsize k w2 rp acc).2.2.2 := by
  intro k
  induction k with
  | zero => intro w w2 rp acc h; exact ⟨rfl, rfl, h, rfl, rfl⟩
  | succ k ih =>
    intro w w2 rp acc h
    rw [rio_readlineb.loop, rio_readlineb.loop]
    obtain ⟨a1, a2, a3, a4⟩ := rio_read1_socks bufsize w w2 h rp
    generalize rio_read1 sock_read bufsize w rp = r1 at a1 a2 a3 a4
    generalize rio_read1 sock_read bufsize w2 rp = r2 at a1 a2 a4
    obtain ⟨x1, y1, z1⟩ := r1
    obtain ⟨x2, y2, z2⟩ := r2
    simp only at a1 a2 a3 a4
    subst a1 a4
    cases x1 with
    | byte c =>
      simp only
      split_ifs
      · exact ⟨rfl, rfl, a2, a3, rfl⟩
      · obtain ⟨b1, b2, b3, b4, b5⟩ := ih y1 y2 z1 (acc ++ [c]) a2
        exact ⟨b1, b2, b3, b4.trans a3, b5⟩
    | eof => exact ⟨rfl, rfl, a2, a3, rfl⟩
    | error => exact ⟨rfl, rfl, a2, a3, rfl⟩

theorem sock_write_socks (fd : Int) (w w2 : World) (h : w.socks = w2.socks)
    (bytes : List Char) :
    (sock_write fd w bytes).1 = (sock_write fd w2 bytes).1 ∧
      (sock_write fd w bytes).2.socks = (sock_write fd w2 bytes).2.socks ∧
      (sock_write fd w bytes).2.os = w.os := by
  unfold sock_write
  rw [← sock_congr w w2 h fd]
  cases w.sock fd with
  | none => exact ⟨rfl, h, rfl⟩
  | some s =>
    simp only
    cases s.tx_room with
    | none => exact ⟨rfl, by simp only [World.setSock]; rw [h], rfl⟩
    | some room =>
      simp only
      split_ifs
      · exact ⟨rfl, h, rfl⟩
      · exact ⟨rfl, by simp only [World.setSock]; rw [h], rfl⟩

theorem rio_writen_loop_socks (fd : Int) :
    ∀ (fuel : Nat) (w w2 : World) (left : List Char), w.socks = w2.socks →
      (rio_writen.loop (sock_write fd) fuel w left).1 =
          (rio_writen.loop (sock_write fd) fuel w2 left).1 ∧
        (rio_writen.loop (sock_write fd) fuel w left).2.socks =
          (rio_writen.loop (sock_write fd) fuel w2 left).2.socks ∧
        (rio_writen.loop (sock_write fd) fuel w left).2.os = w.os := by
  intro fuel
  induction fuel with
  | zero => intro w w2 left h; exact ⟨rfl, h, rfl⟩
  | succ fuel ih =>
    intro w w2 left h
    rw [rio_writen.loop, rio_writen.loop]
    by_cases hl : left = []
    · rw [if_pos hl, if_pos hl]
      exact ⟨rfl, h, rfl⟩
    · rw [if_neg hl, if_neg hl]
      simp only
      obtain ⟨a1, a2, a3⟩ := sock_write_socks fd w w2 h left
      rw [← a1]
      by_cases hw : (sock_write fd w left).1 ≤ 0
      · rw [if_pos hw, if_pos hw]
        exact ⟨rfl, a2, a3⟩
      · rw [if_neg hw, if_neg hw]
        obtain ⟨b1, b2, b3⟩ := ih _ _ (left.drop (sock_write fd w left).1.toNat) a2
        exact ⟨b1, b2, b3.trans a3⟩

theorem rio_writen_socks (fd : Int) (w w2 : World) (h : w.socks = w2.socks)
    (bytes : List Char) :
    (rio_writen (sock_write fd) w bytes).1 = (rio_writen (sock_write fd) w2 bytes).1 ∧
      (rio_writen (sock_write fd) w bytes).2.socks =
        (rio_writen (sock_write fd) w2 bytes).2.socks ∧
      (rio_writen (sock_write fd) w bytes).2.os = w.os := by
  obtain ⟨a1, a2, a3⟩ := rio_writen_loop_socks fd (bytes.length + 1) w w2 bytes h
  unfold rio_writen
  simp only
  rw [a1]
  exact ⟨rfl, a2, a3⟩

/-- What one invocation of `HandleServerFd` does to the cache: the file system
and the handle afterwards are those of `cacheIfNoError` over the lines read. -/
theorem server_loop_cache (k : Csapp) :
    ∀ (fuel : Nat) (w : World) (request : ProxyMeta),
      ((HandleServerFd.loop k fuel w request).2.1.os,
          (HandleServerFd.loop k fuel w request).2.2.cache_info) =
        (HandleServerFd.lines k fuel w request).foldl cacheIfNoError
          (w.os, request.cache_info) := by
  intro fuel
  induction fuel with
  | zero => intro w request; rfl
  | succ fuel ih =>
    intro w request
    simp only [HandleServerFd.loop, HandleServerFd.lines]
    have hos : (rio_readlineb sock_read k.RIO_BUFSIZE w request.server_rp k.MAXBUF).2.2.1.os =
        w.os :=
      (rio_readlineb_loop_socks k.RIO_BUFSIZE (k.MAXBUF - 1) w w request.server_rp [] rfl).2.2.2.1
    generalize rio_readlineb sock_read k.RIO_BUFSIZE w request.server_rp k.MAXBUF = rd at hos ⊢
    by_cases h1 : rd.1 < 0
    · rw [if_pos h1, if_pos h1]
      simp only [List.foldl_nil, hos]
    rw [if_neg h1, if_neg h1]
    by_cases h2 : rd.1 = 0
    · rw [if_pos h2, if_pos h2]
      simp only [List.foldl_nil, hos]
    rw [if_neg h2, if_neg h2]
    have hc : ((if IsCacheError request.cache_info = 0 then
          WriteToCache rd.2.2.1.os request.cache_info rd.2.1
        else (0, rd.2.2.1.os, request.cache_info)).2.1,
        (if IsCacheError request.cache_info = 0 then
          WriteToCache rd.2.2.1.os request.cache_info rd.2.1
        else (0, rd.2.2.1.os, request.cache_info)).2.2) =
        cacheIfNoError (w.os, request.cache_info) rd.2.1 := by
      unfold cacheIfNoError
      rw [hos]
      split_ifs <;> rfl
    generalize (if IsCacheError request.cache_info = 0 then
        WriteToCache rd.2.2.1.os request.cache_info rd.2.1
      else (0, rd.2.2.1.os, request.cache_info)) = cached at hc ⊢
    have hwr : (rio_writen (sock_write request.client_fd)
        { rd.2.2.1 with os := cached.2.1 } rd.2.1).2.os = cached.2.1 :=
      (rio_writen_socks request.client_fd { rd.2.2.1 with os := cached.2.1 }
        { rd.2.2.1 with os := cached.2.1 } rfl rd.2.1).2.2
    by_cases h3 : 0 < rd.2.2.2.buf.length
    · rw [if_pos h3, if_pos h3, List.foldl_cons, ← hc, ih, hwr]
    · rw [if_neg h3, if_neg h3, List.foldl_cons, List.foldl_nil, ← hc, hwr]

/-- What one invocation of `HandleServerFd` does on the sockets does not
depend on the file system or on the cache handle. -/
theorem server_loop_independent (k : Csapp) :
    ∀ (fuel : Nat) (w w2 : World) (request : ProxyMeta) (ci2 : CacheInfo),
      w.socks = w2.socks →
      (HandleServerFd.loop k fuel w request).1 =
          (HandleServerFd.loop k fuel w2 { request with cache_info := ci2 }).1 ∧
        (HandleServerFd.loop k fuel w request).2.1.socks =
          (HandleServerFd.loop k fuel w2 { request with cache_info := ci2 }).2.1.socks ∧
        (HandleServerFd.loop k fuel w request).2.2.server_rp =
          (HandleServerFd.loop k fuel w2 { request with cache_info := ci2 }).2.2.server_rp ∧
        HandleServerFd.lines k fuel w request =
          HandleServerFd.lines k fuel w2 { request with cache_info := ci2 } := by
  intro fuel
  induction fuel with
  | zero => intro w w2 request ci2 h; exact ⟨rfl, h, rfl, rfl⟩
  | succ fuel ih =>
    intro w w2 request ci2 h
    simp only [HandleServerFd.loop, HandleServerFd.lines]
    obtain ⟨a1, a2, a3, _, a5⟩ := rio_readlineb_loop_socks k.RIO_BUFSIZE (k.MAXBUF - 1) w w2
      request.server_rp [] h
    change (rio_readlineb sock_read k.RIO_BUFSIZE w request.server_rp k.MAXBUF).1 =
      (rio_readlineb sock_read k.RIO_BUFSIZE w2 request.server_rp k.MAXBUF).1 at a1
    change (rio_readlineb sock_read k.RIO_BUFSIZE w request.server_rp k.MAXBUF).2.1 =
      (rio_readlineb sock_read k.RIO_BUFSIZE w2 request.server_rp k.MAXBUF).2.1 at a2
    change (rio_readlineb sock_read k.RIO_BUFSIZE w request.server_rp k.MAXBUF).2.2.1.socks =
      (rio_readlineb sock_read k.RIO_BUFSIZE w2 request.server_rp k.MAXBUF).2.2.1.socks at a3
    change (rio_readlineb sock_read k.RIO_BUFSIZE w request.server_rp k.MAXBUF).2.2.2 =
      (rio_readlineb sock_read k.RIO_BUFSIZE w2 request.server_rp k.MAXBUF).2.2.2 at a5
    generalize rio_readlineb sock_read k.RIO_BUFSIZE w request.server_rp k.MAXBUF = rd
      at a1 a2 a3 a5 ⊢
    generalize rio_readlineb sock_read k.RIO_BUFSIZE w2 request.server_rp k.MAXBUF = rd2
      at a1 a2 a3 a5 ⊢
    rw [← a1, ← a2, ← a5]
    by_cases h1 : rd.1 < 0
    · simp only [h1, if_true]
      exact ⟨trivial, a3, trivial, trivial⟩
    simp only [h1, if_false]
    by_cases h2 : rd.1 = 0
    · simp only [h2, if_true]
      exact ⟨trivial, a3, trivial, trivial⟩
    simp only [h2, if_false]
    generalize (if IsCacheError request.cache_info = 0 then
        WriteToCache rd.2.2.1.os request.cache_info rd.2.1
      else (0, rd.2.2.1.os, request.cache_info)) = cached
    generalize (if IsCacheError ci2 = 0 then WriteToCache rd2.2.2.1.os ci2 rd.2.1
      else (0, rd2.2.2.1.os, ci2)) = cached2
    obtain ⟨_, b2, _⟩ := rio_writen_socks request.client_fd
      { rd.2.2.1 with os := cached.2.1 } { rd2.2.2.1 with os := cached2.2.1 } a3 rd.2.1
    by_cases h3 : 0 < rd.2.2.2.buf.length
    · simp only [h3, if_true]
      obtain ⟨c1, c2, c3, c4⟩ := ih _ _
        { request with server_rp := rd.2.2.2, cache_info := cached.2.2 } cached2.2.2 b2
      exact ⟨c1, c2, c3, by rw [c4]⟩
    · simp only [h3, if_false]
      exact ⟨trivial, b2, trivial, trivial⟩

/-- With a client that accepts what is written, one invocation of
`HandleServerFd` appends the lines it reads, in order, to what the client has
received. -/
theorem server_loop_delivers (k : Csapp) :
    ∀ (fuel : Nat) (w : World) (request : ProxyMeta) (s : Sock),
      w.sock request.client_fd = some s → s.tx_room = none →
      ∃ s2, (HandleServerFd.loop k fuel w request).2.1.sock request.client_fd = some s2 ∧
        s2.tx = s.tx ++ (HandleServerFd.lines k fuel w request).flatten ∧
        s2.tx_room = none := by
  intro fuel
  induction fuel with
  | zero => intro w request s hs hroom; exact ⟨s, hs, by simp [HandleServerFd.lines], hroom⟩
  | succ fuel ih =>
    intro w request s hs hroom
    simp only [HandleServerFd.loop, HandleServerFd.lines]
    obtain ⟨hstep, _, _⟩ := rio_readlineb_step k.RIO_BUFSIZE w request.server_rp k.MAXBUF
    have hret := rio_readlineb_loop_ret sock_read k.RIO_BUFSIZE (k.MAXBUF - 1) w
      request.server_rp []
    change (rio_readlineb sock_read k.RIO_BUFSIZE w request.server_rp k.MAXBUF).1 < 0 ∨
      (rio_readlineb sock_read k.RIO_BUFSIZE w request.server_rp k.MAXBUF).1 =
        ((rio_readlineb sock_read k.RIO_BUFSIZE w request.server_rp k.MAXBUF).2.1.length : Int)
      at hret
    generalize rio_readlineb sock_read k.RIO_BUFSIZE w request.server_rp k.MAXBUF = rd
      at hstep hret ⊢
    obtain ⟨s1, hs1, htx, hrm, _⟩ := hstep.2.2.1 request.client_fd s hs
    by_cases h1 : rd.1 < 0
    · simp only [h1, if_true]
      exact ⟨s1, hs1, by simp [htx], by rw [hrm, hroom]⟩
    simp only [h1, if_false]
    by_cases h2 : rd.1 = 0
    · simp only [h2, if_true]
      exact ⟨s1, hs1, by simp [htx], by rw [hrm, hroom]⟩
    simp only [h2, if_false]
    have hne : rd.2.1 ≠ [] := by
      intro he
      rcases hret with h | h
      · exact h1 h
      · rw [he] at h
        exact h2 h
    generalize (if IsCacheError request.cache_info = 0 then
        WriteToCache rd.2.2.1.os request.cache_info rd.2.1
      else (0, rd.2.2.1.os, request.cache_info)) = cached
    have hs1b : World.sock { rd.2.2.1 with os := cached.2.1 } request.client_fd = some s1 :=
      (sock_congr _ rd.2.2.1 rfl request.client_fd).trans hs1
    rw [rio_writen_unlimited request.client_fd _ rd.2.1 s1 hs1b (by rw [hrm, hroom]) hne]
    by_cases h3 : 0 < rd.2.2.2.buf.length
    · simp only [h3, if_true]
      obtain ⟨s2, c1, c2, c3⟩ := ih
        (World.setSock { rd.2.2.1 with os := cached.2.1 } request.client_fd
          { s1 with tx := s1.tx ++ rd.2.1 })
        { request with server_rp := rd.2.2.2, cache_info := cached.2.2 }
        { s1 with tx := s1.tx ++ rd.2.1 } (sock_setSock_same _ _ _) (by rw [hrm, hroom])
      refine ⟨s2, c1, ?_, c3⟩
      rw [c2, htx]
      simp
    · simp only [h3, if_false]
      exact ⟨_, sock_setSock_same _ _ _, by simp [htx], by rw [hrm, hroom]⟩

/-- C21: for every number of rounds of the loop of `HandleServerFd`
(`HandleServerFd` itself is the loop with `unreadServerBytes + 1` rounds) and
a client that accepts what is written: the client has received, after what it
had, exactly the lines read from the origin, in order; the return value, the
sockets and the lines read are the same for any other file system and cache
handle, in error or not; the file system and the handle afterwards are those
of passing each line to `WriteToCache` exactly when the handle has no error
recorded at that point; and with an error recorded at the start the file
system and the handle are as before. -/
theorem cache_failures_keep_delivery (k : Csapp) (fuel : Nat) (w : World)
    (request : ProxyMeta) (s : Sock) (os2 : OS) (ci2 : CacheInfo)
    (hs : w.sock request.client_fd = some s) (hroom : s.tx_room = none) :
    (∃ s2, (HandleServerFd.loop k fuel w request).2.1.sock request.client_fd = some s2 ∧
        s2.tx = s.tx ++ (HandleServerFd.lines k fuel w request).flatten) ∧
      ((HandleServerFd.loop k fuel w request).1 =
          (HandleServerFd.loop k fuel { w with os := os2 }
            { request with cache_info := ci2 }).1 ∧
        (HandleServerFd.loop k fuel w request).2.1.socks =
          (HandleServerFd.loop k fuel { w with os := os2 }
            { request with cache_info := ci2 }).2.1.socks ∧
        HandleServerFd.lines k fuel w request =
          HandleServerFd.lines k fuel { w with os := os2 }
            { request with cache_info := ci2 }) ∧
      ((HandleServerFd.loop k fuel w request).2.1.os,
          (HandleServerFd.loop k fuel w request).2.2.cache_info) =
        (HandleServerFd.lines k fuel w request).foldl cacheIfNoError
          (w.os, request.cache_info) ∧
      (IsCacheError request.cache_info = 1 →
        (HandleServerFd.loop k fuel w request).2.1.os = w.os ∧
          (HandleServerFd.loop k fuel w request).2.2.cache_info = request.cache_info) := by
  obtain ⟨s2, a1, a2, _⟩ := server_loop_delivers k fuel w request s hs hroom
  obtain ⟨b1, b2, _, b4⟩ := server_loop_independent k fuel w { w with os := os2 } request ci2
    rfl
  have hc := server_loop_cache k fuel w request
  refine ⟨⟨s2, a1, a2⟩, ⟨b1, b2, b4⟩, hc, fun herr => ?_⟩
  have hstay : ∀ (ls : List (List Char)),
      ls.foldl cacheIfNoError (w.os, request.cache_info) = (w.os, request.cache_info) := by
    intro ls
    induction ls with
    | nil => rfl
    | cons l rest ih =>
      rw [List.foldl_cons]
      have : cacheIfNoError (w.os, request.cache_info) l = (w.os, request.cache_info) := by
        unfold cacheIfNoError
        rw [if_neg (by rw [herr]; decide)]
      rw [this, ih]
  rw [hstay] at hc
  exact ⟨congrArg Prod.fst hc, congrArg Prod.snd hc⟩

/-- C21 (witness): the connection of the scenario after the request has been
forwarded; the origin has sent the status line.  The client receives that
line, also when the file system has no room for it. -/
theorem cache_failures_keep_delivery_witness :
    (∃ s2, (HandleServerFd.loop csapp8192 3 partialStep1.1
          (partialStep1.2.requests.headD scenarioRequest)).2.1.sock 4 = some s2 ∧
        s2.tx = [] ++ ["HTTP/1.0 200 OK\r\n".toList].flatten) ∧
      (HandleServerFd.loop csapp8192 3 partialStep1.1
          (partialStep1.2.requests.headD scenarioRequest)).2.1.socks =
        (HandleServerFd.loop csapp8192 3 { partialStep1.1 with os := fullDiskOS }
          { partialStep1.2.requests.headD scenarioRequest with
            cache_info := blankCacheInfo }).2.1.socks :=
  have h := cache_failures_keep_delivery csapp8192 3 partialStep1.1
    (partialStep1.2.requests.headD scenarioRequest)
    { rx := [], rx_err := false, tx := [], tx_room := none } fullDiskOS blankCacheInfo
    (by decide) rfl
  ⟨h.1, h.2.1.2.1⟩

/-! ## Theorems: the state of a connection -/

theorem forward_outcome (w : World) (pool : RequestPool) (request : ProxyMeta) :
    (HandleUnconnectedClientFd.forward w pool request).1 ≤ 0 ∨
      ((HandleUnconnectedClientFd.forward w pool request).2.2.2.proxy_state =
          ProxyState.CONNECTED ∧
        0 ≤ (HandleUnconnectedClientFd.forward w pool request).2.2.2.server_fd) := by
  unfold HandleUnconnectedClientFd.forward
  by_cases h1 : (open_clientfd w (hostName request.http_request.host)
      (hostPort request.http_request.host)).1 < 0
  · simp [h1]
  · by_cases h2 : (sendLoop (open_clientfd w (hostName request.http_request.host)
        (hostPort request.http_request.host)).1
        (open_clientfd w (hostName request.http_request.host)
          (hostPort request.http_request.host)).2 (linesToSend request.http_request)).1 < 0
    · simp [h1, h2]
    · have h1b : 0 ≤ (open_clientfd w (hostName request.http_request.host)
          (hostPort request.http_request.host)).1 := by omega
      simp [h1, h2, h1b]

theorem serve_outcome (m : CacheModule) (w : World) (pool : RequestPool)
    (request : ProxyMeta) :
    (HandleUnconnectedClientFd.serve m w pool request).1 ≤ 0 ∨
      ((HandleUnconnectedClientFd.serve m w pool request).2.2.2.proxy_state =
          ProxyState.CONNECTED ∧
        0 ≤ (HandleUnconnectedClientFd.serve m w pool request).2.2.2.server_fd) ∨
      ((HandleUnconnectedClientFd.serve m w pool request).2.2.2.proxy_state =
          ProxyState.CACHED ∧
        (HandleUnconnectedClientFd.serve m w pool request).2.2.2.server_fd =
          request.server_fd) := by
  unfold HandleUnconnectedClientFd.serve
  cases hp : request.http_request.proxyPath with
  | none => exact Or.inl (by simp)
  | some path =>
    simp only
    split_ifs
    · exact Or.inr (Or.inr ⟨rfl, rfl⟩)
    · rcases forward_outcome w pool
        { request with cache_info := (CreateCacheInfo m request.http_request.host path).2 }
        with h | h
      · exact Or.inl h
      · exact Or.inr (Or.inl h)

/-- How `HandleUnconnectedClientFd` leaves a connection: it has returned a
non-positive value, or the connection is `CONNECTED` with an origin
descriptor, or `CACHED` with `server_fd` as it was, or state and `server_fd`
are as they were. -/
theorem loop_outcome (k : Csapp) (m : CacheModule) :
    ∀ (fuel : Nat) (w : World) (pool : RequestPool) (request : ProxyMeta),
      (HandleUnconnectedClientFd.loop k m fuel w pool request).1 ≤ 0 ∨
        ((HandleUnconnectedClientFd.loop k m fuel w pool request).2.2.2.proxy_state =
            ProxyState.CONNECTED ∧
          0 ≤ (HandleUnconnectedClientFd.loop k m fuel w pool request).2.2.2.server_fd) ∨
        ((HandleUnconnectedClientFd.loop k m fuel w pool request).2.2.2.proxy_state =
            ProxyState.CACHED ∧
          (HandleUnconnectedClientFd.loop k m fuel w pool request).2.2.2.server_fd =
            request.server_fd) ∨
        ((HandleUnconnectedClientFd.loop k m fuel w pool request).2.2.2.proxy_state =
            request.proxy_state ∧
          (HandleUnconnectedClientFd.loop k m fuel w pool request).2.2.2.server_fd =
            request.server_fd) := by
  intro fuel
  induction fuel with
  | zero =>
    intro w pool request
    exact Or.inr (Or.inr (Or.inr ⟨rfl, rfl⟩))
  | succ fuel ih =>
    intro w pool request
    simp only [HandleUnconnectedClientFd.loop]
    split_ifs
    · exact Or.inl (by simp)
    · exact Or.inl (by simp)
    · exact Or.inl (by simp)
    · exact ih _ pool _
    · exact Or.inr (Or.inr (Or.inr ⟨rfl, rfl⟩))
    · rcases serve_outcome m _ pool
        { request with
          client_rp := (rio_readlineb sock_read k.RIO_BUFSIZE w request.client_rp
            k.MAXBUF).2.2.2,
          http_request := (ParseHttpRequest k.MAXBUF request.http_request
            (rio_readlineb sock_read k.RIO_BUFSIZE w request.client_rp k.MAXBUF).2.1).2 }
        with h | h | h
      · exact Or.inl h
      · exact Or.inr (Or.inl h)
      · exact Or.inr (Or.inr (Or.inl h))

/-- The chain of handlers for the client descriptor changes the state of a
connection only from `UNCONNECTED`, and when it returns a positive value on
a connection whose `server_fd` fits its state, `server_fd` fits the state
afterwards. -/
theorem client_chain_state (k : Csapp) (m : CacheModule) (w : World) (pool : RequestPool)
    (r : ProxyMeta) :
    ((WorkThread.client k m w pool r).2.2.2.proxy_state = r.proxy_state ∨
        (r.proxy_state = ProxyState.UNCONNECTED ∧
          ((WorkThread.client k m w pool r).2.2.2.proxy_state = ProxyState.CONNECTED ∨
            (WorkThread.client k m w pool r).2.2.2.proxy_state = ProxyState.CACHED))) ∧
      (0 < (WorkThread.client k m w pool r).1 →
        ((r.proxy_state = ProxyState.CONNECTED → 0 ≤ r.server_fd) ∧
          (r.proxy_state ≠ ProxyState.CONNECTED → r.server_fd = -1)) →
        ((WorkThread.client k m w pool r).2.2.2.proxy_state = ProxyState.CONNECTED →
            0 ≤ (WorkThread.client k m w pool r).2.2.2.server_fd) ∧
          ((WorkThread.client k m w pool r).2.2.2.proxy_state ≠ ProxyState.CONNECTED →
            (WorkThread.client k m w pool r).2.2.2.server_fd = -1)) := by
  have hchange := (loop_state k m (unreadBytes w r + 1) w pool r).1
  have hout := loop_outcome k m (unreadBytes w r + 1) w pool r
  unfold WorkThread.client
  simp only
  generalize ha : (if r.proxy_state = ProxyState.UNCONNECTED then
    HandleUnconnectedClientFd k m w pool r else (1, w, pool, r)) = a
  have hafacts : (a.2.2.2.proxy_state = r.proxy_state ∨
        (r.proxy_state = ProxyState.UNCONNECTED ∧
          (a.2.2.2.proxy_state = ProxyState.CONNECTED ∨
            a.2.2.2.proxy_state = ProxyState.CACHED))) ∧
      (a.2.2.2.proxy_state ≠ r.proxy_state → a.1 = 1) ∧
      (0 < a.1 →
        ((r.proxy_state = ProxyState.CONNECTED → 0 ≤ r.server_fd) ∧
          (r.proxy_state ≠ ProxyState.CONNECTED → r.server_fd = -1)) →
        (a.2.2.2.proxy_state = ProxyState.CONNECTED → 0 ≤ a.2.2.2.server_fd) ∧
          (a.2.2.2.proxy_state ≠ ProxyState.CONNECTED → a.2.2.2.server_fd = -1)) := by
    rw [← ha]
    by_cases hu : r.proxy_state = ProxyState.UNCONNECTED
    · rw [if_pos hu]
      unfold HandleUnconnectedClientFd
      refine ⟨?_, hchange, ?_⟩
      · rcases hout with h | h | h | h
        · left
          by_contra hne
          have := hchange hne
          omega
        · exact Or.inr ⟨hu, Or.inl h.1⟩
        · exact Or.inr ⟨hu, Or.inr h.1⟩
        · exact Or.inl h.1
      · intro hpos hok
        have hfd : r.server_fd = -1 := hok.2 (by rw [hu]; decide)
        rcases hout with h | h | h | h
        · omega
        · exact ⟨fun _ => h.2, fun hn => absurd h.1 hn⟩
        · exact ⟨fun hc => absurd (h.1.symm.trans hc) (by decide),
            fun _ => h.2.trans hfd⟩
        · rw [h.1, h.2]
          exact hok
    · rw [if_neg hu]
      exact ⟨Or.inl rfl, fun h => absurd rfl h, fun _ hok => hok⟩
  obtain ⟨f1, f2, f3⟩ := hafacts
  have hconn := connected_loop_state k (unreadBytes a.2.1 a.2.2.2 + 1) a.2.1 a.2.2.2
  change (HandleConnectedClientFd k a.2.1 a.2.2.2).2.2.proxy_state = _ ∧
    (HandleConnectedClientFd k a.2.1 a.2.2.2).2.2.server_fd = _ at hconn
  by_cases hc : a.2.2.2.proxy_state = ProxyState.CONNECTED
  · have hn : ¬ (HandleConnectedClientFd k a.2.1 a.2.2.2).2.2.proxy_state =
        ProxyState.CACHED := by
      rw [hconn.1, hc]
      decide
    rw [if_pos hc]
    simp only
    rw [if_neg hn]
    simp only
    rw [hconn.1, hconn.2]
    refine ⟨f1, fun hpos hok => ?_⟩
    by_cases hsame : a.2.2.2.proxy_state = r.proxy_state
    · rw [hsame]
      have hfd : a.2.2.2.server_fd = r.server_fd ∨ 0 < a.1 := by
        by_cases hu : r.proxy_state = ProxyState.UNCONNECTED
        · rw [hu] at hsame
          rw [hsame] at hc
          exact absurd hc (by decide)
        · left
          rw [← ha, if_neg hu]
      rcases hfd with hfd | hfd
      · rw [hfd]
        exact hok
      · rw [← hsame]
        exact f3 hfd hok
    · exact f3 (by rw [f2 hsame]; decide) hok
  · rw [if_neg hc]
    by_cases hca : a.2.2.2.proxy_state = ProxyState.CACHED
    · have hcach := cached_loop_state k
      rw [if_pos hca]
      simp only
      have hk : (HandleCachedClientFd k a.2.1 a.2.2.2).2.2.proxy_state =
            a.2.2.2.proxy_state ∧
          (HandleCachedClientFd k a.2.1 a.2.2.2).2.2.server_fd = a.2.2.2.server_fd := by
        unfold HandleCachedClientFd
        split_ifs
        · exact ⟨rfl, rfl⟩
        · exact hcach _ _ _
      rw [hk.1, hk.2]
      refine ⟨f1, fun _ hok => ?_⟩
      by_cases hsame : a.2.2.2.proxy_state = r.proxy_state
      · by_cases hu : r.proxy_state = ProxyState.UNCONNECTED
        · rw [hu] at hsame
          rw [hsame] at hca
          exact absurd hca (by decide)
        · have : a.2.2.2.server_fd = r.server_fd := by rw [← ha, if_neg hu]
          rw [hsame, this]
          exact hok
      · exact f3 (by rw [f2 hsame]; decide) hok
    · rw [if_neg hca]
      exact ⟨f1, fun hpos hok => f3 hpos hok⟩

/-- C26: a connection is `UNCONNECTED` with `server_fd = -1` when
`AddRequestToPool` has stored it; in every state it goes through while the
handlers return positive values, `CONNECTED` comes with an origin descriptor
(`server_fd >= 0`) and every other state with `server_fd = -1`; the chain of
handlers for the client descriptor leaves the state as it is or takes it from
`UNCONNECTED` to `CONNECTED` or `CACHED`, and `HandleServerFd` leaves it as it
is. -/
theorem state_monotone (k : Csapp) (m : CacheModule) (r : ProxyMeta)
    (h : Lifetime k m r) :
    ((r.proxy_state = ProxyState.CONNECTED → 0 ≤ r.server_fd) ∧
        (r.proxy_state ≠ ProxyState.CONNECTED → r.server_fd = -1)) ∧
      (∀ (old : ProxyMeta) (client_fd : Int) (hostname port : List Char),
        (AddRequestToPool.init old client_fd hostname port).proxy_state =
            ProxyState.UNCONNECTED ∧
          (AddRequestToPool.init old client_fd hostname port).server_fd = -1) ∧
      (∀ (w : World) (pool : RequestPool),
        (WorkThread.client k m w pool r).2.2.2.proxy_state = r.proxy_state ∨
          (r.proxy_state = ProxyState.UNCONNECTED ∧
            ((WorkThread.client k m w pool r).2.2.2.proxy_state = ProxyState.CONNECTED ∨
              (WorkThread.client k m w pool r).2.2.2.proxy_state = ProxyState.CACHED))) ∧
      (∀ w : World, (HandleServerFd k w r).2.2.proxy_state = r.proxy_state ∧
        (HandleServerFd k w r).2.2.server_fd = r.server_fd) := by
  refine ⟨?_, fun _ _ _ _ => ⟨rfl, rfl⟩, fun w pool => (client_chain_state k m w pool r).1,
    fun w => server_loop_state k _ w r⟩
  induction h with
  | admitted old client_fd hostname port =>
    exact ⟨fun hc => absurd hc (by simp [AddRequestToPool.init]), fun _ => rfl⟩
  | client w pool r _ hpos ih => exact (client_chain_state k m w pool r).2 hpos ih
  | server w r _ _ ih =>
    obtain ⟨h1, h2⟩ := server_loop_state k (unreadServerBytes w r + 1) w r
    change (HandleServerFd k w r).2.2.proxy_state = _ at h1
    change (HandleServerFd k w r).2.2.server_fd = _ at h2
    rw [h1, h2]
    exact ih

/-- C26 (witness): the connection of the scenario, admitted and then handled
once: it is `CONNECTED` and has an origin descriptor. -/
theorem state_monotone_witness :
    (WorkThread.client csapp8192 scenarioModule (worldWithClient scenarioBytes) scenarioPool
        (AddRequestToPool.init zeroRequest 4 "10.0.0.1".toList
          "5000".toList)).2.2.2.proxy_state = ProxyState.CONNECTED ∧
      0 ≤ (WorkThread.client csapp8192 scenarioModule (worldWithClient scenarioBytes)
        scenarioPool
        (AddRequestToPool.init zeroRequest 4 "10.0.0.1".toList "5000".toList)).2.2.2.server_fd :=
  ⟨by decide,
    (state_monotone csapp8192 scenarioModule _
      (Lifetime.client (worldWithClient scenarioBytes) scenarioPool _
        (Lifetime.admitted zeroRequest 4 "10.0.0.1".toList "5000".toList)
        (by decide))).1.1 (by decide)⟩

/-! ## Theorems: where the cache files lie -/

/-- The components of the path names of a key and of the directory they start
with. -/
theorem key_split_root (exe x : List Char) :
    ∃ pre tl, ∀ w, '/' ∉ w →
      splitPath (exeDir exe ++ w ++ dropTrailingSlashes ('/' :: x)) = pre ++ w :: tl ∧
        splitPath (exeDir exe ++ w) = pre ++ [w] := by
  have hR : ∃ tl, ∀ w, '/' ∉ w →
      splitPath (w ++ dropTrailingSlashes ('/' :: x)) = w :: tl := by
    cases hr : dropTrailingSlashes ('/' :: x) with
    | nil =>
      refine ⟨[], fun w hw => ?_⟩
      rw [List.append_nil]
      exact splitPath_noslash w hw
    | cons c r =>
      have hpre := dropTrailingSlashes_prefix ('/' :: x)
      rw [hr] at hpre
      have hc : c = '/' := by
        obtain ⟨suf, hs⟩ := hpre
        simp only [List.cons_append, List.cons.injEq] at hs
        exact hs.1
      refine ⟨splitPath r, fun w hw => ?_⟩
      rw [hc, splitPath_append_slash, splitPath_noslash w hw]
      rfl
  obtain ⟨tl, htl⟩ := hR
  rcases exeDir_cases exe with h | ⟨d, h⟩
  · refine ⟨[], tl, fun w hw => ⟨?_, ?_⟩⟩
    · rw [h, List.nil_append, List.nil_append]
      exact htl w hw
    · rw [h, List.nil_append, List.nil_append]
      exact splitPath_noslash w hw
  · refine ⟨splitPath d, tl, fun w hw => ⟨?_, ?_⟩⟩
    · rw [h, List.append_assoc, List.append_assoc, List.singleton_append,
        splitPath_append_slash, htl w hw]
    · rw [h, List.append_assoc, List.singleton_append, splitPath_append_slash,
        splitPath_noslash w hw]

/-- C30 (amended): for every key for which `CreateCacheInfo` succeeds and
whose cache path has no `..` component (in particular when neither the Host
value nor the derived path has one; a `/` in the Host value does no harm),
what the cache path resolves to lies below the cache root and what the temp
path resolves to lies below the temp root. -/
theorem cache_files_below_roots (exe host url : List Char) (os : OS) (c : Path)
    (hci : (CreateCacheInfo (InitCacheModule.dirs exe) host url).1 = 0)
    (hdd : ['.', '.'] ∉
      splitPath (CreateCacheInfo (InitCacheModule.dirs exe) host url).2.cache_path)
    (hr : os.resolve (CreateCacheInfo (InitCacheModule.dirs exe) host url).2.cache_path =
      some c) :
    os.lexical (exeDir exe ++ ".cache".toList) <+: c ∧
      ∀ t, os.resolve (CreateCacheInfo (InitCacheModule.dirs exe) host url).2.temp_path =
          some t →
        os.lexical (exeDir exe ++ ".tmp".toList) <+: t := by
  have hddt := (key_paths exe host url os hci).1 hdd
  rw [createCacheInfo_ok _ host url hci] at hdd hr hddt ⊢
  simp only at hdd hr hddt ⊢
  rw [cache_path_eq] at hdd hr
  rw [temp_path_eq] at hddt ⊢
  obtain ⟨pre, tl, h⟩ := key_split_root exe (host ++ url)
  obtain ⟨hc1, hc2⟩ := h ['.', 'c', 'a', 'c', 'h', 'e'] (by decide)
  obtain ⟨ht1, ht2⟩ := h ['.', 't', 'm', 'p'] (by decide)
  constructor
  · have e := resolve_lexical os _ c hdd hr
    rw [e]
    unfold OS.lexical
    change os.start (exeDir exe ++ ['.', 'c', 'a', 'c', 'h', 'e']) ++
      properNames (splitPath (exeDir exe ++ ['.', 'c', 'a', 'c', 'h', 'e'])) <+: _
    rw [hc1, hc2, properNames_mid pre tl _ (by decide) (by decide),
      properNames_mid pre [] _ (by decide) (by decide)]
    have hs : os.start (exeDir exe ++ ['.', 'c', 'a', 'c', 'h', 'e'] ++
        dropTrailingSlashes ('/' :: (host ++ url))) =
        os.start (exeDir exe ++ ['.', 'c', 'a', 'c', 'h', 'e']) := by
      have := start_dot os (exeDir exe)
        (['c', 'a', 'c', 'h', 'e'] ++ dropTrailingSlashes ('/' :: (host ++ url)))
        ['c', 'a', 'c', 'h', 'e']
      simpa using this
    rw [hs]
    exact ⟨properNames tl, by simp [properNames]⟩
  · intro t htr
    have e := resolve_lexical os _ t hddt htr
    rw [e]
    unfold OS.lexical
    change os.start (exeDir exe ++ ['.', 't', 'm', 'p']) ++
      properNames (splitPath (exeDir exe ++ ['.', 't', 'm', 'p'])) <+: _
    rw [ht1, ht2, properNames_mid pre tl _ (by decide) (by decide),
      properNames_mid pre [] _ (by decide) (by decide)]
    have hs : os.start (exeDir exe ++ ['.', 't', 'm', 'p'] ++
        dropTrailingSlashes ('/' :: (host ++ url))) =
        os.start (exeDir exe ++ ['.', 't', 'm', 'p']) := by
      have := start_dot os (exeDir exe)
        (['t', 'm', 'p'] ++ dropTrailingSlashes ('/' :: (host ++ url))) ['t', 'm', 'p']
      simpa using this
    rw [hs]
    exact ⟨properNames tl, by simp [properNames]⟩

/-- C30 (witness): the key of the scenario after its entry has been
published. -/
theorem cache_files_below_roots_witness :
    publishedOS.resolve
        (CreateCacheInfo scenarioModule "example.com".toList "/a".toList).2.cache_path =
        some ["srv".toList, ".cache".toList, "example.com".toList, "a".toList] ∧
      publishedOS.lexical (exeDir "/srv/proxy".toList ++ ".cache".toList) <+:
        ["srv".toList, ".cache".toList, "example.com".toList, "a".toList] :=
  ⟨by decide,
    (cache_files_below_roots "/srv/proxy".toList "example.com".toList "/a".toList publishedOS
      ["srv".toList, ".cache".toList, "example.com".toList, "a".toList] (by decide)
      (by decide) (by decide)).1⟩

/-- C30 (counterexample): the installation holds a file `/srv/secret` beside
its cache directories, and a client sends `GET http://../secret HTTP/1.1` with
the header `Host: ..`.  `CreateCacheInfo` succeeds; the cache path
`/srv/.cache/../secret` resolves to `/srv/secret`, outside the cache root
`/srv/.cache`; `IsCacheHit` reports a hit, and in the same pass the proxy
sends the file to the client. -/
theorem host_dotdot_leaves_cache_root :
    (CreateCacheInfo scenarioModule "..".toList "/secret".toList).1 = 0 ∧
      secretOS.lexical (exeDir "/srv/proxy".toList ++ ".cache".toList) =
        ["srv".toList, ".cache".toList] ∧
      secretOS.resolve
          (CreateCacheInfo scenarioModule "..".toList "/secret".toList).2.cache_path =
        some ["srv".toList, "secret".toList] ∧
      IsCacheHit secretOS (CreateCacheInfo scenarioModule "..".toList "/secret".toList).2 = 1 ∧
      (HandleUnconnectedClientFd csapp8192 scenarioModule dotdotWorld scenarioPool
        scenarioRequest).2.2.2.http_request.host = "..".toList ∧
      (HandleUnconnectedClientFd csapp8192 scenarioModule dotdotWorld scenarioPool
        scenarioRequest).2.2.2.proxy_state = ProxyState.CACHED ∧
      ((WorkThread.client csapp8192 scenarioModule dotdotWorld scenarioPool
        scenarioRequest).2.1.sock 4).map Sock.tx = some "top secret\n".toList := by
  decide

/-! ## Theorems: what a handler waits for -/

/-- The loop of `HandleConnectedClientFd` on a read buffer that holds complete
lines only: it takes nothing from the socket of the client. -/
theorem connected_loop_ready (k : Csapp) :
    ∀ (fuel : Nat) (ls : List (List Char)) (w : World) (request : ProxyMeta) (s : Sock),
      request.client_rp.buf = ls.flatten →
      (∀ l ∈ ls, ∃ pre, l = pre ++ ['\n'] ∧ '\n' ∉ pre ∧ l.length ≤ k.MAXBUF - 1) →
      ls ≠ [] → w.sock request.client_fd = some s →
      ∃ s2, (HandleConnectedClientFd.loop k fuel w request).2.1.sock request.client_fd =
          some s2 ∧ s2.rx = s.rx := by
  intro fuel
  induction fuel with
  | zero => intro ls w request s _ _ _ hs; exact ⟨s, hs, rfl⟩
  | succ fuel ih =>
    intro ls w request s hbuf hall hne hs
    cases ls with
    | nil => exact absurd rfl hne
    | cons l rest =>
      obtain ⟨pre, hl, hpre, hlen⟩ := hall l (List.mem_cons_self _ _)
      have hrp : request.client_rp =
          { rio_fd := request.client_rp.rio_fd, buf := pre ++ '\n' :: rest.flatten } := by
        cases hr : request.client_rp with
        | mk fd buf =>
          rw [hr] at hbuf
          simp only at hbuf
          rw [hbuf, List.flatten_cons, hl]
          simp
      have hrd := readline_buffered_line k.RIO_BUFSIZE w request.client_rp.rio_fd pre
        rest.flatten k.MAXBUF hpre (by
          rw [hl] at hlen
          simpa using hlen)
      rw [← hrp] at hrd
      have hpos : (0 : Int) < (((pre ++ ['\n']).length : Nat) : Int) := by
        simp only [List.length_append, List.length_singleton]
        omega
      simp only [HandleConnectedClientFd.loop, hrd]
      rw [if_neg (by omega), if_neg (by omega)]
      obtain ⟨s1, hs1, hrx, _⟩ := (rio_writen_step request.server_fd w (pre ++ ['\n'])).2.2.1
        request.client_fd s hs
      by_cases hw : (rio_writen (sock_write request.server_fd) w (pre ++ ['\n'])).1 < 0
      · rw [if_pos hw]
        exact ⟨s1, hs1, hrx⟩
      · rw [if_neg hw]
        by_cases hb : 0 < rest.flatten.length
        · rw [if_pos hb]
          have hrest : rest ≠ [] := by
            intro h
            rw [h] at hb
            simp at hb
          obtain ⟨s2, h1, h2⟩ := ih rest
            (rio_writen (sock_write request.server_fd) w (pre ++ ['\n'])).2
            { request with
              client_rp := { rio_fd := request.client_rp.rio_fd, buf := rest.flatten } } s1 rfl
            (fun x hx => hall x (List.mem_cons_of_mem _ hx)) hrest hs1
          exact ⟨s2, h1, h2.trans hrx⟩
        · rw [if_neg hb]
          exact ⟨s1, hs1, hrx⟩

/-- C24 (amended): a handler reads through the line reader, which goes on
reading from the peer until it has a newline, `MAXBUF - 1` bytes, the end of
the stream or an error.  When the bytes that have arrived from the client are
complete lines (each at most `MAXBUF - 1` bytes, together at most
`RIO_BUFSIZE`), `HandleConnectedClientFd` takes exactly those bytes from the
socket and no later ones; the line reader leaves the sockets alone when its
buffer holds a complete line; and when its buffer holds an unterminated part
of a line, the line reader takes what the next `read` brings and goes on from
there. -/
theorem handler_reads_complete_lines (k : Csapp) (w : World) (request : ProxyMeta) (s : Sock)
    (lines : List (List Char)) (more : List (List Char))
    (hrp : request.client_rp = { rio_fd := request.client_fd, buf := [] })
    (hs : w.sock request.client_fd = some s) (hrx : s.rx = lines.flatten :: more)
    (hne : lines ≠ [])
    (hall : ∀ l ∈ lines, ∃ pre, l = pre ++ ['\n'] ∧ '\n' ∉ pre ∧ l.length ≤ k.MAXBUF - 1)
    (hseg : lines.flatten.length ≤ k.RIO_BUFSIZE) :
    (∃ s2, (HandleConnectedClientFd k w request).2.1.sock request.client_fd = some s2 ∧
        s2.rx = more) ∧
      (∀ (pre rest : List Char) (fd : Int), '\n' ∉ pre → pre.length + 1 ≤ k.MAXBUF - 1 →
        (rio_readlineb sock_read k.RIO_BUFSIZE w { rio_fd := fd, buf := pre ++ '\n' :: rest }
          k.MAXBUF).2.2.1 = w) ∧
      (∀ (pre seg2 : List Char) (more2 : List (List Char)) (w2 : World) (s0 : Sock) (fd : Int),
        '\n' ∉ pre → pre.length < k.MAXBUF - 1 → w2.sock fd = some s0 →
        s0.rx = seg2 :: more2 → seg2 ≠ [] → seg2.length ≤ k.RIO_BUFSIZE →
        rio_readlineb sock_read k.RIO_BUFSIZE w2 { rio_fd := fd, buf := pre } k.MAXBUF =
          rio_readlineb.loop sock_read k.RIO_BUFSIZE (k.MAXBUF - 1 - pre.length)
            (w2.setSock fd { s0 with rx := more2 }) { rio_fd := fd, buf := seg2 } pre) := by
  refine ⟨?_, ?_, ?_⟩
  · cases lines with
    | nil => exact absurd rfl hne
    | cons l rest =>
      obtain ⟨pre, hl, hpre, hlen⟩ := hall l (List.mem_cons_self _ _)
      have hread := sock_read_short w request.client_fd k.RIO_BUFSIZE s more
        ((l :: rest).flatten) hs hrx hseg
      have hseg2 : (l :: rest).flatten = pre ++ '\n' :: rest.flatten := by
        rw [List.flatten_cons, hl]
        simp
      rw [hseg2] at hread
      have hrd := readline_refill_line k.RIO_BUFSIZE w _ request.client_fd pre rest.flatten
        k.MAXBUF hpre (by
          rw [hl] at hlen
          simpa using hlen) hread
      rw [← hrp] at hrd
      have hpos : (0 : Int) < (((pre ++ ['\n']).length : Nat) : Int) := by
        simp only [List.length_append, List.length_singleton]
        omega
      unfold HandleConnectedClientFd
      simp only [HandleConnectedClientFd.loop, hrd]
      rw [if_neg (by omega), if_neg (by omega)]
      obtain ⟨s1, hs1, hrx1, _⟩ := (rio_writen_step request.server_fd
        (w.setSock request.client_fd { s with rx := more }) (pre ++ ['\n'])).2.2.1
        request.client_fd { s with rx := more } (sock_setSock_same _ _ _)
      by_cases hw : (rio_writen (sock_write request.server_fd)
          (w.setSock request.client_fd { s with rx := more }) (pre ++ ['\n'])).1 < 0
      · rw [if_pos hw]
        exact ⟨s1, hs1, hrx1⟩
      · rw [if_neg hw]
        by_cases hb : 0 < rest.flatten.length
        · rw [if_pos hb]
          have hrest : rest ≠ [] := by
            intro h
            rw [h] at hb
            simp at hb
          obtain ⟨s2, h1, h2⟩ := connected_loop_ready k (unreadBytes w request) rest
            (rio_writen (sock_write request.server_fd)
              (w.setSock request.client_fd { s with rx := more }) (pre ++ ['\n'])).2
            { request with
              client_rp := { rio_fd := request.client_fd, buf := rest.flatten } } s1 rfl
            (fun x hx => hall x (List.mem_cons_of_mem _ hx)) hrest hs1
          exact ⟨s2, h1, h2.trans hrx1⟩
        · rw [if_neg hb]
          exact ⟨s1, hs1, hrx1⟩
  · intro pre rest fd hpre hlen
    rw [readline_buffered_line k.RIO_BUFSIZE w fd pre rest k.MAXBUF hpre hlen]
  · intro pre seg2 more2 w2 s0 fd hpre hlen hs0 hrx0 hseg0 hlen0
    have hread := sock_read_short w2 fd k.RIO_BUFSIZE s0 more2 seg2 hs0 hrx0 hlen0
    unfold rio_readlineb
    have h1 := readline_loop_buffered k.RIO_BUFSIZE pre (k.MAXBUF - 1) w2 fd [] []
      hpre (by omega)
    rw [List.append_nil, List.nil_append] at h1
    rw [h1, readline_loop_refill k.RIO_BUFSIZE _ w2 _ fd seg2 pre (by omega) hseg0 hread]

/-- C24 (witness): the client of the scenario has sent its whole request; the
connection is `CONNECTED` and the read buffer is empty. -/
theorem handler_reads_complete_lines_witness :
    ∃ s2, (HandleConnectedClientFd csapp8192 (worldWithClient scenarioBytes)
        { scenarioRequest with proxy_state := ProxyState.CONNECTED }).2.1.sock 4 = some s2 ∧
      s2.rx = [] :=
  (handler_reads_complete_lines csapp8192 (worldWithClient scenarioBytes)
    { scenarioRequest with proxy_state := ProxyState.CONNECTED }
    { rx := [scenarioBytes], rx_err := false, tx := [], tx_room := none }
    ["GET http://example.com/a HTTP/1.1\r\n".toList, "Host: example.com\r\n".toList,
      "\r\n".toList] []
    rfl rfl rfl (by decide)
    (by
      intro l hl
      simp only [List.mem_cons, List.mem_singleton, List.not_mem_nil, or_false] at hl
      rcases hl with h | h | h
      · exact ⟨"GET http://example.com/a HTTP/1.1\r".toList, by rw [h]; decide, by decide,
          by rw [h]; decide⟩
      · exact ⟨"Host: example.com\r".toList, by rw [h]; decide, by decide, by rw [h]; decide⟩
      · exact ⟨"\r".toList, by rw [h]; decide, by decide, by rw [h]; decide⟩)
    (by decide)).1

/-- C24 (counterexample): a client has sent the first 27 bytes of its request
line, without a newline, and the rest of the line comes with a later segment:
the one invocation of `HandleUnconnectedClientFd` takes both segments, so it
returns only when the rest has come.  And a client has sent its request line
and its Host header, and the empty line comes with a later segment: the pass
that connects to the origin goes on to `HandleConnectedClientFd`, which takes
the later segment too. -/
theorem handler_waits_for_the_peer :
    ((HandleUnconnectedClientFd csapp8192 scenarioModule partialLineWorld scenarioPool
          scenarioRequest).2.1.sock 4).map Sock.rx = some [] ∧
      (HandleUnconnectedClientFd csapp8192 scenarioModule partialLineWorld scenarioPool
        scenarioRequest).2.2.2.http_request.origin_lines =
        [⟨"GET http://example.com/a HTTP/1.1\r\n".toList, true⟩] ∧
      ((HandleUnconnectedClientFd csapp8192 scenarioModule headersOnlyWorld scenarioPool
          scenarioRequest).2.1.sock 4).map Sock.rx = some ["\r\n".toList] ∧
      (HandleUnconnectedClientFd csapp8192 scenarioModule headersOnlyWorld scenarioPool
        scenarioRequest).2.2.2.proxy_state = ProxyState.CONNECTED ∧
      ((WorkThread.client csapp8192 scenarioModule headersOnlyWorld scenarioPool
          scenarioRequest).2.1.sock 4).map Sock.rx = some [] := by
  decide

/-! ## Theorems: admission -/

theorem addRequestToPool_full (pool : RequestPool) (avail_pools client_fd : Int)
    (hostname port : List Char) (hfull : (MAX_REQ : Int) ≤ pool.req_num) :
    AddRequestToPool pool avail_pools client_fd hostname port = (0, pool, avail_pools) := by
  unfold AddRequestToPool
  rw [if_pos hfull]

theorem addRequestToPool_counts (pool : RequestPool) (avail_pools client_fd : Int)
    (hostname port : List Char) (hroom : pool.req_num < (MAX_REQ : Int)) :
    (AddRequestToPool pool avail_pools client_fd hostname port).1 = 1 ∧
      (AddRequestToPool pool avail_pools client_fd hostname port).2.1.req_num =
        pool.req_num + 1 ∧
      (AddRequestToPool pool avail_pools client_fd hostname port).2.2 =
        (if pool.req_num + 1 = (MAX_REQ : Int) then avail_pools - 1 else avail_pools) := by
  have hn : ¬ (MAX_REQ : Int) ≤ pool.req_num := by omega
  unfold AddRequestToPool
  rw [if_neg hn]
  simp only
  cases AddRequestToPool.slot (pool.enabled.take MAX_REQ) 0 with
  | none => simp
  | some i =>
    simp only
    have hr : pool.requests[i]? = none ∨ ∃ old, pool.requests[i]? = some old := by
      cases pool.requests[i]? <;> simp
    rcases hr with hr | ⟨old, hr⟩ <;> simp [hr]

/-- The loop of `HandleConnection` stores the connection in the first pool,
in the order of its visits, that is not full. -/
theorem place_first (connfd : Int) (hostname port : List Char) :
    ∀ (n i : Nat) (st : Proxy) (j : Nat) (pool : RequestPool),
      i ≤ j → j < i + n →
      st.request_pools[(st.next_worker + j) % NTHREAD]? = some pool →
      pool.req_num < (MAX_REQ : Int) →
      (∀ j2 q, i ≤ j2 → j2 < j →
        st.request_pools[(st.next_worker + j2) % NTHREAD]? = some q →
        (MAX_REQ : Int) ≤ q.req_num) →
      HandleConnection.place connfd hostname port n i st =
        { request_pools :=
            st.request_pools.set ((st.next_worker + j) % NTHREAD)
              (AddRequestToPool pool st.avail_pools connfd hostname port).2.1,
          avail_pools := (AddRequestToPool pool st.avail_pools connfd hostname port).2.2,
          next_worker := ((st.next_worker + j) % NTHREAD + 1) % NTHREAD } := by
  intro n
  induction n with
  | zero => intro i st j pool h1 h2; omega
  | succ n ih =>
    intro i st j pool h1 h2 hget hroom hfull
    rw [HandleConnection.place]
    simp only
    rcases Nat.eq_or_lt_of_le h1 with heq | hlt
    · subst heq
      rw [hget]
      simp only
      have h1 := (addRequestToPool_counts pool st.avail_pools connfd hostname port hroom).1
      rw [if_pos (by rw [h1]; decide)]
    · have hrest := ih (i + 1) st j pool (by omega) (by omega) hget hroom
        (fun j2 q a b c => hfull j2 q (by omega) b c)
      cases hq : st.request_pools[(st.next_worker + i) % NTHREAD]? with
      | none => exact hrest
      | some q =>
        simp only
        rw [addRequestToPool_full q st.avail_pools connfd hostname port
          (hfull i q (le_refl i) hlt hq)]
        simp only [ne_eq, not_true_eq_false, if_false]
        exact hrest

/-- While no request is removed, the admissions fill the pools in turn: after
`n` of them the next pool to try is `n % NTHREAD`, pool `j` holds
`n / NTHREAD` requests and one more when `j < n % NTHREAD`, and the counter
of the pools that are not full is the number of such pools. -/
theorem admitted_inv : ∀ (n : Nat) (st : Proxy), Admitted n st →
    n ≤ NTHREAD * MAX_REQ ∧ st.next_worker = n % NTHREAD ∧
      st.request_pools.length = NTHREAD ∧
      ((st.avail_pools = 4 ∧ n ≤ 316) ∨ (st.avail_pools = 320 - (n : Int) ∧ 316 ≤ n)) ∧
      ∀ j, j < NTHREAD → ∃ pool, st.request_pools[j]? = some pool ∧
        pool.req_num = ((n / NTHREAD + (if j < n % NTHREAD then 1 else 0) : Nat) : Int) := by
  intro n st h
  induction h with
  | start =>
    refine ⟨by decide, rfl, by simp [Proxy.start], Or.inl ⟨rfl, by decide⟩, ?_⟩
    intro j hj
    refine ⟨_, by simp only [Proxy.start]; rw [List.getElem?_replicate, if_pos hj], ?_⟩
    simp [InitRequestPool]
  | conn n st w connfd hostname port w2 st2 _ hc ih =>
    obtain ⟨hn, hnext, hlen, havail, hpools⟩ := ih
    simp only [NTHREAD, MAX_REQ] at hn hnext hlen hpools
    unfold HandleConnection at hc
    by_cases hwait : st.avail_pools ≤ 0
    · simp [hwait] at hc
    · simp [hwait] at hc
      obtain ⟨pool, hget, hnum⟩ := hpools (n % 4) (Nat.mod_lt n (by decide))
      simp only [lt_self_iff_false, if_false, Nat.add_zero] at hnum
      have hroom : pool.req_num < (MAX_REQ : Int) := by
        rw [hnum]
        simp only [MAX_REQ]
        omega
      have hget0 : st.request_pools[(st.next_worker + 0) % NTHREAD]? = some pool := by
        rw [hnext]
        simp only [NTHREAD, Nat.add_zero, Nat.mod_mod]
        exact hget
      have hp := place_first connfd hostname port NTHREAD 0 st 0 pool (le_refl 0) (by decide)
        hget0 hroom (fun j2 q a b => by omega)
      obtain ⟨_, hc2⟩ := hc
      rw [hp] at hc2
      obtain ⟨a1, a2, a3⟩ := addRequestToPool_counts pool st.avail_pools connfd hostname port hroom
      subst hc2
      simp only [NTHREAD, MAX_REQ, Nat.add_zero, Nat.mod_mod, hnext, List.length_set]
      refine ⟨by omega, by omega, hlen, ?_, ?_⟩
      · rw [a3, hnum]
        simp only [MAX_REQ]
        by_cases h79 : ((n / 4 : Nat) : Int) + 1 = ((80 : Nat) : Int)
        · rw [if_pos h79]
          omega
        · rw [if_neg h79]
          omega
      · intro j hj
        by_cases hjn : j = n % 4
        · subst hjn
          refine ⟨_, List.getElem?_set_self (by omega), ?_⟩
          rw [a2, hnum]
          split_ifs <;> omega
        · obtain ⟨q, hq, hqn⟩ := hpools j hj
          refine ⟨q, by rw [List.getElem?_set_ne (Ne.symm hjn)]; exact hq, ?_⟩
          rw [hqn]
          split_ifs <;> omega

theorem count_set_true (l : List Bool) (i : Nat) (h : l[i]? = some false) :
    (l.set i true).count true = l.count true + 1 := by
  obtain ⟨hi, hv⟩ := List.getElem?_eq_some_iff.mp h
  rw [List.count_set true true l i hi, hv]
  simp

theorem count_set_false (l : List Bool) (i : Nat) (h : l[i]? = some true) :
    (l.set i false).count true + 1 = l.count true := by
  obtain ⟨hi, hv⟩ := List.getElem?_eq_some_iff.mp h
  have hpos : 0 < l.count true :=
    List.count_pos_iff.mpr (List.mem_iff_getElem?.mpr ⟨i, h⟩)
  rw [List.count_set false true l i hi, hv]
  simp
  omega

theorem slot_some : ∀ (l : List Bool) (s i : Nat), AddRequestToPool.slot l s = some i →
    s ≤ i ∧ l[i - s]? = some false := by
  intro l
  induction l with
  | nil => intro s i h; simp [AddRequestToPool.slot] at h
  | cons e rest ih =>
    intro s i h
    rw [AddRequestToPool.slot] at h
    cases e with
    | true =>
      simp only [if_true] at h
      obtain ⟨h1, h2⟩ := ih (s + 1) i h
      refine ⟨by omega, ?_⟩
      have : i - s = (i - (s + 1)) + 1 := by omega
      rw [this, List.getElem?_cons_succ]
      exact h2
    | false =>
      simp only [Bool.false_eq_true, if_false, Option.some.injEq] at h
      subst h
      simp

theorem slot_none : ∀ (l : List Bool) (s : Nat), AddRequestToPool.slot l s = none →
    l.count true = l.length := by
  intro l
  induction l with
  | nil => intro s _; rfl
  | cons e rest ih =>
    intro s h
    rw [AddRequestToPool.slot] at h
    cases e with
    | true =>
      simp only [if_true] at h
      simp [ih (s + 1) h]
    | false => simp at h

/-- `AddRequestToPool` on a pool that is not full and whose count of requests
is the number of its enabled slots: a slot that was not enabled receives the
connection. -/
theorem addRequestToPool_slot (pool : RequestPool) (avail_pools client_fd : Int)
    (hostname port : List Char) (hroom : pool.req_num < (MAX_REQ : Int))
    (hreqs : pool.requests.length = MAX_REQ) (hen : pool.enabled.length = MAX_REQ)
    (hnum : pool.req_num = (pool.enabled.count true : Nat)) :
    ∃ i old, pool.enabled[i]? = some false ∧ pool.requests[i]? = some old ∧
      AddRequestToPool pool avail_pools client_fd hostname port =
        (1,
          { requests := pool.requests.set i
              (AddRequestToPool.init old client_fd hostname port),
            enabled := pool.enabled.set i true,
            req_num := pool.req_num + 1,
            read_set := client_fd :: pool.read_set,
            max_fd := if pool.max_fd < client_fd then client_fd else pool.max_fd },
          if pool.req_num + 1 = (MAX_REQ : Int) then avail_pools - 1 else avail_pools) := by
  have htake : pool.enabled.take MAX_REQ = pool.enabled :=
    List.take_of_length_le (by omega)
  have hn : ¬ (MAX_REQ : Int) ≤ pool.req_num := by omega
  cases hs : AddRequestToPool.slot pool.enabled 0 with
  | none =>
    have := slot_none pool.enabled 0 hs
    omega
  | some i =>
    obtain ⟨_, hi⟩ := slot_some pool.enabled 0 i hs
    rw [Nat.sub_zero] at hi
    have hlt : i < pool.requests.length := by
      obtain ⟨h, _⟩ := List.getElem?_eq_some_iff.mp hi
      omega
    refine ⟨i, pool.requests[i], hi, List.getElem?_eq_getElem hlt, ?_⟩
    unfold AddRequestToPool
    rw [if_neg hn, htake, hs]
    simp only [List.getElem?_eq_getElem hlt]

theorem rmRequestInpool_length (w : World) (pool : RequestPool) (index : Nat) :
    (RmRequestInpool w pool index).2.requests.length = pool.requests.length := by
  unfold RmRequestInpool
  cases pool.requests[index]? with
  | none => rfl
  | some r => simp

/-- The part of the body of the inner loop of `WorkThread` after the handlers
for the client descriptor keeps the number of slots. -/
theorem handle_tail_length (k : Csapp) (pool : RequestPool) (ready_set : List Int)
    (req_ind : Nat) (server_fd : Int) (c : Int × World × RequestPool × ProxyMeta)
    (hc1 : c.2.2.1.requests = pool.requests) :
    (let pool1 : RequestPool :=
        { c.2.2.1 with requests := c.2.2.1.requests.set req_ind c.2.2.2 }
      let s1 := if c.1 ≤ 0 then RmRequestInpool c.2.1 pool1 req_ind else (c.2.1, pool1)
      if 0 < c.1 ∧ 0 ≤ server_fd ∧ server_fd ∈ ready_set then
        let r := HandleServerFd k s1.1 c.2.2.2
        let pool2 : RequestPool := { s1.2 with requests := s1.2.requests.set req_ind r.2.2 }
        if r.1 ≤ 0 then RmRequestInpool r.2.1 pool2 req_ind else (r.2.1, pool2)
      else s1).2.requests.length = pool.requests.length := by
  simp only
  split_ifs <;> simp [rmRequestInpool_length, hc1]

/-- One pass of a worker over a request: the slot is disabled and the count
of the pool decreased exactly when the last handler run has returned a
non-positive value, and the number of slots stays. -/
theorem handle_counts (k : Csapp) (m : CacheModule) (w : World) (pool : RequestPool)
    (ready_set : List Int) (req_ind : Nat) (request : ProxyMeta)
    (hreq : pool.requests[req_ind]? = some request) :
    (WorkThread.handle k m w pool ready_set req_ind).2.enabled =
        (if WorkThread.retval k m w pool ready_set req_ind ≤ 0 then
          pool.enabled.set req_ind false else pool.enabled) ∧
      (WorkThread.handle k m w pool ready_set req_ind).2.req_num =
        (if WorkThread.retval k m w pool ready_set req_ind ≤ 0 then pool.req_num - 1
          else pool.req_num) ∧
      (WorkThread.handle k m w pool ready_set req_ind).2.requests.length =
        pool.requests.length := by
  have hlen : req_ind < pool.requests.length := by
    rcases Nat.lt_or_ge req_ind pool.requests.length with h | h
    · exact h
    · rw [List.getElem?_eq_none h] at hreq
      exact absurd hreq (by simp)
  obtain ⟨c1, c2, c3⟩ := client_pool k m w pool request
  have hc : (if 0 ≤ request.client_fd ∧ request.client_fd ∈ ready_set then
        WorkThread.client k m w pool request else (1, w, pool, request)).2.2.1.req_num =
        pool.req_num ∧
      (if 0 ≤ request.client_fd ∧ request.client_fd ∈ ready_set then
        WorkThread.client k m w pool request else (1, w, pool, request)).2.2.1.enabled =
        pool.enabled ∧
      (if 0 ≤ request.client_fd ∧ request.client_fd ∈ ready_set then
        WorkThread.client k m w pool request else (1, w, pool, request)).2.2.1.requests =
        pool.requests := by
    split_ifs
    · exact ⟨c1, c2, c3⟩
    · exact ⟨rfl, rfl, rfl⟩
  have h12 : (WorkThread.handle k m w pool ready_set req_ind).2.enabled =
        (if WorkThread.retval k m w pool ready_set req_ind ≤ 0 then
          pool.enabled.set req_ind false else pool.enabled) ∧
      (WorkThread.handle k m w pool ready_set req_ind).2.req_num =
        (if WorkThread.retval k m w pool ready_set req_ind ≤ 0 then pool.req_num - 1
          else pool.req_num) := by
    unfold WorkThread.handle WorkThread.retval
    rw [hreq]
    exact handle_tail k pool ready_set req_ind request.server_fd _ hlen hc
  refine ⟨h12.1, h12.2, ?_⟩
  unfold WorkThread.handle
  rw [hreq]
  exact handle_tail_length k pool ready_set req_ind request.server_fd _ hc.2.2

theorem countP_set_int {α : Type} (p : α → Bool) (l : List α) (i : Nat) (a b : α)
    (h : l[i]? = some a) :
    ((l.set i b).countP p : Int) =
      (l.countP p : Int) - (if p a = true then 1 else 0) + (if p b = true then 1 else 0) := by
  obtain ⟨hi, hv⟩ := List.getElem?_eq_some_iff.mp h
  have hpos : p a = true → 0 < l.countP p := fun hp =>
    List.countP_pos_iff.mpr ⟨a, List.mem_iff_getElem?.mpr ⟨i, h⟩, hp⟩
  rw [List.countP_set p l i b hi, hv]
  cases hpa : p a <;> cases hpb : p b <;> simp
  all_goals
    have := hpos hpa
    omega

/-- The loop of `HandleConnection` finds a pool when one of those it visits
is not full: the first such pool in the order of the visits. -/
theorem place_exists (st : Proxy) (n : Nat)
    (hex : ∃ j q, j < n ∧ st.request_pools[(st.next_worker + j) % NTHREAD]? = some q ∧
      q.req_num < (MAX_REQ : Int)) :
    ∃ j pool, j < n ∧ st.request_pools[(st.next_worker + j) % NTHREAD]? = some pool ∧
      pool.req_num < (MAX_REQ : Int) ∧
      ∀ j2 q, j2 < j → st.request_pools[(st.next_worker + j2) % NTHREAD]? = some q →
        (MAX_REQ : Int) ≤ q.req_num := by
  classical
  have hex2 : ∃ j, ∃ q, j < n ∧ st.request_pools[(st.next_worker + j) % NTHREAD]? = some q ∧
      q.req_num < (MAX_REQ : Int) := hex
  obtain ⟨q, h1, h2, h3⟩ := Nat.find_spec hex2
  refine ⟨Nat.find hex2, q, h1, h2, h3, ?_⟩
  intro j2 q2 hlt hq2
  by_contra hnot
  exact Nat.find_min hex2 hlt ⟨q2, by omega, hq2, by omega⟩

/-- The loop of `HandleConnection` in a state with consistent bookkeeping and
a positive counter: one pool receives the connection in a slot that was not
enabled, and nothing else in the pools changes. -/
theorem place_shape (st : Proxy) (connfd : Int) (hostname port : List Char)
    (hlen : st.request_pools.length = NTHREAD)
    (hpools : ∀ pool ∈ st.request_pools,
      pool.requests.length = MAX_REQ ∧ pool.enabled.length = MAX_REQ ∧
        pool.req_num = (pool.enabled.count true : Nat))
    (havail : st.avail_pools =
      (st.request_pools.countP (fun pool => decide (pool.req_num < (MAX_REQ : Int))) : Nat))
    (hpos : 0 < st.avail_pools) :
    ∃ j pool i old, j < NTHREAD ∧ st.request_pools[j]? = some pool ∧
      pool.req_num < (MAX_REQ : Int) ∧ pool.enabled[i]? = some false ∧
      pool.requests[i]? = some old ∧
      HandleConnection.place connfd hostname port NTHREAD 0 st =
        { request_pools :=
            st.request_pools.set j
              { requests := pool.requests.set i
                  (AddRequestToPool.init old connfd hostname port),
                enabled := pool.enabled.set i true,
                req_num := pool.req_num + 1,
                read_set := connfd :: pool.read_set,
                max_fd := if pool.max_fd < connfd then connfd else pool.max_fd },
          avail_pools :=
            if pool.req_num + 1 = (MAX_REQ : Int) then st.avail_pools - 1
            else st.avail_pools,
          next_worker := (j + 1) % NTHREAD } := by
  have hpos2 : 0 < st.request_pools.countP
      (fun pool => decide (pool.req_num < (MAX_REQ : Int))) := by omega
  obtain ⟨q, hq, hqroom⟩ := List.countP_pos_iff.mp hpos2
  obtain ⟨jq, hjq⟩ := List.mem_iff_getElem?.mp hq
  have hjq4 : jq < 4 := by
    obtain ⟨h, _⟩ := List.getElem?_eq_some_iff.mp hjq
    simp only [NTHREAD] at hlen
    omega
  obtain ⟨j, pool, hj, hget, hroom, hfull⟩ := place_exists st NTHREAD
    ⟨(jq + 4 - st.next_worker % 4) % 4, q, Nat.mod_lt _ (by decide), by
      have : (st.next_worker + (jq + 4 - st.next_worker % 4) % 4) % NTHREAD = jq := by
        simp only [NTHREAD]
        omega
      rw [this]
      exact hjq, by simpa using hqroom⟩
  have hp := place_first connfd hostname port NTHREAD 0 st j pool (Nat.zero_le j)
    (by omega) hget hroom (fun j2 q2 _ b c => hfull j2 q2 b c)
  obtain ⟨hreqs, hen, hnum⟩ := hpools pool (List.mem_iff_getElem?.mpr ⟨_, hget⟩)
  obtain ⟨i, old, hi, hold, hadd⟩ := addRequestToPool_slot pool st.avail_pools connfd
    hostname port hroom hreqs hen hnum
  rw [hadd] at hp
  exact ⟨(st.next_worker + j) % NTHREAD, pool, i, old, Nat.mod_lt _ (by decide), hget, hroom,
    hi, hold, hp⟩

/-- The bookkeeping of the admission in every state the program reaches:
there are `NTHREAD` pools of `MAX_REQ` slots, the count of a pool is the
number of its enabled slots, and `avail_pools` is the number of the pools
that are not full. -/
theorem running_inv (k : Csapp) (m : CacheModule) : ∀ (st : Proxy), Running k m st →
    st.request_pools.length = NTHREAD ∧
      (∀ pool ∈ st.request_pools,
        pool.requests.length = MAX_REQ ∧ pool.enabled.length = MAX_REQ ∧
          pool.req_num = (pool.enabled.count true : Nat)) ∧
      st.avail_pools =
        (st.request_pools.countP (fun pool => decide (pool.req_num < (MAX_REQ : Int))) : Nat) := by
  intro st h
  induction h with
  | start =>
    refine ⟨by simp [Proxy.start], ?_, ?_⟩
    · intro pool hp
      simp only [Proxy.start] at hp
      rw [List.eq_of_mem_replicate hp]
      simp [InitRequestPool, List.count_replicate]
    · simp [Proxy.start, InitRequestPool, List.countP_replicate]
  | conn st w exit_flag connfd hostname port w2 st2 _ hc ih =>
    obtain ⟨hlen, hpools, havail⟩ := ih
    unfold HandleConnection at hc
    cases exit_flag with
    | true =>
      simp at hc
      rw [← hc.2]
      exact ⟨hlen, hpools, havail⟩
    | false =>
      by_cases hwait : st.avail_pools ≤ 0
      · simp [hwait] at hc
      · simp [hwait] at hc
        obtain ⟨j, pool, i, old, _, hget, hroom, hi, _, hp⟩ := place_shape st connfd hostname
          port hlen hpools havail (by omega)
        obtain ⟨_, _, hnum⟩ := hpools pool (List.mem_iff_getElem?.mpr ⟨_, hget⟩)
        obtain ⟨hreqs, hen, _⟩ := hpools pool (List.mem_iff_getElem?.mpr ⟨_, hget⟩)
        rw [hp] at hc
        obtain ⟨_, hc2⟩ := hc
        subst hc2
        refine ⟨by rw [List.length_set]; exact hlen, ?_, ?_⟩
        · intro p2 hp2
          rcases List.mem_or_eq_of_mem_set hp2 with hmem | heq
          · exact hpools p2 hmem
          · subst heq
            refine ⟨by simp [hreqs], by simp [hen], ?_⟩
            show pool.req_num + 1 = (((pool.enabled.set i true).count true : Nat) : Int)
            rw [count_set_true pool.enabled i hi, hnum]
            push_cast
            rfl
        · show (if pool.req_num + 1 = (MAX_REQ : Int) then st.avail_pools - 1
              else st.avail_pools) = _
          rw [countP_set_int _ st.request_pools _ pool _ hget, ← havail]
          have hle : pool.req_num + 1 ≤ (MAX_REQ : Int) := by omega
          simp only [hroom, decide_True, if_true, decide_eq_true_eq]
          by_cases hfullnow : pool.req_num + 1 = (MAX_REQ : Int)
          · have : ¬ pool.req_num + 1 < (MAX_REQ : Int) := by omega
            rw [if_pos hfullnow, if_neg this]
            omega
          · have : pool.req_num + 1 < (MAX_REQ : Int) := by omega
            rw [if_neg hfullnow, if_pos this]
            omega
  | work st w worker_id pool ready_set req_ind _ hget hen1 ih =>
    obtain ⟨hlen, hpools, havail⟩ := ih
    obtain ⟨hreqs, hen, hnum⟩ := hpools pool (List.mem_iff_getElem?.mpr ⟨_, hget⟩)
    have hlt : req_ind < pool.requests.length := by
      obtain ⟨h, _⟩ := List.getElem?_eq_some_iff.mp hen1
      omega
    obtain ⟨e1, e2, e3⟩ := handle_counts k m w pool ready_set req_ind pool.requests[req_ind]
      (List.getElem?_eq_getElem hlt)
    have hcount := count_set_false pool.enabled req_ind hen1
    have hle : pool.enabled.count true ≤ pool.enabled.length := List.count_le_length _ _
    unfold WorkThread.step
    rw [hget]
    refine ⟨by simp only [List.length_set]; exact hlen, ?_, ?_⟩
    · intro p2 hp2
      rcases List.mem_or_eq_of_mem_set hp2 with hmem | heq
      · exact hpools p2 hmem
      · subst heq
        refine ⟨by rw [e3]; exact hreqs, ?_, ?_⟩
        · rw [e1]
          split_ifs
          · simp [hen]
          · exact hen
        · rw [e1, e2]
          split_ifs
          · rw [hnum]
            omega
          · exact hnum
    · show (if WorkThread.retval k m w pool ready_set req_ind ≤ 0 then
          RmRequestInpool.avail pool st.avail_pools else st.avail_pools) = _
      rw [countP_set_int _ st.request_pools _ pool _ hget, ← havail]
      simp only [decide_eq_true_eq]
      rw [e2]
      by_cases hret : WorkThread.retval k m w pool ready_set req_ind ≤ 0
      · simp only [hret, if_true, RmRequestInpool.avail]
        have h1 : pool.req_num - 1 < (MAX_REQ : Int) := by omega
        rw [if_pos h1]
        by_cases h2 : pool.req_num < (MAX_REQ : Int)
        · have : ¬ pool.req_num - 1 = (MAX_REQ : Int) - 1 := by omega
          rw [if_pos h2, if_neg this]
          omega
        · have : pool.req_num - 1 = (MAX_REQ : Int) - 1 := by omega
          rw [if_neg h2, if_pos this]
          omega
      · simp only [hret, if_false]
        by_cases h2 : pool.req_num < (MAX_REQ : Int)
        · rw [if_pos h2]
          omega
        · rw [if_neg h2]
          omega

/-- C22: in every state the program reaches, `avail_pools` is the number of
the pools that are not full, so a pool with a free slot exists whenever the
counter is positive.  When shutdown is not requested `HandleConnection` waits
exactly while the counter is not positive, and when it returns the
connection is stored in one pool, in a slot that was not enabled, the count
and the read set of that pool include it, and the other pools are as they
were. -/
theorem admission_never_drops (k : Csapp) (m : CacheModule) (st : Proxy)
    (hst : Running k m st) (w : World) (connfd : Int) (hostname port : List Char) :
    st.avail_pools =
        (st.request_pools.countP (fun pool => decide (pool.req_num < (MAX_REQ : Int))) : Nat) ∧
      (0 < st.avail_pools →
        ∃ j pool, j < NTHREAD ∧ st.request_pools[j]? = some pool ∧
          pool.req_num < (MAX_REQ : Int)) ∧
      (HandleConnection w st false connfd hostname port = none ↔ st.avail_pools ≤ 0) ∧
      ∀ w2 st2, HandleConnection w st false connfd hostname port = some (w2, st2) →
        w2 = w ∧
          ∃ j pool i old, j < NTHREAD ∧ st.request_pools[j]? = some pool ∧
            pool.enabled[i]? = some false ∧ pool.requests[i]? = some old ∧
            st2.request_pools =
              st.request_pools.set j
                { requests := pool.requests.set i
                    (AddRequestToPool.init old connfd hostname port),
                  enabled := pool.enabled.set i true,
                  req_num := pool.req_num + 1,
                  read_set := connfd :: pool.read_set,
                  max_fd := if pool.max_fd < connfd then connfd else pool.max_fd } := by
  obtain ⟨hlen, hpools, havail⟩ := running_inv k m st hst
  refine ⟨havail, ?_, ?_, ?_⟩
  · intro hpos
    obtain ⟨j, pool, _, _, hj, hget, hroom, _⟩ := place_shape st connfd hostname port hlen
      hpools havail hpos
    exact ⟨j, pool, hj, hget, hroom⟩
  · unfold HandleConnection
    by_cases hwait : st.avail_pools ≤ 0
    · simp [hwait]
    · simp [hwait]
  · intro w2 st2 hc
    unfold HandleConnection at hc
    by_cases hwait : st.avail_pools ≤ 0
    · simp [hwait] at hc
    · simp [hwait] at hc
      obtain ⟨j, pool, i, old, hj, hget, _, hi, hold, hp⟩ := place_shape st connfd hostname
        port hlen hpools havail (by omega)
      rw [hp] at hc
      obtain ⟨hw, hc2⟩ := hc
      subst hc2
      exact ⟨hw.symm, j, pool, i, old, hj, hget, hi, hold, rfl⟩

/-- C22 (witness): after the first connection of the scenario has been
admitted all four pools have room, the counter is 4, and the admission of a
second connection does not wait. -/
theorem admission_never_drops_witness :
    Running csapp8192 scenarioModule firstAdmitted ∧
      firstAdmitted.avail_pools = 4 ∧
      firstAdmitted.avail_pools =
        (firstAdmitted.request_pools.countP
          (fun pool => decide (pool.req_num < (MAX_REQ : Int))) : Nat) ∧
      HandleConnection (worldWithClient scenarioBytes) firstAdmitted false 5
        "10.0.0.2".toList "5001".toList ≠ none :=
  have hrun : Running csapp8192 scenarioModule firstAdmitted :=
    Running.conn Proxy.start (worldWithClient scenarioBytes) false 4 "10.0.0.1".toList
      "5000".toList (worldWithClient scenarioBytes) firstAdmitted Running.start rfl
  have h := admission_never_drops csapp8192 scenarioModule firstAdmitted hrun
    (worldWithClient scenarioBytes) 5 "10.0.0.2".toList "5001".toList
  ⟨hrun, by decide, h.1, fun hnone => absurd (h.2.2.1.mp hnone) (by decide)⟩

theorem slot_first : ∀ (l : List Bool) (s i : Nat), AddRequestToPool.slot l s = some i →
    ∀ j, j < i - s → l[j]? = some true := by
  intro l
  induction l with
  | nil => intro s i h; simp [AddRequestToPool.slot] at h
  | cons e rest ih =>
    intro s i h j hj
    rw [AddRequestToPool.slot] at h
    cases e with
    | true =>
      simp only [if_true] at h
      cases j with
      | zero => exact List.getElem?_cons_zero
      | succ j =>
        rw [List.getElem?_cons_succ]
        exact ih (s + 1) i h j (by omega)
    | false =>
      simp only [Bool.false_eq_true, if_false, Option.some.injEq] at h
      omega

/-- `AddRequestToPool` on a pool that is not full and whose count of requests
is the number of its enabled slots: the first slot that is not enabled
receives the connection and is enabled. -/
theorem addRequestToPool_first (pool : RequestPool) (avail_pools client_fd : Int)
    (hostname port : List Char) (hroom : pool.req_num < (MAX_REQ : Int))
    (hreqs : pool.requests.length = MAX_REQ) (hen : pool.enabled.length = MAX_REQ)
    (hnum : pool.req_num = (pool.enabled.count true : Nat)) :
    ∃ i old, pool.enabled[i]? = some false ∧
      (∀ i2, i2 < i → pool.enabled[i2]? = some true) ∧ pool.requests[i]? = some old ∧
      AddRequestToPool pool avail_pools client_fd hostname port =
        (1,
          { requests := pool.requests.set i
              (AddRequestToPool.init old client_fd hostname port),
            enabled := pool.enabled.set i true,
            req_num := pool.req_num + 1,
            read_set := client_fd :: pool.read_set,
            max_fd := if pool.max_fd < client_fd then client_fd else pool.max_fd },
          if pool.req_num + 1 = (MAX_REQ : Int) then avail_pools - 1 else avail_pools) := by
  have htake : pool.enabled.take MAX_REQ = pool.enabled :=
    List.take_of_length_le (by omega)
  have hn : ¬ (MAX_REQ : Int) ≤ pool.req_num := by omega
  cases hs : AddRequestToPool.slot pool.enabled 0 with
  | none =>
    have := slot_none pool.enabled 0 hs
    omega
  | some i =>
    obtain ⟨_, hi⟩ := slot_some pool.enabled 0 i hs
    have hfirst := slot_first pool.enabled 0 i hs
    rw [Nat.sub_zero] at hi hfirst
    have hlt : i < pool.requests.length := by
      obtain ⟨h, _⟩ := List.getElem?_eq_some_iff.mp hi
      omega
    refine ⟨i, pool.requests[i], hi, hfirst, List.getElem?_eq_getElem hlt, ?_⟩
    unfold AddRequestToPool
    rw [if_neg hn, htake, hs]
    simp only [List.getElem?_eq_getElem hlt]

/-- A state the admissions alone have reached is a state the program
reaches. -/
theorem admitted_running (k : Csapp) (m : CacheModule) :
    ∀ (n : Nat) (st : Proxy), Admitted n st → Running k m st := by
  intro n st h
  induction h with
  | start => exact Running.start
  | conn n st w connfd hostname port w2 st2 _ hc ih =>
    exact Running.conn st w false connfd hostname port w2 st2 ih hc

/-- C27: in every state the program reaches the counter of the pools that
are not full is positive when a pool is not full, every pool has `MAX_REQ`
slots and its `req_num` is the number of its enabled slots.  When the counter
is positive `HandleConnection` stores the connection in the first pool that
is not full in the cyclic order that starts at `next_worker`, leaves the
other pools as they were, and sets `next_worker` to the pool after the one it
has chosen; the chosen pool then holds one request more and waits for the
descriptor, and when it has `MAX_REQ` slots of which `req_num` are enabled,
its first slot that was not enabled is enabled and holds the connection
(`client_fd` is the descriptor, no origin descriptor, state `UNCONNECTED`),
and nothing else in the pool has changed but the count, the read set and
`max_fd`.  From the start of the program, while no request is removed,
`next_worker` is the pool after the one that has received the last
connection, and after `n` admissions pool `j` holds `n / NTHREAD` requests,
in as many enabled slots, and one more when `j < n % NTHREAD`, so the sizes
of two pools differ by at most one. -/
theorem round_robin_placement (w : World) (st : Proxy) (connfd : Int)
    (hostname port : List Char) :
    (∀ (k : Csapp) (m : CacheModule), Running k m st →
        ((∃ pool ∈ st.request_pools, pool.req_num < (MAX_REQ : Int)) → 0 < st.avail_pools) ∧
          ∀ pool ∈ st.request_pools,
            pool.requests.length = MAX_REQ ∧ pool.enabled.length = MAX_REQ ∧
              pool.req_num = (pool.enabled.count true : Nat)) ∧
      (∀ j pool, 0 < st.avail_pools → j < NTHREAD →
        st.request_pools[(st.next_worker + j) % NTHREAD]? = some pool →
        pool.req_num < (MAX_REQ : Int) →
        (∀ j2 q, j2 < j → st.request_pools[(st.next_worker + j2) % NTHREAD]? = some q →
          (MAX_REQ : Int) ≤ q.req_num) →
        HandleConnection w st false connfd hostname port =
            some (w,
              { request_pools :=
                  st.request_pools.set ((st.next_worker + j) % NTHREAD)
                    (AddRequestToPool pool st.avail_pools connfd hostname port).2.1,
                avail_pools := (AddRequestToPool pool st.avail_pools connfd hostname port).2.2,
                next_worker := ((st.next_worker + j) % NTHREAD + 1) % NTHREAD }) ∧
          (AddRequestToPool pool st.avail_pools connfd hostname port).2.1.req_num =
            pool.req_num + 1 ∧
          connfd ∈ (AddRequestToPool pool st.avail_pools connfd hostname port).2.1.read_set ∧
          (pool.requests.length = MAX_REQ → pool.enabled.length = MAX_REQ →
            pool.req_num = (pool.enabled.count true : Nat) →
            ∃ i old, pool.enabled[i]? = some false ∧
              (∀ i2, i2 < i → pool.enabled[i2]? = some true) ∧
              pool.requests[i]? = some old ∧
              (AddRequestToPool pool st.avail_pools connfd hostname port).2.1 =
                { requests := pool.requests.set i
                    { old with client_fd := connfd, server_fd := -1,
                               client_rp := rio_readinitb connfd,
                               src_host := (cstr hostname).take (HOST_LEN - 1),
                               src_port := (cstr port).take (HOST_LEN - 1),
                               proxy_state := ProxyState.UNCONNECTED,
                               http_request := InitHttpRequest },
                  enabled := pool.enabled.set i true,
                  req_num := pool.req_num + 1,
                  read_set := connfd :: pool.read_set,
                  max_fd := if pool.max_fd < connfd then connfd else pool.max_fd })) ∧
      (∀ n, Admitted n st →
        st.next_worker = n % NTHREAD ∧
          (∀ j, j < NTHREAD → ∃ pool, st.request_pools[j]? = some pool ∧
            pool.req_num =
              ((n / NTHREAD + (if j < n % NTHREAD then 1 else 0) : Nat) : Int) ∧
            pool.enabled.count true = n / NTHREAD + (if j < n % NTHREAD then 1 else 0)) ∧
          ∀ (a b : Nat) (pa pb : RequestPool), st.request_pools[a]? = some pa →
            st.request_pools[b]? = some pb →
            pa.req_num ≤ pb.req_num + 1 ∧
              pa.enabled.count true ≤ pb.enabled.count true + 1) := by
  refine ⟨?_, ?_, ?_⟩
  · intro k m hrun
    obtain ⟨_, hpools, havail⟩ := running_inv k m st hrun
    refine ⟨?_, hpools⟩
    intro hex
    obtain ⟨pool, hmem, hroom⟩ := hex
    have hpos : 0 < st.request_pools.countP
        (fun pool => decide (pool.req_num < (MAX_REQ : Int))) :=
      List.countP_pos_iff.mpr ⟨pool, hmem, by simpa using hroom⟩
    omega
  · intro j pool havail hj hget hroom hfull
    have hp := place_first connfd hostname port NTHREAD 0 st j pool (Nat.zero_le j)
      (by omega) hget hroom (fun j2 q _ b c => hfull j2 q b c)
    have hw : ¬ ((!false) = true ∧ st.avail_pools ≤ 0) := fun h => by omega
    refine ⟨?_, (addRequestToPool_counts pool st.avail_pools connfd hostname port hroom).2.1,
      ?_, ?_⟩
    · unfold HandleConnection
      rw [if_neg hw, hp]
      rfl
    · have hn : ¬ (MAX_REQ : Int) ≤ pool.req_num := by omega
      unfold AddRequestToPool
      rw [if_neg hn]
      exact List.mem_cons_self _ _
    · intro hreqs hen hnum
      obtain ⟨i, old, hi, hfirst, hold, hadd⟩ := addRequestToPool_first pool st.avail_pools
        connfd hostname port hroom hreqs hen hnum
      refine ⟨i, old, hi, hfirst, hold, ?_⟩
      rw [hadd]
      rfl
  · intro n hadm
    obtain ⟨_, hnext, hlen, _, hpools⟩ := admitted_inv n st hadm
    obtain ⟨_, hshape, _⟩ := running_inv csapp8192 scenarioModule st
      (admitted_running csapp8192 scenarioModule n st hadm)
    have hcount : ∀ j, j < NTHREAD → ∃ pool, st.request_pools[j]? = some pool ∧
        pool.req_num =
          ((n / NTHREAD + (if j < n % NTHREAD then 1 else 0) : Nat) : Int) ∧
        pool.enabled.count true = n / NTHREAD + (if j < n % NTHREAD then 1 else 0) := by
      intro j hj
      obtain ⟨pool, hget, hnum⟩ := hpools j hj
      have hc := (hshape pool (List.mem_iff_getElem?.mpr ⟨j, hget⟩)).2.2
      refine ⟨pool, hget, hnum, ?_⟩
      rw [hnum] at hc
      exact (Int.ofNat.inj hc).symm
    refine ⟨hnext, hcount, ?_⟩
    intro a b pa pb ha hb
    have hla : a < NTHREAD := by
      rcases Nat.lt_or_ge a st.request_pools.length with h | h
      · omega
      · rw [List.getElem?_eq_none h] at ha
        exact absurd ha (by simp)
    have hlb : b < NTHREAD := by
      rcases Nat.lt_or_ge b st.request_pools.length with h | h
      · omega
      · rw [List.getElem?_eq_none h] at hb
        exact absurd hb (by simp)
    obtain ⟨qa, hqa, hna, hca⟩ := hcount a hla
    obtain ⟨qb, hqb, hnb, hcb⟩ := hcount b hlb
    rw [ha] at hqa
    rw [hb] at hqb
    rw [Option.some.inj hqa, Option.some.inj hqb, hna, hnb, hca, hcb]
    constructor <;> split_ifs <;> omega

/-- C27 (witness): the first connection of the program goes to pool 0, whose
slot 0 is enabled and holds descriptor 4 afterwards; pool 1 is the next to
try, and the sizes of the pools are 1, 0, 0 and 0. -/
theorem round_robin_placement_witness :
    HandleConnection (worldWithClient scenarioBytes) Proxy.start false 4 "10.0.0.1".toList
        "5000".toList = some (worldWithClient scenarioBytes, firstAdmitted) ∧
      firstAdmitted.next_worker = 1 ∧
      firstAdmitted.request_pools.map RequestPool.req_num = [1, 0, 0, 0] ∧
      firstAdmitted.request_pools.map (fun pool => pool.enabled.count true) = [1, 0, 0, 0] ∧
      (firstAdmitted.request_pools[0]?).map
          (fun pool => (pool.enabled[0]?, (pool.requests[0]?).map ProxyMeta.client_fd)) =
        some (some true, some 4) ∧
      (∃ i old, emptyPool.enabled[i]? = some false ∧
        (∀ i2, i2 < i → emptyPool.enabled[i2]? = some true) ∧
        emptyPool.requests[i]? = some old ∧
        (AddRequestToPool emptyPool Proxy.start.avail_pools 4 "10.0.0.1".toList
            "5000".toList).2.1 =
          { requests := emptyPool.requests.set i
              { old with client_fd := 4, server_fd := -1, client_rp := rio_readinitb 4,
                         src_host := (cstr "10.0.0.1".toList).take (HOST_LEN - 1),
                         src_port := (cstr "5000".toList).take (HOST_LEN - 1),
                         proxy_state := ProxyState.UNCONNECTED,
                         http_request := InitHttpRequest },
            enabled := emptyPool.enabled.set i true,
            req_num := emptyPool.req_num + 1,
            read_set := 4 :: emptyPool.read_set,
            max_fd := if emptyPool.max_fd < 4 then 4 else emptyPool.max_fd }) ∧
      ∀ (a b : Nat) (pa pb : RequestPool), firstAdmitted.request_pools[a]? = some pa →
        firstAdmitted.request_pools[b]? = some pb →
        pa.req_num ≤ pb.req_num + 1 ∧ pa.enabled.count true ≤ pb.enabled.count true + 1 :=
  have h1 := (round_robin_placement (worldWithClient scenarioBytes) Proxy.start 4
    "10.0.0.1".toList "5000".toList).2.1 0 emptyPool (by decide) (by decide) rfl (by decide)
    (fun j2 _ hlt _ => absurd hlt (Nat.not_lt_zero j2))
  have h2 : HandleConnection (worldWithClient scenarioBytes) Proxy.start false 4
      "10.0.0.1".toList "5000".toList = some (worldWithClient scenarioBytes, firstAdmitted) :=
    h1.1.trans rfl
  ⟨h2, by decide, by decide, by decide, by decide,
    h1.2.2.2 (List.length_replicate _ _) (List.length_replicate _ _) (by decide),
    ((round_robin_placement (worldWithClient scenarioBytes) firstAdmitted 4 "10.0.0.1".toList
      "5000".toList).2.2 1
      (Admitted.conn 0 Proxy.start _ 4 _ _ _ firstAdmitted Admitted.start h2)).2.2⟩

/-! ## Theorems: the bookkeeping of a pool -/

/-- The live descriptors of a pool that differs from `pool` in slot `i`
only. -/
theorem live_update (pool pool2 : RequestPool) (i : Nat) (b : Bool) (r : ProxyMeta)
    (hen_i : pool2.enabled[i]? = some b) (hreq_i : pool2.requests[i]? = some r)
    (hen : ∀ j, j ≠ i → pool2.enabled[j]? = pool.enabled[j]?)
    (hreq : ∀ j, j ≠ i → pool2.requests[j]? = pool.requests[j]?) (fd : Int) :
    pool2.Live fd ↔
      0 ≤ fd ∧ ((b = true ∧ (fd = r.client_fd ∨ fd = r.server_fd)) ∨
        ∃ (j : Nat) (request : ProxyMeta), j ≠ i ∧ pool.enabled[j]? = some true ∧
          pool.requests[j]? = some request ∧
          (fd = request.client_fd ∨ fd = request.server_fd)) := by
  unfold RequestPool.Live
  constructor
  · rintro ⟨h0, j, request, he, hr, hfd⟩
    refine ⟨h0, ?_⟩
    by_cases hji : j = i
    · subst hji
      rw [hen_i] at he
      rw [hreq_i] at hr
      left
      exact ⟨Option.some.inj he, by rw [Option.some.inj hr]; exact hfd⟩
    · right
      exact ⟨j, request, hji, by rw [← hen j hji]; exact he, by rw [← hreq j hji]; exact hr,
        hfd⟩
  · rintro ⟨h0, ⟨hb, hfd⟩ | ⟨j, request, hji, he, hr, hfd⟩⟩
    · exact ⟨h0, i, r, by rw [hen_i, hb], hreq_i, hfd⟩
    · exact ⟨h0, j, request, by rw [hen j hji]; exact he, by rw [hreq j hji]; exact hr, hfd⟩

/-- The search of `RmRequestInpool` for the new `max_fd` returns the largest
member of the read set that is at most `fd`, -1 when there is none. -/
theorem scan_spec (rs : List Int) (hrs : ∀ x ∈ rs, (0 : Int) ≤ x) :
    ∀ (fuel : Nat) (fd : Int), fd + 1 ≤ (fuel : Int) → -1 ≤ fd →
      (∀ x ∈ rs, x ≤ fd → x ≤ RmRequestInpool.scan rs fuel fd) ∧
        (RmRequestInpool.scan rs fuel fd ≤ fd) ∧
        (RmRequestInpool.scan rs fuel fd ∈ rs ∨
          (RmRequestInpool.scan rs fuel fd = -1 ∧ ∀ x ∈ rs, ¬ x ≤ fd)) := by
  intro fuel
  induction fuel with
  | zero =>
    intro fd h1 h2
    have hfd : fd = -1 := by
      simp only [Nat.cast_zero] at h1
      omega
    subst hfd
    rw [RmRequestInpool.scan]
    refine ⟨fun x hx hle => hle, le_refl _, Or.inr ⟨rfl, fun x hx hle => ?_⟩⟩
    have := hrs x hx
    omega
  | succ fuel ih =>
    intro fd h1 h2
    rw [RmRequestInpool.scan]
    by_cases h0 : 0 ≤ fd
    · rw [if_pos h0]
      by_cases hmem : fd ∈ rs
      · rw [if_pos hmem]
        exact ⟨fun x _ hle => hle, le_refl _, Or.inl hmem⟩
      · rw [if_neg hmem]
        obtain ⟨a1, a2, a3⟩ := ih (fd - 1) (by push_cast at h1; omega) (by omega)
        refine ⟨fun x hx hle => a1 x hx ?_, by omega, ?_⟩
        · have hne : x ≠ fd := fun h => hmem (h ▸ hx)
          omega
        · rcases a3 with a3 | ⟨a3, a4⟩
          · exact Or.inl a3
          · refine Or.inr ⟨a3, fun x hx hle => a4 x hx ?_⟩
            have hne : x ≠ fd := fun h => hmem (h ▸ hx)
            omega
    · rw [if_neg h0]
      have hfd : fd = -1 := by omega
      subst hfd
      refine ⟨fun x _ hle => hle, le_refl _, Or.inr ⟨rfl, fun x hx hle => ?_⟩⟩
      have := hrs x hx
      omega

/-- `AddRequestToPool` keeps the bookkeeping of the pool consistent. -/
theorem add_consistent (pool : RequestPool) (avail_pools client_fd : Int)
    (hostname port : List Char) (hshape : pool.Shaped) (hinv : pool.Consistent)
    (hfd : 0 ≤ client_fd) :
    (AddRequestToPool pool avail_pools client_fd hostname port).2.1.Consistent ∧
      (AddRequestToPool pool avail_pools client_fd hostname port).2.1.Shaped := by
  obtain ⟨hreqs, hen, hcl⟩ := hshape
  obtain ⟨hset, hnum, hmax, hle, htop⟩ := hinv
  by_cases hfull : (MAX_REQ : Int) ≤ pool.req_num
  · rw [addRequestToPool_full pool avail_pools client_fd hostname port hfull]
    exact ⟨⟨hset, hnum, hmax, hle, htop⟩, hreqs, hen, hcl⟩
  · obtain ⟨i, old, hi, hold, hadd⟩ := addRequestToPool_slot pool avail_pools client_fd
      hostname port (by omega) hreqs hen hnum
    rw [hadd]
    have hi1 : i < pool.enabled.length := (List.getElem?_eq_some_iff.mp hi).1
    have hi2 : i < pool.requests.length := (List.getElem?_eq_some_iff.mp hold).1
    have hnew := live_update pool
      { requests := pool.requests.set i (AddRequestToPool.init old client_fd hostname port),
        enabled := pool.enabled.set i true,
        req_num := pool.req_num + 1,
        read_set := client_fd :: pool.read_set,
        max_fd := if pool.max_fd < client_fd then client_fd else pool.max_fd }
      i true (AddRequestToPool.init old client_fd hostname port)
      (List.getElem?_set_self hi1) (List.getElem?_set_self hi2)
      (fun j hj => List.getElem?_set_ne (Ne.symm hj))
      (fun j hj => List.getElem?_set_ne (Ne.symm hj))
    have hold2 := live_update pool pool i false old hi hold (fun _ _ => rfl) (fun _ _ => rfl)
    have hlive : ∀ fd,
        RequestPool.Live
          { requests := pool.requests.set i (AddRequestToPool.init old client_fd hostname port),
            enabled := pool.enabled.set i true,
            req_num := pool.req_num + 1,
            read_set := client_fd :: pool.read_set,
            max_fd := if pool.max_fd < client_fd then client_fd else pool.max_fd } fd ↔
          fd = client_fd ∨ pool.Live fd := by
      intro fd
      rw [hnew fd, hold2 fd]
      have hc : (AddRequestToPool.init old client_fd hostname port).client_fd = client_fd := rfl
      have hs : (AddRequestToPool.init old client_fd hostname port).server_fd = -1 := rfl
      rw [hc, hs]
      constructor
      · rintro ⟨h0, ⟨_, h | h⟩ | h⟩
        · exact Or.inl h
        · omega
        · exact Or.inr ⟨h0, Or.inr h⟩
      · rintro (h | ⟨h0, h | h⟩)
        · exact ⟨by omega, Or.inl ⟨rfl, Or.inl h⟩⟩
        · exact absurd h.1 (by decide)
        · exact ⟨h0, Or.inr h⟩
    refine ⟨⟨?_, ?_, ?_, ?_, ?_⟩, ?_, ?_, ?_⟩
    · intro fd
      rw [hlive fd, ← hset fd]
      exact List.mem_cons
    · show pool.req_num + 1 = (((pool.enabled.set i true).count true : Nat) : Int)
      rw [count_set_true pool.enabled i hi, hnum]
      push_cast
      rfl
    · show pool.req_num + 1 ≤ (MAX_REQ : Int)
      omega
    · intro fd hmem
      show fd ≤ (if pool.max_fd < client_fd then client_fd else pool.max_fd)
      rcases List.mem_cons.mp hmem with h | h
      · split_ifs <;> omega
      · have := hle fd h
        split_ifs <;> omega
    · left
      show (if pool.max_fd < client_fd then client_fd else pool.max_fd) ∈
        client_fd :: pool.read_set
      by_cases hlt : pool.max_fd < client_fd
      · rw [if_pos hlt]
        exact List.mem_cons_self _ _
      · rw [if_neg hlt]
        rcases htop with h | ⟨_, h⟩
        · exact List.mem_cons_of_mem _ h
        · omega
    · show (pool.requests.set i _).length = MAX_REQ
      rw [List.length_set]
      exact hreqs
    · show (pool.enabled.set i true).length = MAX_REQ
      rw [List.length_set]
      exact hen
    · intro j request he hr
      by_cases hji : j = i
      · subst hji
        have hr2 : (pool.requests.set j
            (AddRequestToPool.init old client_fd hostname port))[j]? = some request := hr
        rw [List.getElem?_set_self hi2] at hr2
        rw [← Option.some.inj hr2]
        exact hfd
      · have he2 : (pool.enabled.set i true)[j]? = some true := he
        have hr2 : (pool.requests.set i
            (AddRequestToPool.init old client_fd hostname port))[j]? = some request := hr
        rw [List.getElem?_set_ne (Ne.symm hji)] at he2 hr2
        exact hcl j request he2 hr2

/-- The registration of a newly opened origin descriptor `sfd` for the
request of slot `i` keeps the bookkeeping of the pool consistent. -/
theorem register_core (pool : RequestPool) (i : Nat) (request request2 : ProxyMeta)
    (sfd : Int) (hshape : pool.Shaped) (hinv : pool.Consistent)
    (hen_i : pool.enabled[i]? = some true) (hreq_i : pool.requests[i]? = some request)
    (hs : request.server_fd < 0) (h0 : 0 ≤ sfd)
    (hc2 : request2.client_fd = request.client_fd) (hs2 : request2.server_fd = sfd) :
    RequestPool.Consistent
        { requests := pool.requests.set i request2, enabled := pool.enabled,
          req_num := pool.req_num, read_set := sfd :: pool.read_set,
          max_fd := if pool.max_fd < sfd then sfd else pool.max_fd } ∧
      RequestPool.Shaped
        { requests := pool.requests.set i request2, enabled := pool.enabled,
          req_num := pool.req_num, read_set := sfd :: pool.read_set,
          max_fd := if pool.max_fd < sfd then sfd else pool.max_fd } := by
  obtain ⟨hreqs, hen, hcl⟩ := hshape
  obtain ⟨hset, hnum, hmax, hle, htop⟩ := hinv
  have hi2 : i < pool.requests.length := (List.getElem?_eq_some_iff.mp hreq_i).1
  have hnew := live_update pool
    { requests := pool.requests.set i request2, enabled := pool.enabled,
      req_num := pool.req_num, read_set := sfd :: pool.read_set,
      max_fd := if pool.max_fd < sfd then sfd else pool.max_fd }
    i true request2 hen_i (List.getElem?_set_self hi2) (fun _ _ => rfl)
    (fun j hj => List.getElem?_set_ne (Ne.symm hj))
  have hold2 := live_update pool pool i true request hen_i hreq_i (fun _ _ => rfl)
    (fun _ _ => rfl)
  have hlive : ∀ fd,
      RequestPool.Live
        { requests := pool.requests.set i request2, enabled := pool.enabled,
          req_num := pool.req_num, read_set := sfd :: pool.read_set,
          max_fd := if pool.max_fd < sfd then sfd else pool.max_fd } fd ↔
        fd = sfd ∨ pool.Live fd := by
    intro fd
    rw [hnew fd, hold2 fd, hc2, hs2]
    constructor
    · rintro ⟨h0, ⟨_, h | h⟩ | h⟩
      · exact Or.inr ⟨h0, Or.inl ⟨rfl, Or.inl h⟩⟩
      · exact Or.inl h
      · exact Or.inr ⟨h0, Or.inr h⟩
    · rintro (h | ⟨h0, ⟨_, h | h⟩ | h⟩)
      · exact ⟨by omega, Or.inl ⟨rfl, Or.inr h⟩⟩
      · exact ⟨h0, Or.inl ⟨rfl, Or.inl h⟩⟩
      · omega
      · exact ⟨h0, Or.inr h⟩
  refine ⟨⟨?_, hnum, hmax, ?_, ?_⟩, ?_, hen, ?_⟩
  · intro fd
    rw [hlive fd, ← hset fd]
    exact List.mem_cons
  · intro fd hmem
    show fd ≤ (if pool.max_fd < sfd then sfd else pool.max_fd)
    rcases List.mem_cons.mp hmem with h | h
    · split_ifs <;> omega
    · have := hle fd h
      split_ifs <;> omega
  · left
    show (if pool.max_fd < sfd then sfd else pool.max_fd) ∈ sfd :: pool.read_set
    by_cases hlt : pool.max_fd < sfd
    · rw [if_pos hlt]
      exact List.mem_cons_self _ _
    · rw [if_neg hlt]
      rcases htop with h | ⟨_, h⟩
      · exact List.mem_cons_of_mem _ h
      · omega
  · show (pool.requests.set i _).length = MAX_REQ
    rw [List.length_set]
    exact hreqs
  · intro j r he hr
    by_cases hji : j = i
    · subst hji
      have hr2 : (pool.requests.set j request2)[j]? = some r := hr
      rw [List.getElem?_set_self hi2] at hr2
      rw [← Option.some.inj hr2, hc2]
      exact hcl j request hen_i hreq_i
    · have hr2 : (pool.requests.set i request2)[j]? = some r := hr
      rw [List.getElem?_set_ne (Ne.symm hji)] at hr2
      exact hcl j r he hr2

/-- A change of the request of slot `i` that keeps its client descriptor and
leaves it without an origin descriptor keeps the bookkeeping of the pool
consistent. -/
theorem register_none (pool : RequestPool) (i : Nat) (request request2 : ProxyMeta)
    (hshape : pool.Shaped) (hinv : pool.Consistent)
    (hen_i : pool.enabled[i]? = some true) (hreq_i : pool.requests[i]? = some request)
    (hs : request.server_fd < 0)
    (hc2 : request2.client_fd = request.client_fd) (hs2 : request2.server_fd < 0) :
    RequestPool.Consistent { pool with requests := pool.requests.set i request2 } ∧
      RequestPool.Shaped { pool with requests := pool.requests.set i request2 } := by
  obtain ⟨hreqs, hen, hcl⟩ := hshape
  obtain ⟨hset, hnum, hmax, hle, htop⟩ := hinv
  have hi2 : i < pool.requests.length := (List.getElem?_eq_some_iff.mp hreq_i).1
  have hnew := live_update pool { pool with requests := pool.requests.set i request2 }
    i true request2 hen_i (List.getElem?_set_self hi2) (fun _ _ => rfl)
    (fun j hj => List.getElem?_set_ne (Ne.symm hj))
  have hold2 := live_update pool pool i true request hen_i hreq_i (fun _ _ => rfl)
    (fun _ _ => rfl)
  have hlive : ∀ fd,
      RequestPool.Live { pool with requests := pool.requests.set i request2 } fd ↔
        pool.Live fd := by
    intro fd
    rw [hnew fd, hold2 fd, hc2]
    constructor
    · rintro ⟨h0, ⟨_, h | h⟩ | h⟩
      · exact ⟨h0, Or.inl ⟨rfl, Or.inl h⟩⟩
      · omega
      · exact ⟨h0, Or.inr h⟩
    · rintro ⟨h0, ⟨_, h | h⟩ | h⟩
      · exact ⟨h0, Or.inl ⟨rfl, Or.inl h⟩⟩
      · omega
      · exact ⟨h0, Or.inr h⟩
  refine ⟨⟨?_, hnum, hmax, hle, htop⟩, ?_, hen, ?_⟩
  · intro fd
    rw [hlive fd]
    exact hset fd
  · show (pool.requests.set i _).length = MAX_REQ
    rw [List.length_set]
    exact hreqs
  · intro j r he hr
    by_cases hji : j = i
    · subst hji
      have hr2 : (pool.requests.set j request2)[j]? = some r := hr
      rw [List.getElem?_set_self hi2] at hr2
      rw [← Option.some.inj hr2, hc2]
      exact hcl j request hen_i hreq_i
    · have hr2 : (pool.requests.set i request2)[j]? = some r := hr
      rw [List.getElem?_set_ne (Ne.symm hji)] at hr2
      exact hcl j r he hr2

/-- The part of `HandleUnconnectedClientFd` that opens the origin connection
keeps the bookkeeping of the pool consistent, whatever its outcome.  `slot`
is what the pool holds for the request the handler works on. -/
theorem forward_consistent (w : World) (pool : RequestPool) (i : Nat)
    (slot request : ProxyMeta) (hshape : pool.Shaped) (hinv : pool.Consistent)
    (hen_i : pool.enabled[i]? = some true) (hreq_i : pool.requests[i]? = some slot)
    (hslot : slot.server_fd < 0) (hc : request.client_fd = slot.client_fd) :
    RequestPool.Consistent
        { (HandleUnconnectedClientFd.forward w pool request).2.2.1 with
          requests := (HandleUnconnectedClientFd.forward w pool request).2.2.1.requests.set i
            (HandleUnconnectedClientFd.forward w pool request).2.2.2 } ∧
      RequestPool.Shaped
        { (HandleUnconnectedClientFd.forward w pool request).2.2.1 with
          requests := (HandleUnconnectedClientFd.forward w pool request).2.2.1.requests.set i
            (HandleUnconnectedClientFd.forward w pool request).2.2.2 } := by
  unfold HandleUnconnectedClientFd.forward
  simp only
  by_cases h1 : (open_clientfd w (hostName request.http_request.host)
      (hostPort request.http_request.host)).1 < 0
  · rw [if_pos h1]
    exact register_none pool i slot _ hshape hinv hen_i hreq_i hslot hc h1
  · rw [if_neg h1]
    by_cases h2 : (sendLoop (open_clientfd w (hostName request.http_request.host)
        (hostPort request.http_request.host)).1
        (open_clientfd w (hostName request.http_request.host)
          (hostPort request.http_request.host)).2 (linesToSend request.http_request)).1 < 0
    · rw [if_pos h2]
      exact register_core pool i slot _ _ hshape hinv hen_i hreq_i hslot (by omega) hc rfl
    · rw [if_neg h2]
      exact register_core pool i slot _ _ hshape hinv hen_i hreq_i hslot (by omega) hc rfl

theorem serve_consistent (m : CacheModule) (w : World) (pool : RequestPool) (i : Nat)
    (slot request : ProxyMeta) (hshape : pool.Shaped) (hinv : pool.Consistent)
    (hen_i : pool.enabled[i]? = some true) (hreq_i : pool.requests[i]? = some slot)
    (hslot : slot.server_fd < 0) (hc : request.client_fd = slot.client_fd)
    (hs : request.server_fd < 0) :
    RequestPool.Consistent
        { (HandleUnconnectedClientFd.serve m w pool request).2.2.1 with
          requests := (HandleUnconnectedClientFd.serve m w pool request).2.2.1.requests.set i
            (HandleUnconnectedClientFd.serve m w pool request).2.2.2 } ∧
      RequestPool.Shaped
        { (HandleUnconnectedClientFd.serve m w pool request).2.2.1 with
          requests := (HandleUnconnectedClientFd.serve m w pool request).2.2.1.requests.set i
            (HandleUnconnectedClientFd.serve m w pool request).2.2.2 } := by
  unfold HandleUnconnectedClientFd.serve
  cases hp : request.http_request.proxyPath with
  | none => exact register_none pool i slot request hshape hinv hen_i hreq_i hslot hc hs
  | some path =>
    simp only
    split_ifs
    · exact register_none pool i slot _ hshape hinv hen_i hreq_i hslot hc hs
    · exact forward_consistent w pool i slot _ hshape hinv hen_i hreq_i hslot hc

theorem loop_consistent (k : Csapp) (m : CacheModule) (pool : RequestPool) (i : Nat)
    (slot : ProxyMeta) (hshape : pool.Shaped) (hinv : pool.Consistent)
    (hen_i : pool.enabled[i]? = some true) (hreq_i : pool.requests[i]? = some slot)
    (hslot : slot.server_fd < 0) :
    ∀ (fuel : Nat) (w : World) (request : ProxyMeta),
      request.client_fd = slot.client_fd → request.server_fd < 0 →
      RequestPool.Consistent
          { (HandleUnconnectedClientFd.loop k m fuel w pool request).2.2.1 with
            requests :=
              (HandleUnconnectedClientFd.loop k m fuel w pool request).2.2.1.requests.set i
                (HandleUnconnectedClientFd.loop k m fuel w pool request).2.2.2 } ∧
        RequestPool.Shaped
          { (HandleUnconnectedClientFd.loop k m fuel w pool request).2.2.1 with
            requests :=
              (HandleUnconnectedClientFd.loop k m fuel w pool request).2.2.1.requests.set i
                (HandleUnconnectedClientFd.loop k m fuel w pool request).2.2.2 } := by
  intro fuel
  induction fuel with
  | zero =>
    intro w request hc hs
    exact register_none pool i slot request hshape hinv hen_i hreq_i hslot hc hs
  | succ fuel ih =>
    intro w request hc hs
    simp only [HandleUnconnectedClientFd.loop]
    split_ifs
    · exact register_none pool i slot _ hshape hinv hen_i hreq_i hslot hc hs
    · exact register_none pool i slot _ hshape hinv hen_i hreq_i hslot hc hs
    · exact register_none pool i slot _ hshape hinv hen_i hreq_i hslot hc hs
    · exact ih _ _ hc hs
    · exact register_none pool i slot _ hshape hinv hen_i hreq_i hslot hc hs
    · exact serve_consistent m _ pool i slot _ hshape hinv hen_i hreq_i hslot hc hs

/-- `RmRequestInpool` on an enabled slot keeps the bookkeeping of the pool
consistent when the live descriptors of the pool are distinct. -/
theorem remove_consistent (w : World) (pool : RequestPool) (i : Nat) (request : ProxyMeta)
    (hshape : pool.Shaped) (hinv : pool.Consistent) (hdist : pool.Distinct)
    (hen_i : pool.enabled[i]? = some true) (hreq_i : pool.requests[i]? = some request) :
    (RmRequestInpool w pool i).2.Consistent ∧ (RmRequestInpool w pool i).2.Shaped := by
  obtain ⟨hreqs, hen, hcl⟩ := hshape
  obtain ⟨hset, hnum, hmax, hle, htop⟩ := hinv
  have hi1 : i < pool.enabled.length := (List.getElem?_eq_some_iff.mp hen_i).1
  have hi2 : i < pool.requests.length := (List.getElem?_eq_some_iff.mp hreq_i).1
  have hc0 : 0 ≤ request.client_fd := hcl i request hen_i hreq_i
  have hnonneg : ∀ fd ∈ pool.read_set, (0 : Int) ≤ fd := fun fd h => ((hset fd).mp h).1
  have hcmem : request.client_fd ∈ pool.read_set :=
    (hset _).mpr ⟨hc0, i, request, hen_i, hreq_i, Or.inl rfl⟩
  have htop2 : pool.max_fd ∈ pool.read_set := by
    rcases htop with h | ⟨h, _⟩
    · exact h
    · rw [h] at hcmem
      exact absurd hcmem (List.not_mem_nil _)
  have hmax0 : 0 ≤ pool.max_fd := hnonneg _ htop2
  obtain ⟨rs2, hrs2⟩ : ∃ rs2 : List Int, rs2 =
      (if 0 ≤ request.server_fd then
        (if 0 ≤ request.client_fd then
          pool.read_set.filter (fun fd => fd ≠ request.client_fd)
        else pool.read_set).filter (fun fd => fd ≠ request.server_fd)
      else
        (if 0 ≤ request.client_fd then
          pool.read_set.filter (fun fd => fd ≠ request.client_fd)
        else pool.read_set)) := ⟨_, rfl⟩
  have hmem2 : ∀ fd, fd ∈ rs2 ↔
      fd ∈ pool.read_set ∧ fd ≠ request.client_fd ∧ fd ≠ request.server_fd := by
    intro fd
    rw [hrs2, if_pos hc0]
    by_cases hs0 : 0 ≤ request.server_fd
    · rw [if_pos hs0]
      simp only [List.mem_filter, decide_eq_true_eq, ne_eq, decide_not, Bool.not_eq_true',
        decide_eq_false_iff_not]
      tauto
    · rw [if_neg hs0]
      simp only [List.mem_filter, decide_eq_true_eq, ne_eq, decide_not, Bool.not_eq_true',
        decide_eq_false_iff_not]
      constructor
      · rintro ⟨h1, h2⟩
        refine ⟨h1, h2, fun h => ?_⟩
        have := hnonneg fd h1
        omega
      · rintro ⟨h1, h2, _⟩
        exact ⟨h1, h2⟩
  obtain ⟨mx, hmx⟩ : ∃ mx : Int, mx =
      (if request.client_fd = pool.max_fd ∨ request.server_fd = pool.max_fd then
        RmRequestInpool.scan rs2 (pool.max_fd.toNat + 1) (pool.max_fd - 1)
      else pool.max_fd) := ⟨_, rfl⟩
  have hmxspec : (∀ fd ∈ rs2, fd ≤ mx) ∧ (mx ∈ rs2 ∨ (rs2 = [] ∧ mx = -1)) := by
    by_cases hhit : request.client_fd = pool.max_fd ∨ request.server_fd = pool.max_fd
    · rw [if_pos hhit] at hmx
      have hbelow : ∀ fd ∈ rs2, fd ≤ pool.max_fd - 1 := by
        intro fd hfd
        obtain ⟨a, b, c⟩ := (hmem2 fd).mp hfd
        have := hle fd a
        rcases hhit with h | h <;> omega
      obtain ⟨s1, _, s3⟩ := scan_spec rs2 (fun x hx => hnonneg x ((hmem2 x).mp hx).1)
        (pool.max_fd.toNat + 1) (pool.max_fd - 1) (by push_cast; omega) (by omega)
      rw [← hmx] at s1 s3
      refine ⟨fun fd hfd => s1 fd hfd (hbelow fd hfd), ?_⟩
      rcases s3 with s3 | ⟨s3, s4⟩
      · exact Or.inl s3
      · exact Or.inr ⟨List.eq_nil_iff_forall_not_mem.mpr
          (fun x hx => s4 x hx (hbelow x hx)), s3⟩
    · rw [if_neg hhit] at hmx
      rw [hmx]
      refine ⟨fun fd hfd => hle fd ((hmem2 fd).mp hfd).1, Or.inl ((hmem2 _).mpr ⟨htop2, ?_, ?_⟩)⟩
      · exact fun h => hhit (Or.inl h.symm)
      · exact fun h => hhit (Or.inr h.symm)
  have hgoal : (RmRequestInpool w pool i).2 =
      { requests := pool.requests.set i
          { request with http_request := FreeHttpRequest request.http_request,
                         cache_info := (FreeCacheInfo
                           (if 0 ≤ request.server_fd then
                             sys_close (if 0 ≤ request.client_fd then
                               sys_close w request.client_fd else w) request.server_fd
                            else (if 0 ≤ request.client_fd then
                               sys_close w request.client_fd else w)).os
                           request.cache_info).2 },
        enabled := pool.enabled.set i false,
        req_num := pool.req_num - 1,
        read_set := rs2,
        max_fd := mx } := by
    unfold RmRequestInpool
    rw [hreq_i, hmx, hrs2]
  rw [hgoal]
  have hnew := live_update pool
    { requests := pool.requests.set i
        { request with http_request := FreeHttpRequest request.http_request,
                       cache_info := (FreeCacheInfo
                         (if 0 ≤ request.server_fd then
                           sys_close (if 0 ≤ request.client_fd then
                             sys_close w request.client_fd else w) request.server_fd
                          else (if 0 ≤ request.client_fd then
                             sys_close w request.client_fd else w)).os
                         request.cache_info).2 },
      enabled := pool.enabled.set i false,
      req_num := pool.req_num - 1,
      read_set := rs2,
      max_fd := mx } i false _
    (List.getElem?_set_self hi1) (List.getElem?_set_self hi2)
    (fun j hj => List.getElem?_set_ne (Ne.symm hj))
    (fun j hj => List.getElem?_set_ne (Ne.symm hj))
  have hold2 := live_update pool pool i true request hen_i hreq_i (fun _ _ => rfl)
    (fun _ _ => rfl)
  refine ⟨⟨?_, ?_, ?_, hmxspec.1, hmxspec.2⟩, ?_, ?_, ?_⟩
  · intro fd
    rw [hnew fd]
    show fd ∈ rs2 ↔ _
    rw [hmem2 fd, hset fd, hold2 fd]
    constructor
    · rintro ⟨⟨h0, ⟨_, h⟩ | h⟩, n1, n2⟩
      · rcases h with h | h
        · exact absurd h n1
        · exact absurd h n2
      · exact ⟨h0, Or.inr h⟩
    · rintro ⟨h0, ⟨h, _⟩ | ⟨j, rj, hji, hej, hrj, hfd⟩⟩
      · exact absurd h (by decide)
      · have hd := hdist j i rj request hji hej hen_i hrj hreq_i fd h0 hfd
        exact ⟨⟨h0, Or.inr ⟨j, rj, hji, hej, hrj, hfd⟩⟩, fun h => hd (Or.inl h),
          fun h => hd (Or.inr h)⟩
  · show pool.req_num - 1 = (((pool.enabled.set i false).count true : Nat) : Int)
    have := count_set_false pool.enabled i hen_i
    omega
  · show pool.req_num - 1 ≤ (MAX_REQ : Int)
    omega
  · show (pool.requests.set i _).length = MAX_REQ
    rw [List.length_set]
    exact hreqs
  · show (pool.enabled.set i false).length = MAX_REQ
    rw [List.length_set]
    exact hen
  · intro j r he hr
    have he2 : (pool.enabled.set i false)[j]? = some true := he
    by_cases hji : j = i
    · subst hji
      rw [List.getElem?_set_self hi1] at he2
      exact absurd (Option.some.inj he2) (by decide)
    · have hr2 : (pool.requests.set i _)[j]? = some r := hr
      rw [List.getElem?_set_ne (Ne.symm hji)] at he2 hr2
      exact hcl j r he2 hr2

theorem emptyPool_consistent : emptyPool.Consistent ∧ emptyPool.Shaped := by
  have hen : ∀ i : Nat, ¬ emptyPool.enabled[i]? = some true := by
    intro i h
    have h2 : (List.replicate MAX_REQ false)[i]? = some true := h
    rw [List.getElem?_replicate] at h2
    split_ifs at h2
    exact absurd (Option.some.inj h2) (by decide)
  refine ⟨⟨?_, ?_, ?_, ?_, ?_⟩, ?_, ?_, ?_⟩
  · intro fd
    constructor
    · intro h
      exact absurd h (List.not_mem_nil _)
    · rintro ⟨_, i, _, h, _⟩
      exact absurd h (hen i)
  · show (0 : Int) = ((List.count true (List.replicate MAX_REQ false) : Nat) : Int)
    rw [List.count_replicate]
    rfl
  · show (0 : Int) ≤ (MAX_REQ : Int)
    decide
  · intro fd h
    exact absurd h (List.not_mem_nil _)
  · exact Or.inr ⟨rfl, rfl⟩
  · exact List.length_replicate _ _
  · exact List.length_replicate _ _
  · intro i _ h
    exact absurd h (hen i)

theorem onePool_distinct : onePool.Distinct := by
  have he : onePool.enabled = (List.replicate MAX_REQ false).set 0 true := by decide
  have hen : ∀ i : Nat, onePool.enabled[i]? = some true → i = 0 := by
    intro i h
    rw [he, List.getElem?_set] at h
    by_contra hne
    rw [if_neg (Ne.symm hne), List.getElem?_replicate] at h
    split_ifs at h
    exact absurd (Option.some.inj h) (by decide)
  intro i j _ _ hij hi hj
  exact absurd ((hen i hi).trans (hen j hj).symm) hij

/-- C28: on a pool whose bookkeeping is consistent (the read set holds
exactly the descriptors that are not negative of the enabled slots, `req_num`
is the number of the enabled slots and at most `MAX_REQ`, `max_fd` is the
largest member of the read set or -1 when it is empty), the bookkeeping is
consistent again after `AddRequestToPool` with an accepted descriptor, after
`HandleUnconnectedClientFd`, which registers the origin descriptor it opens,
on an enabled request without an origin descriptor, and after
`RmRequestInpool` on an enabled slot when the live descriptors of the pool
are distinct. -/
theorem pool_bookkeeping (k : Csapp) (m : CacheModule) (w : World) (pool : RequestPool)
    (hshape : pool.Shaped) (hinv : pool.Consistent) :
    (∀ (avail_pools client_fd : Int) (hostname port : List Char), 0 ≤ client_fd →
        (AddRequestToPool pool avail_pools client_fd hostname port).2.1.Consistent ∧
          (AddRequestToPool pool avail_pools client_fd hostname port).2.1.Shaped) ∧
      (∀ (i : Nat) (request : ProxyMeta), pool.enabled[i]? = some true →
        pool.requests[i]? = some request → request.server_fd < 0 →
        RequestPool.Consistent
            { (HandleUnconnectedClientFd k m w pool request).2.2.1 with
              requests := (HandleUnconnectedClientFd k m w pool request).2.2.1.requests.set i
                (HandleUnconnectedClientFd k m w pool request).2.2.2 } ∧
          RequestPool.Shaped
            { (HandleUnconnectedClientFd k m w pool request).2.2.1 with
              requests := (HandleUnconnectedClientFd k m w pool request).2.2.1.requests.set i
                (HandleUnconnectedClientFd k m w pool request).2.2.2 }) ∧
      (∀ (i : Nat) (request : ProxyMeta), pool.Distinct → pool.enabled[i]? = some true →
        pool.requests[i]? = some request →
        (RmRequestInpool w pool i).2.Consistent ∧ (RmRequestInpool w pool i).2.Shaped) := by
  refine ⟨?_, ?_, ?_⟩
  · intro avail_pools client_fd hostname port hfd
    exact add_consistent pool avail_pools client_fd hostname port hshape hinv hfd
  · intro i request hen_i hreq_i hs
    unfold HandleUnconnectedClientFd
    exact loop_consistent k m pool i request hshape hinv hen_i hreq_i hs _ w request rfl hs
  · intro i request hdist hen_i hreq_i
    exact remove_consistent w pool i request hshape hinv hdist hen_i hreq_i

/-- C28 (witness): the bookkeeping of the pool that holds the connection on
descriptor 4 is consistent, it is consistent after the handler has read the
request of the scenario and registered the origin descriptor 0, and it is
consistent after the connection has been removed, when the read set is empty
and `max_fd` is -1. -/
theorem pool_bookkeeping_witness :
    onePool.Consistent ∧ onePool.read_set = [4] ∧
      (HandleUnconnectedClientFd csapp8192 scenarioModule (worldWithClient scenarioBytes)
        onePool (AddRequestToPool.init zeroRequest 4 "10.0.0.1".toList
          "5000".toList)).2.2.1.read_set = [0, 4] ∧
      RequestPool.Consistent
        { (HandleUnconnectedClientFd csapp8192 scenarioModule (worldWithClient scenarioBytes)
            onePool (AddRequestToPool.init zeroRequest 4 "10.0.0.1".toList
              "5000".toList)).2.2.1 with
          requests :=
            (HandleUnconnectedClientFd csapp8192 scenarioModule (worldWithClient scenarioBytes)
              onePool (AddRequestToPool.init zeroRequest 4 "10.0.0.1".toList
                "5000".toList)).2.2.1.requests.set 0
              (HandleUnconnectedClientFd csapp8192 scenarioModule
                (worldWithClient scenarioBytes) onePool
                (AddRequestToPool.init zeroRequest 4 "10.0.0.1".toList
                  "5000".toList)).2.2.2 } ∧
      (RmRequestInpool (worldWithClient scenarioBytes) onePool 0).2.Consistent ∧
      (RmRequestInpool (worldWithClient scenarioBytes) onePool 0).2.read_set = [] ∧
      (RmRequestInpool (worldWithClient scenarioBytes) onePool 0).2.max_fd = -1 :=
  have h1 := (pool_bookkeeping csapp8192 scenarioModule (worldWithClient scenarioBytes)
    emptyPool emptyPool_consistent.2 emptyPool_consistent.1).1 4 4 "10.0.0.1".toList
    "5000".toList (by decide)
  have h2 := pool_bookkeeping csapp8192 scenarioModule (worldWithClient scenarioBytes)
    onePool h1.2 h1.1
  ⟨h1.1, by decide, by decide, (h2.2.1 0 _ (by decide) rfl (by decide)).1,
    (h2.2.2 0 _ onePool_distinct (by decide) rfl).1, by decide, by decide⟩
end ProxyLab
